import Mathlib

/-!
A verification development of cjslep/scr.

A shallow embedding of the spherical location engine (`vec.go`, `quat.go`,
`content_addressing.go`, `nemfl.go`), the peer lists (`peer.go`) and the node
data exchange (`node.go`).

Conventions of the embedding.

* `float64` is modelled by a number type `F` with the arithmetic operations,
  the comparisons and the functions of the package `math` that the program
  uses (`FloatFns`). The definitions are the program text over `F` and are
  executable on any such type. The numeric theorems are stated over the exact
  reals `ℝ` (rounding is not modelled); the theorems that do not depend on the
  arithmetic are stated for every `F`.
  The exact reals have no `NaN`. Where the program divides by zero on inputs
  that a statement below covers, the embedding follows the `NaN` by hand: the
  optimality tests of `nemfl.go` evaluate to `false` (every comparison with a
  `NaN` is false), and `AddressToPosition` and `NewData` evaluate to `none`
  (the returned vector is `(NaN, NaN, NaN)`). The other divisions are the
  total division of `ℝ`, and the statements say where they exclude a zero
  divisor.
* Go `int` values are modelled by `Int` (sizes, byte counts) or `Nat` (slice
  indices and lengths). The additions of byte sizes in `node.go` wrap around at
  64 bits (`wrapInt`).
* `*Node` pointers are modelled by node identities `NodeId`; `*Data` pointers
  by values (a `Data` is never mutated after `NewData`), `nil` by `none`.
* A call that panics (index out of range, nil dereference, explicit `panic`)
  or that does not return within the given fuel evaluates to `none`.
* The global generator of `math/rand` is modelled by a stream of draws
  together with a cursor counting the draws made so far.
-/

set_option autoImplicit false

namespace Scr

/-- The functions of the package `math` that the program uses, on the number
type `F` that stands for `float64`. -/
class FloatFns (F : Type) where
  sqrt : F → F
  atan : F → F
  sin : F → F
  cos : F → F
  pi : F

variable {F : Type} [Add F] [Sub F] [Mul F] [Div F] [Neg F] [OfNat F 0] [OfNat F 1] [OfNat F 2]
  [OfScientific F] [NatCast F] [LT F] [LE F] [DecidableEq F]
  [∀ a b : F, Decidable (a < b)] [∀ a b : F, Decidable (a ≤ b)] [FloatFns F]

/-! ## vec.go, quat.go -/

/-- The vector type `V` of `vec.go`. -/
structure V (F : Type) where
  X : F
  Y : F
  Z : F

/-- The quaternion type `Q` of `quat.go`. -/
structure Q (F : Type) where
  I : F
  J : F
  K : F
  R : F

instance : Inhabited (V F) := ⟨⟨0, 0, 0⟩⟩

instance : Inhabited (Q F) := ⟨⟨0, 0, 0, 0⟩⟩

namespace V

protected def Add (v o : V F) : V F := ⟨v.X + o.X, v.Y + o.Y, v.Z + o.Z⟩

protected def Sub (v o : V F) : V F := ⟨v.X - o.X, v.Y - o.Y, v.Z - o.Z⟩

def Dot (v o : V F) : F := v.X * o.X + v.Y * o.Y + v.Z * o.Z

def Cross (v o : V F) : V F :=
  ⟨v.Y * o.Z - v.Z * o.Y, v.Z * o.X - v.X * o.Z, v.X * o.Y - v.Y * o.X⟩

def MulScalar (v : V F) (o : F) : V F := ⟨v.X * o, v.Y * o, v.Z * o⟩

def DivScalar (v : V F) (o : F) : V F := ⟨v.X / o, v.Y / o, v.Z / o⟩

/-- The Euclidean norm `V.Norm`. -/
def Norm (v : V F) : F := FloatFns.sqrt (v.X * v.X + v.Y * v.Y + v.Z * v.Z)

/-- The method `V.GreatCircleDistance`. -/
def GreatCircleDistance (v o : V F) : F :=
  let d := v.Dot o
  if d = 0 then FloatFns.pi / 2
  else
    let dist := FloatFns.atan ((v.Cross o).Norm / d)
    if d < 0 then FloatFns.pi + dist else dist

def Unit (v : V F) : V F := v.DivScalar v.Norm

/-- The method `V.Equals`: componentwise equality. -/
def Equals (v o : V F) : Bool := decide (v.X = o.X ∧ v.Y = o.Y ∧ v.Z = o.Z)

end V

namespace Q

protected def Neg (q : Q F) : Q F := ⟨-q.I, -q.J, -q.K, -q.R⟩

protected def Add (q o : Q F) : Q F := ⟨q.I + o.I, q.J + o.J, q.K + o.K, q.R + o.R⟩

protected def Sub (q o : Q F) : Q F := q.Add o.Neg

protected def Mul (q o : Q F) : Q F :=
  { R := q.R * o.R - q.I * o.I - q.J * o.J - q.K * o.K
    I := q.R * o.I + q.I * o.R + q.J * o.K - q.K * o.J
    J := q.R * o.J - q.I * o.K + q.J * o.R + q.K * o.I
    K := q.R * o.K + q.I * o.J - q.J * o.I + q.K * o.R }

def MulScalar (q : Q F) (v : F) : Q F := q.Mul ⟨0, 0, 0, v⟩

protected def Div (q o : Q F) : Q F :=
  let d := o.R * o.R + o.I * o.I + o.J * o.J + o.K * o.K
  let t0 := (q.R * o.R + q.I * o.I + q.J * o.J + q.K * o.K) / d
  let t1 := (q.I * o.R + q.R * o.I + q.K * o.J + q.J * o.K) / d
  let t2 := (q.J * o.R + q.K * o.I + q.R * o.J + q.I * o.K) / d
  let t3 := (q.K * o.R + q.J * o.I + q.I * o.J + q.R * o.K) / d
  { I := t1, J := t2, K := t3, R := t0 }

def DivScalar (q : Q F) (v : F) : Q F := q.Div ⟨0, 0, 0, v⟩

def Conj (q : Q F) : Q F := ⟨-q.I, -q.J, -q.K, q.R⟩

def Norm (q : Q F) : F := FloatFns.sqrt (q.R * q.R + q.I * q.I + q.J * q.J + q.K * q.K)

def Dist (q o : Q F) : F := (q.Sub o).Norm

def Unit (q : Q F) : Q F := q.DivScalar q.Norm

/-- The method `Q.Rotate`: the vector part of `q * (0, v) * conj q`. -/
def Rotate (q : Q F) (v : V F) : V F :=
  let p : Q F := { R := 0, I := v.X, J := v.Y, K := v.Z }
  let r := (q.Mul p).Mul q.Conj
  ⟨r.I, r.J, r.K⟩

end Q

/-- The method `V.Rotate`. -/
def V.Rotate (v : V F) (q : Q F) : V F := q.Rotate v

/-! ## The random source -/

/-- The draws of the global `math/rand` generator: `float64 k` is the value
that `rand.Float64()` returns when it is the `k`-th draw, and `int k` the raw
non-negative integer from which `rand.Intn` is reduced when it is the `k`-th
draw. -/
structure Rng (F : Type) where
  float64 : Nat → F
  int : Nat → Nat

/-- Every `rand.Float64()` result lies in `[0, 1)`. -/
def Rng.Valid (g : Rng F) : Prop := ∀ k, 0 ≤ g.float64 k ∧ g.float64 k < 1

/-- The call `rand.Intn(n)` as the `k`-th draw: it panics for `n ≤ 0`. -/
def Rng.Intn (g : Rng F) (k : Nat) (n : Nat) : Option (Nat × Nat) :=
  if n = 0 then none else some (g.int k % n, k + 1)

/-- The function `RandomQuaternion`: three draws, in source order. -/
def RandomQuaternion (g : Rng F) (k : Nat) : Q F × Nat :=
  let s := g.float64 k
  let sig1 := FloatFns.sqrt (1 - s)
  let sig2 := FloatFns.sqrt s
  let t1 := 2 * FloatFns.pi * g.float64 (k + 1)
  let t2 := 2 * FloatFns.pi * g.float64 (k + 2)
  ({ R := FloatFns.cos t2 * sig2
     I := FloatFns.sin t1 * sig1
     J := FloatFns.cos t1 * sig1
     K := FloatFns.sin t2 * sig2 }, k + 3)

/-- The function `RandomVector`. -/
def RandomVector (g : Rng F) (k : Nat) : V F × Nat :=
  let v : V F := ⟨1, 0, 0⟩
  let r := RandomQuaternion g k
  (v.Rotate r.1, r.2)

/-! ## content_addressing.go, data.go -/

/-- The type `Address`: a byte slice. -/
abbrev Address := List (Fin 256)

/-- The loop of `AddressToPosition`: the state is the vector `v`, the
quaternion `q` being filled and the index `idx` of the next entry to fill.
`q.Unit()` divides the components of `q` by the square of `q.Norm()`: for a
group of four zero bytes every quotient is `0/0`, the rotated vector is
`(NaN, NaN, NaN)` and stays so under every later rotation; the loop is `none`
then. -/
def addressLoop : List (Fin 256) → V F → Q F → Nat → Option (V F × Q F × Nat)
  | [], v, q, idx => some (v, q, idx)
  | byt :: rest, v, q, idx =>
    match idx with
    | 0 => addressLoop rest v { q with I := (byt.val : F) } 1
    | 1 => addressLoop rest v { q with J := (byt.val : F) } 2
    | 2 => addressLoop rest v { q with K := (byt.val : F) } 3
    | 3 =>
      let q1 : Q F := { q with R := (byt.val : F) }
      if q1.Norm = 0 then none
      else
        let q2 := q1.Unit
        addressLoop rest (v.Rotate q2) ⟨0, 0, 0, 0⟩ 0
    | _ => addressLoop rest v q idx

/-- The function `AddressToPosition`; `none` stands for the result
`(NaN, NaN, NaN)`. -/
def AddressToPosition (a : Address) : Option (V F) :=
  (addressLoop a ⟨1, 0, 0⟩ ⟨0, 0, 0, 0⟩ 0).map fun r =>
    if r.2.2 ≠ 0 then r.1.Rotate r.2.1 else r.1

/-- The type `Data`. -/
structure Data (F : Type) where
  Address : Address
  Location : V F
  DataSize : Int

/-- The function `NewData`; `DataToAddress` is the SHA-256 of the standard
library, taken as the parameter `sha256`. It is `none` when the location is
`(NaN, NaN, NaN)`. -/
def NewData (sha256 : List (Fin 256) → Address) (b : List (Fin 256)) : Option (Data F) :=
  match AddressToPosition (sha256 b) with
  | none => none
  | some loc =>
    some { DataSize := (b.length : Int)
           Address := sha256 b
           Location := loc }

/-! ## nemfl.go

The weights `c` are a parallel array of the locations; `c[idx]` is read with
`List.getD`, and the statements below are about parallel arrays of equal
length, where no index is out of range. -/

def maxAlpha : Nat := 1000

def maxK : Nat := 100000

/-- The sentinel `noAnswer`. -/
def noAnswer : V F := ⟨2, 2, 2⟩

/-- The Go `error` type: `none` is the nil error. -/
abbrev Error := String

/-- The function `geodesicDistances` (Equation 1): the weighted sum of the
great circle distances and the sum of the squared terms. -/
def geodesicDistances (p : V F) (eval : List (V F)) (c : List F) : F × F :=
  eval.enum.foldl (fun acc ie =>
    let v := p.GreatCircleDistance ie.2 * c.getD ie.1 0
    (acc.1 + v, acc.2 + v * v)) (0, 0)

/-- The function `geodesicDistancesFromI`. -/
def geodesicDistancesFromI (pidx : Nat) (eval : List (V F)) (c : List F) : F × F :=
  let p := eval.getD pidx default
  eval.enum.foldl (fun acc ie =>
    if ie.1 = pidx then acc
    else
      let v := p.GreatCircleDistance ie.2 * c.getD ie.1 0
      (acc.1 + v, acc.2 + v * v)) (0, 0)

/-- One summand `num.MulScalar(c[idx]).DivScalar(den)` of the sums of
`optimalityConditionFromI` and `optimalityCondition`, where
`num = p - e / (p·e)` and `den = num.Norm()`. For `p·e = 0` every component of
`num` is `±Inf` or `NaN`, and for `den = 0` the summand is `0/0`: in both cases
every component of the summand is `NaN`, which is `none` here. -/
def optimalitySummand (p e : V F) (cidx : F) : Option (V F) :=
  let num := p.Sub (e.DivScalar (p.Dot e))
  let den := num.Norm
  if p.Dot e = 0 ∨ den = 0 then none else some ((num.MulScalar cidx).DivScalar den)

/-- The statement `s = s.Add(...)` of the two optimality tests: a `NaN` summand
makes `s` a vector of `NaN`s, and it stays one. -/
def optimalityAdd (s : Option (V F)) (p e : V F) (cidx : F) : Option (V F) :=
  match s, optimalitySummand p e cidx with
  | some s, some v => some (s.Add v)
  | _, _ => none

/-- The function `optimalityConditionFromI` (Equation 15). The norm of a vector
of `NaN`s is `NaN`, and the comparison is false. -/
def optimalityConditionFromI (pidx : Nat) (eval : List (V F)) (c : List F) (tolerance : F) : Bool :=
  let t := c.getD pidx 0
  let p := eval.getD pidx default
  let s := eval.enum.foldl (fun (s : Option (V F)) ie =>
    if ie.1 = pidx then s
    else optimalityAdd s p ie.2 (c.getD ie.1 0)) (some ⟨0, 0, 0⟩)
  match s with
  | none => false
  | some s => decide (s.Norm ≤ t + tolerance)

/-- The function `optimalityCondition` (Equation 16). The norm of a vector of
`NaN`s is `NaN`, and both comparisons are false. -/
def optimalityCondition (p : V F) (eval : List (V F)) (c : List F) (tolerance : F) : Bool :=
  let s := eval.enum.foldl (fun (s : Option (V F)) ie =>
    optimalityAdd s p ie.2 (c.getD ie.1 0)) (some ⟨0, 0, 0⟩)
  match s with
  | none => false
  | some s => decide (s.Norm > -tolerance) && decide (s.Norm < tolerance)

/-- The function `stp`: the rescaled stereographic projection. -/
def stp (aj x : V F) : V F :=
  if aj.Equals x then x
  else
    let p := x.MulScalar (-1)
    if aj.Equals p then p
    else
      let num := aj.Sub p
      let denom := 1 - aj.Dot p
      let proj0 := p.Add (num.DivScalar denom)
      let dist := x.GreatCircleDistance aj
      let r := proj0.Unit.MulScalar dist
      r.Add x

/-- The function `gradFxk`. -/
def gradFxk (xk : V F) (a : List (V F)) (c : List F) : V F :=
  a.enum.foldl (fun (s : V F) jaj =>
    if jaj.2.Equals (xk.MulScalar (-1)) then s
    else
      let ajxk := stp jaj.2 xk
      let num := xk.Sub ajxk
      let denom := num.Norm
      s.Add ((num.MulScalar (c.getD jaj.1 0)).DivScalar denom)) ⟨0, 0, 0⟩

/-- The function `dx`: the descent direction of Step 3. -/
def dx (xk : V F) (a : List (V F)) (c : List F) : V F :=
  (a.enum.foldl (fun (s : V F) jaj =>
    if jaj.2.Equals (xk.MulScalar (-1)) then s
    else
      let ajxk := stp jaj.2 xk
      let num := xk.Sub ajxk
      let denom := num.Norm
      s.Add ((num.MulScalar (c.getD jaj.1 0)).DivScalar denom)) ⟨0, 0, 0⟩).MulScalar (-1)

/-- The function `alphax`: the step length of Step 3. -/
def alphax (xk : V F) (a : List (V F)) (c : List F) : F :=
  1 / a.enum.foldl (fun (s : F) jaj =>
    if jaj.2.Equals (xk.MulScalar (-1)) then s
    else
      let ajxk := stp jaj.2 xk
      s + c.getD jaj.1 0 / (xk.Sub ajxk).Norm) 0

/-- How the inner (Step 4) loop of the smooth solver ends: by `break` with the
accepted point, by returning from the solver, or by reaching `maxAlpha`. -/
inductive ArmijoOutcome (F : Type) where
  | accepted (xn : V F) (alphak : F)
  | stuck
  | exhausted (alphak : F)

/-- The inner loop of `solveNonEuclideanMultifacilityLocationSmooth`; `n` is
the number of iterations left before `alphaIter` reaches `maxAlpha`. -/
def armijoLoop (locs : List (V F)) (c : List F) (xk dk : V F) (fxk : F) :
    Nat → Nat → F → F → ArmijoOutcome F
  | 0, _, alphak, _ => .exhausted alphak
  | n + 1, alphaIter, alphak, prevFxn =>
    let alphakdk := dk.MulScalar alphak
    let xn := (xk.Add alphakdk).DivScalar (xk.Add alphakdk).Norm
    let fxn := (geodesicDistances xn locs c).1
    if fxn ≤ fxk - 0.1 * alphak * dk.Norm * dk.Norm then .accepted xn alphak
    else if alphaIter = 1 then armijoLoop locs c xk dk fxk n (alphaIter + 1) (alphak * 0.5) fxn
    else if prevFxn = fxn then .stuck
    else armijoLoop locs c xk dk fxk n (alphaIter + 1) (alphak * 0.5) prevFxn

/-- The outer loop of `solveNonEuclideanMultifacilityLocationSmooth`; `n` is
the number of iterations left before `k` reaches `maxK`. -/
def smoothLoop (locs : List (V F)) (c : List F) (smoothTolerance : F) :
    Nat → Nat → V F → F → F → V F × F × F × Int
  | 0, _, _, _, _ => (noAnswer, 0, 0, 0)
  | n + 1, k, xk, _, prevFxk =>
    let dk := dx xk locs c
    let f := geodesicDistances xk locs c
    if k ≠ 1 ∧ prevFxk = f.1 then (xk, f.1, f.2, (locs.length : Int))
    else if optimalityCondition xk locs c smoothTolerance then
      (xk, f.1, f.2, (locs.length : Int))
    else
      let alphak := alphax xk locs c
      match armijoLoop locs c xk dk f.1 (maxAlpha - 1) 1 alphak 0 with
      | .accepted xn alphak1 => smoothLoop locs c smoothTolerance n (k + 1) xn alphak1 f.1
      | .stuck => (xk, f.1, f.2, (locs.length : Int))
      | .exhausted alphak1 => smoothLoop locs c smoothTolerance n (k + 1) xk alphak1 f.1

/-- The function `solveNonEuclideanMultifacilityLocationSmooth`. -/
def solveNonEuclideanMultifacilityLocationSmooth (existingLocations : List (V F))
    (existingLocationWeights : List F) (smoothTolerance : F) (x0 : V F) (alpha0 : F) :
    V F × F × F × Int :=
  smoothLoop existingLocations existingLocationWeights smoothTolerance (maxK - 1) 1 x0 alpha0 0

/-- The results of `solveNonEuclideanMultifacilityLocationNonSmooth`. -/
structure NonSmooth (F : Type) where
  result : V F
  x0 : V F
  alpha0 : F
  fxaj : F
  fxsq : F
  nfx : Int

/-- The test `isMin` of Step 1 for the index `t`. -/
def isMinAt (n : Nat) (faj : List F) (t : Nat) : Bool :=
  (List.range n).all fun j => decide (j = t) || !decide (faj.getD j 0 > faj.getD t 0)

/-- The loop over `t` of Step 1: it returns from the solver at the first `t`
that is a "minimum" and meets the optimality condition, and otherwise ends with
the last "minimum" index `at0idx`. -/
def nonSmoothStep1 (locs : List (V F)) (c : List F) (tol : F) (faj fsqaj : List F) :
    List (Nat × V F) → Nat → (NonSmooth F) ⊕ Nat
  | [], at0idx => .inr at0idx
  | (t, a) :: rest, at0idx =>
    if isMinAt locs.length faj t then
      if optimalityConditionFromI t locs c tol then
        .inl ⟨a, ⟨0, 0, 0⟩, 0, faj.getD t 0, fsqaj.getD t 0, (locs.length : Int)⟩
      else nonSmoothStep1 locs c tol faj fsqaj rest t
    else nonSmoothStep1 locs c tol faj fsqaj rest at0idx

/-- The sampling loop of Step 2: `none` when no candidate is found within the
fuel, or when `faj[at0idx]` is out of range. -/
def nonSmoothStep2 (g : Rng F) (locs : List (V F)) (c : List F) (faj : List F) (at0idx : Nat) :
    Nat → Nat → Option (NonSmooth F × Nat)
  | 0, _ => none
  | fuel + 1, k =>
    let xCandidate := RandomVector g k
    let fx := (geodesicDistances xCandidate.1 locs c).1
    match faj.get? at0idx with
    | none => none
    | some m =>
      if fx < m then some (⟨noAnswer, xCandidate.1, 0.001, 0, 0, 0⟩, xCandidate.2)
      else nonSmoothStep2 g locs c faj at0idx fuel xCandidate.2

/-- The function `solveNonEuclideanMultifacilityLocationNonSmooth`, with the
cursor `k` of the random source and the fuel of the sampling loop. -/
def solveNonEuclideanMultifacilityLocationNonSmooth (fuel : Nat) (g : Rng F) (k : Nat)
    (existingLocations : List (V F)) (existingLocationWeights : List F)
    (nonsmoothTolerance : F) : Option (NonSmooth F × Nat) :=
  let js := List.range existingLocations.length
  let faj := js.map fun j =>
    (geodesicDistancesFromI j existingLocations existingLocationWeights).1
  let fsqaj := js.map fun j =>
    (geodesicDistancesFromI j existingLocations existingLocationWeights).2
  match nonSmoothStep1 existingLocations existingLocationWeights nonsmoothTolerance faj fsqaj
      existingLocations.enum 0 with
  | .inl r => some (r, k)
  | .inr at0idx =>
    nonSmoothStep2 g existingLocations existingLocationWeights faj at0idx fuel k

/-- The function `SolveNonEuclideanMultifacilityLocation`. -/
def SolveNonEuclideanMultifacilityLocation (fuel : Nat) (g : Rng F) (k : Nat)
    (existingLocations : List (V F)) (existingLocationWeights : List F)
    (nonsmoothTolerance smoothTolerance : F) : Option ((V F × Option Error) × Nat) :=
  match solveNonEuclideanMultifacilityLocationNonSmooth fuel g k existingLocations
      existingLocationWeights nonsmoothTolerance with
  | none => none
  | some (ns, k1) =>
    if !ns.result.Equals noAnswer then some ((ns.result, none), k1)
    else
      let s := solveNonEuclideanMultifacilityLocationSmooth existingLocations
        existingLocationWeights smoothTolerance ns.x0 ns.alpha0
      if s.1.Equals noAnswer then some ((⟨0, 0, 0⟩, some "No NEMFL solution"), k1)
      else some ((s.1, none), k1)

/-- The function `SolveNonEuclideanMultifacilityLocationSkipNonSmooth`. -/
def SolveNonEuclideanMultifacilityLocationSkipNonSmooth (existingLocations : List (V F))
    (existingLocationWeights : List F) (_nonsmoothTolerance smoothTolerance : F)
    (initialPoint : V F) : V F × Option Error :=
  let s := solveNonEuclideanMultifacilityLocationSmooth existingLocations
    existingLocationWeights smoothTolerance initialPoint 0.001
  if s.1.Equals noAnswer then (⟨0, 0, 0⟩, some "No NEMFL solution") else (s.1, none)

/-- The loop over `i` of `SolveNonEuclideanMultifacilityLocationMonteCarlo`:
the state is `(smoothSolution, fxk, fxsq, nfx)` and the cursor. -/
def monteCarloLoop (g : Rng F) (locs : List (V F)) (c : List F) (smoothTolerance : F) (x0 : V F)
    (alpha0 : F) : List Nat → V F × F × F × Int → Nat → (V F × F × F × Int) × Nat
  | [], st, k => (st, k)
  | i :: rest, st, k =>
    if i = 0 then
      let s := solveNonEuclideanMultifacilityLocationSmooth locs c smoothTolerance x0 alpha0
      monteCarloLoop g locs c smoothTolerance x0 alpha0 rest s k
    else
      let rv := RandomVector g k
      let s := solveNonEuclideanMultifacilityLocationSmooth locs c smoothTolerance rv.1 0.001
      if !s.1.Equals noAnswer && (st.1.Equals noAnswer || decide (s.2.1 < st.2.1)) then
        monteCarloLoop g locs c smoothTolerance x0 alpha0 rest s rv.2
      else monteCarloLoop g locs c smoothTolerance x0 alpha0 rest st rv.2

/-- The function `SolveNonEuclideanMultifacilityLocationMonteCarlo`. -/
def SolveNonEuclideanMultifacilityLocationMonteCarlo (fuel : Nat) (g : Rng F) (k : Nat)
    (existingLocations : List (V F)) (existingLocationWeights : List F)
    (nonsmoothTolerance smoothTolerance : F) (nMC : Int) :
    Option ((V F × F × F × Int × Option Error) × Nat) :=
  match solveNonEuclideanMultifacilityLocationNonSmooth fuel g k existingLocations
      existingLocationWeights nonsmoothTolerance with
  | none => none
  | some (ns, k1) =>
    if !ns.result.Equals noAnswer then some ((ns.result, ns.fxaj, ns.fxsq, ns.nfx, none), k1)
    else
      let r := monteCarloLoop g existingLocations existingLocationWeights smoothTolerance
        ns.x0 ns.alpha0 (List.range nMC.toNat) (noAnswer, 0, ns.fxsq, ns.nfx) k1
      if r.1.1.Equals noAnswer then
        some ((⟨0, 0, 0⟩, r.1.2.1, r.1.2.2.1, r.1.2.2.2, some "No NEMFL solution"), r.2)
      else some ((r.1.1, r.1.2.1, r.1.2.2.1, r.1.2.2.2, none), r.2)

/-- An address made of complete groups of four bytes, none of which is four
zero bytes: its length is a multiple of 4 and every aligned group has a
non-zero byte. -/
def completeNonzeroGroups : List (Fin 256) → Prop
  | [] => True
  | [_] => False
  | [_, _] => False
  | [_, _, _] => False
  | i :: j :: k :: r :: rest =>
    (i ≠ 0 ∨ j ≠ 0 ∨ k ≠ 0 ∨ r ≠ 0) ∧ completeNonzeroGroups rest

/-! ## peer.go

A `*Node` is a node identity. `AddPeer` reads `o.Location` through the pointer:
the embedding passes it as the argument `oLoc`. -/

/-- The identity of a node object (a non-nil `*Node`). -/
abbrev NodeId := Nat

/-- The type `basePeerList`; the map `uniqueIdx` is a partial function. -/
structure basePeerList (F : Type) where
  uniqueIdx : NodeId → Option Nat
  peers : List NodeId
  peerLocations : List (V F)
  maxPeers : Nat

/-- The function `newBasePeerList`, for `n ≥ 0` (a negative capacity panics in
`make`). -/
def newBasePeerList (n : Nat) : basePeerList F :=
  { uniqueIdx := fun _ => none, peers := [], peerLocations := [], maxPeers := n }

namespace basePeerList

def Locations (p : basePeerList F) : List (V F) := p.peerLocations

def length (p : basePeerList F) : Nat := p.peers.length

/-- The method `basePeerList.RemovePeer`. The assignments
`p.peers[i] = p.peers[len(p.peers)-1]` and the like panic when `i` is not below
the length; the slot set to `nil` (to `V{}`) is the one the reslice drops. -/
def RemovePeer (p : basePeerList F) (o : NodeId) : Option (basePeerList F) :=
  match p.uniqueIdx o with
  | none => some p
  | some i =>
    match p.peers.get? (p.peers.length - 1) with
    | none => none
    | some last =>
      if p.peers.length ≤ i then none
      else
        let peers := (p.peers.set i last).take (p.peers.length - 1)
        match p.peerLocations.get? (p.peerLocations.length - 1) with
        | none => none
        | some lastLoc =>
          if p.peerLocations.length ≤ i then none
          else
            let peerLocations :=
              (p.peerLocations.set i lastLoc).take (p.peerLocations.length - 1)
            some { p with
              uniqueIdx := Function.update p.uniqueIdx o none
              peers := peers
              peerLocations := peerLocations }

/-- The branch of the three `AddPeer` methods for a peer that is already in
`uniqueIdx`: `p.peerLocations[i] = o.Location`. -/
def updateLocation (p : basePeerList F) (i : Nat) (oLoc : V F) : Option (basePeerList F × Bool) :=
  if i < p.peerLocations.length then
    some ({ p with peerLocations := p.peerLocations.set i oLoc }, true)
  else none

/-- The branch of the three `AddPeer` methods for a list below its capacity. -/
def append (p : basePeerList F) (o : NodeId) (oLoc : V F) : basePeerList F :=
  { p with
    uniqueIdx := Function.update p.uniqueIdx o (some p.peers.length)
    peers := p.peers ++ [o]
    peerLocations := p.peerLocations ++ [oLoc] }

/-- The replacement of the peer at `idx` by `o` in the two policies. -/
def replaceAt (p : basePeerList F) (idx : Nat) (o : NodeId) (oLoc : V F) : Option (basePeerList F) :=
  match p.peers.get? idx with
  | none => none
  | some old =>
    if idx < p.peerLocations.length then
      some { p with
        uniqueIdx := Function.update (Function.update p.uniqueIdx old none) o (some idx)
        peers := p.peers.set idx o
        peerLocations := p.peerLocations.set idx oLoc }
    else none

/-- The method `basePeerList.AddPeer`. -/
def AddPeer (p : basePeerList F) (_loc : V F) (o : NodeId) (oLoc : V F) :
    Option (basePeerList F × Bool) :=
  match p.uniqueIdx o with
  | some i => p.updateLocation i oLoc
  | none =>
    if p.peers.length < p.maxPeers then some (p.append o oLoc, true)
    else some (p, false)

/-- The inner loop of `RandomlyFindPeerCloserToData` for the peer at `i`: the
first of `indices` whose datum is nearer to the stored location of the peer
than to `loc`. The outer `none` is a panic (index out of range). -/
def firstCloser (p : basePeerList F) (loc : V F) (data : List (Option (Data F))) (i : Nat) :
    List Nat → Option (Option Nat)
  | [] => some none
  | d :: rest =>
    match data.get? d with
    | none => none
    | some none => firstCloser p loc data i rest
    | some (some dat) =>
      match p.peerLocations.get? i with
      | none => none
      | some peerLoc =>
        if loc.GreatCircleDistance dat.Location > peerLoc.GreatCircleDistance dat.Location then
          some (some d)
        else firstCloser p loc data i rest

/-- The scan loop of `RandomlyFindPeerCloserToData`: it ends at the first
position with a match, or with `-1` when `i` is back at `offset`. The loop body
runs at most `len(p.peers)` times, which is the fuel given by the caller. -/
def findLoop (p : basePeerList F) (loc : V F) (data : List (Option (Data F))) (indices : List Nat)
    (offset : Nat) : Nat → Nat → Option (Nat × Int)
  | 0, _ => none
  | fuel + 1, i =>
    match p.firstCloser loc data i indices with
    | none => none
    | some (some d) => some (i, (d : Int))
    | some none =>
      let i1 := if i + 1 ≥ p.peers.length then 0 else i + 1
      if i1 = offset then some (i1, -1) else findLoop p loc data indices offset fuel i1

/-- The method `basePeerList.RandomlyFindPeerCloserToData`. -/
def RandomlyFindPeerCloserToData (p : basePeerList F) (g : Rng F) (k : Nat) (loc : V F)
    (data : List (Option (Data F))) (indices : List Nat) :
    Option ((Option NodeId × Int) × Nat) :=
  if p.peers.length = 0 then some ((none, -1), k)
  else
    match g.Intn k p.peers.length with
    | none => none
    | some (offset, k1) =>
      match p.findLoop loc data indices offset p.peers.length offset with
      | none => none
      | some (i, dataIdx) =>
        match p.peers.get? i with
        | none => none
        | some peer => some ((some peer, dataIdx), k1)

end basePeerList

/-- The two loops of `maximizePeerSpread.AddPeer` that fill `dists`, `distO`
and `distOs`. -/
def spreadDists (locs : List (V F)) (n : Nat) (oLoc : V F) : List F × F × List F :=
  (List.range n).foldl (fun st i =>
    let dist := (locs.getD i default).GreatCircleDistance oLoc
    let dists := (List.range i).foldl (fun (ds : List F) j =>
      let dist := (locs.getD i default).GreatCircleDistance (locs.getD j default)
      let ds1 := ds.set i (ds.getD i 0 + dist)
      ds1.set j (ds1.getD j 0 + dist)) st.1
    (dists, st.2.1 + dist, st.2.2.set i dist))
    (List.replicate n 0, 0, List.replicate n 0)

/-- The selection loop of `maximizePeerSpread.AddPeer`; `none` is `idx == -1`. -/
def spreadPick (dists : List F) (distO : F) (distOs : List F) : Option Nat :=
  dists.enum.foldl (fun (idx : Option Nat) id =>
    if id.2 < distO - distOs.getD id.1 0 then
      match idx with
      | none => some id.1
      | some j => if id.2 < dists.getD j 0 then some id.1 else some j
    else idx) none

/-- The method `maximizePeerSpread.AddPeer`, on the embedded `basePeerList`. -/
def maximizePeerSpread.AddPeer (p : basePeerList F) (_loc : V F) (o : NodeId) (oLoc : V F) :
    Option (basePeerList F × Bool) :=
  match p.uniqueIdx o with
  | some i => p.updateLocation i oLoc
  | none =>
    if p.peers.length < p.maxPeers then some (p.append o oLoc, true)
    else if p.peerLocations.length < p.peers.length then none
    else
      let r := spreadDists p.peerLocations p.peers.length oLoc
      match spreadPick r.1 r.2.1 r.2.2 with
      | some idx => (p.replaceAt idx o oLoc).map fun q => (q, true)
      | none => some (p, false)

/-- The selection loop of `closestNeighbors.AddPeer`; `none` is `maxO`. -/
def closestPick (dists : List F) (distO : F) : Option Nat :=
  dists.enum.foldl (fun (idx : Option Nat) id =>
    if id.2 > distO then some id.1 else idx) none

/-- The method `closestNeighbors.AddPeer`, on the embedded `basePeerList`. -/
def closestNeighbors.AddPeer (p : basePeerList F) (loc : V F) (o : NodeId) (oLoc : V F) :
    Option (basePeerList F × Bool) :=
  match p.uniqueIdx o with
  | some i => p.updateLocation i oLoc
  | none =>
    if p.peers.length < p.maxPeers then some (p.append o oLoc, true)
    else if p.peerLocations.length < p.peers.length then none
    else
      let distO := loc.GreatCircleDistance oLoc
      let dists := (List.range p.peers.length).map fun i =>
        loc.GreatCircleDistance (p.peerLocations.getD i default)
      match closestPick dists distO with
      | some idx => (p.replaceAt idx o oLoc).map fun q => (q, true)
      | none => some (p, false)

/-- The implementations of the interface `PeerList` that have a constructor:
`maximizePeerSpread`, `closestNeighbors` and `maxSpreadThenClosestNeighbors`. -/
inductive PeerList (F : Type) where
  | maximizePeerSpread (p : basePeerList F)
  | closestNeighbors (p : basePeerList F)
  | maxSpreadThenClosestNeighbors (M C : basePeerList F)

def NewMaximizePeerSpread (n : Nat) : PeerList F := .maximizePeerSpread (newBasePeerList n)

def NewClosestNeighbors (n : Nat) : PeerList F := .closestNeighbors (newBasePeerList n)

def NewMaxSpreadThenClosestNeighbors (nm nc : Nat) : PeerList F :=
  .maxSpreadThenClosestNeighbors (newBasePeerList nm) (newBasePeerList nc)

namespace PeerList

/-- The peers in the order of `IterateOverPeersWith`. -/
def peers : PeerList F → List NodeId
  | .maximizePeerSpread p => p.peers
  | .closestNeighbors p => p.peers
  | .maxSpreadThenClosestNeighbors M C => M.peers ++ C.peers

def Locations : PeerList F → List (V F)
  | .maximizePeerSpread p => p.Locations
  | .closestNeighbors p => p.Locations
  | .maxSpreadThenClosestNeighbors M C => M.Locations ++ C.Locations

def RemovePeer : PeerList F → NodeId → Option (PeerList F)
  | .maximizePeerSpread p, o => (p.RemovePeer o).map .maximizePeerSpread
  | .closestNeighbors p, o => (p.RemovePeer o).map .closestNeighbors
  | .maxSpreadThenClosestNeighbors M C, o =>
    match M.RemovePeer o with
    | none => none
    | some M1 => (C.RemovePeer o).map fun C1 => .maxSpreadThenClosestNeighbors M1 C1

def AddPeer : PeerList F → V F → NodeId → V F → Option (PeerList F × Bool)
  | .maximizePeerSpread p, loc, o, oLoc =>
    (maximizePeerSpread.AddPeer p loc o oLoc).map fun r => (.maximizePeerSpread r.1, r.2)
  | .closestNeighbors p, loc, o, oLoc =>
    (closestNeighbors.AddPeer p loc o oLoc).map fun r => (.closestNeighbors r.1, r.2)
  | .maxSpreadThenClosestNeighbors M C, loc, o, oLoc =>
    match maximizePeerSpread.AddPeer M loc o oLoc with
    | none => none
    | some (M1, ok) =>
      if ok then some (.maxSpreadThenClosestNeighbors M1 C, ok)
      else
        (closestNeighbors.AddPeer C loc o oLoc).map fun r =>
          (.maxSpreadThenClosestNeighbors M1 r.1, r.2)

def RandomlyFindPeerCloserToData : PeerList F → Rng F → Nat → V F → List (Option (Data F)) → List Nat →
    Option ((Option NodeId × Int) × Nat)
  | .maximizePeerSpread p, g, k, loc, data, indices =>
    p.RandomlyFindPeerCloserToData g k loc data indices
  | .closestNeighbors p, g, k, loc, data, indices =>
    p.RandomlyFindPeerCloserToData g k loc data indices
  | .maxSpreadThenClosestNeighbors M C, g, k, loc, data, indices =>
    if M.length > 0 ∧ C.length > 0 then
      match M.RandomlyFindPeerCloserToData g k loc data indices with
      | none => none
      | some (r, k1) =>
        if r.2 < 0 then C.RandomlyFindPeerCloserToData g k1 loc data indices
        else some (r, k1)
    else if M.length > 0 then M.RandomlyFindPeerCloserToData g k loc data indices
    else C.RandomlyFindPeerCloserToData g k loc data indices

end PeerList

/-- A call of `AddPeer(loc, o)`, with the location `oLoc` that `o` has at the
time of the call, or of `RemovePeer(o)`. -/
inductive PeerCall (F : Type) where
  | add (loc : V F) (o : NodeId) (oLoc : V F)
  | remove (o : NodeId)

/-- One call on a peer list; `none` when the call panics. -/
def PeerList.call (pl : PeerList F) : PeerCall F → Option (PeerList F)
  | .add loc o oLoc => (pl.AddPeer loc o oLoc).map Prod.fst
  | .remove o => pl.RemovePeer o

/-- A sequence of calls on a peer list, in order. -/
def PeerList.calls (pl : PeerList F) : List (PeerCall F) → Option (PeerList F)
  | [] => some pl
  | c :: rest =>
    match pl.call c with
    | none => none
    | some pl1 => pl1.calls rest

/-! ## node.go

Every node of the simulation gets the global slice `DataCache` as its `Data`
field (`createNode`), so that the slots are shared: the embedding keeps the
slice outside of the node and passes it to the methods. -/

/-- The type `State`. -/
structure State where
  id : Int
  lastState : Int

def StateJoin : Int := 0

def StateWait : Int := 1

def StateExchangeData : Int := 2

def StateAskPeer : Int := 3

/-- The type `Node`, without the shared slice `Data`. -/
structure Node (F : Type) where
  Location : V F
  S : State
  NextS : State
  CurrentBSize : Int
  MaxBSize : Int
  WaitActivity : F
  DataIndices : List Nat
  peers : PeerList F
  fx : F
  fxsq : F
  nfx : Int

/-- The value of a Go `int` (64 bits, two's complement) after an addition whose
exact result is `x`. -/
def wrapInt (x : Int) : Int := (x + 2 ^ 63) % 2 ^ 64 - 2 ^ 63

/-- The loop of `computeLocationAndCurrentSize` over `DataIndices`, with the
state `(bsz, locs, weights, hasData)`; `none` when an index is out of range. -/
def collectOwned (data : List (Option (Data F))) :
    List Nat → Int × List (V F) × List F × Bool → Option (Int × List (V F) × List F × Bool)
  | [], st => some st
  | idx :: rest, st =>
    match data.get? idx with
    | none => none
    | some none => collectOwned data rest st
    | some (some d) =>
      collectOwned data rest
        (wrapInt (st.1 + d.DataSize), st.2.1 ++ [d.Location], st.2.2.1 ++ [1], true)

namespace Node

/-- The method `Node.computeLocationAndCurrentSize`; the error of the solver is
a panic. -/
def computeLocationAndCurrentSize (fuel : Nat) (g : Rng F) (k : Nat)
    (data : List (Option (Data F))) (n : Node F) : Option (Node F × Nat) :=
  match collectOwned data n.DataIndices (0, [], [], false) with
  | none => none
  | some (bsz, locs, weights, hasData) =>
    if hasData then
      match SolveNonEuclideanMultifacilityLocationMonteCarlo fuel g k locs weights 0.1 0.1 2 with
      | none => none
      | some ((loc, fx, fxsq, nfx, err), k1) =>
        match err with
        | some _ => none
        | none =>
          some ({ n with Location := loc, fx := fx, fxsq := fxsq, nfx := nfx,
                         CurrentBSize := bsz }, k1)
    else
      let rv := RandomVector g k
      some ({ n with Location := rv.1, fx := 0, fxsq := 0, nfx := 0, CurrentBSize := bsz },
        rv.2)

/-- The scan for the first free slot of `exchangeDataReceive` and
`nextFreeDataIndex`: the inner `none` is `availIdx == -1`, the outer `none` an
index out of range. -/
def firstFree (data : List (Option (Data F))) : List Nat → Option (Option Nat)
  | [] => some none
  | idx :: rest =>
    match data.get? idx with
    | none => none
    | some none => some (some idx)
    | some (some _) => firstFree data rest

/-- The method `Node.exchangeDataReceive`: the node, the shared slots and the
result. -/
def exchangeDataReceive (fuel : Nat) (g : Rng F) (k : Nat) (data : List (Option (Data F)))
    (n : Node F) (d : Data F) : Option ((Node F × List (Option (Data F)) × Bool) × Nat) :=
  if wrapInt (d.DataSize + n.CurrentBSize) > n.MaxBSize then some ((n, data, false), k)
  else
    match firstFree data n.DataIndices with
    | none => none
    | some none => some ((n, data, false), k)
    | some (some availIdx) =>
      match computeLocationAndCurrentSize fuel g k (data.set availIdx (some d)) n with
      | none => none
      | some (n1, k1) => some ((n1, data.set availIdx (some d), true), k1)

/-- The method `Node.exchangeDataGive`. -/
def exchangeDataGive (fuel : Nat) (g : Rng F) (k : Nat) (data : List (Option (Data F)))
    (n : Node F) (idx : Nat) : Option ((Node F × List (Option (Data F))) × Nat) :=
  if idx < data.length then
    match computeLocationAndCurrentSize fuel g k (data.set idx none) n with
    | none => none
    | some (n1, k1) => some ((n1, data.set idx none), k1)
  else none

/-- The method `Node.applyNewData`; a nil slot at `idx` is a nil dereference. -/
def applyNewData (fuel : Nat) (g : Rng F) (k : Nat) (data : List (Option (Data F)))
    (n : Node F) (idx : Nat) : Option ((Node F × List (Option (Data F))) × Nat) :=
  match data.get? idx with
  | none => none
  | some none => none
  | some (some d) =>
    let data1 :=
      if wrapInt (d.DataSize + n.CurrentBSize) > n.MaxBSize then data.set idx none else data
    match computeLocationAndCurrentSize fuel g k data1 n with
    | none => none
    | some (n1, k1) => some ((n1, data1), k1)

end Node

/-- The function `NewNode`. -/
def NewNode (fuel : Nat) (g : Rng F) (k : Nat) (dataCache : List (Option (Data F)))
    (myIdxs : List Nat) (maxBSize : Int) (waitActivity : F) (peerList : PeerList F) :
    Option (Node F × Nat) :=
  Node.computeLocationAndCurrentSize fuel g k dataCache
    { Location := ⟨0, 0, 0⟩
      S := ⟨StateJoin, 0⟩
      NextS := ⟨0, 0⟩
      CurrentBSize := 0
      MaxBSize := maxBSize
      WaitActivity := waitActivity
      DataIndices := myIdxs
      peers := peerList
      fx := 0
      fxsq := 0
      nfx := 0 }

/-- The node objects by identity, and the shared data slots. -/
structure World (F : Type) where
  DataCache : List (Option (Data F))
  heap : List (Node F)

/-- The message returned by `Node.exchangeData`, without its formatting. -/
inductive ExchangeMsg where
  | noPeers
  | noCloserData
  | unsuccessful (dataIdx : Nat)
  | exchanged (dataIdx : Nat)
  | empty

namespace World

/-- The method `Node.addPeer` of the node `n`: `n.peers.AddPeer(n.Location, o)`.
The result of `AddPeer` is dropped. -/
def addPeer (w : World F) (n o : NodeId) : Option (World F) :=
  match w.heap.get? n, w.heap.get? o with
  | some nNode, some oNode =>
    match nNode.peers.AddPeer nNode.Location o oNode.Location with
    | none => none
    | some (pl, _) => some { w with heap := w.heap.set n { nNode with peers := pl } }
  | _, _ => none

/-- The method `Node.exchangeData` of the node `n`. -/
def exchangeData (fuel : Nat) (g : Rng F) (k : Nat) (w : World F) (n : NodeId) :
    Option ((World F × ExchangeMsg) × Nat) :=
  match w.heap.get? n with
  | none => none
  | some nNode =>
    match nNode.peers.RandomlyFindPeerCloserToData g k nNode.Location w.DataCache
        nNode.DataIndices with
    | none => none
    | some ((peer, dataIdx), k1) =>
      if peer = none ∧ dataIdx < 0 then some ((w, .noPeers), k1)
      else if dataIdx < 0 then some ((w, .noCloserData), k1)
      else
        match peer with
        | none => none
        | some o =>
          match w.heap.get? o with
          | none => none
          | some oNode =>
            if oNode.S.id = StateWait ∨ oNode.S.id = StateJoin then
              match w.DataCache.get? dataIdx.toNat with
              | none => none
              | some none => none
              | some (some d) =>
                match oNode.exchangeDataReceive fuel g k1 w.DataCache d with
                | none => none
                | some ((oNode1, data1, ok), k2) =>
                  let w1 : World F := { DataCache := data1, heap := w.heap.set o oNode1 }
                  let given : Option (World F × ExchangeMsg × Nat) :=
                    if ok then
                      match w1.heap.get? n with
                      | none => none
                      | some nNode1 =>
                        match nNode1.exchangeDataGive fuel g k2 w1.DataCache dataIdx.toNat with
                        | none => none
                        | some ((nNode2, data2), k3) =>
                          some ({ DataCache := data2, heap := w1.heap.set n nNode2 },
                            .exchanged dataIdx.toNat, k3)
                    else some (w1, .empty, k2)
                  match given with
                  | none => none
                  | some (w2, msg, k3) =>
                    match w2.addPeer o n with
                    | none => none
                    | some w3 =>
                      match w3.addPeer n o with
                      | none => none
                      | some w4 => some ((w4, msg), k3)
            else some ((w, .unsuccessful dataIdx.toNat), k1)

end World

/-- The size of the descriptor in slot `i`, and 0 for a nil slot. -/
def slotSize (data : List (Option (Data F))) (i : Nat) : Int :=
  match data.get? i with
  | some (some d) => d.DataSize
  | _ => 0

/-- The bytes of the occupied slots among `idxs`: the sum of `Data[i].DataSize`
over the indices `i` of `idxs` whose slot is not nil. -/
def ownedBytes (data : List (Option (Data F))) (idxs : List Nat) : Int :=
  (idxs.map (slotSize data)).sum

/-- The byte-accounting invariant of a node over the shared slots: the count is
the sum of the sizes of its occupied slots, as a Go `int`. -/
def Node.bytesAccounted (n : Node F) (data : List (Option (Data F))) : Prop :=
  n.CurrentBSize = wrapInt (ownedBytes data n.DataIndices)

/-- The body of the loop of `GenerateLocalData` (sim.go) for one node once the
growth draw has won: `nextFreeDataIndex`, then `createData` at that index with
the new descriptor `d`, then `applyNewData`. -/
def Node.generateLocalData (fuel : Nat) (g : Rng F) (k : Nat) (data : List (Option (Data F)))
    (n : Node F) (d : Data F) : Option ((Node F × List (Option (Data F))) × Nat) :=
  match Node.firstFree data n.DataIndices with
  | none => none
  | some none => some ((n, data), k)
  | some (some idx) => n.applyNewData fuel g k (data.set idx (some d)) idx

/-- A call on a node that changes its data: `exchangeDataReceive(d)`,
`exchangeDataGive(idx)`, `applyNewData(idx)`, and `applyNewData` as
`GenerateLocalData` calls it, on a descriptor just created in a free slot. -/
inductive NodeCall (F : Type) where
  | receive (d : Data F)
  | give (idx : Nat)
  | applyNew (idx : Nat)
  | generate (d : Data F)

/-- One call on a node; `none` when the call does not return. -/
def Node.call (fuel : Nat) (g : Rng F) (k : Nat) (data : List (Option (Data F))) (n : Node F) :
    (NodeCall F) → Option ((Node F × List (Option (Data F))) × Nat)
  | .receive d => (n.exchangeDataReceive fuel g k data d).map fun r => ((r.1.1, r.1.2.1), r.2)
  | .give idx => n.exchangeDataGive fuel g k data idx
  | .applyNew idx => n.applyNewData fuel g k data idx
  | .generate d => n.generateLocalData fuel g k data d

/-- A sequence of calls on a node, in order. -/
def Node.calls (fuel : Nat) (g : Rng F) :
    Nat → List (Option (Data F)) → Node F → List (NodeCall F) → Option ((Node F × List (Option (Data F))) × Nat)
  | k, data, n, [] => some ((n, data), k)
  | k, data, n, c :: rest =>
    match n.call fuel g k data c with
    | none => none
    | some ((n1, data1), k1) => Node.calls fuel g k1 data1 n1 rest

/-- The slot that a call on the node `n` may write is one of the slots of `n`.
(`exchangeDataReceive` and `GenerateLocalData` only choose among them.) -/
def NodeCall.onOwnSlot (n : Node F) : NodeCall F → Prop
  | .receive _ => True
  | .give idx => idx ∈ n.DataIndices
  | .applyNew idx => idx ∈ n.DataIndices
  | .generate _ => True

/-- The descriptor that a call brings in has a non-negative size (`DataSize`
is the length of a payload). -/
def NodeCall.sizeNonneg : NodeCall F → Prop
  | .receive d => 0 ≤ d.DataSize
  | .give _ => True
  | .applyNew _ => True
  | .generate d => 0 ≤ d.DataSize

/-- Every descriptor in the slots has a non-negative size. -/
def sizesNonneg (data : List (Option (Data F))) : Prop :=
  ∀ d, some d ∈ data → 0 ≤ d.DataSize

/-- The size of the descriptor that a call brings in, added to the capacity
`maxBSize`, is a Go `int` (below `2^63`). -/
def NodeCall.sizeFits (maxBSize : Int) : NodeCall F → Prop
  | .receive d => d.DataSize + maxBSize < 2 ^ 63
  | .give _ => True
  | .applyNew _ => True
  | .generate d => d.DataSize + maxBSize < 2 ^ 63

/-- The size of every descriptor in the slots, added to the capacity
`maxBSize`, is a Go `int` (below `2^63`). -/
def sizesFit (data : List (Option (Data F))) (maxBSize : Int) : Prop :=
  ∀ d, some d ∈ data → d.DataSize + maxBSize < 2 ^ 63

/-- The embedded lists of a peer list. -/
def PeerList.lists : PeerList F → List (basePeerList F)
  | .maximizePeerSpread p => [p]
  | .closestNeighbors p => [p]
  | .maxSpreadThenClosestNeighbors M C => [M, C]

/-- A list with capacity `cap` that holds at most `cap` peers and as many
locations as peers. -/
def basePeerList.bounded (p : basePeerList F) (cap : Nat) : Prop :=
  p.maxPeers = cap ∧ p.peers.length ≤ cap ∧ p.peers.length = p.peerLocations.length

/-- The world `w1` differs from `w` in the peer lists of the nodes only: the
data slots and every other field of every node (location, states, byte counts,
indices, statistics) are the same. -/
def World.sameButPeers (w w1 : World F) : Prop :=
  w1.DataCache = w.DataCache ∧ w1.heap.length = w.heap.length ∧
  ∀ i nd, w.heap.get? i = some nd → ∃ pl, w1.heap.get? i = some { nd with peers := pl }

/-! ## Concrete inputs -/

/-- A random source whose draws are all 0. -/
def zeroRng : Rng F := ⟨fun _ => 0, fun _ => 0⟩

/-- A descriptor of 5 bytes located at `(1, 0, 0)`. -/
def datumX : Data F := { Address := [], Location := ⟨1, 0, 0⟩, DataSize := 5 }

/-- The node that `NewNode` builds over the slots `[datumX]` with the index 0,
the capacity `maxBSize` and the peer list `pl`. -/
def nodeX (maxBSize : Int) (pl : PeerList F) : Node F :=
  { Location := ⟨1, 0, 0⟩
    S := ⟨StateJoin, 0⟩
    NextS := ⟨0, 0⟩
    CurrentBSize := 5
    MaxBSize := maxBSize
    WaitActivity := 0
    DataIndices := [0]
    peers := pl
    fx := 0
    fxsq := 0
    nfx := 1 }

/-- A descriptor of `size` bytes located at `(0.6, 0.8, 0)`. -/
def datumSized (size : Int) : Data F :=
  { Address := [], Location := ⟨0.6, 0.8, 0⟩, DataSize := size }

/-- The slots of the node `nodeW`: `datumX` in slot 0 and a free slot 1. -/
def slotsW : List (Option (Data F)) := [some datumX, none]

/-- The node that `NewNode` builds over the slots `slotsW` with the indices 0
and 1, the capacity 10 and an empty peer list of capacity 1: it holds 5
bytes. -/
def nodeW : Node F :=
  { Location := ⟨1, 0, 0⟩
    S := ⟨StateJoin, 0⟩
    NextS := ⟨0, 0⟩
    CurrentBSize := 5
    MaxBSize := 10
    WaitActivity := 0
    DataIndices := [0, 1]
    peers := NewMaximizePeerSpread 1
    fx := 0
    fxsq := 0
    nfx := 1 }

/-- A descriptor of 5 bytes located at `(0.6, 0.8, 0)`. -/
def datumY : Data F := { Address := [], Location := ⟨0.6, 0.8, 0⟩, DataSize := 5 }

/-- The slots of `worldX`: the owner holds slots 0 and 1, the peer slot 2. -/
def slotsX : List (Option (Data F)) := [some datumX, some datumY, some datumY]

/-- The node that `NewNode` builds over the slots `slotsX` with the indices 0
and 1, the capacity 10 and the peer list `pl`: the non-smooth phase places it
on its first datum, at `(1, 0, 0)`. -/
def ownerNew (pl : PeerList F) : Node F :=
  { Location := ⟨1, 0, 0⟩
    S := ⟨StateJoin, 0⟩
    NextS := ⟨0, 0⟩
    CurrentBSize := 10
    MaxBSize := 10
    WaitActivity := 1
    DataIndices := [0, 1]
    peers := pl
    fx := V.GreatCircleDistance ⟨1, 0, 0⟩ (⟨0.6, 0.8, 0⟩ : V F)
    fxsq := V.GreatCircleDistance ⟨1, 0, 0⟩ (⟨0.6, 0.8, 0⟩ : V F)
      * V.GreatCircleDistance ⟨1, 0, 0⟩ (⟨0.6, 0.8, 0⟩ : V F)
    nfx := 2 }

/-- The owner of the slots 0 and 1, in state ExchangeData, that knows the peer
1 at `(0.6, 0.8, 0)`. -/
def ownerX : Node F :=
  { (ownerNew (.maximizePeerSpread
      { uniqueIdx := Function.update (fun _ => none) 1 (some 0)
        peers := [1]
        peerLocations := [⟨0.6, 0.8, 0⟩]
        maxPeers := 1 }) : Node F) with
    S := ⟨StateExchangeData, StateWait⟩
    NextS := ⟨StateWait, StateExchangeData⟩ }

/-- A peer in state Wait that sits on its only datum (slot 2), at
`(0.6, 0.8, 0)`, with no capacity left and an empty peer list of capacity 1. -/
def peerX : Node F :=
  { Location := ⟨0.6, 0.8, 0⟩
    S := ⟨StateWait, StateJoin⟩
    NextS := ⟨StateWait, StateWait⟩
    CurrentBSize := 5
    MaxBSize := 5
    WaitActivity := 1
    DataIndices := [2]
    peers := NewMaximizePeerSpread 1
    fx := 0
    fxsq := 0
    nfx := 1 }

/-- The owner `ownerX` as node 0 and the peer `peerX` as node 1, over the
slots `slotsX`. -/
def worldX : World F := { DataCache := slotsX, heap := [ownerX, peerX] }

/-- Three peers are added to an empty list and the first one is removed. -/
def callsX : List (PeerCall F) :=
  [.add ⟨1, 0, 0⟩ 1 ⟨1, 0, 0⟩, .add ⟨1, 0, 0⟩ 2 ⟨0, 1, 0⟩, .add ⟨1, 0, 0⟩ 3 ⟨0, 0, 1⟩, .remove 1]

/-- The max-spread list of capacity 3 after the calls `callsX`: the peer 3 has
been moved to index 0, and `uniqueIdx` still maps it to index 2. -/
def listX : PeerList F :=
  .maximizePeerSpread
    { uniqueIdx := Function.update (Function.update (Function.update (Function.update
        (fun _ => none) 1 (some 0)) 2 (some 1)) 3 (some 2)) 1 none
      peers := [3, 2]
      peerLocations := [⟨0, 0, 1⟩, ⟨0, 1, 0⟩]
      maxPeers := 3 }

/-! ## The exact reals -/

/-- The exact reals as the number type, with the mathematical functions. -/
noncomputable instance realFloatFns : FloatFns ℝ where
  sqrt := Real.sqrt
  atan := Real.arctan
  sin := Real.sin
  cos := Real.cos
  pi := Real.pi


/-- The test of `RandomlyFindPeerCloserToData` for the peer at position `i` and
the data index `d`: the slot `d` holds a datum, and the location stored at `i`
is strictly nearer to it (great circle distance) than `loc` is. -/
def basePeerList.closerAt (p : basePeerList F) (loc : V F) (data : List (Option (Data F)))
    (i d : Nat) : Prop :=
  ∃ dat peerLoc, data.get? d = some (some dat) ∧ p.peerLocations.get? i = some peerLoc ∧
    loc.GreatCircleDistance dat.Location > peerLoc.GreatCircleDistance dat.Location

/-! ## peer.go: random peers -/

def getPeerForMaxTries : Nat := 10

namespace basePeerList

/-- The method `basePeerList.GetRandomPeer`; the inner `none` is `nil`. -/
def GetRandomPeer (p : basePeerList F) (g : Rng F) (k : Nat) : Option (Option NodeId × Nat) :=
  if p.peers.length = 0 then some (none, k)
  else
    match g.Intn k p.peers.length with
    | none => none
    | some (idx, k1) =>
      match p.peers.get? idx with
      | none => none
      | some peer => some (some peer, k1)

/-- The loop of `basePeerList.GetRandomPeerThatsNot`; `n` is the number of tries
left. Each try calls `rand.Intn(len(p.peers))`, which panics on an empty list. -/
def randomPeerLoop (p : basePeerList F) (g : Rng F) (o : NodeId) :
    Nat → Nat → Option (Option NodeId × Nat)
  | 0, k => some (none, k)
  | n + 1, k =>
    match g.Intn k p.peers.length with
    | none => none
    | some (idx, k1) =>
      match p.peers.get? idx with
      | none => none
      | some q => if q ≠ o then some (some q, k1) else randomPeerLoop p g o n k1

/-- The method `basePeerList.GetRandomPeerThatsNot`. -/
def GetRandomPeerThatsNot (p : basePeerList F) (g : Rng F) (k : Nat) (o : NodeId) :
    Option (Option NodeId × Nat) :=
  p.randomPeerLoop g o getPeerForMaxTries k

end basePeerList

namespace PeerList

/-- The method `GetRandomPeer` of the three implementations. -/
def GetRandomPeer : PeerList F → Rng F → Nat → Option (Option NodeId × Nat)
  | .maximizePeerSpread p, g, k => p.GetRandomPeer g k
  | .closestNeighbors p, g, k => p.GetRandomPeer g k
  | .maxSpreadThenClosestNeighbors M C, g, k =>
    if M.length > 0 ∧ C.length > 0 then
      match g.Intn k 2 with
      | none => none
      | some (i, k1) => if i = 0 then M.GetRandomPeer g k1 else C.GetRandomPeer g k1
    else if M.length > 0 then M.GetRandomPeer g k
    else C.GetRandomPeer g k

/-- The method `GetRandomPeerThatsNot` of the three implementations. -/
def GetRandomPeerThatsNot : PeerList F → Rng F → Nat → NodeId → Option (Option NodeId × Nat)
  | .maximizePeerSpread p, g, k, o => p.GetRandomPeerThatsNot g k o
  | .closestNeighbors p, g, k, o => p.GetRandomPeerThatsNot g k o
  | .maxSpreadThenClosestNeighbors M C, g, k, o =>
    if M.length > 0 ∧ C.length > 0 then
      match g.Intn k 2 with
      | none => none
      | some (i, k1) =>
        if i = 0 then M.GetRandomPeerThatsNot g k1 o else C.GetRandomPeerThatsNot g k1 o
    else if M.length > 0 then M.GetRandomPeerThatsNot g k o
    else C.GetRandomPeerThatsNot g k o

end PeerList

/-! ## node.go: the state machine

The summary string that `ApplyState` returns is only written to the log and is
left out. -/

/-- The interface `coordinator`: `FindOtherArbitraryNode(n)` as the draw number
`k`, with the node found (`nil` is the inner `none`) and the next cursor; the
outer `none` is a call that does not return. -/
abbrev coordinator := NodeId → Nat → Option (Option NodeId × Nat)

namespace World

/-- The method `Node.removePeer` of the node `n`. -/
def removePeer (w : World F) (n o : NodeId) : Option (World F) :=
  match w.heap.get? n with
  | none => none
  | some nNode =>
    match nNode.peers.RemovePeer o with
    | none => none
    | some pl => some { w with heap := w.heap.set n { nNode with peers := pl } }

/-- The call `o.ifWaitOrJoin(func() { o.addPeer(n) })` followed, when it returns
true, by `n.addPeer(peer)`: the "peer hello" of `ApplyState` (with `peer = o`)
and of `requestPeer`. -/
def hello (w : World F) (n o peer : NodeId) : Option (World F) :=
  match w.heap.get? o with
  | none => none
  | some oNode =>
    if oNode.S.id = StateWait ∨ oNode.S.id = StateJoin then
      match w.addPeer o n with
      | none => none
      | some w1 => w1.addPeer n peer
    else some w

/-- The method `Node.requestPeer` of the node `n`. -/
def requestPeer (g : Rng F) (k : Nat) (w : World F) (n : NodeId) : Option (World F × Nat) :=
  match w.heap.get? n with
  | none => none
  | some nNode =>
    match nNode.peers.GetRandomPeer g k with
    | none => none
    | some (none, k1) => some (w, k1)
    | some (some o, k1) =>
      match w.heap.get? o with
      | none => none
      | some oNode =>
        match oNode.peers.GetRandomPeerThatsNot g k1 n with
        | none => none
        | some (none, k2) => some (w, k2)
        | some (some peer, k2) => (w.hello n o peer).map fun w1 => (w1, k2)

/-- The assignment `n.NextS = State{...}`. -/
def setNextS (w : World F) (n : NodeId) (s : State) : Option (World F) :=
  match w.heap.get? n with
  | none => none
  | some nNode => some { w with heap := w.heap.set n { nNode with NextS := s } }

/-- The method `Node.ApplyState` of the node `n`, with the coordinator `c`. -/
def ApplyState (fuel : Nat) (g : Rng F) (k : Nat) (c : coordinator) (w : World F) (n : NodeId) :
    Option (World F × Nat) :=
  match w.heap.get? n with
  | none => none
  | some nNode =>
    if nNode.S.id = StateJoin then
      match c n k with
      | none => none
      | some (none, k1) => (w.setNextS n ⟨StateWait, StateJoin⟩).map fun w1 => (w1, k1)
      | some (some o, k1) =>
        match w.hello n o o with
        | none => none
        | some w1 => (w1.setNextS n ⟨StateWait, StateJoin⟩).map fun w2 => (w2, k1)
    else if nNode.S.id = StateWait then
      if g.float64 k < nNode.WaitActivity then
        if nNode.S.lastState = StateExchangeData then
          (w.setNextS n ⟨StateAskPeer, StateWait⟩).map fun w1 => (w1, k + 1)
        else (w.setNextS n ⟨StateExchangeData, StateWait⟩).map fun w1 => (w1, k + 1)
      else (w.setNextS n ⟨StateWait, StateWait⟩).map fun w1 => (w1, k + 1)
    else if nNode.S.id = StateExchangeData then
      match w.exchangeData fuel g k n with
      | none => none
      | some ((w1, _), k1) =>
        (w1.setNextS n ⟨StateWait, StateExchangeData⟩).map fun w2 => (w2, k1)
    else if nNode.S.id = StateAskPeer then
      match w.requestPeer g k n with
      | none => none
      | some (w1, k1) => (w1.setNextS n ⟨StateWait, StateAskPeer⟩).map fun w2 => (w2, k1)
    else some (w, k)

/-- The method `Node.AdvanceState` of the node `n`. -/
def AdvanceState (w : World F) (n : NodeId) : Option (World F) :=
  match w.heap.get? n with
  | none => none
  | some nNode => some { w with heap := w.heap.set n { nNode with S := nNode.NextS } }

end World

/-! ## sim.go

The node objects live in `heap`, by identity; `NodeCache` holds the identities
of the live nodes (`nil` is `none`). The factory closures of the simulation are
arbitrary functions of the caller: a call of `createNode` or
`GenerateLocalData` takes the values that the closures return during that call,
and the stream of draws is the stream of the draws that the package itself
makes. The log and the statistics files are left out. -/

/-- The type `Simulation`: the data slots and the node objects (`World`), the
allocation table and the node slots. -/
structure Simulation (F : Type) extends World F where
  DataAllocdToNode : List Bool
  NDataCacheFree : Int
  NodeCache : List (Option NodeId)

/-- The values that the closures of the factories return during one call of
`createNode`: `allocateNDataToNodeFn(nFree)`, `nodeInitDataFn(dcSize)`, the
payload of the `j`-th call of `createDataFn()`, `nodeMaxBSizeFn(size)`,
`waitActivityFn()` and `peerListFn()`. -/
structure NodeSetup (F : Type) where
  allocateNDataToNodeFn : Int → Int
  nodeInitDataFn : Int → Int
  createDataFn : Nat → List (Fin 256)
  nodeMaxBSizeFn : Int → Int
  waitActivityFn : F
  peerListFn : PeerList F

/-- The allocation loop of `createNode` over `DataAllocdToNode` from the index
`idx` on: the indices appended and the table. The test `len(indices) >= dcSize`
comes after the append. -/
def allocLoop (dcSize : Int) : List Bool → Nat → List Nat → List Nat × List Bool
  | [], _, indices => (indices, [])
  | allocd :: rest, idx, indices =>
    let indices1 := if !allocd then indices ++ [idx] else indices
    if (indices1.length : Int) ≥ dcSize then (indices1, true :: rest)
    else
      let r := allocLoop dcSize rest (idx + 1) indices1
      (r.1, true :: r.2)

/-- The loop of `createNode` that creates the initial data: `j` runs over the
first `min nInitData (len indices)` entries of `indices`; the state is the data
slots and `size`. The outer `none` is an index out of range. -/
def initDataLoop (sha256 : List (Fin 256) → Address) (createDataFn : Nat → List (Fin 256)) :
    List (Nat × Nat) → List (Option (Data F)) → Int → Option (List (Option (Data F)) × Int)
  | [], data, size => some (data, size)
  | (j, idx) :: rest, data, size =>
    if idx < data.length then
      match (NewData sha256 (createDataFn j) : Option (Data F)) with
      | none => none
      | some d =>
        initDataLoop sha256 createDataFn rest (data.set idx (some d)) (size + d.DataSize)
    else none

namespace Simulation

/-- The method `Simulation.FindOtherArbitraryNode`: it draws until it finds a
live node other than `notMe`. -/
def FindOtherArbitraryNode (g : Rng F) (NodeCache : List (Option NodeId)) (notMe : NodeId) :
    Nat → Nat → Option (NodeId × Nat)
  | 0, _ => none
  | fuel + 1, k =>
    match g.Intn k NodeCache.length with
    | none => none
    | some (offset, k1) =>
      match NodeCache.get? offset with
      | none => none
      | some none => FindOtherArbitraryNode g NodeCache notMe fuel k1
      | some (some n) =>
        if n = notMe then FindOtherArbitraryNode g NodeCache notMe fuel k1 else some (n, k1)

/-- The simulation as the `coordinator` of its nodes. -/
def asCoordinator (fuel : Nat) (g : Rng F) (s : Simulation F) : coordinator :=
  fun notMe k =>
    (FindOtherArbitraryNode g s.NodeCache notMe fuel k).map fun r => (some r.1, r.2)

/-- The first loop of `tick`: `ApplyState` on every live node, in order. -/
def applyStates (fuel : Nat) (g : Rng F) (c : coordinator) :
    List (Option NodeId) → World F → Nat → Option (World F × Nat)
  | [], w, k => some (w, k)
  | none :: rest, w, k => applyStates fuel g c rest w k
  | some n :: rest, w, k =>
    match w.ApplyState fuel g k c n with
    | none => none
    | some (w1, k1) => applyStates fuel g c rest w1 k1

/-- The second loop of `tick`: `AdvanceState` on every live node. -/
def advanceStates : List (Option NodeId) → World F → Option (World F)
  | [], w => some w
  | none :: rest, w => advanceStates rest w
  | some n :: rest, w =>
    match w.AdvanceState n with
    | none => none
    | some w1 => advanceStates rest w1

/-- The method `Simulation.tick`. -/
def tick (fuel : Nat) (g : Rng F) (k : Nat) (s : Simulation F) : Option (Simulation F × Nat) :=
  match applyStates fuel g (s.asCoordinator fuel g) s.NodeCache s.toWorld k with
  | none => none
  | some (w1, k1) =>
    match advanceStates s.NodeCache w1 with
    | none => none
    | some w2 => some ({ s with toWorld := w2 }, k1)

/-- The loop of `ExistingNodeLeaves`, over the node slots from the last to the
first: `d` is the node that leaves, once found. -/
def leaveLoop : List (Nat × Option NodeId) → Option NodeId → Simulation F → Option (Simulation F)
  | [], _, s => some s
  | (_, none) :: rest, d, s => leaveLoop rest d s
  | (i, some n) :: rest, none, s =>
    leaveLoop rest (some n) { s with NodeCache := s.NodeCache.set i none }
  | (_, some n) :: rest, some d, s =>
    match s.toWorld.removePeer n d with
    | none => none
    | some w1 => leaveLoop rest (some d) { s with toWorld := w1 }

/-- The method `Simulation.ExistingNodeLeaves`. -/
def ExistingNodeLeaves (s : Simulation F) : Option (Simulation F) :=
  leaveLoop s.NodeCache.enum.reverse none s

/-- The method `Simulation.createNode`: the simulation, the new node object and
the cursor. A negative `dcSize` panics in `make`. -/
def createNode (sha256 : List (Fin 256) → Address) (fuel : Nat) (g : Rng F) (k : Nat)
    (s : Simulation F) (f : NodeSetup F) : Option ((Simulation F × Node F) × Nat) :=
  let dcSize := f.allocateNDataToNodeFn s.NDataCacheFree
  if dcSize < 0 then none
  else
    let r := allocLoop dcSize s.DataAllocdToNode 0 []
    let indices := r.1
    let nInitData := f.nodeInitDataFn dcSize
    match initDataLoop sha256 f.createDataFn (indices.enum.take nInitData.toNat) s.DataCache 0 with
    | none => none
    | some (data, size) =>
      match NewNode fuel g k data indices (f.nodeMaxBSizeFn size) f.waitActivityFn
          f.peerListFn with
      | none => none
      | some (node, k1) =>
        some (({ s with
          DataCache := data
          DataAllocdToNode := r.2
          NDataCacheFree := s.NDataCacheFree - dcSize }, node), k1)

/-- The assignment `s.NodeCache[i] = s.createNode()`: the new node object gets
the next identity. -/
def createNodeAt (sha256 : List (Fin 256) → Address) (fuel : Nat) (g : Rng F) (k : Nat)
    (s : Simulation F) (i : Nat) (f : NodeSetup F) : Option (Simulation F × Nat) :=
  match s.createNode sha256 fuel g k f with
  | none => none
  | some ((s1, node), k1) =>
    if i < s1.NodeCache.length then
      some ({ s1 with
        heap := s1.heap ++ [node]
        NodeCache := s1.NodeCache.set i (some s1.heap.length) }, k1)
    else none

/-- The loop of `NewSimulation` that creates the start nodes. -/
def startLoop (sha256 : List (Fin 256) → Address) (fuel : Nat) (g : Rng F) :
    List (Nat × NodeSetup F) → Simulation F → Nat → Option (Simulation F × Nat)
  | [], s, k => some (s, k)
  | (i, f) :: rest, s, k =>
    match s.createNodeAt sha256 fuel g k i f with
    | none => none
    | some (s1, k1) => startLoop sha256 fuel g rest s1 k1

/-- The method `Simulation.NewNodeJoins`: the first free node slot gets a new
node; without a free slot nothing happens. -/
def NewNodeJoins (sha256 : List (Fin 256) → Address) (fuel : Nat) (g : Rng F) (k : Nat)
    (s : Simulation F) (f : NodeSetup F) : Option (Simulation F × Nat) :=
  match s.NodeCache.indexOf? none with
  | none => some (s, k)
  | some i => s.createNodeAt sha256 fuel g k i f

/-- The method `Simulation.removeNode` for the node object `r`; a node that is
not in `NodeCache` gives `idxR = -1` and an index out of range. -/
def removeNode (s : Simulation F) (r : NodeId) : Option (Simulation F) :=
  match s.NodeCache.indexOf? (some r) with
  | none => none
  | some idxR =>
    match s.heap.get? r with
    | none => none
    | some node =>
      if node.DataIndices.all (fun dataIdx =>
          decide (dataIdx < s.DataCache.length ∧ dataIdx < s.DataAllocdToNode.length)) then
        some { s with
          DataCache := node.DataIndices.foldl (fun data dataIdx => data.set dataIdx none)
            s.DataCache
          DataAllocdToNode := node.DataIndices.foldl (fun t dataIdx => t.set dataIdx false)
            s.DataAllocdToNode
          NodeCache := s.NodeCache.set idxR none }
      else none

end Simulation

/-- The function `NewSimulation`, for `nMaxData ≥ 0` and `nMaxNode ≥ 0`; `fs`
holds the values of the closures for the start nodes, one entry for each of the
`nStartNodes` calls of `createNode`. -/
def NewSimulation (sha256 : List (Fin 256) → Address) (fuel : Nat) (g : Rng F) (k : Nat)
    (nStartNodes : Int) (nMaxData nMaxNode : Nat) (fs : Nat → NodeSetup F) :
    Option (Simulation F × Nat) :=
  let s : Simulation F :=
    { DataCache := List.replicate nMaxData none
      heap := []
      DataAllocdToNode := List.replicate nMaxData false
      NDataCacheFree := nMaxData
      NodeCache := List.replicate nMaxNode none }
  Simulation.startLoop sha256 fuel g
    ((List.range (min nStartNodes.toNat nMaxNode)).map fun i => (i, fs i)) s k

/-- The embedded list of the peer list of `ownerX`: the peer 1, stored at
`(0.6, 0.8, 0)`. -/
def peersX : basePeerList F :=
  { uniqueIdx := Function.update (fun _ => none) 1 (some 0)
    peers := [1]
    peerLocations := [⟨0.6, 0.8, 0⟩]
    maxPeers := 1 }

/-- The values of the closures for a node that takes `dcSize` slots and creates
no data. -/
def setupX (dcSize : Int) (pl : PeerList F) : NodeSetup F :=
  { allocateNDataToNodeFn := fun _ => dcSize
    nodeInitDataFn := fun _ => 0
    createDataFn := fun _ => []
    nodeMaxBSizeFn := fun _ => 0
    waitActivityFn := 0
    peerListFn := pl }

/-! ## The conditions of the specification for the non-smooth phase -/

/-- Following the specification of Phase A: the summand
`c_j · (a_t − a_j/(a_t·a_j)) / ||a_t − a_j/(a_t·a_j)||` of the non-smooth
optimality condition, for `p = a_t`, `e = a_j` and `cj = c_j`. -/
def specOptimalityTerm (p e : V F) (cj : F) : V F :=
  ((p.Sub (e.DivScalar (p.Dot e))).MulScalar cj).DivScalar (p.Sub (e.DivScalar (p.Dot e))).Norm

/-- Following the specification of Phase A: the summand for `p = a_t` and
`e = a_j` is defined, that is, neither `a_t · a_j` nor
`||a_t − a_j/(a_t·a_j)||` is zero. -/
def specOptimalityDefined (p e : V F) : Prop :=
  p.Dot e ≠ 0 ∧ (p.Sub (e.DivScalar (p.Dot e))).Norm ≠ 0

/-- Following the specification of Phase A: the index `t` is one whose
`f(a_t)` is `≥` every `f(a_j)`, and it meets the non-smooth optimality
condition. -/
def specPhaseAAccepts (a : List (V F)) (c : List F) (tol : F) (t : Nat) : Prop :=
  t < a.length ∧
  (∀ j, j < a.length → (geodesicDistancesFromI t a c).1 ≥ (geodesicDistancesFromI j a c).1) ∧
  optimalityConditionFromI t a c tol = true

/-- The results of the smooth runs that the loop of the Monte Carlo wrapper
makes for the indices `is` from the cursor `k`, in order: the run for `i = 0`
starts at `x0` with `alpha0`, every other run at a new random vector. -/
def monteCarloRuns (g : Rng F) (locs : List (V F)) (c : List F) (smoothTolerance : F) (x0 : V F)
    (alpha0 : F) : List Nat → Nat → List (V F × F × F × Int)
  | [], _ => []
  | i :: rest, k =>
    if i = 0 then
      solveNonEuclideanMultifacilityLocationSmooth locs c smoothTolerance x0 alpha0
        :: monteCarloRuns g locs c smoothTolerance x0 alpha0 rest k
    else
      solveNonEuclideanMultifacilityLocationSmooth locs c smoothTolerance (RandomVector g k).1
          0.001
        :: monteCarloRuns g locs c smoothTolerance x0 alpha0 rest (RandomVector g k).2

/-- The invariant of the loop of the Monte Carlo wrapper: the state `st` is the
sentinel exactly when every run so far (`prev`) returned the sentinel, and
otherwise it holds the point and the `F` value of a run that did not, with the
least `F` value among those. -/
def monteCarloInv (st : V F × F × F × Int) (prev : List (V F × F × F × Int)) : Prop :=
  (st.1.Equals noAnswer = true ↔ ∀ s ∈ prev, s.1.Equals noAnswer = true) ∧
  (st.1.Equals noAnswer = false → ∃ s ∈ prev, s.1.Equals noAnswer = false ∧
    st.1 = s.1 ∧ st.2.1 = s.2.1 ∧
    ∀ s1 ∈ prev, s1.1.Equals noAnswer = false → s.2.1 ≤ s1.2.1)

/-! ## The state machine, as a function -/

/-- The state that `ApplyState` stores in `NextS` for a node in the state `S`,
one of the four states: `active` is the outcome of the test
`rand.Float64() < n.WaitActivity`, which is only made in `StateWait`. -/
def nextStateOf (S : State) (active : Bool) : State :=
  if S.id = StateWait then
    if active then
      if S.lastState = StateExchangeData then ⟨StateAskPeer, StateWait⟩
      else ⟨StateExchangeData, StateWait⟩
    else ⟨StateWait, StateWait⟩
  else ⟨StateWait, S.id⟩

/-- The state `S.id` is one of the four states of the state machine. -/
def State.known (S : State) : Prop :=
  S.id = StateJoin ∨ S.id = StateWait ∨ S.id = StateExchangeData ∨ S.id = StateAskPeer

/-- The world `w1` has the same nodes as `w` with the same `S`, `NextS` and
`WaitActivity`. -/
def World.sameStates (w w1 : World F) : Prop :=
  w1.heap.length = w.heap.length ∧
  ∀ i nd, w.heap.get? i = some nd →
    ∃ nd1, w1.heap.get? i = some nd1 ∧ nd1.S = nd.S ∧ nd1.NextS = nd.NextS ∧
      nd1.WaitActivity = nd.WaitActivity

/-- The ticks `i, i + 1, ..., i + n - 1` of the simulation, without the tockers
in between. -/
def Simulation.ticks (fuel : Nat) (g : Rng F) : Nat → Nat → Simulation F → Option (Simulation F × Nat)
  | 0, k, s => some (s, k)
  | n + 1, k, s =>
    match s.tick fuel g k with
    | none => none
    | some (s1, k1) => Simulation.ticks fuel g n k1 s1

/-- A node without data and without peers in the state ExchangeData, with
`WaitActivity = 0.5`. -/
def waiterX : Node F :=
  { Location := ⟨1, 0, 0⟩
    S := ⟨StateExchangeData, StateWait⟩
    NextS := ⟨StateExchangeData, StateWait⟩
    CurrentBSize := 0
    MaxBSize := 0
    WaitActivity := 0.5
    DataIndices := []
    peers := NewMaximizePeerSpread 1
    fx := 0
    fxsq := 0
    nfx := 0 }

/-- A simulation whose only node is `waiterX`. -/
def simW : Simulation F :=
  { DataCache := []
    heap := [waiterX]
    DataAllocdToNode := []
    NDataCacheFree := 0
    NodeCache := [some 0] }

/-- A random source whose first `rand.Float64()` is 0.9 and whose other draws
are 0. -/
def idleThenActive : Rng F := ⟨fun k => if k = 0 then 0.9 else 0, fun _ => 0⟩

/-- A random source whose `rand.Intn` draws are 0, except for the draw number
9, which is 2. -/
def rngX : Rng F := ⟨fun _ => 0, fun k => if k = 9 then 2 else 0⟩

/-- The values of the closures for a node without data slots whose
`WaitActivity` is 1: it is active at every draw below 1. -/
def setupActive (pl : PeerList F) : NodeSetup F :=
  { allocateNDataToNodeFn := fun _ => 0
    nodeInitDataFn := fun _ => 0
    createDataFn := fun _ => []
    nodeMaxBSizeFn := fun _ => 0
    waitActivityFn := 1
    peerListFn := pl }

/-! ## The sums of the specification for the max-spread policy -/

/-- Following the specification of the max-spread policy: `S_i`, the sum of
the great circle distances from the existing peer `i` to the other existing
peers. -/
def specSpreadS (locs : List (V F)) (i : Nat) : F :=
  ((List.range locs.length).filter fun j => j ≠ i).foldl
    (fun acc j => acc + (locs.getD i default).GreatCircleDistance (locs.getD j default)) 0

/-- Following the specification of the max-spread policy: `T_i`, the sum of
the great circle distances from the candidate at `oLoc` to the existing peers
other than `i`. -/
def specSpreadT (locs : List (V F)) (oLoc : V F) (i : Nat) : F :=
  ((List.range locs.length).filter fun j => j ≠ i).foldl
    (fun acc j => acc + oLoc.GreatCircleDistance (locs.getD j default)) 0

/-- Following the specification of the max-spread policy: the sum of the
pairwise great circle distances of three locations. -/
def specPairwiseSum3 (x y z : V F) : F :=
  x.GreatCircleDistance y + x.GreatCircleDistance z + y.GreatCircleDistance z

/-- A max-spread list of capacity 3 that holds the peers 1, 2 and 3, stored
at the three axis points. -/
def axesX : basePeerList F :=
  { uniqueIdx := Function.update (Function.update (Function.update (fun _ => none) 1
      (some 0)) 2 (some 1)) 3 (some 2)
    peers := [1, 2, 3]
    peerLocations := [⟨1, 0, 0⟩, ⟨0, 1, 0⟩, ⟨0, 0, 1⟩]
    maxPeers := 3 }

/-! ## vec.go: the projections -/

/-- The method `V.Project`: the stereographic projection from the north
pole. -/
def V.Project (v : V F) : F × F := (v.X / (1 - v.Z), v.Y / (1 - v.Z))

/-- The method `V.ProjectGSD`. -/
def V.ProjectGSD (v : V F) : F × F :=
  let scaled : V F :=
    (V.Unit ⟨v.Project.1, v.Project.2, 0⟩).MulScalar (v.GreatCircleDistance ⟨0, 0, 1⟩)
  if v.X = 0 ∧ v.Y = 0 then
    if v.Z = 1 then (0, 0)
    else if v.Z = -1 then (0, FloatFns.pi)
    else (scaled.X, scaled.Y)
  else (scaled.X, scaled.Y)

/-! ## The reference definitions of the specification -/

/-- Following the specification: the unit-normalised quaternion, every
component divided by the norm. The zero quaternion has none. -/
def specUnitQ (q : Q F) : Option (Q F) :=
  if q.Norm = 0 then none
  else some ⟨q.I / q.Norm, q.J / q.Norm, q.K / q.Norm, q.R / q.Norm⟩

/-- Following the specification of `AddressToPosition`: `v` is rotated, for
each complete group of four bytes in order, by the unit-normalised quaternion
with `I`, `J`, `K`, `R` the four bytes, and then, for 1 to 3 bytes left over,
once more by the quaternion as it is, with the bytes left over in `I`, `J`,
`K` in order and the other components zero. It is `none` when a complete group
has no unit-normalised quaternion. -/
def specAddressRotations : List (Fin 256) → V F → Option (V F)
  | b0 :: b1 :: b2 :: b3 :: rest, v =>
    match specUnitQ (⟨(b0.val : F), (b1.val : F), (b2.val : F), (b3.val : F)⟩ : Q F) with
    | none => none
    | some u => specAddressRotations rest (u.Rotate v)
  | [b0, b1, b2], v => some ((⟨(b0.val : F), (b1.val : F), (b2.val : F), 0⟩ : Q F).Rotate v)
  | [b0, b1], v => some ((⟨(b0.val : F), (b1.val : F), 0, 0⟩ : Q F).Rotate v)
  | [b0], v => some ((⟨(b0.val : F), 0, 0, 0⟩ : Q F).Rotate v)
  | [], v => some v

/-- Following the specification: the reference definition of
`AddressToPosition`, from `v = (1, 0, 0)`. -/
def specAddressToPosition (a : Address) : Option (V F) := specAddressRotations a ⟨1, 0, 0⟩

/-- Following the specification: every aligned group of four bytes of the
address has a byte that is not zero. -/
def specGroupsNonzero (a : Address) : Prop :=
  ∀ i, 4 * i + 3 < a.length →
    a.getD (4 * i) 0 ≠ 0 ∨ a.getD (4 * i + 1) 0 ≠ 0 ∨ a.getD (4 * i + 2) 0 ≠ 0 ∨
      a.getD (4 * i + 3) 0 ≠ 0

/-- Following the specification of the max-spread policy: the total of the
pairwise great circle distances among the stored locations, over the pairs
`j < i`. -/
def specPairwiseTotal (locs : List (V F)) : F :=
  (List.range locs.length).foldl (fun acc i =>
    (List.range i).foldl (fun acc2 j =>
      acc2 + (locs.getD j default).GreatCircleDistance (locs.getD i default)) acc) 0

/-- Following the specification: `F(x) = Σ_j c_j · gcd(x, a_j)`. -/
def specF (x : V F) (a : List (V F)) (c : List F) : F :=
  (List.range a.length).foldl (fun acc j =>
    acc + c.getD j 0 * x.GreatCircleDistance (a.getD j default)) 0

/-- The existing locations of `TestThreeOrthogonalPoints`. -/
def threeOrthogonalPoints : List (V F) := [⟨0, -1, 0⟩, ⟨0, 0, 1⟩, ⟨1, 0, 0⟩]

/-- The value that `TestThreeOrthogonalPoints` expects. -/
def threeOrthogonalExpected : V F :=
  ⟨0.5773042039196745, -0.5774028380579979, 0.5773437613235639⟩

/-- The function `fWithinTolerance` of `nemfl_test.go`. -/
def fWithinTolerance (actual expected tolerance : F) : Bool :=
  decide (actual < expected + tolerance) && decide (actual > expected - tolerance)

/-- The function `vWithinTolerance` of `nemfl_test.go`. -/
def vWithinTolerance (actual expected : V F) (tolerance : F) : Bool :=
  fWithinTolerance actual.X expected.X tolerance &&
    fWithinTolerance actual.Y expected.Y tolerance &&
    fWithinTolerance actual.Z expected.Z tolerance

/-- A random source that repeats three `rand.Float64()` draws: `s = p²`,
`0` (so that `t1 = 0`) and `(π - atan (e / c)) / (2π)` (so that `cos t2 = -c`
and `sin t2 = e`), where `(p, q)` and `(c, e)` are the points of the unit
circle with the rational parameters `m` and `n`:
`p = (1 - m²)/(1 + m²)`, `q = 2m/(1 + m²)`, `c = (1 - n²)/(1 + n²)`,
`e = 2n/(1 + n²)`. -/
def nearRng (m n : F) : Rng F :=
  ⟨fun k =>
    if k % 3 = 0 then (1 - m * m) / (1 + m * m) * ((1 - m * m) / (1 + m * m))
    else if k % 3 = 1 then 0
    else (FloatFns.pi - FloatFns.atan (2 * n / (1 - n * n))) / (2 * FloatFns.pi),
    fun _ => 0⟩

/-- The candidate that `RandomVector` gives for the draws of `nearRng m n`:
`(p²(c² - e²) - q², -2p²ce, 2pqc)`. -/
def nearVector (m n : F) : V F :=
  let p := (1 - m * m) / (1 + m * m)
  let q := 2 * m / (1 + m * m)
  let c := (1 - n * n) / (1 + n * n)
  let e := 2 * n / (1 + n * n)
  ⟨p * p * (c * c - e * e) - q * q, -(2 * p * p * c * e), 2 * p * q * c⟩

/-- Two existing locations for a run of the smooth descent: `(1, 0, 0)` and
`(0.28, 0.96, 0)`. -/
def locsY : List (V F) := [⟨1, 0, 0⟩, ⟨0.28, 0.96, 0⟩]

/-- The weights of `locsY`: 1 and 2. -/
def weightsY : List F := [1, 2]

/-- The start of the run of the smooth descent on `locsY`: `(0, 1, 0)`. -/
def startY : V F := ⟨0, 1, 0⟩

/-- The first trial point of the inner loop of the smooth descent from
`startY`: `(x + α d) / ||x + α d||` with `d = dx(x)` and `α = alphax(x)`. -/
def stepY : V F :=
  let d := dx startY locsY weightsY
  let alpha := alphax startY locsY weightsY
  (startY.Add (d.MulScalar alpha)).DivScalar (startY.Add (d.MulScalar alpha)).Norm

/-- A random source whose `rand.Float64()` draws repeat `0`, `0.125`, `0`: every
`RandomVector` it gives is `(0, 1, 0)`. -/
def eighthRng : Rng F := ⟨fun k => if k % 3 = 1 then 0.125 else 0, fun _ => 0⟩

/-- The slots of `worldZ`: the owner holds slots 0 and 1, the peer the free slot 2. -/
def slotsZ : List (Option (Data F)) := [some datumX, some datumY, none]

/-- A peer in state Wait with no data, at `(0.6, 0.8, 0)`, with a capacity of 5
bytes, one free slot (slot 2) and an empty peer list of capacity 1. -/
def peerZ : Node F :=
  { Location := ⟨0.6, 0.8, 0⟩
    S := ⟨StateWait, StateJoin⟩
    NextS := ⟨StateWait, StateWait⟩
    CurrentBSize := 0
    MaxBSize := 5
    WaitActivity := 1
    DataIndices := [2]
    peers := NewMaximizePeerSpread 1
    fx := 0
    fxsq := 0
    nfx := 0 }

/-- The owner `ownerX` as node 0 and the peer `peerZ` as node 1, over the
slots `slotsZ`. -/
def worldZ : World F := { DataCache := slotsZ, heap := [ownerX, peerZ] }

/-- The world `worldZ` after `exchangeData` of the owner: the datum of slot 1
is in slot 2, both nodes have recomputed their location and size, and the peer
has learnt the owner. -/
def worldZ1 : World F :=
  { DataCache := [some datumX, none, some datumY]
    heap :=
      [{ (ownerX : Node F) with CurrentBSize := 5, fx := 0, fxsq := 0, nfx := 1 },
       { (peerZ : Node F) with
          CurrentBSize := 5
          nfx := 1
          peers := .maximizePeerSpread
            { uniqueIdx := Function.update (fun _ => none) 0 (some 0)
              peers := [0]
              peerLocations := [⟨1, 0, 0⟩]
              maxPeers := 1 } }] }

/-! ## Theorems -/

set_option linter.unusedSectionVars false

@[simp] theorem sqrt_real (x : ℝ) : FloatFns.sqrt x = Real.sqrt x := rfl

@[simp] theorem atan_real (x : ℝ) : FloatFns.atan x = Real.arctan x := rfl

@[simp] theorem sin_real (x : ℝ) : FloatFns.sin x = Real.sin x := rfl

@[simp] theorem cos_real (x : ℝ) : FloatFns.cos x = Real.cos x := rfl

@[simp] theorem pi_real : (FloatFns.pi : ℝ) = Real.pi := rfl

/-! ### Great circle distance -/

set_option maxHeartbeats 4000000 in
/-- Unit vectors over the reals: the norm of `v` is 1 exactly when the sum of the
squares of its components is 1; the cross product of two unit vectors has the
norm `√(1 - (v·w)²)`; and their great circle distance is `arccos (v·w)`. -/
theorem V.unit_facts :
    (∀ (v : V ℝ),
        (v.Norm = 1 ↔ v.X * v.X + v.Y * v.Y + v.Z * v.Z = 1)) ∧
    (∀ (v w : V ℝ), v.Norm = 1 → w.Norm = 1 →
        (v.Cross w).Norm = Real.sqrt (1 - (v.Dot w) ^ 2)) ∧
    (∀ (v w : V ℝ), v.Norm = 1 → w.Norm = 1 →
        v.GreatCircleDistance w = Real.arccos (v.Dot w)) := by
  have h_V_norm_eq_one_iff : ∀ (v : V ℝ),
        (v.Norm = 1 ↔ v.X * v.X + v.Y * v.Y + v.Z * v.Z = 1) := by
    intro v
    simp only [V.Norm, sqrt_real]
    exact Real.sqrt_eq_one
  have h_V_cross_norm_of_unit : ∀ (v w : V ℝ), v.Norm = 1 → w.Norm = 1 →
        (v.Cross w).Norm = Real.sqrt (1 - (v.Dot w) ^ 2) := by
    intro v w hv hw
    rw [h_V_norm_eq_one_iff] at hv hw
    simp only [V.Norm, sqrt_real]
    congr 1
    simp only [V.Cross, V.Dot]
    have h : (v.X * v.X + v.Y * v.Y + v.Z * v.Z) * (w.X * w.X + w.Y * w.Y + w.Z * w.Z) = 1 := by
      rw [hv, hw]; norm_num
    linear_combination h
  have h_V_greatCircleDistance_eq_arccos : ∀ (v w : V ℝ), v.Norm = 1 → w.Norm = 1 →
        v.GreatCircleDistance w = Real.arccos (v.Dot w) := by
    intro v w hv hw
    simp only [V.GreatCircleDistance, atan_real, pi_real]
    rw [h_V_cross_norm_of_unit v w hv hw]
    by_cases h0 : v.Dot w = 0
    · simp [h0]
    · rw [if_neg h0]
      by_cases hneg : v.Dot w < 0
      · rw [if_pos hneg]
        have hpos : 0 < -(v.Dot w) := by linarith
        have h1 := Real.arccos_eq_arctan hpos
        have h2 : Real.arccos (v.Dot w) = Real.pi - Real.arccos (-(v.Dot w)) := by
          have := Real.arccos_neg (-(v.Dot w))
          rw [neg_neg] at this
          exact this
        rw [h2, h1]
        have h3 : √(1 - (-v.Dot w) ^ 2) / -v.Dot w = -(√(1 - v.Dot w ^ 2) / v.Dot w) := by
          rw [neg_sq, div_neg]
        rw [h3, Real.arctan_neg]
        ring
      · rw [if_neg hneg]
        have hpos : 0 < v.Dot w := lt_of_le_of_ne (not_lt.mp hneg) (Ne.symm h0)
        exact (Real.arccos_eq_arctan hpos).symm
  exact ⟨h_V_norm_eq_one_iff, h_V_cross_norm_of_unit, h_V_greatCircleDistance_eq_arccos⟩

theorem V.dot_comm (v w : V ℝ) : v.Dot w = w.Dot v := by
  simp only [V.Dot]; ring

/-- C2. For unit vectors `v` and `w`, `v.GreatCircleDistance(w)` is
`arccos (v · w)`, the angle between them; hence it is symmetric in `v` and `w`,
non-negative and at most `π`. -/
theorem greatCircleDistance_unit (v w : V ℝ) (hv : v.Norm = 1) (hw : w.Norm = 1) :
    v.GreatCircleDistance w = Real.arccos (v.Dot w) ∧
    v.GreatCircleDistance w = w.GreatCircleDistance v ∧
    0 ≤ v.GreatCircleDistance w ∧ v.GreatCircleDistance w ≤ Real.pi := by
  have h := V.unit_facts.2.2 v w hv hw
  refine ⟨h, ?_, ?_, ?_⟩
  · rw [h, V.unit_facts.2.2 w v hw hv, V.dot_comm]
  · rw [h]; exact Real.arccos_nonneg _
  · rw [h]; exact Real.arccos_le_pi _

/-- Witness for C2 at `v = (1, 0, 0)` and `w = (0, 1, 0)`. -/
theorem greatCircleDistance_unit_witness :
    (⟨1, 0, 0⟩ : V ℝ).Norm = 1 ∧ (⟨0, 1, 0⟩ : V ℝ).Norm = 1 ∧
    (⟨1, 0, 0⟩ : V ℝ).GreatCircleDistance ⟨0, 1, 0⟩ = Real.arccos ((⟨1, 0, 0⟩ : V ℝ).Dot ⟨0, 1, 0⟩) :=
  ⟨by simp [V.Norm], by simp [V.Norm],
    (greatCircleDistance_unit ⟨1, 0, 0⟩ ⟨0, 1, 0⟩ (by simp [V.Norm]) (by simp [V.Norm])).1⟩

/-! ### Content addressing -/

set_option maxHeartbeats 4000000 in
/-- The norm along `AddressToPosition`: rotation by `q` scales the norm by `|q|²`;
a quaternion that is not zero is normalised by `Q.Unit`; four bytes that are
not all zero have a non-zero sum of squares and a non-zero norm; on an address
of complete non-zero groups the loop returns with no pending group and keeps
the norm; and the result is then a unit vector. -/
theorem address_unit_facts :
    (∀ (q : Q ℝ) (v : V ℝ),
        (q.Rotate v).Norm = (q.R * q.R + q.I * q.I + q.J * q.J + q.K * q.K) * v.Norm) ∧
    (∀ (q : Q ℝ), q.R * q.R + q.I * q.I + q.J * q.J + q.K * q.K ≠ 0 →
        q.Unit.R * q.Unit.R + q.Unit.I * q.Unit.I + q.Unit.J * q.Unit.J + q.Unit.K * q.Unit.K
              = 1) ∧
    (∀ (i j k r : Fin 256), i ≠ 0 ∨ j ≠ 0 ∨ k ≠ 0 ∨ r ≠ 0 →
        ((r.val : ℝ) * (r.val : ℝ) + (i.val : ℝ) * (i.val : ℝ) + (j.val : ℝ) * (j.val : ℝ)
              + (k.val : ℝ) * (k.val : ℝ)) ≠ 0) ∧
    (∀ (i j k r : Fin 256), i ≠ 0 ∨ j ≠ 0 ∨ k ≠ 0 ∨ r ≠ 0 →
        (⟨(i.val : ℝ), (j.val : ℝ), (k.val : ℝ), (r.val : ℝ)⟩ : Q ℝ).Norm ≠ 0) ∧
    (∀ (a : List (Fin 256)), completeNonzeroGroups a → ∀ (v : V ℝ),
        ∃ r, addressLoop a v ⟨0, 0, 0, 0⟩ 0 = some r ∧ r.2.2 = 0 ∧ r.1.Norm = v.Norm) ∧
    (∀ (a : Address), completeNonzeroGroups a →
        ∃ p, (AddressToPosition a : Option (V ℝ)) = some p ∧ p.Norm = 1) := by
  -- Rotation by `q` scales the norm by `|q|²`.
  have h_Q_rotate_norm : ∀ (q : Q ℝ) (v : V ℝ),
        (q.Rotate v).Norm = (q.R * q.R + q.I * q.I + q.J * q.J + q.K * q.K) * v.Norm := by
    intro q v
    have hN : 0 ≤ q.R * q.R + q.I * q.I + q.J * q.J + q.K * q.K := by
      nlinarith [mul_self_nonneg q.R, mul_self_nonneg q.I, mul_self_nonneg q.J, mul_self_nonneg q.K]
    simp only [V.Norm, sqrt_real]
    rw [← Real.sqrt_mul_self hN, ← Real.sqrt_mul (mul_self_nonneg _)]
    congr 1
    simp only [Q.Rotate, Q.Mul, Q.Conj]
    ring
  -- A quaternion that is not zero is normalised by `Q.Unit`.
  have h_Q_unit_sq : ∀ (q : Q ℝ), q.R * q.R + q.I * q.I + q.J * q.J + q.K * q.K ≠ 0 →
        q.Unit.R * q.Unit.R + q.Unit.I * q.Unit.I + q.Unit.J * q.Unit.J + q.Unit.K * q.Unit.K
              = 1 := by
    intro q h
    have hN : 0 ≤ q.R * q.R + q.I * q.I + q.J * q.J + q.K * q.K := by
      nlinarith [mul_self_nonneg q.R, mul_self_nonneg q.I, mul_self_nonneg q.J, mul_self_nonneg q.K]
    have hs : q.Norm * q.Norm = q.R * q.R + q.I * q.I + q.J * q.J + q.K * q.K := by
      simp only [Q.Norm, sqrt_real]
      exact Real.mul_self_sqrt hN
    have hn : q.Norm ≠ 0 := by
      intro h0
      rw [h0] at hs
      exact h (by linarith)
    simp only [Q.Unit, Q.DivScalar, Q.Div]
    field_simp
    nlinarith [hs]
  have h_byte_sq_sum_ne_zero : ∀ (i j k r : Fin 256), i ≠ 0 ∨ j ≠ 0 ∨ k ≠ 0 ∨ r ≠ 0 →
        ((r.val : ℝ) * (r.val : ℝ) + (i.val : ℝ) * (i.val : ℝ) + (j.val : ℝ) * (j.val : ℝ)
              + (k.val : ℝ) * (k.val : ℝ)) ≠ 0 := by
    intro i j k r h
    intro h0
    have hi := mul_self_nonneg (i.val : ℝ)
    have hj := mul_self_nonneg (j.val : ℝ)
    have hk := mul_self_nonneg (k.val : ℝ)
    have hr := mul_self_nonneg (r.val : ℝ)
    have zi : (i.val : ℝ) = 0 := mul_self_eq_zero.mp (by linarith)
    have zj : (j.val : ℝ) = 0 := mul_self_eq_zero.mp (by linarith)
    have zk : (k.val : ℝ) = 0 := mul_self_eq_zero.mp (by linarith)
    have zr : (r.val : ℝ) = 0 := mul_self_eq_zero.mp (by linarith)
    have e : ∀ b : Fin 256, (b.val : ℝ) = 0 → b = 0 := by
      intro b hb
      apply Fin.ext
      exact_mod_cast hb
    rcases h with h | h | h | h
    · exact h (e i zi)
    · exact h (e j zj)
    · exact h (e k zk)
    · exact h (e r zr)
  -- The norm of a quaternion of four bytes that are not all zero is not zero.
  have h_byte_norm_ne_zero : ∀ (i j k r : Fin 256), i ≠ 0 ∨ j ≠ 0 ∨ k ≠ 0 ∨ r ≠ 0 →
        (⟨(i.val : ℝ), (j.val : ℝ), (k.val : ℝ), (r.val : ℝ)⟩ : Q ℝ).Norm ≠ 0 := by
    intro i j k r h
    have h0 := h_byte_sq_sum_ne_zero i j k r h
    have hN : 0 ≤ (r.val : ℝ) * (r.val : ℝ) + (i.val : ℝ) * (i.val : ℝ)
        + (j.val : ℝ) * (j.val : ℝ) + (k.val : ℝ) * (k.val : ℝ) := by
      nlinarith [mul_self_nonneg (r.val : ℝ), mul_self_nonneg (i.val : ℝ),
        mul_self_nonneg (j.val : ℝ), mul_self_nonneg (k.val : ℝ)]
    simp only [Q.Norm, sqrt_real, ne_eq, Real.sqrt_eq_zero']
    intro hle
    exact h0 (le_antisymm hle hN)
  -- On an address of complete non-zero groups the loop of `AddressToPosition` returns, with
  -- `idx = 0`, and keeps the norm of `v`.
  have h_addressLoop_complete : ∀ (a : List (Fin 256)), completeNonzeroGroups a → ∀ (v : V ℝ),
        ∃ r, addressLoop a v ⟨0, 0, 0, 0⟩ 0 = some r ∧ r.2.2 = 0 ∧ r.1.Norm = v.Norm := by
    intro a h v
    induction a using completeNonzeroGroups.induct generalizing v with
    | case1 => exact ⟨_, rfl, rfl, rfl⟩
    | case2 => simp [completeNonzeroGroups] at h
    | case3 => simp [completeNonzeroGroups] at h
    | case4 => simp [completeNonzeroGroups] at h
    | case5 i j k r rest ih =>
      obtain ⟨hne, hrest⟩ := h
      obtain ⟨r1, h0, h1, h2⟩ := ih hrest (v.Rotate (Q.Unit ⟨i.val, j.val, k.val, r.val⟩))
      refine ⟨r1, ?_, h1, ?_⟩
      · simp only [addressLoop, if_neg (h_byte_norm_ne_zero i j k r hne)]
        exact h0
      · rw [h2, V.Rotate, h_Q_rotate_norm, h_Q_unit_sq _ (h_byte_sq_sum_ne_zero i j k r hne), one_mul]
  have h_addressToPosition_unit_of_complete : ∀ (a : Address), completeNonzeroGroups a →
        ∃ p, (AddressToPosition a : Option (V ℝ)) = some p ∧ p.Norm = 1 := by
    intro a h
    obtain ⟨r, h0, h1, h2⟩ := h_addressLoop_complete a h ⟨1, 0, 0⟩
    refine ⟨r.1, ?_, ?_⟩
    · unfold AddressToPosition
      simp only [h0, Option.map_some', h1, ne_eq, not_true_eq_false, if_false]
    · rw [h2]
      simp [V.Norm]
  exact ⟨h_Q_rotate_norm, h_Q_unit_sq, h_byte_sq_sum_ne_zero, h_byte_norm_ne_zero,
    h_addressLoop_complete, h_addressToPosition_unit_of_complete⟩

/-- C3, the code at the failing input. The one-byte address `[2]` is rotated by
the partial quaternion `I = 2` as it is, without `Unit()`: the result is
`(4, 0, 0)`, of norm 4 and not 1. -/
theorem addressToPosition_partial_group :
    (AddressToPosition [2] : Option (V ℝ)) = some ⟨4, 0, 0⟩ ∧
    (⟨4, 0, 0⟩ : V ℝ).Norm = 4 ∧ (⟨4, 0, 0⟩ : V ℝ).Norm ≠ 1 := by
  have hn : (⟨4, 0, 0⟩ : V ℝ).Norm = 4 := by
    simp only [V.Norm, sqrt_real]
    rw [show (4 : ℝ) * 4 + 0 * 0 + 0 * 0 = 4 * 4 by norm_num]
    exact Real.sqrt_mul_self (by norm_num)
  refine ⟨?_, hn, ?_⟩
  · simp [AddressToPosition, addressLoop, V.Rotate, Q.Rotate, Q.Mul, Q.Conj]
    norm_num
  · rw [hn]
    norm_num

/-! ### A single existing location -/

set_option maxHeartbeats 4000000 in
/-- A single unit location `a` with a positive weight: the great circle distance
from a unit vector to itself is 0; a unit vector is not the sentinel; `F(a) =
0`; and the non-smooth phase, the solver and the Monte Carlo wrapper return
`a` without a draw. -/
theorem single_point_facts :
    (∀ (a : V ℝ), a.Norm = 1 →
        a.GreatCircleDistance a = 0) ∧
    (∀ (a : V ℝ), a.Norm = 1 →
        a.Equals noAnswer = false) ∧
    (∀ (a : V ℝ) (c : ℝ), a.Norm = 1 →
        geodesicDistances a [a] [c] = (0, 0)) ∧
    (∀ (fuel : Nat) (g : Rng ℝ) (k : Nat) (a : V ℝ) (c tol : ℝ), 0 < c → 0 ≤ tol →
        solveNonEuclideanMultifacilityLocationNonSmooth fuel g k [a] [c] tol
              = some (⟨a, ⟨0, 0, 0⟩, 0, 0, 0, 1⟩, k)) ∧
    (∀ (fuel : Nat) (g : Rng ℝ) (k : Nat) (a : V ℝ) (c nsTol sTol : ℝ), a.Norm = 1 →
      0 < c → 0 ≤ nsTol →
        SolveNonEuclideanMultifacilityLocation fuel g k [a] [c] nsTol sTol
              = some ((a, none), k)) ∧
    (∀ (fuel : Nat) (g : Rng ℝ) (k : Nat) (a : V ℝ) (c nsTol sTol : ℝ) (nMC : Int),
      a.Norm = 1 → 0 < c → 0 ≤ nsTol →
        SolveNonEuclideanMultifacilityLocationMonteCarlo fuel g k [a] [c] nsTol sTol nMC
              = some ((a, 0, 0, 1, none), k)) := by
  have h_V_greatCircleDistance_self : ∀ (a : V ℝ), a.Norm = 1 →
        a.GreatCircleDistance a = 0 := by
    intro a ha
    rw [V.unit_facts.1] at ha
    have hd : a.Dot a = 1 := by simp only [V.Dot]; exact ha
    have hc : (a.Cross a).Norm = 0 := by
      simp only [V.Cross, V.Norm, sqrt_real]
      rw [Real.sqrt_eq_zero']
      nlinarith
    unfold V.GreatCircleDistance
    simp [hd, hc]
  have h_V_equals_noAnswer_of_unit : ∀ (a : V ℝ), a.Norm = 1 →
        a.Equals noAnswer = false := by
    intro a ha
    rw [V.unit_facts.1] at ha
    simp only [V.Equals, noAnswer, decide_eq_false_iff_not]
    rintro ⟨h1, h2, h3⟩
    rw [h1, h2, h3] at ha
    norm_num at ha
  have h_geodesicDistances_single : ∀ (a : V ℝ) (c : ℝ), a.Norm = 1 →
        geodesicDistances a [a] [c] = (0, 0) := by
    intro a c ha
    simp [geodesicDistances, List.enum, List.enumFrom, h_V_greatCircleDistance_self a ha]
  have h_nonSmooth_single : ∀ (fuel : Nat) (g : Rng ℝ) (k : Nat) (a : V ℝ) (c tol : ℝ), 0 < c → 0 ≤ tol →
        solveNonEuclideanMultifacilityLocationNonSmooth fuel g k [a] [c] tol
              = some (⟨a, ⟨0, 0, 0⟩, 0, 0, 0, 1⟩, k) := by
    intro fuel g k a c tol hc htol
    have hopt : optimalityConditionFromI 0 [a] [c] tol = true := by
      simp [optimalityConditionFromI, List.enum, List.enumFrom, V.Norm]
      linarith
    simp [solveNonEuclideanMultifacilityLocationNonSmooth, nonSmoothStep1, List.enum,
      List.enumFrom, isMinAt, hopt, geodesicDistancesFromI, List.range_succ]
  have h_solve_single : ∀ (fuel : Nat) (g : Rng ℝ) (k : Nat) (a : V ℝ) (c nsTol sTol : ℝ), a.Norm = 1 →
      0 < c → 0 ≤ nsTol →
        SolveNonEuclideanMultifacilityLocation fuel g k [a] [c] nsTol sTol
              = some ((a, none), k) := by
    intro fuel g k a c nsTol sTol ha hc hns
    simp [SolveNonEuclideanMultifacilityLocation, h_nonSmooth_single fuel g k a c nsTol hc hns,
      h_V_equals_noAnswer_of_unit a ha]
  have h_monteCarlo_single : ∀ (fuel : Nat) (g : Rng ℝ) (k : Nat) (a : V ℝ) (c nsTol sTol : ℝ) (nMC : Int),
      a.Norm = 1 → 0 < c → 0 ≤ nsTol →
        SolveNonEuclideanMultifacilityLocationMonteCarlo fuel g k [a] [c] nsTol sTol nMC
              = some ((a, 0, 0, 1, none), k) := by
    intro fuel g k a c nsTol sTol nMC ha hc hns
    simp [SolveNonEuclideanMultifacilityLocationMonteCarlo,
      h_nonSmooth_single fuel g k a c nsTol hc hns, h_V_equals_noAnswer_of_unit a ha]
  exact ⟨h_V_greatCircleDistance_self, h_V_equals_noAnswer_of_unit, h_geodesicDistances_single,
    h_nonSmooth_single, h_solve_single, h_monteCarlo_single⟩

/-- C1. For a single unit point `a` with weight `c > 0` and non-negative
tolerances: `F(a) = 0`, `SolveNonEuclideanMultifacilityLocation` returns
`(a, nil)`, and the Monte Carlo wrapper returns `(a, 0, 0, 1, nil)` for every
`K` (and every smooth tolerance); both return for every fuel and every random
source and leave the cursor of the random source where it was, so no draw is
made. -/
theorem single_point_solution (fuel : Nat) (g : Rng ℝ) (k : Nat) (a : V ℝ)
    (c nsTol sTol : ℝ) (nMC : Int) (ha : a.Norm = 1) (hc : 0 < c) (hns : 0 ≤ nsTol) :
    (geodesicDistances a [a] [c]).1 = 0 ∧
    SolveNonEuclideanMultifacilityLocation fuel g k [a] [c] nsTol sTol = some ((a, none), k) ∧
    SolveNonEuclideanMultifacilityLocationMonteCarlo fuel g k [a] [c] nsTol sTol nMC
      = some ((a, 0, 0, 1, none), k) := by
  refine ⟨?_, single_point_facts.2.2.2.2.1 fuel g k a c nsTol sTol ha hc hns,
    single_point_facts.2.2.2.2.2 fuel g k a c nsTol sTol nMC ha hc hns⟩
  rw [single_point_facts.2.2.1 a c ha]

/-- Witness for C1 at `a = (1, 0, 0)`, `c = 1`, tolerances `0.1` and `K = 2`,
with no fuel and the random source `zeroRng`. -/
theorem single_point_solution_witness :
    SolveNonEuclideanMultifacilityLocationMonteCarlo 0 (zeroRng : Rng ℝ) 0
      [⟨1, 0, 0⟩] [1] 0.1 0.1 2 = some ((⟨1, 0, 0⟩, 0, 0, 1, none), 0) :=
  (single_point_solution 0 zeroRng 0 ⟨1, 0, 0⟩ 1 0.1 0.1 2
    (by simp [V.Norm]) (by norm_num) (by norm_num)).2.2

/-! ### The solver returns unit vectors -/

/-- An invariant of the accumulator is kept by a left fold. -/
theorem foldl_invariant {α β : Type} (P : β → Prop) (F : β → α → β) (l : List α)
    (h : ∀ b a, a ∈ l → P b → P (F b a)) (b : β) (hb : P b) : P (l.foldl F b) := by
  induction l generalizing b with
  | nil => exact hb
  | cons a l ih =>
    simp only [List.foldl_cons]
    exact ih (fun b' a' ha' => h b' a' (List.mem_cons_of_mem _ ha')) _
      (h b a (List.mem_cons_self _ _) hb)

theorem V.equals_iff (v o : V ℝ) : v.Equals o = true ↔ v = o := by
  cases v; cases o
  simp [V.Equals]

set_option maxHeartbeats 4000000 in
/-- The norm through the solver, for unit locations: random quaternions and random
vectors are unit for draws in `[0, 1)`; the offset of `stp` and the descent
direction `dx` are orthogonal to the unit point; normalising `xk + α dk` gives
a unit vector; the points of the inner loop, of the smooth loop and of the
Monte Carlo loop are unit vectors or the sentinel; the non-smooth phase
returns an existing location, or the sentinel with a unit start; and a result
of the wrapper without error is a unit vector. -/
theorem unit_norm_facts :
    (∀ (g : Rng ℝ), g.Valid → ∀ (k : Nat),
        (RandomQuaternion g k).1.R * (RandomQuaternion g k).1.R
              + (RandomQuaternion g k).1.I * (RandomQuaternion g k).1.I
              + (RandomQuaternion g k).1.J * (RandomQuaternion g k).1.J
              + (RandomQuaternion g k).1.K * (RandomQuaternion g k).1.K = 1) ∧
    (∀ (g : Rng ℝ), g.Valid → ∀ (k : Nat),
        (RandomVector g k).1.Norm = 1) ∧
    (∀ (a x : V ℝ), a.Norm = 1 → x.Norm = 1 → 1 + a.Dot x = 0 →
        a = x.MulScalar (-1)) ∧
    (∀ (p x : V ℝ) (dist : ℝ),
        (x.Sub ((p.Unit.MulScalar dist).Add x)).Dot x = -(dist / p.Norm) * p.Dot x) ∧
    (∀ (aj x : V ℝ), aj.Norm = 1 → x.Norm = 1 → aj.Equals (x.MulScalar (-1)) = false →
        (x.Sub (stp aj x)).Dot x = 0) ∧
    (∀ (xk : V ℝ) (a : List (V ℝ)) (c : List ℝ), xk.Norm = 1 → (∀ e ∈ a, e.Norm = 1) →
        (dx xk a c).Dot xk = 0) ∧
    (∀ (xk dk : V ℝ) (alphak : ℝ), xk.Norm = 1 → dk.Dot xk = 0 →
        ((xk.Add (dk.MulScalar alphak)).DivScalar (xk.Add (dk.MulScalar alphak)).Norm).Norm = 1) ∧
    (∀ (locs : List (V ℝ)) (c : List ℝ) (xk dk : V ℝ) (fxk : ℝ), xk.Norm = 1 →
      dk.Dot xk = 0 → ∀ (n alphaIter : Nat) (alphak prevFxn : ℝ) (xn : V ℝ) (a1 : ℝ),
      armijoLoop locs c xk dk fxk n alphaIter alphak prevFxn = .accepted xn a1 →
        xn.Norm = 1) ∧
    (∀ (locs : List (V ℝ)) (c : List ℝ) (tol : ℝ), (∀ e ∈ locs, e.Norm = 1) →
      ∀ (n k : Nat) (xk : V ℝ) (alphak prevFxk : ℝ), xk.Norm = 1 →
        (smoothLoop locs c tol n k xk alphak prevFxk).1 = noAnswer ∨
            (smoothLoop locs c tol n k xk alphak prevFxk).1.Norm = 1) ∧
    (∀ (locs : List (V ℝ)) (c : List ℝ) (tol : ℝ), (∀ e ∈ locs, e.Norm = 1) →
      ∀ (x0 : V ℝ) (alpha0 : ℝ), x0.Norm = 1 →
        (solveNonEuclideanMultifacilityLocationSmooth locs c tol x0 alpha0).1 = noAnswer ∨
            (solveNonEuclideanMultifacilityLocationSmooth locs c tol x0 alpha0).1.Norm = 1) ∧
    (∀ (g : Rng ℝ), g.Valid → ∀ (locs : List (V ℝ)) (c : List ℝ) (tol : ℝ),
      (∀ e ∈ locs, e.Norm = 1) → ∀ (x0 : V ℝ) (alpha0 : ℝ), x0.Norm = 1 →
      ∀ (l : List Nat) (st : V ℝ × ℝ × ℝ × Int) (k : Nat), st.1 = noAnswer ∨ st.1.Norm = 1 →
        (monteCarloLoop g locs c tol x0 alpha0 l st k).1.1 = noAnswer ∨
            (monteCarloLoop g locs c tol x0 alpha0 l st k).1.1.Norm = 1) ∧
    (∀ (locs : List (V ℝ)) (c : List ℝ) (tol : ℝ) (faj fsqaj : List ℝ) (l : List (Nat × V ℝ)) (at0idx : Nat) (r : NonSmooth ℝ),
      nonSmoothStep1 locs c tol faj fsqaj l at0idx = .inl r →
        ∃ e ∈ l, r.result = e.2) ∧
    (∀ (g : Rng ℝ), g.Valid →
      ∀ (locs : List (V ℝ)) (c faj : List ℝ) (at0idx fuel k : Nat) (r : NonSmooth ℝ) (k1 : Nat),
      nonSmoothStep2 g locs c faj at0idx fuel k = some (r, k1) →
        r.result = noAnswer ∧ r.x0.Norm = 1) ∧
    (∀ (fuel : Nat) (g : Rng ℝ), g.Valid →
      ∀ (k : Nat) (locs : List (V ℝ)) (c : List ℝ) (tol : ℝ) (r : NonSmooth ℝ) (k1 : Nat),
      solveNonEuclideanMultifacilityLocationNonSmooth fuel g k locs c tol = some (r, k1) →
        r.result ∈ locs ∨ (r.result = noAnswer ∧ r.x0.Norm = 1)) ∧
    (∀ (fuel : Nat) (g : Rng ℝ), g.Valid →
      ∀ (k : Nat) (locs : List (V ℝ)) (c : List ℝ) (nsTol sTol : ℝ) (nMC : Int),
      (∀ e ∈ locs, e.Norm = 1) → ∀ (v : V ℝ) (fx fxsq : ℝ) (nfx : Int) (k1 : Nat),
      SolveNonEuclideanMultifacilityLocationMonteCarlo fuel g k locs c nsTol sTol nMC = some ((v, fx, fxsq, nfx, none), k1) →
        v.Norm = 1) := by
  have h_randomQuaternion_unit : ∀ (g : Rng ℝ), g.Valid → ∀ (k : Nat),
        (RandomQuaternion g k).1.R * (RandomQuaternion g k).1.R
              + (RandomQuaternion g k).1.I * (RandomQuaternion g k).1.I
              + (RandomQuaternion g k).1.J * (RandomQuaternion g k).1.J
              + (RandomQuaternion g k).1.K * (RandomQuaternion g k).1.K = 1 := by
    intro g hg k
    obtain ⟨h0, h1⟩ := hg k
    simp only [RandomQuaternion]
    have hs1 : Real.sqrt (1 - g.float64 k) * Real.sqrt (1 - g.float64 k) = 1 - g.float64 k :=
      Real.mul_self_sqrt (by linarith)
    have hs2 : Real.sqrt (g.float64 k) * Real.sqrt (g.float64 k) = g.float64 k :=
      Real.mul_self_sqrt h0
    have t1 := Real.sin_sq_add_cos_sq (2 * Real.pi * g.float64 (k + 1))
    have t2 := Real.sin_sq_add_cos_sq (2 * Real.pi * g.float64 (k + 2))
    linear_combination
      (Real.cos (2 * Real.pi * g.float64 (k + 2)) ^ 2 + Real.sin (2 * Real.pi * g.float64 (k + 2)) ^ 2) * hs2
      + (Real.sin (2 * Real.pi * g.float64 (k + 1)) ^ 2 + Real.cos (2 * Real.pi * g.float64 (k + 1)) ^ 2) * hs1
      + (g.float64 k) * t2 + (1 - g.float64 k) * t1
  have h_randomVector_unit : ∀ (g : Rng ℝ), g.Valid → ∀ (k : Nat),
        (RandomVector g k).1.Norm = 1 := by
    intro g hg k
    simp only [RandomVector, V.Rotate]
    rw [address_unit_facts.1, h_randomQuaternion_unit g hg k]
    simp [V.Norm]
  -- For unit vectors, `a · x = -1` only when `a = -x`.
  have h_V_eq_neg_of_dot_eq_neg_one : ∀ (a x : V ℝ), a.Norm = 1 → x.Norm = 1 → 1 + a.Dot x = 0 →
        a = x.MulScalar (-1) := by
    intro a x ha hx h
    rw [V.unit_facts.1] at ha hx
    simp only [V.Dot] at h
    have hsum : (a.X + x.X) * (a.X + x.X) + (a.Y + x.Y) * (a.Y + x.Y)
        + (a.Z + x.Z) * (a.Z + x.Z) = 0 := by
      linear_combination ha + hx + 2 * h
    have hX : (a.X + x.X) * (a.X + x.X) = 0 := by
      nlinarith [mul_self_nonneg (a.X + x.X), mul_self_nonneg (a.Y + x.Y),
        mul_self_nonneg (a.Z + x.Z)]
    have hY : (a.Y + x.Y) * (a.Y + x.Y) = 0 := by
      nlinarith [mul_self_nonneg (a.X + x.X), mul_self_nonneg (a.Y + x.Y),
        mul_self_nonneg (a.Z + x.Z)]
    have hZ : (a.Z + x.Z) * (a.Z + x.Z) = 0 := by
      nlinarith [mul_self_nonneg (a.X + x.X), mul_self_nonneg (a.Y + x.Y),
        mul_self_nonneg (a.Z + x.Z)]
    have eX := mul_self_eq_zero.mp hX
    have eY := mul_self_eq_zero.mp hY
    have eZ := mul_self_eq_zero.mp hZ
    cases a; cases x
    simp only [V.MulScalar, V.mk.injEq] at *
    exact ⟨by linarith, by linarith, by linarith⟩
  have h_V_sub_unit_mul_add_dot : ∀ (p x : V ℝ) (dist : ℝ),
        (x.Sub ((p.Unit.MulScalar dist).Add x)).Dot x = -(dist / p.Norm) * p.Dot x := by
    intro p x dist
    simp only [V.Dot, V.MulScalar, V.Add, V.Sub, V.DivScalar, V.Unit]
    ring
  -- The offset of `stp(aj, x)` from `x` is orthogonal to `x`.
  have h_stp_sub_dot : ∀ (aj x : V ℝ), aj.Norm = 1 → x.Norm = 1 → aj.Equals (x.MulScalar (-1)) = false →
        (x.Sub (stp aj x)).Dot x = 0 := by
    intro aj x ha hx hne
    have hx1 := (V.unit_facts.1 x).mp hx
    unfold stp
    by_cases h1 : aj.Equals x = true
    · simp only [h1, if_true, V.Sub, V.Dot]; ring
    · simp only [h1, hne, if_false, Bool.false_eq_true]
      have hden : 1 - aj.Dot (x.MulScalar (-1)) ≠ 0 := by
        intro h0
        have h0' : 1 + aj.Dot x = 0 := by
          simp only [V.Dot, V.MulScalar] at h0 ⊢
          linarith
        have := h_V_eq_neg_of_dot_eq_neg_one aj x ha hx h0'
        rw [← V.equals_iff] at this
        rw [this] at hne
        exact Bool.noConfusion hne
      have hproj : ((x.MulScalar (-1)).Add
          ((aj.Sub (x.MulScalar (-1))).DivScalar (1 - aj.Dot (x.MulScalar (-1))))).Dot x = 0 := by
        simp only [V.Dot, V.MulScalar, V.Add, V.Sub, V.DivScalar] at hden ⊢
        have hD : (1 - (-(aj.X * x.X) + -(aj.Y * x.Y) + -(aj.Z * x.Z))) ≠ 0 := by
          intro h
          apply hden
          linarith
        simp only [mul_neg, mul_one, sub_neg_eq_add]
        field_simp
        linear_combination (-(aj.X * x.X + aj.Y * x.Y + aj.Z * x.Z)) * hx1
      rw [h_V_sub_unit_mul_add_dot, hproj, mul_zero]
  -- The descent direction `dx` is orthogonal to the unit point `xk`.
  have h_dx_dot : ∀ (xk : V ℝ) (a : List (V ℝ)) (c : List ℝ), xk.Norm = 1 → (∀ e ∈ a, e.Norm = 1) →
        (dx xk a c).Dot xk = 0 := by
    intro xk a c hx ha
    unfold dx
    have h := foldl_invariant (fun s : (V ℝ) => s.Dot xk = 0)
      (fun (s : V ℝ) (jaj : Nat × V ℝ) =>
        if jaj.2.Equals (xk.MulScalar (-1)) then s
        else
          let ajxk := stp jaj.2 xk
          let num := xk.Sub ajxk
          let denom := num.Norm
          s.Add ((num.MulScalar (c.getD jaj.1 0)).DivScalar denom)) a.enum
      (by
        intro s jaj hmem hs
        by_cases hq : jaj.2.Equals (xk.MulScalar (-1)) = true
        · simp only [hq, if_true]; exact hs
        · simp only [hq, if_false, Bool.false_eq_true]
          have hunit := ha jaj.2 (List.snd_mem_of_mem_enumFrom hmem)
          have horth := h_stp_sub_dot jaj.2 xk hunit hx (by simpa using hq)
          simp only [V.Dot, V.Add, V.MulScalar, V.DivScalar] at hs horth ⊢
          have : (s.X + (xk.Sub (stp jaj.2 xk)).X * c.getD jaj.1 0 / (xk.Sub (stp jaj.2 xk)).Norm) * xk.X
              + (s.Y + (xk.Sub (stp jaj.2 xk)).Y * c.getD jaj.1 0 / (xk.Sub (stp jaj.2 xk)).Norm) * xk.Y
              + (s.Z + (xk.Sub (stp jaj.2 xk)).Z * c.getD jaj.1 0 / (xk.Sub (stp jaj.2 xk)).Norm) * xk.Z
              = (s.X * xk.X + s.Y * xk.Y + s.Z * xk.Z)
                + (c.getD jaj.1 0 / (xk.Sub (stp jaj.2 xk)).Norm)
                  * ((xk.Sub (stp jaj.2 xk)).X * xk.X + (xk.Sub (stp jaj.2 xk)).Y * xk.Y
                    + (xk.Sub (stp jaj.2 xk)).Z * xk.Z) := by ring
          rw [this, hs, horth]; ring)
      ⟨0, 0, 0⟩ (by simp [V.Dot])
    simp only [V.Dot, V.MulScalar] at h ⊢
    linarith
  -- Normalising `xk + α dk` gives a unit vector when `xk` is a unit vector and `dk` is
  -- orthogonal to it.
  have h_V_step_norm : ∀ (xk dk : V ℝ) (alphak : ℝ), xk.Norm = 1 → dk.Dot xk = 0 →
        ((xk.Add (dk.MulScalar alphak)).DivScalar (xk.Add (dk.MulScalar alphak)).Norm).Norm = 1 := by
    intro xk dk alphak hx hd
    have hx1 := (V.unit_facts.1 xk).mp hx
    set y := xk.Add (dk.MulScalar alphak) with hy
    have hsq : y.X * y.X + y.Y * y.Y + y.Z * y.Z
        = 1 + alphak * alphak * (dk.X * dk.X + dk.Y * dk.Y + dk.Z * dk.Z) := by
      simp only [hy, V.Add, V.MulScalar]
      simp only [V.Dot] at hd
      linear_combination hx1 + 2 * alphak * hd
    have hpos : 0 < y.X * y.X + y.Y * y.Y + y.Z * y.Z := by
      rw [hsq]
      nlinarith [mul_self_nonneg (alphak * dk.X), mul_self_nonneg (alphak * dk.Y),
        mul_self_nonneg (alphak * dk.Z)]
    have hn : 0 < y.Norm := Real.sqrt_pos.mpr hpos
    have hnn : y.Norm * y.Norm = y.X * y.X + y.Y * y.Y + y.Z * y.Z :=
      Real.mul_self_sqrt hpos.le
    rw [V.unit_facts.1]
    simp only [V.DivScalar]
    field_simp
    linarith
  have h_armijoLoop_norm : ∀ (locs : List (V ℝ)) (c : List ℝ) (xk dk : V ℝ) (fxk : ℝ), xk.Norm = 1 →
      dk.Dot xk = 0 → ∀ (n alphaIter : Nat) (alphak prevFxn : ℝ) (xn : V ℝ) (a1 : ℝ),
      armijoLoop locs c xk dk fxk n alphaIter alphak prevFxn = .accepted xn a1 →
        xn.Norm = 1 := by
    intro locs c xk dk fxk hx hd n alphaIter alphak prevFxn xn a1 h
    induction n generalizing alphaIter alphak prevFxn with
    | zero => simp [armijoLoop] at h
    | succ n ih =>
      simp only [armijoLoop] at h
      split_ifs at h with h1 h2 h3
      · injection h with e1 e2
        rw [← e1]
        exact h_V_step_norm xk dk alphak hx hd
      · exact ih _ _ _ h
      · exact ih _ _ _ h
  have h_smoothLoop_norm : ∀ (locs : List (V ℝ)) (c : List ℝ) (tol : ℝ), (∀ e ∈ locs, e.Norm = 1) →
      ∀ (n k : Nat) (xk : V ℝ) (alphak prevFxk : ℝ), xk.Norm = 1 →
        (smoothLoop locs c tol n k xk alphak prevFxk).1 = noAnswer ∨
            (smoothLoop locs c tol n k xk alphak prevFxk).1.Norm = 1 := by
    intro locs c tol ha n k xk alphak prevFxk hx
    induction n generalizing k xk alphak prevFxk with
    | zero => left; simp [smoothLoop]
    | succ n ih =>
      simp only [smoothLoop]
      split_ifs with h1 h2
      · right; exact hx
      · right; exact hx
      · split
        · rename_i xn a1 heq
          exact ih _ xn a1 _ (h_armijoLoop_norm locs c xk (dx xk locs c) _ hx
            (h_dx_dot xk locs c hx ha) _ _ _ _ xn a1 heq)
        · right; exact hx
        · exact ih _ xk _ _ hx
  have h_smooth_norm : ∀ (locs : List (V ℝ)) (c : List ℝ) (tol : ℝ), (∀ e ∈ locs, e.Norm = 1) →
      ∀ (x0 : V ℝ) (alpha0 : ℝ), x0.Norm = 1 →
        (solveNonEuclideanMultifacilityLocationSmooth locs c tol x0 alpha0).1 = noAnswer ∨
            (solveNonEuclideanMultifacilityLocationSmooth locs c tol x0 alpha0).1.Norm = 1 := by
    intro locs c tol ha x0 alpha0 hx
    exact
      h_smoothLoop_norm locs c tol ha _ _ x0 alpha0 0 hx
  have h_monteCarloLoop_norm : ∀ (g : Rng ℝ), g.Valid → ∀ (locs : List (V ℝ)) (c : List ℝ) (tol : ℝ),
      (∀ e ∈ locs, e.Norm = 1) → ∀ (x0 : V ℝ) (alpha0 : ℝ), x0.Norm = 1 →
      ∀ (l : List Nat) (st : V ℝ × ℝ × ℝ × Int) (k : Nat), st.1 = noAnswer ∨ st.1.Norm = 1 →
        (monteCarloLoop g locs c tol x0 alpha0 l st k).1.1 = noAnswer ∨
            (monteCarloLoop g locs c tol x0 alpha0 l st k).1.1.Norm = 1 := by
    intro g hg locs c tol ha x0 alpha0 hx l st k hst
    induction l generalizing st k with
    | nil => simpa [monteCarloLoop] using hst
    | cons i rest ih =>
      simp only [monteCarloLoop]
      split_ifs with h1 h2
      · exact ih _ _ (h_smooth_norm locs c tol ha x0 alpha0 hx)
      · exact ih _ _ (h_smooth_norm locs c tol ha _ _ (h_randomVector_unit g hg k))
      · exact ih _ _ hst
  have h_nonSmoothStep1_result : ∀ (locs : List (V ℝ)) (c : List ℝ) (tol : ℝ) (faj fsqaj : List ℝ) (l : List (Nat × V ℝ)) (at0idx : Nat) (r : NonSmooth ℝ),
      nonSmoothStep1 locs c tol faj fsqaj l at0idx = .inl r →
        ∃ e ∈ l, r.result = e.2 := by
    intro locs c tol faj fsqaj l at0idx r h
    induction l generalizing at0idx with
    | nil => simp [nonSmoothStep1] at h
    | cons e rest ih =>
      obtain ⟨t, a⟩ := e
      simp only [nonSmoothStep1] at h
      split_ifs at h with h1 h2
      · injection h with e1
        exact ⟨(t, a), List.mem_cons_self _ _, by rw [← e1]⟩
      · obtain ⟨e', he', hr⟩ := ih _ h
        exact ⟨e', List.mem_cons_of_mem _ he', hr⟩
      · obtain ⟨e', he', hr⟩ := ih _ h
        exact ⟨e', List.mem_cons_of_mem _ he', hr⟩
  have h_nonSmoothStep2_result : ∀ (g : Rng ℝ), g.Valid →
      ∀ (locs : List (V ℝ)) (c faj : List ℝ) (at0idx fuel k : Nat) (r : NonSmooth ℝ) (k1 : Nat),
      nonSmoothStep2 g locs c faj at0idx fuel k = some (r, k1) →
        r.result = noAnswer ∧ r.x0.Norm = 1 := by
    intro g hg locs c faj at0idx fuel k r k1 h
    induction fuel generalizing k with
    | zero => simp [nonSmoothStep2] at h
    | succ fuel ih =>
      simp only [nonSmoothStep2] at h
      split at h
      · exact Option.noConfusion h
      · split_ifs at h with h1
        · simp only [Option.some.injEq, Prod.mk.injEq] at h
          rw [← h.1]
          exact ⟨rfl, h_randomVector_unit g hg k⟩
        · exact ih _ h
  -- The non-smooth phase returns an existing location, or the sentinel with a unit starting
  -- point for the smooth phase.
  have h_nonSmooth_result : ∀ (fuel : Nat) (g : Rng ℝ), g.Valid →
      ∀ (k : Nat) (locs : List (V ℝ)) (c : List ℝ) (tol : ℝ) (r : NonSmooth ℝ) (k1 : Nat),
      solveNonEuclideanMultifacilityLocationNonSmooth fuel g k locs c tol = some (r, k1) →
        r.result ∈ locs ∨ (r.result = noAnswer ∧ r.x0.Norm = 1) := by
    intro fuel g hg k locs c tol r k1 h
    simp only [solveNonEuclideanMultifacilityLocationNonSmooth] at h
    split at h
    · rename_i r1 heq
      simp only [Option.some.injEq, Prod.mk.injEq] at h
      obtain ⟨e, he, hr⟩ := h_nonSmoothStep1_result _ _ _ _ _ _ _ _ heq
      left
      rw [← h.1, hr]
      exact List.snd_mem_of_mem_enumFrom he
    · right
      exact h_nonSmoothStep2_result g hg _ _ _ _ _ _ _ _ h
  have h_monteCarlo_result_norm : ∀ (fuel : Nat) (g : Rng ℝ), g.Valid →
      ∀ (k : Nat) (locs : List (V ℝ)) (c : List ℝ) (nsTol sTol : ℝ) (nMC : Int),
      (∀ e ∈ locs, e.Norm = 1) → ∀ (v : V ℝ) (fx fxsq : ℝ) (nfx : Int) (k1 : Nat),
      SolveNonEuclideanMultifacilityLocationMonteCarlo fuel g k locs c nsTol sTol nMC = some ((v, fx, fxsq, nfx, none), k1) →
        v.Norm = 1 := by
    intro fuel g hg k locs c nsTol sTol nMC ha v fx fxsq nfx k1 h
    simp only [SolveNonEuclideanMultifacilityLocationMonteCarlo] at h
    split at h
    · exact Option.noConfusion h
    · rename_i ns k2 heq
      rcases h_nonSmooth_result fuel g hg k locs c nsTol ns k2 heq with hmem | ⟨hno, hx0⟩
      · have hu := ha _ hmem
        rw [single_point_facts.2.1 _ hu] at h
        simp only [Bool.not_false, if_true, Option.some.injEq, Prod.mk.injEq] at h
        rw [← h.1.1]
        exact hu
      · have hloop := h_monteCarloLoop_norm g hg locs c sTol ha ns.x0 ns.alpha0 hx0
          (List.range nMC.toNat) (noAnswer, 0, ns.fxsq, ns.nfx) k2 (Or.inl rfl)
        have heq2 : ns.result.Equals noAnswer = true := by
          rw [V.equals_iff]; exact hno
        rw [heq2] at h
        simp only [Bool.not_true, Bool.false_eq_true, if_false] at h
        split_ifs at h with h3
        · simp at h
        · simp only [Option.some.injEq, Prod.mk.injEq] at h
          rw [← h.1.1]
          rcases hloop with hl | hl
          · exfalso
            apply h3
            rw [V.equals_iff]
            exact hl
          · exact hl
  exact ⟨h_randomQuaternion_unit, h_randomVector_unit, h_V_eq_neg_of_dot_eq_neg_one,
    h_V_sub_unit_mul_add_dot, h_stp_sub_dot, h_dx_dot, h_V_step_norm, h_armijoLoop_norm,
    h_smoothLoop_norm, h_smooth_norm, h_monteCarloLoop_norm, h_nonSmoothStep1_result,
    h_nonSmoothStep2_result, h_nonSmooth_result, h_monteCarlo_result_norm⟩

/-- C4. For unit existing locations and every outcome of the random draws
(every fuel, random source with draws in `[0, 1)`, cursor) and every `K`,
whenever `SolveNonEuclideanMultifacilityLocationMonteCarlo` returns without
error, the returned location has Euclidean norm exactly 1. Neither the
weights nor the tolerances are constrained. -/
theorem monteCarlo_location_unit (fuel : Nat) (g : Rng ℝ) (hg : g.Valid) (k : Nat)
    (locs : List (V ℝ)) (c : List ℝ) (nsTol sTol : ℝ) (nMC : Int)
    (ha : ∀ e ∈ locs, e.Norm = 1) (v : V ℝ) (fx fxsq : ℝ) (nfx : Int) (k1 : Nat)
    (h : SolveNonEuclideanMultifacilityLocationMonteCarlo fuel g k locs c nsTol sTol nMC
      = some ((v, fx, fxsq, nfx, none), k1)) : v.Norm = 1 :=
  unit_norm_facts.2.2.2.2.2.2.2.2.2.2.2.2.2.2 fuel g hg k locs c nsTol sTol nMC ha v fx fxsq nfx k1 h

/-! ### Byte accounting of a node -/

theorem ownedBytes_cons (data : List (Option (Data F))) (i : Nat) (rest : List Nat) :
    ownedBytes data (i :: rest) = slotSize data i + ownedBytes data rest := by
  simp [ownedBytes]

theorem wrapInt_of_range (x : Int) (h0 : -2 ^ 63 ≤ x) (h1 : x < 2 ^ 63) : wrapInt x = x := by
  unfold wrapInt
  norm_num at h0 h1 ⊢
  omega

theorem wrapInt_add_left (a b : Int) : wrapInt (wrapInt a + b) = wrapInt (a + b) := by
  unfold wrapInt
  norm_num
  omega

theorem collectOwned_bytes (data : List (Option (Data F))) (idxs : List Nat)
    (st r : Int × List (V F) × List F × Bool) (s0 : Int) (hst : st.1 = wrapInt s0)
    (h : collectOwned data idxs st = some r) :
    r.1 = wrapInt (s0 + ownedBytes data idxs) := by
  induction idxs generalizing st s0 with
  | nil =>
    simp only [collectOwned, Option.some.injEq] at h
    simp [ownedBytes, ← h, hst]
  | cons i rest ih =>
    simp only [collectOwned] at h
    rw [ownedBytes_cons]
    split at h
    · exact Option.noConfusion h
    · rename_i heq
      simp only [slotSize, heq]
      simpa using ih st s0 hst h
    · rename_i d heq
      simp only [slotSize, heq]
      have := ih _ (s0 + d.DataSize) (by simp only [hst, wrapInt_add_left]) h
      rw [this]
      congr 1
      ring

/-- What `computeLocationAndCurrentSize` changes: the location, the three
statistics and the byte count, which becomes the bytes of the occupied slots,
as a Go `int`. -/
theorem compute_spec (fuel : Nat) (g : Rng F) (k : Nat) (data : List (Option (Data F)))
    (n n1 : Node F) (k1 : Nat)
    (h : n.computeLocationAndCurrentSize fuel g k data = some (n1, k1)) :
    n1.CurrentBSize = wrapInt (ownedBytes data n.DataIndices) ∧
    n1.DataIndices = n.DataIndices ∧
    n1.MaxBSize = n.MaxBSize ∧ n1.peers = n.peers ∧ n1.S = n.S ∧ n1.NextS = n.NextS ∧
    n1.WaitActivity = n.WaitActivity := by
  simp only [Node.computeLocationAndCurrentSize] at h
  split at h
  · exact Option.noConfusion h
  · rename_i bsz locs weights hasData heq
    have hb := collectOwned_bytes data n.DataIndices (0, [], [], false) _ 0
      (by show (0 : Int) = wrapInt 0; decide) heq
    simp only [zero_add] at hb
    split_ifs at h with hd
    · split at h
      · exact Option.noConfusion h
      · split at h
        · exact Option.noConfusion h
        · simp only [Option.some.injEq, Prod.mk.injEq] at h
          rw [← h.1]
          exact ⟨hb, rfl, rfl, rfl, rfl, rfl, rfl⟩
    · simp only [Option.some.injEq, Prod.mk.injEq] at h
      rw [← h.1]
      exact ⟨hb, rfl, rfl, rfl, rfl, rfl, rfl⟩

theorem firstFree_some (data : List (Option (Data F))) (idxs : List Nat) (j : Nat)
    (h : Node.firstFree data idxs = some (some j)) :
    ∃ pre post, idxs = pre ++ j :: post ∧
      (∀ i ∈ pre, ∃ x, data.get? i = some (some x)) ∧ data.get? j = some none := by
  induction idxs with
  | nil => simp [Node.firstFree] at h
  | cons i rest ih =>
    simp only [Node.firstFree] at h
    split at h
    · exact Option.noConfusion h
    · rename_i heq
      simp only [Option.some.injEq] at h
      subst h
      exact ⟨[], rest, rfl, by simp, heq⟩
    · rename_i x heq
      obtain ⟨pre, post, h1, h2, h3⟩ := ih h
      refine ⟨i :: pre, post, by rw [h1]; rfl, ?_, h3⟩
      intro i1 hi1
      rcases List.mem_cons.mp hi1 with e | e
      · exact ⟨x, by rw [e]; exact heq⟩
      · exact h2 i1 e

theorem firstFree_none (data : List (Option (Data F))) (idxs : List Nat)
    (h : Node.firstFree data idxs = some none) :
    ∀ i ∈ idxs, ∃ x, data.get? i = some (some x) := by
  induction idxs with
  | nil => simp
  | cons i rest ih =>
    simp only [Node.firstFree] at h
    split at h
    · exact Option.noConfusion h
    · simp at h
    · rename_i x heq
      intro i1 hi1
      rcases List.mem_cons.mp hi1 with e | e
      · exact ⟨x, by rw [e]; exact heq⟩
      · exact ih h i1 e

theorem firstFree_total (data : List (Option (Data F))) (idxs : List Nat)
    (hr : ∀ i ∈ idxs, i < data.length) : Node.firstFree data idxs ≠ none := by
  induction idxs with
  | nil => simp [Node.firstFree]
  | cons i rest ih =>
    simp only [Node.firstFree]
    have hi : i < data.length := hr i (List.mem_cons_self _ _)
    split
    · rename_i heq
      rw [List.get?_eq_none] at heq
      omega
    · simp
    · exact ih (fun i1 h1 => hr i1 (List.mem_cons_of_mem _ h1))

/-- The two ways in which `exchangeDataReceive` returns. -/
theorem receive_cases (fuel : Nat) (g : Rng F) (k : Nat) (data : List (Option (Data F)))
    (o : Node F) (d : Data F) (o1 : Node F) (data1 : List (Option (Data F))) (ok : Bool) (k1 : Nat)
    (h : o.exchangeDataReceive fuel g k data d = some ((o1, data1, ok), k1)) :
    (ok = false ∧ o1 = o ∧ data1 = data ∧ k1 = k ∧
      (wrapInt (d.DataSize + o.CurrentBSize) > o.MaxBSize ∨
        Node.firstFree data o.DataIndices = some none))
    ∨ (ok = true ∧ ¬ wrapInt (d.DataSize + o.CurrentBSize) > o.MaxBSize ∧
      ∃ j, Node.firstFree data o.DataIndices = some (some j) ∧ data1 = data.set j (some d) ∧
        o.computeLocationAndCurrentSize fuel g k (data.set j (some d)) = some (o1, k1)) := by
  simp only [Node.exchangeDataReceive] at h
  split_ifs at h with hbig
  · simp only [Option.some.injEq, Prod.mk.injEq] at h
    obtain ⟨⟨h1, h2, h3⟩, h4⟩ := h
    exact Or.inl ⟨h3.symm, h1.symm, h2.symm, h4.symm, Or.inl hbig⟩
  · split at h
    · exact Option.noConfusion h
    · rename_i heq
      simp only [Option.some.injEq, Prod.mk.injEq] at h
      obtain ⟨⟨h1, h2, h3⟩, h4⟩ := h
      exact Or.inl ⟨h3.symm, h1.symm, h2.symm, h4.symm, Or.inr heq⟩
    · rename_i j heq
      split at h
      · exact Option.noConfusion h
      · rename_i n1 k2 hc
        simp only [Option.some.injEq, Prod.mk.injEq] at h
        obtain ⟨⟨h1, h2, h3⟩, h4⟩ := h
        refine Or.inr ⟨h3.symm, hbig, j, heq, h2.symm, ?_⟩
        rw [hc, h1, h4]

theorem slotSize_set_ne (data : List (Option (Data F))) (i j : Nat) (x : Option (Data F))
    (h : i ≠ j) : slotSize (data.set j x) i = slotSize data i := by
  simp only [slotSize, List.get?_eq_getElem?]
  rw [List.getElem?_set_ne (Ne.symm h)]

theorem ownedBytes_set_not_mem (data : List (Option (Data F))) (idxs : List Nat) (j : Nat)
    (x : Option (Data F)) (h : j ∉ idxs) : ownedBytes (data.set j x) idxs = ownedBytes data idxs := by
  induction idxs with
  | nil => rfl
  | cons i rest ih =>
    rw [ownedBytes_cons, ownedBytes_cons, ih (fun hm => h (List.mem_cons_of_mem _ hm)),
      slotSize_set_ne data i j x (fun e => h (by rw [e]; exact List.mem_cons_self _ _))]

theorem ownedBytes_congr (data data1 : List (Option (Data F))) (idxs : List Nat)
    (h : ∀ i ∈ idxs, data1.get? i = data.get? i) : ownedBytes data1 idxs = ownedBytes data idxs := by
  induction idxs with
  | nil => rfl
  | cons i rest ih =>
    rw [ownedBytes_cons, ownedBytes_cons, ih (fun i1 h1 => h i1 (List.mem_cons_of_mem _ h1))]
    simp only [slotSize, h i (List.mem_cons_self _ _)]

/-- What a call that returns does to the node: either nothing at all, or the
location and the byte count are recomputed over the new slots. -/
theorem call_effect (fuel : Nat) (g : Rng F) (k : Nat) (data : List (Option (Data F))) (n : Node F)
    (c : NodeCall F) (n1 : Node F) (data1 : List (Option (Data F))) (k1 : Nat)
    (h : n.call fuel g k data c = some ((n1, data1), k1)) :
    (n1 = n ∧ data1 = data ∧ k1 = k) ∨
    n.computeLocationAndCurrentSize fuel g k data1 = some (n1, k1) := by
  cases c with
  | receive d =>
    simp only [Node.call, Option.map_eq_some', Prod.mk.injEq] at h
    obtain ⟨⟨⟨o1, d1, ok⟩, k2⟩, hr, ⟨h1, h2⟩, h3⟩ := h
    simp only at h1 h2 h3
    subst h1 h2 h3
    rcases receive_cases fuel g k data n d o1 d1 ok k2 hr with ⟨_, a, b, e, _⟩ | ⟨_, _, j, _, b, e⟩
    · exact Or.inl ⟨a, b, e⟩
    · right; rw [b]; exact e
  | give idx =>
    simp only [Node.call, Node.exchangeDataGive] at h
    split_ifs at h
    split at h
    · exact Option.noConfusion h
    · rename_i n2 k2 hc
      simp only [Option.some.injEq, Prod.mk.injEq] at h
      obtain ⟨⟨h1, h2⟩, h3⟩ := h
      right; rw [← h2, hc, h1, h3]
  | applyNew idx =>
    simp only [Node.call, Node.applyNewData] at h
    split at h
    · exact Option.noConfusion h
    · exact Option.noConfusion h
    · split at h
      · exact Option.noConfusion h
      · rename_i n2 k2 hc
        simp only [Option.some.injEq, Prod.mk.injEq] at h
        obtain ⟨⟨h1, h2⟩, h3⟩ := h
        right; rw [← h2, hc, h1, h3]
  | generate d =>
    simp only [Node.call, Node.generateLocalData] at h
    split at h
    · exact Option.noConfusion h
    · simp only [Option.some.injEq, Prod.mk.injEq] at h
      obtain ⟨⟨h1, h2⟩, h3⟩ := h
      exact Or.inl ⟨h1.symm, h2.symm, h3.symm⟩
    · simp only [Node.applyNewData] at h
      split at h
      · exact Option.noConfusion h
      · exact Option.noConfusion h
      · split at h
        · exact Option.noConfusion h
        · rename_i n2 k2 hc
          simp only [Option.some.injEq, Prod.mk.injEq] at h
          obtain ⟨⟨h1, h2⟩, h3⟩ := h
          right; rw [← h2, hc, h1, h3]

/-- A call on `n` that writes one of the slots of `n` leaves the other slots
as they were. -/
theorem call_frame (fuel : Nat) (g : Rng F) (k : Nat) (data : List (Option (Data F))) (n : Node F)
    (c : NodeCall F) (n1 : Node F) (data1 : List (Option (Data F))) (k1 : Nat)
    (h : n.call fuel g k data c = some ((n1, data1), k1)) (hown : c.onOwnSlot n)
    (i : Nat) (hi : i ∉ n.DataIndices) : data1.get? i = data.get? i := by
  have hset : ∀ (j : Nat) (x : Option (Data F)) (l : List (Option (Data F))), j ∈ n.DataIndices →
      (l.set j x).get? i = l.get? i := by
    intro j x l hj
    simp only [List.get?_eq_getElem?]
    exact List.getElem?_set_ne (fun e => hi (by rw [← e]; exact hj))
  cases c with
  | receive d =>
    simp only [Node.call, Option.map_eq_some', Prod.mk.injEq] at h
    obtain ⟨⟨⟨o1, d1, ok⟩, k2⟩, hr, ⟨h1, h2⟩, h3⟩ := h
    simp only at h1 h2 h3
    subst h1 h2 h3
    rcases receive_cases fuel g k data n d o1 d1 ok k2 hr with ⟨_, _, b, _, _⟩ | ⟨_, _, j, hj, b, _⟩
    · rw [b]
    · obtain ⟨pre, post, e, _, _⟩ := firstFree_some data n.DataIndices j hj
      rw [b]
      exact hset j _ _ (by rw [e]; simp)
  | give idx =>
    simp only [Node.call, Node.exchangeDataGive] at h
    split_ifs at h
    split at h
    · exact Option.noConfusion h
    · simp only [Option.some.injEq, Prod.mk.injEq] at h
      rw [← h.1.2]
      exact hset idx _ _ hown
  | applyNew idx =>
    simp only [Node.call, Node.applyNewData] at h
    split at h
    · exact Option.noConfusion h
    · exact Option.noConfusion h
    · split at h
      · exact Option.noConfusion h
      · simp only [Option.some.injEq, Prod.mk.injEq] at h
        rw [← h.1.2]
        split_ifs
        · exact hset idx _ _ hown
        · rfl
  | generate d =>
    simp only [Node.call, Node.generateLocalData] at h
    split at h
    · exact Option.noConfusion h
    · simp only [Option.some.injEq, Prod.mk.injEq] at h
      rw [← h.1.2]
    · rename_i j hj
      obtain ⟨pre, post, e, _, _⟩ := firstFree_some data n.DataIndices j hj
      have hjm : j ∈ n.DataIndices := by rw [e]; simp
      simp only [Node.applyNewData] at h
      split at h
      · exact Option.noConfusion h
      · exact Option.noConfusion h
      · split at h
        · exact Option.noConfusion h
        · simp only [Option.some.injEq, Prod.mk.injEq] at h
          rw [← h.1.2]
          split_ifs
          · rw [hset j _ _ hjm, hset j _ _ hjm]
          · exact hset j _ _ hjm

theorem call_bytesAccounted (fuel : Nat) (g : Rng F) (k : Nat) (data : List (Option (Data F)))
    (n : Node F) (c : NodeCall F) (n1 : Node F) (data1 : List (Option (Data F))) (k1 : Nat)
    (h : n.call fuel g k data c = some ((n1, data1), k1)) (hacc : n.bytesAccounted data) :
    n1.bytesAccounted data1 := by
  rcases call_effect fuel g k data n c n1 data1 k1 h with ⟨a, b, _⟩ | hc
  · rw [a, b]; exact hacc
  · obtain ⟨h1, h2, _⟩ := compute_spec fuel g k data1 n n1 k1 hc
    simp only [Node.bytesAccounted, h1, h2]

theorem call_bytesAccounted_other (fuel : Nat) (g : Rng F) (k : Nat) (data : List (Option (Data F)))
    (n m : Node F) (c : NodeCall F) (n1 : Node F) (data1 : List (Option (Data F))) (k1 : Nat)
    (h : n.call fuel g k data c = some ((n1, data1), k1)) (hown : c.onOwnSlot n)
    (hdisj : ∀ i ∈ n.DataIndices, i ∉ m.DataIndices) (hm : m.bytesAccounted data) :
    m.bytesAccounted data1 := by
  simp only [Node.bytesAccounted] at hm ⊢
  rw [hm]
  congr 1
  symm
  apply ownedBytes_congr
  intro i hi
  exact call_frame fuel g k data n c n1 data1 k1 h hown i (fun hn => hdisj i hn hi)

theorem newNode_bytesAccounted (fuel : Nat) (g : Rng F) (k : Nat) (data : List (Option (Data F)))
    (myIdxs : List Nat) (maxBSize : Int) (waitActivity : F) (peerList : PeerList F) (n0 : Node F)
    (k0 : Nat) (h : NewNode fuel g k data myIdxs maxBSize waitActivity peerList = some (n0, k0)) :
    n0.bytesAccounted data ∧ n0.DataIndices = myIdxs ∧ n0.MaxBSize = maxBSize := by
  obtain ⟨h1, h2, h3, _⟩ := compute_spec fuel g k data _ n0 k0 h
  refine ⟨?_, h2, h3⟩
  simp only [Node.bytesAccounted, h1, h2]

/-- C5. Byte accounting. After `NewNode` returns, and after each of
`exchangeDataReceive`, `exchangeDataGive` and `applyNewData` (also as called by
`GenerateLocalData`) returns on a node `n` whose count was right before the
call, `n.CurrentBSize` is the sum of `Data[i].DataSize` over the indices `i` of
`n.DataIndices` whose slot is not nil; and a node `m` whose indices are disjoint
from those of `n` keeps a right count when the call writes a slot of `n`. The
sum is the one that the program computes, with the additions of Go `int`s: it
is the exact sum whenever that is a Go `int`. -/
theorem byte_accounting (fuel : Nat) (g : Rng F) (k : Nat) (data : List (Option (Data F)))
    (n m : Node F) (c : NodeCall F) :
    (∀ myIdxs maxBSize waitActivity peerList n0 k0,
      NewNode fuel g k data myIdxs maxBSize waitActivity peerList = some (n0, k0) →
      n0.bytesAccounted data) ∧
    (∀ n1 data1 k1, n.call fuel g k data c = some ((n1, data1), k1) →
      (n.bytesAccounted data → n1.bytesAccounted data1) ∧
      (c.onOwnSlot n → (∀ i ∈ n.DataIndices, i ∉ m.DataIndices) → m.bytesAccounted data →
        m.bytesAccounted data1)) ∧
    (n.bytesAccounted data → -2 ^ 63 ≤ ownedBytes data n.DataIndices →
      ownedBytes data n.DataIndices < 2 ^ 63 →
      n.CurrentBSize = ownedBytes data n.DataIndices) :=
  ⟨fun myIdxs maxBSize waitActivity peerList n0 k0 h =>
      (newNode_bytesAccounted fuel g k data myIdxs maxBSize waitActivity peerList n0 k0 h).1,
    fun n1 data1 k1 h =>
      ⟨call_bytesAccounted fuel g k data n c n1 data1 k1 h,
        call_bytesAccounted_other fuel g k data n m c n1 data1 k1 h⟩,
    fun hacc h0 h1 => by
      simp only [Node.bytesAccounted] at hacc
      rw [hacc, wrapInt_of_range _ h0 h1]⟩

theorem newNode_nodeX (fuel : Nat) (g : Rng ℝ) (k : Nat) (maxBSize : Int) (pl : PeerList ℝ) :
    NewNode fuel g k [some datumX] [0] maxBSize 0 pl = some (nodeX maxBSize pl, k) := by
  have h := single_point_facts.2.2.2.2.2 fuel g k ⟨1, 0, 0⟩ 1 0.1 0.1 2 (by simp [V.Norm]) (by norm_num)
    (by norm_num)
  have hw : wrapInt 5 = 5 := by decide
  simp [NewNode, Node.computeLocationAndCurrentSize, collectOwned, datumX, h, nodeX, hw]

/-- Witness for C5: the node built by `NewNode` over the slots `[datumX]`. -/
theorem byte_accounting_witness :
    NewNode 0 (zeroRng : Rng ℝ) 0 [some datumX] [0] 5 0 (NewMaximizePeerSpread 1)
      = some (nodeX 5 (NewMaximizePeerSpread 1), 0) ∧
    (nodeX 5 (NewMaximizePeerSpread 1)).bytesAccounted [some datumX] :=
  ⟨newNode_nodeX 0 zeroRng 0 5 _,
    (byte_accounting 0 (zeroRng : Rng ℝ) 0 [some datumX] (nodeX 5 (NewMaximizePeerSpread 1))
      (nodeX 5 (NewMaximizePeerSpread 1)) (.give 0)).1 [0] 5 0 (NewMaximizePeerSpread 1)
      (nodeX 5 (NewMaximizePeerSpread 1)) 0 (newNode_nodeX 0 zeroRng 0 5 _)⟩

/-! ### Two existing locations -/

set_option maxHeartbeats 4000000 in
/-- The locations `(1, 0, 0)` and `(0.6, 0.8, 0)` and the node `nodeW`: the great
circle distances between the two points; the non-smooth test holds at the
first and the non-smooth phase returns it; `nodeW` is the node that `NewNode`
builds; and `nodeW` accepts a descriptor at `(0.6, 0.8, 0)` whose size, added
to its 5 bytes as a Go `int`, is not above the capacity. -/
theorem nodeW_facts :
    ((⟨1, 0, 0⟩ : V ℝ).GreatCircleDistance ⟨1, 0, 0⟩ = 0 ∧
          (⟨0.6, 0.8, 0⟩ : V ℝ).GreatCircleDistance ⟨0.6, 0.8, 0⟩ = 0 ∧
          (⟨1, 0, 0⟩ : V ℝ).GreatCircleDistance ⟨0.6, 0.8, 0⟩ = Real.arctan (4 / 3) ∧
          (⟨0.6, 0.8, 0⟩ : V ℝ).GreatCircleDistance ⟨1, 0, 0⟩ = Real.arctan (4 / 3) ∧
          0 < Real.arctan (4 / 3)) ∧
    (optimalityConditionFromI 0 [⟨1, 0, 0⟩, (⟨0.6, 0.8, 0⟩ : V ℝ)] [1, 1] 0.1 = true) ∧
    (∀ (fuel : Nat) (g : Rng ℝ) (k : Nat),
        solveNonEuclideanMultifacilityLocationNonSmooth fuel g k
              [⟨1, 0, 0⟩, ⟨0.6, 0.8, 0⟩] [1, 1] 0.1
              = some (⟨⟨1, 0, 0⟩, ⟨0, 0, 0⟩, 0, Real.arctan (4 / 3),
                  Real.arctan (4 / 3) * Real.arctan (4 / 3), 2⟩, k)) ∧
    (∀ (fuel : Nat) (g : Rng ℝ) (k : Nat),
        NewNode fuel g k slotsW [0, 1] 10 0 (NewMaximizePeerSpread 1) = some (nodeW, k)) ∧
    (∀ (fuel : Nat) (g : Rng ℝ) (k : Nat) (size : Int), wrapInt (size + 5) ≤ 10 →
        (nodeW : Node ℝ).exchangeDataReceive fuel g k slotsW (datumSized size)
              = some (({ (nodeW : Node ℝ) with
                          CurrentBSize := wrapInt (5 + size)
                          fx := Real.arctan (4 / 3)
                          fxsq := Real.arctan (4 / 3) * Real.arctan (4 / 3)
                          nfx := 2 },
                        [some datumX, some (datumSized size)], true), k)) := by
  -- The great circle distances between the points `(1, 0, 0)` and `(0.6, 0.8, 0)`.
  have h_gcd_xy : (⟨1, 0, 0⟩ : V ℝ).GreatCircleDistance ⟨1, 0, 0⟩ = 0 ∧
          (⟨0.6, 0.8, 0⟩ : V ℝ).GreatCircleDistance ⟨0.6, 0.8, 0⟩ = 0 ∧
          (⟨1, 0, 0⟩ : V ℝ).GreatCircleDistance ⟨0.6, 0.8, 0⟩ = Real.arctan (4 / 3) ∧
          (⟨0.6, 0.8, 0⟩ : V ℝ).GreatCircleDistance ⟨1, 0, 0⟩ = Real.arctan (4 / 3) ∧
          0 < Real.arctan (4 / 3) := by
    have hs : Real.sqrt (0.8 * 0.8) = 0.8 := Real.sqrt_mul_self (by norm_num)
    refine ⟨single_point_facts.1 _ (by simp [V.Norm]),
      single_point_facts.1 _ (by rw [V.unit_facts.1]; norm_num), ?_, ?_, ?_⟩
    · have hn : (V.Cross ⟨1, 0, 0⟩ (⟨0.6, 0.8, 0⟩ : V ℝ)).Norm = 0.8 := by
        simp only [V.Cross, V.Norm, sqrt_real]
        rw [show ((0 : ℝ) * 0 - 0 * 0.8) * (0 * 0 - 0 * 0.8)
            + (0 * 0.6 - 1 * 0) * (0 * 0.6 - 1 * 0)
            + (1 * 0.8 - 0 * 0.6) * (1 * 0.8 - 0 * 0.6) = 0.8 * 0.8 by norm_num]
        exact hs
      have hd : V.Dot ⟨1, 0, 0⟩ (⟨0.6, 0.8, 0⟩ : V ℝ) = 0.6 := by
        simp only [V.Dot]; norm_num
      simp only [V.GreatCircleDistance, atan_real, pi_real, hn, hd]
      norm_num
    · have hn : (V.Cross (⟨0.6, 0.8, 0⟩ : V ℝ) ⟨1, 0, 0⟩).Norm = 0.8 := by
        simp only [V.Cross, V.Norm, sqrt_real]
        rw [show ((0.8 : ℝ) * 0 - 0 * 0) * (0.8 * 0 - 0 * 0)
            + (0 * 1 - 0.6 * 0) * (0 * 1 - 0.6 * 0)
            + (0.6 * 0 - 0.8 * 1) * (0.6 * 0 - 0.8 * 1) = 0.8 * 0.8 by norm_num]
        exact hs
      have hd : V.Dot (⟨0.6, 0.8, 0⟩ : V ℝ) ⟨1, 0, 0⟩ = 0.6 := by
        simp only [V.Dot]; norm_num
      simp only [V.GreatCircleDistance, atan_real, pi_real, hn, hd]
      norm_num
    · have h := Real.arctan_strictMono (show (0 : ℝ) < 4 / 3 by norm_num)
      rwa [Real.arctan_zero] at h
  have h_optimality_xy : optimalityConditionFromI 0 [⟨1, 0, 0⟩, (⟨0.6, 0.8, 0⟩ : V ℝ)] [1, 1] 0.1 = true := by
    have hdot : V.Dot ⟨1, 0, 0⟩ (⟨0.6, 0.8, 0⟩ : V ℝ) = 0.6 := by
      simp only [V.Dot]; norm_num
    have hnum : (V.Sub ⟨1, 0, 0⟩ (V.DivScalar (⟨0.6, 0.8, 0⟩ : V ℝ) 0.6)) = ⟨0, -(4 / 3), 0⟩ := by
      simp only [V.Sub, V.DivScalar]
      norm_num
    have hden : (⟨0, -(4 / 3), 0⟩ : V ℝ).Norm = 4 / 3 := by
      simp only [V.Norm, sqrt_real]
      rw [show (0 : ℝ) * 0 + -(4 / 3) * -(4 / 3) + 0 * 0 = 4 / 3 * (4 / 3) by norm_num]
      exact Real.sqrt_mul_self (by norm_num)
    have hsm : optimalitySummand ⟨1, 0, 0⟩ (⟨0.6, 0.8, 0⟩ : V ℝ) 1 = some ⟨0, -1, 0⟩ := by
      simp only [optimalitySummand, hdot, hnum, hden]
      rw [if_neg (by norm_num)]
      simp only [V.DivScalar, V.MulScalar]
      norm_num
    have hone : (⟨0, -1, 0⟩ : V ℝ).Norm = 1 := by
      rw [V.unit_facts.1]; norm_num
    have hadd : V.Add ⟨0, 0, 0⟩ (⟨0, -1, 0⟩ : V ℝ) = ⟨0, -1, 0⟩ := by
      simp only [V.Add]; norm_num
    simp only [optimalityConditionFromI, List.enum, List.enumFrom, List.foldl, List.getD_cons_zero,
      List.getD_cons_succ, if_true, zero_add, Nat.succ_ne_zero, one_ne_zero, if_false,
      optimalityAdd, hsm, hadd, hone, decide_eq_true_eq]
    norm_num
  have h_nonSmooth_xy : ∀ (fuel : Nat) (g : Rng ℝ) (k : Nat),
        solveNonEuclideanMultifacilityLocationNonSmooth fuel g k
              [⟨1, 0, 0⟩, ⟨0.6, 0.8, 0⟩] [1, 1] 0.1
              = some (⟨⟨1, 0, 0⟩, ⟨0, 0, 0⟩, 0, Real.arctan (4 / 3),
                  Real.arctan (4 / 3) * Real.arctan (4 / 3), 2⟩, k) := by
    intro fuel g k
    obtain ⟨hxx, hyy, hxy, hyx, _⟩ := h_gcd_xy
    simp [solveNonEuclideanMultifacilityLocationNonSmooth, nonSmoothStep1, List.enum,
      List.enumFrom, isMinAt, h_optimality_xy, geodesicDistancesFromI, List.range_succ,
      hxy, hyx]
  -- The node `nodeW` is the node that `NewNode` builds over the slots `slotsW`.
  have h_newNode_nodeW : ∀ (fuel : Nat) (g : Rng ℝ) (k : Nat),
        NewNode fuel g k slotsW [0, 1] 10 0 (NewMaximizePeerSpread 1) = some (nodeW, k) := by
    intro fuel g k
    have h := single_point_facts.2.2.2.2.2 fuel g k ⟨1, 0, 0⟩ 1 0.1 0.1 2 (by simp [V.Norm]) (by norm_num)
      (by norm_num)
    have hw : wrapInt 5 = 5 := by decide
    simp [NewNode, Node.computeLocationAndCurrentSize, collectOwned, slotsW, datumX, h, nodeW, hw]
  -- The node `nodeW` accepts a descriptor at `(0.6, 0.8, 0)` whose size, added to its 5
  -- bytes as Go `int`s, is at most its capacity 10: the descriptor goes to the free slot 1
  -- and the node stays at `(1, 0, 0)`, which the non-smooth phase returns for the two
  -- locations.
  have h_receive_nodeW : ∀ (fuel : Nat) (g : Rng ℝ) (k : Nat) (size : Int), wrapInt (size + 5) ≤ 10 →
        (nodeW : Node ℝ).exchangeDataReceive fuel g k slotsW (datumSized size)
              = some (({ (nodeW : Node ℝ) with
                          CurrentBSize := wrapInt (5 + size)
                          fx := Real.arctan (4 / 3)
                          fxsq := Real.arctan (4 / 3) * Real.arctan (4 / 3)
                          nfx := 2 },
                        [some datumX, some (datumSized size)], true), k) := by
    intro fuel g k size h
    have hx : (⟨1, 0, 0⟩ : V ℝ).Equals noAnswer = false :=
      single_point_facts.2.1 _ (by simp [V.Norm])
    have hw : wrapInt 5 = 5 := by decide
    have h1 : ¬ wrapInt (size + 5) > 10 := not_lt.mpr h
    simp [Node.exchangeDataReceive, nodeW, slotsW, datumSized, datumX, h1, Node.firstFree,
      Node.computeLocationAndCurrentSize, collectOwned,
      SolveNonEuclideanMultifacilityLocationMonteCarlo, h_nonSmooth_xy, hx, hw]
  exact ⟨h_gcd_xy, h_optimality_xy, h_nonSmooth_xy, h_newNode_nodeW, h_receive_nodeW⟩

/-! ### Accepting and rejecting a descriptor -/

/-- C7, the claim at a counterexample. The node `nodeW` holds 5 bytes of its
capacity 10 and has a free slot. It is offered a descriptor of `2^63 - 1`
bytes: the sum `d.DataSize + o.CurrentBSize` of Go `int`s wraps around to
`-2^63 + 4`, which is not above the capacity, and the call returns true,
though `d.DataSize + o.CurrentBSize ≤ o.MaxBSize` does not hold. -/
theorem exchangeDataReceive_wrap_counterexample :
    NewNode 0 (zeroRng : Rng ℝ) 0 slotsW [0, 1] 10 0 (NewMaximizePeerSpread 1)
      = some (nodeW, 0) ∧
    (nodeW : Node ℝ).exchangeDataReceive 0 (zeroRng : Rng ℝ) 0 slotsW (datumSized (2 ^ 63 - 1))
      = some (({ (nodeW : Node ℝ) with
                  CurrentBSize := -2 ^ 63 + 4
                  fx := Real.arctan (4 / 3)
                  fxsq := Real.arctan (4 / 3) * Real.arctan (4 / 3)
                  nfx := 2 },
                [some datumX, some (datumSized (2 ^ 63 - 1))], true), 0) ∧
    ¬ ((datumSized (2 ^ 63 - 1) : Data ℝ).DataSize + (nodeW : Node ℝ).CurrentBSize
        ≤ (nodeW : Node ℝ).MaxBSize) := by
  refine ⟨nodeW_facts.2.2.2.1 0 zeroRng 0, ?_, by simp [datumSized, nodeW]⟩
  have h := nodeW_facts.2.2.2.2 0 (zeroRng : Rng ℝ) 0 (2 ^ 63 - 1) (by decide)
  rw [show wrapInt (5 + (2 ^ 63 - 1)) = -2 ^ 63 + 4 by decide] at h
  exact h

/-- C7, amended. `o.exchangeDataReceive(d)` where the sum
`d.DataSize + o.CurrentBSize` is a Go `int` (no wrap-around). Whenever the call
returns, it returns true if and only if `d.DataSize + o.CurrentBSize ≤
o.MaxBSize` and some index `j` of `o.DataIndices` has `Data[j] == nil`; when it
returns true, `d` is stored in the first such `j` (in the order of
`DataIndices`) and no other slot changes; when it returns false, no slot and no
field of `o` changes (and no random draw is made). With all indices in range,
the call returns false whenever the condition fails, and when the condition
holds it returns (true) exactly when the recomputation of the location
returns. -/
theorem exchangeDataReceive_accepts_iff (fuel : Nat) (g : Rng F) (k : Nat)
    (data : List (Option (Data F))) (o : Node F) (d : Data F)
    (hlo : -2 ^ 63 ≤ d.DataSize + o.CurrentBSize) (hhi : d.DataSize + o.CurrentBSize < 2 ^ 63) :
    (∀ o1 data1 ok k1, o.exchangeDataReceive fuel g k data d = some ((o1, data1, ok), k1) →
      (ok = true ↔ (d.DataSize + o.CurrentBSize ≤ o.MaxBSize ∧
        ∃ j ∈ o.DataIndices, data.get? j = some none)) ∧
      (ok = true → ∃ pre j post, o.DataIndices = pre ++ j :: post ∧
        (∀ i ∈ pre, data.get? i ≠ some none) ∧ data.get? j = some none ∧
        data1 = data.set j (some d)) ∧
      (ok = false → o1 = o ∧ data1 = data ∧ k1 = k)) ∧
    ((∀ i ∈ o.DataIndices, i < data.length) →
      (¬ (d.DataSize + o.CurrentBSize ≤ o.MaxBSize ∧
          ∃ j ∈ o.DataIndices, data.get? j = some none) →
        o.exchangeDataReceive fuel g k data d = some ((o, data, false), k)) ∧
      ((d.DataSize + o.CurrentBSize ≤ o.MaxBSize ∧
          ∃ j ∈ o.DataIndices, data.get? j = some none) →
        ∃ j, Node.firstFree data o.DataIndices = some (some j) ∧
          o.exchangeDataReceive fuel g k data d =
            (o.computeLocationAndCurrentSize fuel g k (data.set j (some d))).map
              fun r => ((r.1, data.set j (some d), true), r.2))) := by
  have hw : wrapInt (d.DataSize + o.CurrentBSize) = d.DataSize + o.CurrentBSize :=
    wrapInt_of_range _ hlo hhi
  constructor
  · intro o1 data1 ok k1 h
    rcases receive_cases fuel g k data o d o1 data1 ok k1 h with
      ⟨hok, a, b, e, hwhy⟩ | ⟨hok, hfit, j, hj, b, _⟩
    · refine ⟨?_, ?_, fun _ => ⟨a, b, e⟩⟩
      · rw [hok]
        simp only [Bool.false_eq_true, false_iff, not_and, not_exists]
        intro hfit j hj
        rcases hwhy with hbig | hfull
        · rw [hw] at hbig
          exact absurd hfit (not_le.mpr hbig)
        · obtain ⟨x, hx⟩ := firstFree_none data o.DataIndices hfull j hj
          rw [hx]; simp
      · intro h1; rw [hok] at h1; exact Bool.noConfusion h1
    · obtain ⟨pre, post, e, hpre, hfree⟩ := firstFree_some data o.DataIndices j hj
      rw [hw] at hfit
      refine ⟨?_, ?_, fun h1 => ?_⟩
      · rw [hok]
        simp only [true_iff]
        exact ⟨not_lt.mp hfit, j, by rw [e]; simp, hfree⟩
      · intro _
        refine ⟨pre, j, post, e, ?_, hfree, b⟩
        intro i hi
        obtain ⟨x, hx⟩ := hpre i hi
        rw [hx]; simp
      · rw [hok] at h1; exact Bool.noConfusion h1
  · intro hrange
    have htot := firstFree_total data o.DataIndices hrange
    constructor
    · intro hnot
      simp only [Node.exchangeDataReceive, hw]
      split_ifs with hbig
      · rfl
      · split
        · rename_i heq; exact absurd heq htot
        · rfl
        · rename_i j hj
          obtain ⟨pre, post, e, _, hfree⟩ := firstFree_some data o.DataIndices j hj
          exact absurd ⟨not_lt.mp hbig, j, by rw [e]; simp, hfree⟩ hnot
    · rintro ⟨hfit, j0, hj0, hfree0⟩
      cases hff : Node.firstFree data o.DataIndices with
      | none => exact absurd hff htot
      | some r =>
        cases r with
        | none =>
          obtain ⟨x, hx⟩ := firstFree_none data o.DataIndices hff j0 hj0
          rw [hx] at hfree0
          simp at hfree0
        | some j =>
          refine ⟨j, rfl, ?_⟩
          simp only [Node.exchangeDataReceive, hw, not_lt.mpr hfit, if_false, hff]
          cases o.computeLocationAndCurrentSize fuel g k (data.set j (some d)) <;> rfl

/-- Witness for C7, amended: the node `nodeW`, which holds 5 bytes of its
capacity 10, accepts a descriptor of 5 bytes into its free slot 1. -/
theorem exchangeDataReceive_accepts_iff_witness :
    (nodeW : Node ℝ).exchangeDataReceive 0 (zeroRng : Rng ℝ) 0 slotsW (datumSized 5)
      = some (({ (nodeW : Node ℝ) with
                  CurrentBSize := 10
                  fx := Real.arctan (4 / 3)
                  fxsq := Real.arctan (4 / 3) * Real.arctan (4 / 3)
                  nfx := 2 },
                [some datumX, some (datumSized 5)], true), 0) ∧
    (true = true ↔ ((datumSized 5 : Data ℝ).DataSize + (nodeW : Node ℝ).CurrentBSize
        ≤ (nodeW : Node ℝ).MaxBSize ∧
      ∃ j ∈ (nodeW : Node ℝ).DataIndices, (slotsW : List (Option (Data ℝ))).get? j = some none)) :=
  have h := by
    have h := nodeW_facts.2.2.2.2 0 (zeroRng : Rng ℝ) 0 5 (by decide)
    rw [show wrapInt (5 + 5) = 10 by decide] at h
    exact h
  ⟨h,
    ((exchangeDataReceive_accepts_iff 0 (zeroRng : Rng ℝ) 0 slotsW nodeW (datumSized 5)
      (by simp [datumSized, nodeW]) (by simp [datumSized, nodeW])).1 _ _ true 0 h).1⟩

/-! ### The capacity of a node -/

theorem slotSize_nonneg (data : List (Option (Data F))) (hs : sizesNonneg data) (i : Nat) :
    0 ≤ slotSize data i := by
  simp only [slotSize]
  split
  · rename_i d heq
    exact hs d (List.get?_mem heq)
  · exact le_refl _

theorem slotSize_set_none_le (data : List (Option (Data F))) (hs : sizesNonneg data) (idx i : Nat) :
    slotSize (data.set idx none) i ≤ slotSize data i := by
  by_cases e : i = idx
  · subst e
    have h0 : slotSize (data.set i none) i = 0 := by
      simp only [slotSize, List.get?_eq_getElem?, List.getElem?_set_self']
      split
      · rename_i d heq
        cases hg : data[i]? with
        | none => rw [hg] at heq; simp at heq
        | some x => rw [hg] at heq; simp at heq
      · rfl
    rw [h0]
    exact slotSize_nonneg data hs i
  · rw [slotSize_set_ne data i idx none e]

theorem ownedBytes_set_none_le (data : List (Option (Data F))) (hs : sizesNonneg data)
    (idx : Nat) (idxs : List Nat) :
    ownedBytes (data.set idx none) idxs ≤ ownedBytes data idxs := by
  induction idxs with
  | nil => exact le_refl _
  | cons i rest ih =>
    rw [ownedBytes_cons, ownedBytes_cons]
    exact add_le_add (slotSize_set_none_le data hs idx i) ih

theorem ownedBytes_set_free (data : List (Option (Data F))) (idxs : List Nat) (j : Nat) (d : Data F)
    (hnd : idxs.Nodup) (hj : j ∈ idxs) (hfree : data.get? j = some none) :
    ownedBytes (data.set j (some d)) idxs = ownedBytes data idxs + d.DataSize := by
  induction idxs with
  | nil => simp at hj
  | cons i rest ih =>
    rw [ownedBytes_cons, ownedBytes_cons]
    obtain ⟨hi, hrest⟩ := List.nodup_cons.mp hnd
    by_cases e : i = j
    · subst e
      rw [ownedBytes_set_not_mem data rest i _ hi]
      have hlt : i < data.length := by
        by_contra hge
        rw [List.get?_eq_none.mpr (not_lt.mp hge)] at hfree
        exact Option.noConfusion hfree
      have h1 : slotSize (data.set i (some d)) i = d.DataSize := by
        simp [slotSize, List.getElem?_set_self hlt]
      have h0 : slotSize data i = 0 := by
        simp only [slotSize, hfree]
      rw [h1, h0]; ring
    · have hjr : j ∈ rest := by
        rcases List.mem_cons.mp hj with h | h
        · exact absurd h.symm e
        · exact h
      rw [ih hrest hjr, slotSize_set_ne data i j _ e]; ring

theorem sizesNonneg_set (data : List (Option (Data F))) (hs : sizesNonneg data) (j : Nat)
    (x : Option (Data F)) (hx : ∀ d, x = some d → 0 ≤ d.DataSize) :
    sizesNonneg (data.set j x) := by
  intro d hd
  rcases List.mem_or_eq_of_mem_set hd with h | h
  · exact hs d h
  · exact hx d h.symm

theorem ownedBytes_nonneg (data : List (Option (Data F))) (hs : sizesNonneg data)
    (idxs : List Nat) : 0 ≤ ownedBytes data idxs := by
  induction idxs with
  | nil => exact le_refl _
  | cons i rest ih =>
    rw [ownedBytes_cons]
    exact add_nonneg (slotSize_nonneg data hs i) ih

theorem sizesFit_set (data : List (Option (Data F))) (m : Int) (hs : sizesFit data m) (j : Nat)
    (x : Option (Data F)) (hx : ∀ d, x = some d → d.DataSize + m < 2 ^ 63) :
    sizesFit (data.set j x) m := by
  intro d hd
  rcases List.mem_or_eq_of_mem_set hd with h | h
  · exact hs d h
  · exact hx d h.symm

/-- The invariant behind the capacity bound: the byte count is right, the bytes
of the occupied slots are within the capacity, the indices are distinct, no
size is negative, and every size added to the capacity is a Go `int`. -/
theorem call_capacity (fuel : Nat) (g : Rng F) (k : Nat) (data : List (Option (Data F))) (n : Node F)
    (c : NodeCall F) (n1 : Node F) (data1 : List (Option (Data F))) (k1 : Nat)
    (hacc : n.bytesAccounted data) (hown : ownedBytes data n.DataIndices ≤ n.MaxBSize)
    (hnd : n.DataIndices.Nodup) (hs : sizesNonneg data) (hc : c.sizeNonneg)
    (hmax : n.MaxBSize < 2 ^ 63) (hf : sizesFit data n.MaxBSize) (hcf : c.sizeFits n.MaxBSize)
    (h : n.call fuel g k data c = some ((n1, data1), k1)) :
    n1.bytesAccounted data1 ∧ ownedBytes data1 n1.DataIndices ≤ n1.MaxBSize ∧
      n1.DataIndices.Nodup ∧ sizesNonneg data1 ∧ n1.MaxBSize = n.MaxBSize ∧
      sizesFit data1 n1.MaxBSize := by
  have hacc1 : n1.bytesAccounted data1 :=
    call_bytesAccounted fuel g k data n c n1 data1 k1 h hacc
  have h0 : 0 ≤ ownedBytes data n.DataIndices := ownedBytes_nonneg data hs _
  have hcur : n.CurrentBSize = ownedBytes data n.DataIndices := by
    simp only [Node.bytesAccounted] at hacc
    rw [hacc]
    exact wrapInt_of_range _ (by norm_num; linarith) (by linarith)
  -- the test of `exchangeDataReceive` and `applyNewData` does not wrap around
  have htest : ∀ d : Data F, 0 ≤ d.DataSize → d.DataSize + n.MaxBSize < 2 ^ 63 →
      wrapInt (d.DataSize + n.CurrentBSize) = d.DataSize + n.CurrentBSize := by
    intro d hd0 hd1
    exact wrapInt_of_range _ (by rw [hcur]; norm_num; linarith) (by rw [hcur]; linarith)
  -- it remains to bound the new slots
  have key : n1.MaxBSize = n.MaxBSize ∧ n1.DataIndices = n.DataIndices ∧
      ownedBytes data1 n.DataIndices ≤ n.MaxBSize ∧ sizesNonneg data1 ∧
      sizesFit data1 n.MaxBSize := by
    have unchanged : n1 = n → data1 = data →
        n1.MaxBSize = n.MaxBSize ∧ n1.DataIndices = n.DataIndices ∧
        ownedBytes data1 n.DataIndices ≤ n.MaxBSize ∧ sizesNonneg data1 ∧
        sizesFit data1 n.MaxBSize := by
      intro a b
      rw [a, b]
      exact ⟨rfl, rfl, hown, hs, hf⟩
    cases c with
    | receive d =>
      simp only [Node.call, Option.map_eq_some', Prod.mk.injEq] at h
      obtain ⟨⟨⟨o1, d1, ok⟩, k2⟩, hr, ⟨h1, h2⟩, h3⟩ := h
      simp only at h1 h2 h3
      subst h1 h2 h3
      rcases receive_cases fuel g k data n d o1 d1 ok k2 hr with
        ⟨_, a, b, _, _⟩ | ⟨_, hfit, j, hj, b, hcomp⟩
      · exact unchanged a b
      · obtain ⟨pre, post, e, _, hfree⟩ := firstFree_some data n.DataIndices j hj
        obtain ⟨_, hidx, hmx, _⟩ := compute_spec fuel g k _ n o1 k2 hcomp
        rw [htest d hc hcf] at hfit
        refine ⟨hmx, hidx, ?_, ?_, ?_⟩
        · rw [b, ownedBytes_set_free data n.DataIndices j d hnd (by rw [e]; simp) hfree, ← hcur]
          have := not_lt.mp hfit
          linarith
        · rw [b]
          exact sizesNonneg_set data hs j _ (fun d2 hd2 => by
            simp only [Option.some.injEq] at hd2; rw [← hd2]; exact hc)
        · rw [b]
          exact sizesFit_set data _ hf j _ (fun d2 hd2 => by
            simp only [Option.some.injEq] at hd2; rw [← hd2]; exact hcf)
    | give idx =>
      simp only [Node.call, Node.exchangeDataGive] at h
      split_ifs at h
      split at h
      · exact Option.noConfusion h
      · rename_i n2 k2 hcomp
        simp only [Option.some.injEq, Prod.mk.injEq] at h
        obtain ⟨⟨h1, h2⟩, h3⟩ := h
        subst h1 h2 h3
        obtain ⟨_, hidx, hmx, _⟩ := compute_spec fuel g k _ n n2 k2 hcomp
        refine ⟨hmx, hidx, ?_, sizesNonneg_set data hs idx _ (fun d2 hd2 => by simp at hd2),
          sizesFit_set data _ hf idx _ (fun d2 hd2 => by simp at hd2)⟩
        have := ownedBytes_set_none_le data hs idx n.DataIndices
        linarith
    | applyNew idx =>
      simp only [Node.call, Node.applyNewData] at h
      split at h
      · exact Option.noConfusion h
      · exact Option.noConfusion h
      · split at h
        · exact Option.noConfusion h
        · rename_i d0 hd0 n2 k2 hcomp
          simp only [Option.some.injEq, Prod.mk.injEq] at h
          obtain ⟨⟨h1, h2⟩, h3⟩ := h
          subst h1 h2 h3
          obtain ⟨_, hidx, hmx, _⟩ := compute_spec fuel g k _ n n2 k2 hcomp
          refine ⟨hmx, hidx, ?_, ?_, ?_⟩
          · split_ifs
            · have := ownedBytes_set_none_le data hs idx n.DataIndices
              linarith
            · exact hown
          · split_ifs
            · exact sizesNonneg_set data hs idx _ (fun d2 hd2 => by simp at hd2)
            · exact hs
          · split_ifs
            · exact sizesFit_set data _ hf idx _ (fun d2 hd2 => by simp at hd2)
            · exact hf
    | generate d =>
      simp only [Node.call, Node.generateLocalData] at h
      split at h
      · exact Option.noConfusion h
      · simp only [Option.some.injEq, Prod.mk.injEq] at h
        exact unchanged h.1.1.symm h.1.2.symm
      · rename_i j hj
        obtain ⟨pre, post, e, _, hfree⟩ := firstFree_some data n.DataIndices j hj
        have hjm : j ∈ n.DataIndices := by rw [e]; simp
        have hlt : j < data.length := by
          by_contra hge
          rw [List.get?_eq_none.mpr (not_lt.mp hge)] at hfree
          exact Option.noConfusion hfree
        have hget : (data.set j (some d)).get? j = some (some d) := by
          simp [List.getElem?_set_self hlt]
        simp only [Node.applyNewData, hget, htest d hc hcf] at h
        split at h
        · exact Option.noConfusion h
        · rename_i n2 k2 hcomp
          simp only [Option.some.injEq, Prod.mk.injEq] at h
          obtain ⟨⟨h1, h2⟩, h3⟩ := h
          subst h1 h2 h3
          obtain ⟨_, hidx, hmx, _⟩ := compute_spec fuel g k _ n n2 k2 hcomp
          have hs1 : sizesNonneg (data.set j (some d)) :=
            sizesNonneg_set data hs j _ (fun d2 hd2 => by
              simp only [Option.some.injEq] at hd2; rw [← hd2]; exact hc)
          have hf1 : sizesFit (data.set j (some d)) n.MaxBSize :=
            sizesFit_set data _ hf j _ (fun d2 hd2 => by
              simp only [Option.some.injEq] at hd2; rw [← hd2]; exact hcf)
          refine ⟨hmx, hidx, ?_, ?_, ?_⟩
          · split_ifs with hbig
            · have heq : ownedBytes ((data.set j (some d)).set j none) n.DataIndices
                  = ownedBytes data n.DataIndices := by
                apply ownedBytes_congr
                intro i _
                simp only [List.set_set, List.get?_eq_getElem?]
                by_cases e2 : i = j
                · subst e2
                  rw [List.getElem?_set_self hlt]
                  simpa using hfree.symm
                · rw [List.getElem?_set_ne (Ne.symm e2)]
              rw [heq]; exact hown
            · rw [ownedBytes_set_free data n.DataIndices j d hnd hjm hfree, ← hcur]
              have := not_lt.mp hbig
              linarith
          · split_ifs
            · exact sizesNonneg_set _ hs1 j _ (fun d2 hd2 => by simp at hd2)
            · exact hs1
          · split_ifs
            · exact sizesFit_set _ _ hf1 j _ (fun d2 hd2 => by simp at hd2)
            · exact hf1
  obtain ⟨hmx, hidx, hle, hs1, hf1⟩ := key
  exact ⟨hacc1, by rw [hidx, hmx]; exact hle, by rw [hidx]; exact hnd, hs1, hmx,
    by rw [hmx]; exact hf1⟩

theorem calls_capacity (fuel : Nat) (g : Rng F) (cs : List (NodeCall F)) (k : Nat)
    (data : List (Option (Data F))) (n n1 : Node F) (data1 : List (Option (Data F))) (k1 : Nat)
    (hacc : n.bytesAccounted data) (hown : ownedBytes data n.DataIndices ≤ n.MaxBSize)
    (hnd : n.DataIndices.Nodup) (hs : sizesNonneg data) (hcs : ∀ c ∈ cs, c.sizeNonneg)
    (hmax : n.MaxBSize < 2 ^ 63) (hf : sizesFit data n.MaxBSize)
    (hcf : ∀ c ∈ cs, c.sizeFits n.MaxBSize)
    (h : Node.calls fuel g k data n cs = some ((n1, data1), k1)) :
    n1.CurrentBSize ≤ n1.MaxBSize ∧ n1.CurrentBSize = ownedBytes data1 n1.DataIndices := by
  induction cs generalizing k data n with
  | nil =>
    simp only [Node.calls, Option.some.injEq, Prod.mk.injEq] at h
    obtain ⟨⟨h1, h2⟩, _⟩ := h
    subst h1 h2
    have h0 : 0 ≤ ownedBytes data n.DataIndices := ownedBytes_nonneg data hs _
    have hcur : n.CurrentBSize = ownedBytes data n.DataIndices := by
      simp only [Node.bytesAccounted] at hacc
      rw [hacc]
      exact wrapInt_of_range _ (by norm_num; linarith) (by linarith)
    exact ⟨by rw [hcur]; exact hown, hcur⟩
  | cons c rest ih =>
    simp only [Node.calls] at h
    split at h
    · exact Option.noConfusion h
    · rename_i n2 data2 k2 hc
      obtain ⟨a, b, e, f, hm, ff⟩ := call_capacity fuel g k data n c n2 data2 k2 hacc hown hnd hs
        (hcs c (List.mem_cons_self _ _)) hmax hf (hcf c (List.mem_cons_self _ _)) hc
      exact ih k2 data2 n2 a b e f (fun c1 h1 => hcs c1 (List.mem_cons_of_mem _ h1))
        (by rw [hm]; exact hmax) ff
        (fun c1 h1 => by rw [hm]; exact hcf c1 (List.mem_cons_of_mem _ h1)) h

/-- C6, the claim at a counterexample. The node `nodeW` is built with the
capacity 10 over 5 bytes of data. It accepts a descriptor of `2^63 - 1` bytes,
because the sum of Go `int`s in the test of `exchangeDataReceive` wraps around,
and then gives away its first datum: its count is then `2^63 - 1`, above the
capacity. -/
theorem capacity_wrap_counterexample :
    NewNode 0 (zeroRng : Rng ℝ) 0 slotsW [0, 1] 10 0 (NewMaximizePeerSpread 1)
      = some (nodeW, 0) ∧
    ownedBytes (slotsW : List (Option (Data ℝ))) [0, 1] ≤ 10 ∧
    Node.calls 0 (zeroRng : Rng ℝ) 0 slotsW nodeW [.receive (datumSized (2 ^ 63 - 1)), .give 0]
      = some (({ (nodeW : Node ℝ) with
                  Location := ⟨0.6, 0.8, 0⟩
                  CurrentBSize := 2 ^ 63 - 1 },
                [none, some (datumSized (2 ^ 63 - 1))]), 0) ∧
    ¬ ((2 : Int) ^ 63 - 1 ≤ (nodeW : Node ℝ).MaxBSize) := by
  refine ⟨nodeW_facts.2.2.2.1 0 zeroRng 0, by simp [ownedBytes, slotSize, slotsW, datumX], ?_,
    by simp [nodeW]⟩
  have h := nodeW_facts.2.2.2.2 0 (zeroRng : Rng ℝ) 0 (2 ^ 63 - 1) (by decide)
  have hm := single_point_facts.2.2.2.2.2 0 (zeroRng : Rng ℝ) 0 ⟨0.6, 0.8, 0⟩ 1 0.1 0.1 2
    (by rw [V.unit_facts.1]; norm_num) (by norm_num) (by norm_num)
  have hw : wrapInt 9223372036854775807 = 9223372036854775807 := by decide
  simp only [Node.calls, Node.call, h, Option.map_some']
  simp [Node.exchangeDataGive, Node.computeLocationAndCurrentSize, collectOwned, nodeW,
    datumSized, hm, hw]

/-- C6, amended. Capacity. If a node is constructed with `MaxBSize` at least
the total size of its initial data, then after every sequence of
`exchangeDataReceive`, `exchangeDataGive` and `applyNewData` calls on it (the
latter also as `GenerateLocalData` calls it) that returns,
`CurrentBSize ≤ MaxBSize`, provided that no sum of sizes wraps around: the
capacity is a Go `int`, and so is the size of every descriptor, in the slots or
brought by a call, added to the capacity. The indices of the node are distinct
and the sizes of the descriptors, which are payload lengths, are not
negative. -/
theorem capacity_invariant (fuel : Nat) (g : Rng F) (k : Nat) (data : List (Option (Data F)))
    (myIdxs : List Nat) (maxBSize : Int) (waitActivity : F) (peerList : PeerList F)
    (n0 : Node F) (k0 : Nat) (cs : List (NodeCall F)) (n : Node F) (data1 : List (Option (Data F)))
    (k1 : Nat) (hnd : myIdxs.Nodup) (hs : sizesNonneg data) (hcs : ∀ c ∈ cs, c.sizeNonneg)
    (hint : maxBSize < 2 ^ 63) (hf : sizesFit data maxBSize)
    (hcf : ∀ c ∈ cs, c.sizeFits maxBSize)
    (hmax : ownedBytes data myIdxs ≤ maxBSize)
    (hnew : NewNode fuel g k data myIdxs maxBSize waitActivity peerList = some (n0, k0))
    (hcalls : Node.calls fuel g k0 data n0 cs = some ((n, data1), k1)) :
    n.CurrentBSize ≤ n.MaxBSize := by
  obtain ⟨hacc, hidx, hm⟩ :=
    newNode_bytesAccounted fuel g k data myIdxs maxBSize waitActivity peerList n0 k0 hnew
  exact (calls_capacity fuel g cs k0 data n0 n data1 k1 hacc (by rw [hidx, hm]; exact hmax)
    (by rw [hidx]; exact hnd) hs hcs (by rw [hm]; exact hint) (by rw [hm]; exact hf)
    (by rw [hm]; exact hcf) hcalls).1

theorem sizesNonneg_slotsW : sizesNonneg (slotsW : List (Option (Data F))) := by
  intro d hd
  simp only [slotsW, List.mem_cons, Option.some.injEq, List.mem_singleton] at hd
  rcases hd with hd | hd
  · rw [hd]; simp [datumX]
  · simp at hd

theorem sizesFit_slotsW : sizesFit (slotsW : List (Option (Data F))) 10 := by
  intro d hd
  simp only [slotsW, List.mem_cons, Option.some.injEq, List.mem_singleton] at hd
  rcases hd with hd | hd
  · rw [hd]; simp [datumX]
  · simp at hd

/-- Witness for C6, amended: the node `nodeW`, built with the capacity 10 over
5 bytes of data, accepts a descriptor of 5 bytes and then gives away its first
datum. -/
theorem capacity_invariant_witness :
    NewNode 0 (zeroRng : Rng ℝ) 0 slotsW [0, 1] 10 0 (NewMaximizePeerSpread 1)
      = some (nodeW, 0) ∧
    Node.calls 0 (zeroRng : Rng ℝ) 0 slotsW nodeW [.receive (datumSized 5), .give 0]
      = some (({ (nodeW : Node ℝ) with Location := ⟨0.6, 0.8, 0⟩ },
                [none, some (datumSized 5)]), 0) ∧
    ({ (nodeW : Node ℝ) with Location := ⟨0.6, 0.8, 0⟩ } : Node ℝ).CurrentBSize
      ≤ ({ (nodeW : Node ℝ) with Location := ⟨0.6, 0.8, 0⟩ } : Node ℝ).MaxBSize :=
  have hcalls : Node.calls 0 (zeroRng : Rng ℝ) 0 slotsW nodeW [.receive (datumSized 5), .give 0]
      = some (({ (nodeW : Node ℝ) with Location := ⟨0.6, 0.8, 0⟩ },
                [none, some (datumSized 5)]), 0) := by
    have h := nodeW_facts.2.2.2.2 0 (zeroRng : Rng ℝ) 0 5 (by decide)
    have hm := single_point_facts.2.2.2.2.2 0 (zeroRng : Rng ℝ) 0 ⟨0.6, 0.8, 0⟩ 1 0.1 0.1 2
      (by rw [V.unit_facts.1]; norm_num) (by norm_num) (by norm_num)
    have hw : wrapInt 5 = 5 := by decide
    simp only [Node.calls, Node.call, h, Option.map_some']
    simp [Node.exchangeDataGive, Node.computeLocationAndCurrentSize, collectOwned, nodeW,
      datumSized, hm, hw]
  ⟨nodeW_facts.2.2.2.1 0 (zeroRng : Rng ℝ) 0, hcalls,
    capacity_invariant 0 (zeroRng : Rng ℝ) 0 slotsW [0, 1] 10 0 (NewMaximizePeerSpread 1)
      nodeW 0 [.receive (datumSized 5), .give 0] _ _ 0 (by simp) sizesNonneg_slotsW
      (by
        intro c hc
        simp only [List.mem_cons, List.mem_singleton] at hc
        rcases hc with hc | hc | hc
        · rw [hc]; simp [NodeCall.sizeNonneg, datumSized]
        · rw [hc]; simp [NodeCall.sizeNonneg]
        · simp at hc)
      (by norm_num) sizesFit_slotsW
      (by
        intro c hc
        simp only [List.mem_cons, List.mem_singleton] at hc
        rcases hc with hc | hc | hc
        · rw [hc]; simp [NodeCall.sizeFits, datumSized]
        · rw [hc]; simp [NodeCall.sizeFits]
        · simp at hc)
      (by simp [ownedBytes, slotSize, slotsW, datumX])
      (nodeW_facts.2.2.2.1 0 (zeroRng : Rng ℝ) 0) hcalls⟩

/-! ### A rejected data exchange -/

set_option maxHeartbeats 4000000 in
/-- The world `worldX`: its nodes are the nodes that `NewNode` builds over their
slots, and the search of the owner finds the peer 1 and the datum of slot 1. -/
theorem worldX_facts :
    (∀ (fuel : Nat) (g : Rng ℝ) (k : Nat) (pl : PeerList ℝ),
        NewNode fuel g k slotsX [0, 1] 10 1 pl = some (ownerNew pl, k) ∧
            NewNode fuel g k slotsX [2] 5 1 (NewMaximizePeerSpread 1)
              = some ({ (peerX : Node ℝ) with S := ⟨StateJoin, 0⟩, NextS := ⟨0, 0⟩ }, k) ∧
            (NewMaximizePeerSpread 1).AddPeer ⟨1, 0, 0⟩ 1 ⟨0.6, 0.8, 0⟩
              = some ((ownerX : Node ℝ).peers, true)) ∧
    ((ownerX : Node ℝ).peers.RandomlyFindPeerCloserToData (zeroRng : Rng ℝ) 0 ownerX.Location
            worldX.DataCache (ownerX : Node ℝ).DataIndices = some ((some 1, 1), 1)) := by
  -- The nodes of `worldX` are the nodes that `NewNode` builds over their slots, the owner
  -- over the slots 0 and 1 and the peer over the slot 2; and the peer list of the owner is
  -- an empty list to which the peer has been added.
  have h_newNode_worldX : ∀ (fuel : Nat) (g : Rng ℝ) (k : Nat) (pl : PeerList ℝ),
        NewNode fuel g k slotsX [0, 1] 10 1 pl = some (ownerNew pl, k) ∧
            NewNode fuel g k slotsX [2] 5 1 (NewMaximizePeerSpread 1)
              = some ({ (peerX : Node ℝ) with S := ⟨StateJoin, 0⟩, NextS := ⟨0, 0⟩ }, k) ∧
            (NewMaximizePeerSpread 1).AddPeer ⟨1, 0, 0⟩ 1 ⟨0.6, 0.8, 0⟩
              = some ((ownerX : Node ℝ).peers, true) := by
    intro fuel g k pl
    refine ⟨?_, ?_, ?_⟩
    · have hx : (⟨1, 0, 0⟩ : V ℝ).Equals noAnswer = false :=
        single_point_facts.2.1 _ (by simp [V.Norm])
      have hw5 : wrapInt 5 = 5 := by decide
      have hw10 : wrapInt 10 = 10 := by decide
      simp [NewNode, Node.computeLocationAndCurrentSize, collectOwned, slotsX, datumX, datumY,
        SolveNonEuclideanMultifacilityLocationMonteCarlo, nodeW_facts.2.2.1, hx, ownerNew, nodeW_facts.1.2.2.1,
        hw5, hw10]
    · have h := single_point_facts.2.2.2.2.2 fuel g k ⟨0.6, 0.8, 0⟩ 1 0.1 0.1 2
        (by rw [V.unit_facts.1]; norm_num) (by norm_num) (by norm_num)
      have hw5 : wrapInt 5 = 5 := by decide
      simp [NewNode, Node.computeLocationAndCurrentSize, collectOwned, slotsX, datumY, h, peerX,
        hw5]
    · simp [NewMaximizePeerSpread, newBasePeerList, PeerList.AddPeer, maximizePeerSpread.AddPeer,
        basePeerList.append, ownerX, ownerNew]
  have h_find_worldX : (ownerX : Node ℝ).peers.RandomlyFindPeerCloserToData (zeroRng : Rng ℝ) 0 ownerX.Location
            worldX.DataCache (ownerX : Node ℝ).DataIndices = some ((some 1, 1), 1) := by
    obtain ⟨hxx, hyy, hxy, hyx, h⟩ := nodeW_facts.1
    simp [ownerX, ownerNew, worldX, slotsX, PeerList.RandomlyFindPeerCloserToData,
      basePeerList.RandomlyFindPeerCloserToData, Rng.Intn, zeroRng, basePeerList.findLoop,
      basePeerList.firstCloser, datumX, datumY, hxx, hyy, hxy, hyx, h, not_lt.mpr h.le]
  exact ⟨h_newNode_worldX, h_find_worldX⟩

theorem receive_peerX (fuel : Nat) (g : Rng F) (k : Nat) :
    peerX.exchangeDataReceive fuel g k worldX.DataCache datumY
      = some ((peerX, worldX.DataCache, false), k) := by
  have hw10 : wrapInt 10 = 10 := by decide
  simp [Node.exchangeDataReceive, peerX, datumY, hw10]

/-- C8, counterexample. The peer `peerX` is in Wait and rejects `datumY` (it
would exceed `MaxBSize`), yet after `ownerX.exchangeData()` the peer list of
the peer, empty before, holds the owner. -/
theorem exchangeData_reject_counterexample :
    (worldX : World ℝ).heap.map (fun nd => nd.peers.peers) = [[1], []] ∧
    (peerX : Node ℝ).S.id = StateWait ∧
    (peerX : Node ℝ).exchangeDataReceive 0 zeroRng 1 worldX.DataCache datumY
      = some ((peerX, worldX.DataCache, false), 1) ∧
    (World.exchangeData 0 (zeroRng : Rng ℝ) 0 worldX 0).map
      (fun r => r.1.1.heap.map (fun nd => nd.peers.peers)) = some [[1], [0]] := by
  refine ⟨by simp [worldX, ownerX, ownerNew, peerX, PeerList.peers, NewMaximizePeerSpread,
      newBasePeerList], rfl, receive_peerX 0 zeroRng 1, ?_⟩
  have hn : (worldX : World ℝ).heap.get? 0 = some ownerX := rfl
  have ho : (worldX : World ℝ).heap.get? 1 = some peerX := rfl
  have hd : (worldX : World ℝ).DataCache.get? (1 : Int).toNat = some (some datumY) := rfl
  simp only [World.exchangeData, hn, worldX_facts.2, ho, hd, receive_peerX]
  simp [peerX, StateWait, StateJoin, World.addPeer, worldX, ownerX, ownerNew, PeerList.AddPeer,
    maximizePeerSpread.AddPeer, NewMaximizePeerSpread, newBasePeerList, basePeerList.append,
    basePeerList.updateLocation, PeerList.peers]

theorem list_set_get (l : List (Node F)) (i : Nat) (x : Node F) (h : l.get? i = some x) :
    l.set i x = l := by
  apply List.ext_getElem?
  intro j
  by_cases e : i = j
  · subst e
    rw [List.getElem?_set_self', ← List.get?_eq_getElem?, h]
    simp
  · rw [List.getElem?_set_ne e]

theorem World.sameButPeers_refl (w : World F) : w.sameButPeers w :=
  ⟨rfl, rfl, fun _ nd h => ⟨nd.peers, h⟩⟩

theorem World.sameButPeers_trans (w w1 w2 : World F) (h1 : w.sameButPeers w1)
    (h2 : w1.sameButPeers w2) : w.sameButPeers w2 := by
  obtain ⟨a1, b1, c1⟩ := h1
  obtain ⟨a2, b2, c2⟩ := h2
  refine ⟨a2.trans a1, b2.trans b1, ?_⟩
  intro i nd hi
  obtain ⟨pl1, hp1⟩ := c1 i nd hi
  obtain ⟨pl2, hp2⟩ := c2 i _ hp1
  exact ⟨pl2, hp2⟩

/-- The method `addPeer` changes the peer list of its receiver only. -/
theorem World.addPeer_sameButPeers (w w1 : World F) (n o : NodeId) (h : w.addPeer n o = some w1) :
    w.sameButPeers w1 := by
  simp only [World.addPeer] at h
  split at h
  · rename_i nNode oNode hn ho
    split at h
    · exact Option.noConfusion h
    · rename_i pl ok hadd
      simp only [Option.some.injEq] at h
      subst h
      refine ⟨rfl, by simp, ?_⟩
      intro i nd hi
      by_cases e : n = i
      · subst e
        rw [hn] at hi
        simp only [Option.some.injEq] at hi
        subst hi
        refine ⟨pl, ?_⟩
        simp only [List.get?_eq_getElem?, List.getElem?_set_self']
        rw [← List.get?_eq_getElem?, hn]
        rfl
      · refine ⟨nd.peers, ?_⟩
        simp only [List.get?_eq_getElem?] at hi ⊢
        rw [List.getElem?_set_ne e, hi]
  · exact Option.noConfusion h

/-- C8, amended. When the chosen peer `o` is in Wait or Join but rejects the
offered datum, `exchangeData` still makes the two calls `o.addPeer(n)` and
`n.addPeer(o)`: it returns the world after these two calls (with the empty
message and no further random draw), in which the data slots and, for every
node, the location, the byte counts and every field other than the peer list
are exactly as before the call. -/
theorem exchangeData_reject (fuel : Nat) (g : Rng F) (k : Nat) (w : World F) (n o : NodeId)
    (nNode oNode o1 : Node F) (dataIdx : Int) (k1 k2 : Nat) (d : Data F)
    (data1 : List (Option (Data F)))
    (hn : w.heap.get? n = some nNode)
    (hfind : nNode.peers.RandomlyFindPeerCloserToData g k nNode.Location w.DataCache
      nNode.DataIndices = some ((some o, dataIdx), k1))
    (hidx : 0 ≤ dataIdx)
    (ho : w.heap.get? o = some oNode)
    (hwait : oNode.S.id = StateWait ∨ oNode.S.id = StateJoin)
    (hd : w.DataCache.get? dataIdx.toNat = some (some d))
    (hrej : oNode.exchangeDataReceive fuel g k1 w.DataCache d = some ((o1, data1, false), k2)) :
    World.exchangeData fuel g k w n
      = ((w.addPeer o n).bind fun w3 => w3.addPeer n o).map
          (fun w4 => ((w4, ExchangeMsg.empty), k1)) ∧
    ∀ w4 msg k4, World.exchangeData fuel g k w n = some ((w4, msg), k4) →
      w.sameButPeers w4 := by
  have hsame : o1 = oNode ∧ data1 = w.DataCache ∧ k2 = k1 := by
    rcases receive_cases fuel g k1 w.DataCache oNode d o1 data1 false k2 hrej with
      ⟨_, a, b, e, _⟩ | ⟨hok, _⟩
    · exact ⟨a, b, e⟩
    · exact Bool.noConfusion hok
  obtain ⟨e1, e2, e3⟩ := hsame
  subst e1 e2 e3
  have hw : ({ DataCache := w.DataCache, heap := w.heap.set o o1 } : World F) = w := by
    rw [list_set_get w.heap o o1 ho]
  have heq : World.exchangeData fuel g k w n
      = ((w.addPeer o n).bind fun w3 => w3.addPeer n o).map
          (fun w4 => ((w4, ExchangeMsg.empty), k2)) := by
    simp only [World.exchangeData, hn, hfind, ho, hd, hrej, hw]
    have h1 : ¬ dataIdx < 0 := not_lt.mpr hidx
    simp only [h1, and_false, if_false, hwait, if_true, Bool.false_eq_true]
    cases h3 : w.addPeer o n with
    | none => rfl
    | some w3 =>
      cases h4 : w3.addPeer n o with
      | none => simp [h4]
      | some w4 => simp [h4]
  refine ⟨heq, ?_⟩
  intro w4 msg k4 h
  rw [heq] at h
  simp only [Option.map_eq_some', Option.bind_eq_some, Prod.mk.injEq] at h
  obtain ⟨w5, ⟨w3, h3, h4⟩, ⟨h5, _⟩, _⟩ := h
  subst h5
  exact World.sameButPeers_trans w w3 w5 (World.addPeer_sameButPeers w w3 o n h3)
    (World.addPeer_sameButPeers w3 w5 n o h4)

/-- Witness for C8 (amended): the owner `ownerX` and the peer `peerX`. -/
theorem exchangeData_reject_witness :
    World.exchangeData 0 (zeroRng : Rng ℝ) 0 worldX 0
      = ((worldX.addPeer 1 0).bind fun w3 => w3.addPeer 0 1).map
          (fun w4 => ((w4, ExchangeMsg.empty), 1)) :=
  (exchangeData_reject 0 (zeroRng : Rng ℝ) 0 worldX 0 1 ownerX peerX peerX 1 1 1 datumY
    worldX.DataCache rfl worldX_facts.2 (by norm_num) rfl (Or.inl rfl) rfl
    (receive_peerX 0 zeroRng 1)).1

/-! ### The capacity of a peer list -/

theorem newBasePeerList_bounded (n : Nat) : (newBasePeerList n : basePeerList F).bounded n := by
  simp [basePeerList.bounded, newBasePeerList]

theorem basePeerList.removePeer_bounded (p q : basePeerList F) (cap : Nat) (o : NodeId)
    (hb : p.bounded cap) (h : p.RemovePeer o = some q) : q.bounded cap := by
  obtain ⟨h1, h2, h3⟩ := hb
  simp only [basePeerList.RemovePeer] at h
  split at h
  · simp only [Option.some.injEq] at h
    subst h
    exact ⟨h1, h2, h3⟩
  · split at h
    · exact Option.noConfusion h
    · split_ifs at h with c1 c2 <;> (try split at h) <;> (try exact Option.noConfusion h)
      simp only [Option.some.injEq] at h
      subst h
      refine ⟨h1, ?_, ?_⟩
      · simp only [List.length_take, List.length_set]
        omega
      · simp only [List.length_take, List.length_set]
        omega

theorem basePeerList.updateLocation_bounded (p : basePeerList F) (cap i : Nat) (oLoc : V F)
    (r : basePeerList F × Bool) (hb : p.bounded cap) (h : p.updateLocation i oLoc = some r) :
    r.1.bounded cap := by
  obtain ⟨h1, h2, h3⟩ := hb
  simp only [basePeerList.updateLocation] at h
  split_ifs at h
  simp only [Option.some.injEq] at h
  subst h
  exact ⟨h1, h2, by simpa using h3⟩

theorem basePeerList.append_bounded (p : basePeerList F) (cap : Nat) (o : NodeId) (oLoc : V F)
    (hb : p.bounded cap) (hlt : p.peers.length < p.maxPeers) : (p.append o oLoc).bounded cap := by
  obtain ⟨h1, h2, h3⟩ := hb
  refine ⟨h1, ?_, ?_⟩
  · simp only [basePeerList.append, List.length_append, List.length_singleton]
    omega
  · simp only [basePeerList.append, List.length_append, List.length_singleton]
    omega

theorem basePeerList.replaceAt_bounded (p q : basePeerList F) (cap idx : Nat) (o : NodeId)
    (oLoc : V F) (hb : p.bounded cap) (h : p.replaceAt idx o oLoc = some q) : q.bounded cap := by
  obtain ⟨h1, h2, h3⟩ := hb
  simp only [basePeerList.replaceAt] at h
  split at h
  · exact Option.noConfusion h
  · split_ifs at h
    simp only [Option.some.injEq] at h
    subst h
    exact ⟨h1, by simpa using h2, by simpa using h3⟩

theorem maxSpread_addPeer_bounded (p : basePeerList F) (cap : Nat) (loc : V F)
    (o : NodeId) (oLoc : V F) (r : basePeerList F × Bool) (hb : p.bounded cap)
    (h : maximizePeerSpread.AddPeer p loc o oLoc = some r) : r.1.bounded cap := by
  simp only [maximizePeerSpread.AddPeer] at h
  split at h
  · exact basePeerList.updateLocation_bounded p cap _ oLoc r hb h
  · split_ifs at h with hlt hshort
    · simp only [Option.some.injEq] at h
      subst h
      exact basePeerList.append_bounded p cap o oLoc hb hlt
    · split at h
      · simp only [Option.map_eq_some'] at h
        obtain ⟨q, hq, e⟩ := h
        subst e
        exact basePeerList.replaceAt_bounded p q cap _ o oLoc hb hq
      · simp only [Option.some.injEq] at h
        subst h
        exact hb

theorem closest_addPeer_bounded (p : basePeerList F) (cap : Nat) (loc : V F)
    (o : NodeId) (oLoc : V F) (r : basePeerList F × Bool) (hb : p.bounded cap)
    (h : closestNeighbors.AddPeer p loc o oLoc = some r) : r.1.bounded cap := by
  simp only [closestNeighbors.AddPeer] at h
  split at h
  · exact basePeerList.updateLocation_bounded p cap _ oLoc r hb h
  · split_ifs at h with hlt hshort
    · simp only [Option.some.injEq] at h
      subst h
      exact basePeerList.append_bounded p cap o oLoc hb hlt
    · split at h
      · simp only [Option.map_eq_some'] at h
        obtain ⟨q, hq, e⟩ := h
        subst e
        exact basePeerList.replaceAt_bounded p q cap _ o oLoc hb hq
      · simp only [Option.some.injEq] at h
        subst h
        exact hb

theorem calls_maximizePeerSpread (cs : List (PeerCall F)) (p : basePeerList F) (n : Nat)
    (pl : PeerList F) (hb : p.bounded n)
    (h : (PeerList.maximizePeerSpread p).calls cs = some pl) :
    ∃ q, pl = .maximizePeerSpread q ∧ q.bounded n := by
  induction cs generalizing p with
  | nil =>
    simp only [PeerList.calls, Option.some.injEq] at h
    exact ⟨p, h.symm, hb⟩
  | cons c rest ih =>
    simp only [PeerList.calls] at h
    split at h
    · exact Option.noConfusion h
    · rename_i pl1 hc
      cases c with
      | add loc o oLoc =>
        simp only [PeerList.call, PeerList.AddPeer, Option.map_map, Option.map_eq_some'] at hc
        obtain ⟨r, hr, e⟩ := hc
        subst e
        exact ih r.1 (maxSpread_addPeer_bounded p n loc o oLoc r hb hr) h
      | remove o =>
        simp only [PeerList.call, PeerList.RemovePeer, Option.map_eq_some'] at hc
        obtain ⟨q, hq, e⟩ := hc
        subst e
        exact ih q (basePeerList.removePeer_bounded p q n o hb hq) h

theorem calls_closestNeighbors (cs : List (PeerCall F)) (p : basePeerList F) (n : Nat)
    (pl : PeerList F) (hb : p.bounded n)
    (h : (PeerList.closestNeighbors p).calls cs = some pl) :
    ∃ q, pl = .closestNeighbors q ∧ q.bounded n := by
  induction cs generalizing p with
  | nil =>
    simp only [PeerList.calls, Option.some.injEq] at h
    exact ⟨p, h.symm, hb⟩
  | cons c rest ih =>
    simp only [PeerList.calls] at h
    split at h
    · exact Option.noConfusion h
    · rename_i pl1 hc
      cases c with
      | add loc o oLoc =>
        simp only [PeerList.call, PeerList.AddPeer, Option.map_map, Option.map_eq_some'] at hc
        obtain ⟨r, hr, e⟩ := hc
        subst e
        exact ih r.1 (closest_addPeer_bounded p n loc o oLoc r hb hr) h
      | remove o =>
        simp only [PeerList.call, PeerList.RemovePeer, Option.map_eq_some'] at hc
        obtain ⟨q, hq, e⟩ := hc
        subst e
        exact ih q (basePeerList.removePeer_bounded p q n o hb hq) h

theorem calls_maxSpreadThenClosestNeighbors (cs : List (PeerCall F)) (M C : basePeerList F)
    (nm nc : Nat) (pl : PeerList F) (hM : M.bounded nm) (hC : C.bounded nc)
    (h : (PeerList.maxSpreadThenClosestNeighbors M C).calls cs = some pl) :
    ∃ M1 C1, pl = .maxSpreadThenClosestNeighbors M1 C1 ∧ M1.bounded nm ∧ C1.bounded nc := by
  induction cs generalizing M C with
  | nil =>
    simp only [PeerList.calls, Option.some.injEq] at h
    exact ⟨M, C, h.symm, hM, hC⟩
  | cons c rest ih =>
    simp only [PeerList.calls] at h
    split at h
    · exact Option.noConfusion h
    · rename_i pl1 hc
      cases c with
      | add loc o oLoc =>
        simp only [PeerList.call, PeerList.AddPeer] at hc
        split at hc
        · simp at hc
        · rename_i M1 ok hm
          have hM1 := maxSpread_addPeer_bounded M nm loc o oLoc (M1, ok) hM hm
          split_ifs at hc with hok
          · simp only [Option.map_some', Option.some.injEq] at hc
            subst hc
            exact ih M1 C hM1 hC h
          · simp only [Option.map_map, Option.map_eq_some'] at hc
            obtain ⟨r, hr, e⟩ := hc
            subst e
            exact ih M1 r.1 hM1 (closest_addPeer_bounded C nc loc o oLoc r hC hr) h
      | remove o =>
        simp only [PeerList.call, PeerList.RemovePeer] at hc
        split at hc
        · exact Option.noConfusion hc
        · rename_i M1 hm
          simp only [Option.map_eq_some'] at hc
          obtain ⟨C1, hc1, e⟩ := hc
          subst e
          exact ih M1 C1 (basePeerList.removePeer_bounded M M1 nm o hM hm)
            (basePeerList.removePeer_bounded C C1 nc o hC hc1) h

/-- C9. For each policy (max-spread of capacity `n`, closest of capacity `n`,
hybrid of capacities `nm` and `nc`), after every sequence of `AddPeer` and
`RemovePeer` calls from the empty list that returns, the number of peers held
is at most the capacity (`n`, `n` and `nm + nc`), and in each embedded list
`peers` and `peerLocations` have the same length. -/
theorem peerList_capacity (n nm nc : Nat) (cs : List (PeerCall F)) :
    (∀ pl, (NewMaximizePeerSpread n).calls cs = some pl →
      pl.peers.length ≤ n ∧ ∀ p ∈ pl.lists, p.peers.length = p.peerLocations.length) ∧
    (∀ pl, (NewClosestNeighbors n).calls cs = some pl →
      pl.peers.length ≤ n ∧ ∀ p ∈ pl.lists, p.peers.length = p.peerLocations.length) ∧
    (∀ pl, (NewMaxSpreadThenClosestNeighbors nm nc).calls cs = some pl →
      pl.peers.length ≤ nm + nc ∧
      ∀ p ∈ pl.lists, p.peers.length = p.peerLocations.length) := by
  refine ⟨?_, ?_, ?_⟩
  · intro pl h
    obtain ⟨q, e, _, h2, h3⟩ :=
      calls_maximizePeerSpread cs _ n pl (newBasePeerList_bounded n) h
    subst e
    exact ⟨h2, by simpa [PeerList.lists] using h3⟩
  · intro pl h
    obtain ⟨q, e, _, h2, h3⟩ :=
      calls_closestNeighbors cs _ n pl (newBasePeerList_bounded n) h
    subst e
    exact ⟨h2, by simpa [PeerList.lists] using h3⟩
  · intro pl h
    obtain ⟨M1, C1, e, ⟨_, m2, m3⟩, ⟨_, c2, c3⟩⟩ :=
      calls_maxSpreadThenClosestNeighbors cs _ _ nm nc pl (newBasePeerList_bounded nm)
        (newBasePeerList_bounded nc) h
    subst e
    refine ⟨?_, ?_⟩
    · simp only [PeerList.peers, List.length_append]
      omega
    · simp only [PeerList.lists, List.mem_cons, List.mem_singleton, List.not_mem_nil, or_false]
      rintro p (e | e)
      · rw [e]; exact m3
      · rw [e]; exact c3

theorem calls_callsX : (NewMaximizePeerSpread 3).calls callsX = some (listX : PeerList F) := by
  simp [callsX, listX, PeerList.calls, PeerList.call, PeerList.AddPeer, PeerList.RemovePeer,
    maximizePeerSpread.AddPeer, basePeerList.RemovePeer, basePeerList.append,
    NewMaximizePeerSpread, newBasePeerList, Function.update]

/-- Witness for C9: the max-spread list of capacity 3 after the calls `callsX`
holds 2 peers. -/
theorem peerList_capacity_witness :
    (NewMaximizePeerSpread 3).calls callsX = some (listX : PeerList ℝ) ∧
      (listX : PeerList ℝ).peers.length ≤ 3 :=
  ⟨calls_callsX, ((peerList_capacity 3 0 0 callsX).1 (listX : PeerList ℝ) calls_callsX).1⟩

/-! ### Removing a peer -/

/-- C10, the code at the failing input. After `callsX` the peer 3 is at index 0
but `uniqueIdx[3]` is still 2: `RemovePeer(3)` indexes `p.peers[2]` in a slice
of length 2 and panics; and once a peer 4 has been added (at index 2),
`RemovePeer(3)` removes the peer 4 and leaves the peer 3 among the peers. -/
theorem removePeer_stale_index :
    (listX : PeerList F).peers = [3, 2] ∧ (listX : PeerList F).RemovePeer 3 = none ∧
    (((listX : PeerList F).calls [.add ⟨1, 0, 0⟩ 4 ⟨1, 0, 0⟩]).map PeerList.peers)
      = some [3, 2, 4] ∧
    (((listX : PeerList F).calls [.add ⟨1, 0, 0⟩ 4 ⟨1, 0, 0⟩, .remove 3]).map PeerList.peers)
      = some [3, 2] := by
  refine ⟨rfl, ?_, ?_, ?_⟩
  · simp [listX, PeerList.RemovePeer, basePeerList.RemovePeer, Function.update]
  · simp [listX, PeerList.calls, PeerList.call, PeerList.AddPeer, maximizePeerSpread.AddPeer,
      basePeerList.append, PeerList.peers, Function.update]
  · simp [listX, PeerList.calls, PeerList.call, PeerList.AddPeer, PeerList.RemovePeer,
      maximizePeerSpread.AddPeer, basePeerList.RemovePeer, basePeerList.append, PeerList.peers,
      Function.update]


/-! ### Finding a peer closer to a datum -/

theorem basePeerList.firstCloser_some (p : basePeerList F) (loc : V F)
    (data : List (Option (Data F))) (i : Nat) (indices : List Nat) (d : Nat)
    (h : p.firstCloser loc data i indices = some (some d)) :
    d ∈ indices ∧ p.closerAt loc data i d := by
  induction indices with
  | nil => simp [basePeerList.firstCloser] at h
  | cons e rest ih =>
    simp only [basePeerList.firstCloser] at h
    split at h
    · exact Option.noConfusion h
    · obtain ⟨h1, h2⟩ := ih h
      exact ⟨List.mem_cons_of_mem _ h1, h2⟩
    · rename_i dat hdat
      split at h
      · exact Option.noConfusion h
      · rename_i peerLoc hloc
        split_ifs at h with hc
        · simp only [Option.some.injEq] at h
          subst h
          exact ⟨List.mem_cons_self _ _, dat, peerLoc, hdat, hloc, hc⟩
        · obtain ⟨h1, h2⟩ := ih h
          exact ⟨List.mem_cons_of_mem _ h1, h2⟩

theorem basePeerList.firstCloser_none (p : basePeerList F) (loc : V F)
    (data : List (Option (Data F))) (i : Nat) (indices : List Nat)
    (h : p.firstCloser loc data i indices = some none) :
    ∀ d ∈ indices, ¬ p.closerAt loc data i d := by
  induction indices with
  | nil => simp
  | cons e rest ih =>
    simp only [basePeerList.firstCloser] at h
    intro d hd
    split at h
    · exact Option.noConfusion h
    · rename_i hdat
      rcases List.mem_cons.mp hd with e1 | e1
      · subst e1
        rintro ⟨dat, peerLoc, h1, _⟩
        rw [hdat] at h1
        simp at h1
      · exact ih h d e1
    · rename_i dat hdat
      split at h
      · exact Option.noConfusion h
      · rename_i peerLoc hloc
        split_ifs at h with hc
        · simp at h
        · rcases List.mem_cons.mp hd with e1 | e1
          · subst e1
            rintro ⟨dat1, peerLoc1, h1, h2, h3⟩
            rw [hdat] at h1
            rw [hloc] at h2
            simp only [Option.some.injEq] at h1 h2
            subst h1 h2
            exact hc h3
          · exact ih h d e1

/-- The next scan position of `RandomlyFindPeerCloserToData`. -/
theorem cyc_next (len a : Nat) (hlen : 0 < len) :
    (if a % len + 1 ≥ len then 0 else a % len + 1) = (a + 1) % len := by
  have hr : a % len < len := Nat.mod_lt _ hlen
  have e0 : (a + 1) % len = (a % len + 1) % len := (Nat.mod_add_mod a len 1).symm
  by_cases h : a % len + 1 ≥ len
  · rw [if_pos h, e0]
    have e : a % len + 1 = len := by omega
    rw [e, Nat.mod_self]
  · rw [if_neg h, e0, Nat.mod_eq_of_lt (show a % len + 1 < len by omega)]

/-- The scan is back at the offset after `len` steps and not before. -/
theorem cyc_eq_offset (len offset j : Nat) (hoff : offset < len) (hj : 0 < j) (hjl : j ≤ len) :
    (offset + j) % len = offset ↔ j = len := by
  constructor
  · intro h
    by_contra hne
    by_cases hlt : offset + j < len
    · rw [Nat.mod_eq_of_lt hlt] at h
      omega
    · rw [Nat.mod_eq_sub_mod (by omega), Nat.mod_eq_of_lt (by omega)] at h
      omega
  · intro h
    subst h
    rw [Nat.add_mod_right, Nat.mod_eq_of_lt hoff]

theorem basePeerList.findLoop_spec (p : basePeerList F) (loc : V F)
    (data : List (Option (Data F))) (indices : List Nat) (offset : Nat)
    (hoff : offset < p.peers.length) (fuel : Nat) :
    ∀ (m i1 : Nat) (dataIdx : Int), m < p.peers.length →
      p.findLoop loc data indices offset fuel ((offset + m) % p.peers.length)
        = some (i1, dataIdx) →
      (∃ (m1 d : Nat), m ≤ m1 ∧ m1 < p.peers.length ∧ i1 = (offset + m1) % p.peers.length ∧
        dataIdx = (d : Int) ∧ p.firstCloser loc data i1 indices = some (some d) ∧
        ∀ m2, m ≤ m2 → m2 < m1 →
          p.firstCloser loc data ((offset + m2) % p.peers.length) indices = some none) ∨
      (dataIdx = -1 ∧ i1 = offset ∧
        ∀ m2, m ≤ m2 → m2 < p.peers.length →
          p.firstCloser loc data ((offset + m2) % p.peers.length) indices = some none) := by
  induction fuel with
  | zero => intro m i1 dataIdx _ h; simp [basePeerList.findLoop] at h
  | succ fuel ih =>
    intro m i1 dataIdx hm h
    simp only [basePeerList.findLoop] at h
    split at h
    · exact Option.noConfusion h
    · rename_i d hd
      simp only [Option.some.injEq, Prod.mk.injEq] at h
      obtain ⟨e1, e2⟩ := h
      subst e1
      exact Or.inl ⟨m, d, le_refl _, hm, rfl, e2.symm, hd,
        fun m2 h1 h2 => absurd h2 (by omega)⟩
    · rename_i hd
      rw [cyc_next _ _ (by omega)] at h
      split_ifs at h with hback
      · simp only [Option.some.injEq, Prod.mk.injEq] at h
        obtain ⟨e1, e2⟩ := h
        have hlen : m + 1 = p.peers.length :=
          (cyc_eq_offset _ offset (m + 1) hoff (by omega) (by omega)).mp hback
        refine Or.inr ⟨e2.symm, ?_, ?_⟩
        · rw [← e1]; exact hback
        · intro m2 h1 h2
          have : m2 = m := by omega
          subst this
          exact hd
      · have hm1 : m + 1 < p.peers.length := by
          rcases Nat.lt_or_ge (m + 1) p.peers.length with h1 | h1
          · exact h1
          · exact absurd ((cyc_eq_offset _ offset (m + 1) hoff (by omega) (by omega)).mpr
              (by omega)) hback
        rcases ih (m + 1) i1 dataIdx hm1 h with ⟨m1, d, a1, a2, a3, a4, a5, a6⟩ | ⟨b1, b2, b3⟩
        · refine Or.inl ⟨m1, d, by omega, a2, a3, a4, a5, ?_⟩
          intro m2 h1 h2
          rcases Nat.eq_or_lt_of_le h1 with e | e
          · subst e; exact hd
          · exact a6 m2 e h2
        · refine Or.inr ⟨b1, b2, ?_⟩
          intro m2 h1 h2
          rcases Nat.eq_or_lt_of_le h1 with e | e
          · subst e; exact hd
          · exact b3 m2 e h2

/-- C21. When `RandomlyFindPeerCloserToData` returns a data index `idx ≥ 0`
with the peer `peer`, then `idx` is one of `indices`, the slot `data[idx]` is
not nil, `peer` is the peer at the scan position `i` that produced the match,
the location stored at `i` is strictly nearer (great circle distance) to
`data[idx].Location` than `loc` is, and `i` is the first position in cyclic
order from the random offset `rand.Intn(len(p.peers))` that has any match. -/
theorem randomlyFindPeerCloserToData_match (p : basePeerList F) (g : Rng F) (k : Nat)
    (loc : V F) (data : List (Option (Data F))) (indices : List Nat) (peer : Option NodeId)
    (idx : Int) (k1 : Nat)
    (h : p.RandomlyFindPeerCloserToData g k loc data indices = some ((peer, idx), k1))
    (hidx : 0 ≤ idx) :
    ∃ (d i m : Nat) (q : NodeId),
      idx = (d : Int) ∧ d ∈ indices ∧ peer = some q ∧ p.peers.get? i = some q ∧
      p.closerAt loc data i d ∧
      m < p.peers.length ∧ i = (g.int k % p.peers.length + m) % p.peers.length ∧
      ∀ m2 < m, ∀ d2 ∈ indices,
        ¬ p.closerAt loc data ((g.int k % p.peers.length + m2) % p.peers.length) d2 := by
  simp only [basePeerList.RandomlyFindPeerCloserToData] at h
  split_ifs at h with hempty
  · simp only [Option.some.injEq, Prod.mk.injEq] at h
    omega
  · simp only [Rng.Intn, if_neg hempty] at h
    have hoff : g.int k % p.peers.length < p.peers.length := Nat.mod_lt _ (by omega)
    split at h
    · exact Option.noConfusion h
    · rename_i i dataIdx hloop
      split at h
      · exact Option.noConfusion h
      · rename_i q hq
        simp only [Option.some.injEq, Prod.mk.injEq] at h
        obtain ⟨⟨e1, e2⟩, _⟩ := h
        subst e1 e2
        have hstart : (g.int k % p.peers.length + 0) % p.peers.length
            = g.int k % p.peers.length := by
          rw [Nat.add_zero, Nat.mod_mod]
        have hloop1 : p.findLoop loc data indices (g.int k % p.peers.length) p.peers.length
            ((g.int k % p.peers.length + 0) % p.peers.length) = some (i, dataIdx) := by
          rw [hstart]; exact hloop
        rcases p.findLoop_spec loc data indices _ hoff p.peers.length 0 i dataIdx (by omega)
          hloop1 with ⟨m1, d, _, a2, a3, a4, a5, a6⟩ | ⟨b1, _, _⟩
        · obtain ⟨c1, c2⟩ := p.firstCloser_some loc data i indices d a5
          refine ⟨d, i, m1, q, a4, c1, rfl, hq, c2, a2, a3, ?_⟩
          intro m2 hm2 d2 hd2
          exact p.firstCloser_none loc data _ indices (a6 m2 (Nat.zero_le _) hm2) d2 hd2
        · omega

theorem find_peersX :
    (peersX : basePeerList ℝ).RandomlyFindPeerCloserToData zeroRng 0 ⟨1, 0, 0⟩ slotsX [0, 1]
      = some ((some 1, 1), 1) ∧
    (peersX : basePeerList ℝ).RandomlyFindPeerCloserToData zeroRng 0 ⟨1, 0, 0⟩ slotsX [0]
      = some ((some 1, -1), 1) ∧
    ∀ i d, d ∈ [0] → ¬ (peersX : basePeerList ℝ).closerAt ⟨1, 0, 0⟩ slotsX i d := by
  obtain ⟨hxx, hyy, hxy, hyx, h⟩ := nodeW_facts.1
  refine ⟨?_, ?_, ?_⟩
  · simp [peersX, slotsX, basePeerList.RandomlyFindPeerCloserToData, Rng.Intn, zeroRng,
      basePeerList.findLoop, basePeerList.firstCloser, datumX, datumY, hxx, hyy, hxy, hyx, h,
      not_lt.mpr h.le]
  · simp [peersX, slotsX, basePeerList.RandomlyFindPeerCloserToData, Rng.Intn, zeroRng,
      basePeerList.findLoop, basePeerList.firstCloser, datumX, datumY, hxx, hyy, hxy, hyx, h,
      not_lt.mpr h.le]
  · intro i d hd
    simp only [List.mem_singleton] at hd
    subst hd
    rintro ⟨dat, peerLoc, h1, h2, h3⟩
    simp only [slotsX, List.get?_cons_zero, Option.some.injEq] at h1
    subst h1
    cases i with
    | zero =>
      simp only [peersX, List.get?_cons_zero, Option.some.injEq] at h2
      subst h2
      simp only [datumX, hxx, hyx, gt_iff_lt] at h3
      exact absurd h3 (not_lt.mpr h.le)
    | succ j => simp [peersX] at h2

/-- Witness for C21: the peer at `(0.6, 0.8, 0)` is nearer to the datum in
slot 1 than the owner at `(1, 0, 0)`. -/
theorem randomlyFindPeerCloserToData_match_witness :
    (peersX : basePeerList ℝ).RandomlyFindPeerCloserToData zeroRng 0 ⟨1, 0, 0⟩ slotsX [0, 1]
      = some ((some 1, 1), 1) ∧
    ∃ (d i m : Nat) (q : NodeId),
      (1 : Int) = (d : Int) ∧ d ∈ [0, 1] ∧ some 1 = some q ∧
      (peersX : basePeerList ℝ).peers.get? i = some q ∧
      (peersX : basePeerList ℝ).closerAt ⟨1, 0, 0⟩ slotsX i d ∧
      m < (peersX : basePeerList ℝ).peers.length ∧
      i = ((zeroRng : Rng ℝ).int 0 % (peersX : basePeerList ℝ).peers.length + m)
        % (peersX : basePeerList ℝ).peers.length ∧
      ∀ m2 < m, ∀ d2 ∈ [0, 1],
        ¬ (peersX : basePeerList ℝ).closerAt ⟨1, 0, 0⟩ slotsX
          (((zeroRng : Rng ℝ).int 0 % (peersX : basePeerList ℝ).peers.length + m2)
            % (peersX : basePeerList ℝ).peers.length) d2 :=
  ⟨find_peersX.1,
    randomlyFindPeerCloserToData_match peersX zeroRng 0 ⟨1, 0, 0⟩ slotsX [0, 1] (some 1) 1 1
      find_peersX.1 (by norm_num)⟩
/-! ### No peer is closer to any datum -/

theorem basePeerList.firstCloser_total (p : basePeerList F) (loc : V F)
    (data : List (Option (Data F))) (i : Nat) (indices : List Nat)
    (hi : i < p.peerLocations.length) (hin : ∀ d ∈ indices, d < data.length)
    (hno : ∀ d ∈ indices, ¬ p.closerAt loc data i d) :
    p.firstCloser loc data i indices = some none := by
  induction indices with
  | nil => rfl
  | cons e rest ih =>
    have ih1 := ih (fun d hd => hin d (List.mem_cons_of_mem _ hd))
      (fun d hd => hno d (List.mem_cons_of_mem _ hd))
    have he : e < data.length := hin e (List.mem_cons_self _ _)
    simp only [basePeerList.firstCloser]
    rw [List.get?_eq_get he]
    cases hdat : data.get ⟨e, he⟩ with
    | none => exact ih1
    | some dat =>
      simp only
      rw [List.get?_eq_get hi]
      simp only
      split_ifs with hc
      · exfalso
        refine hno e (List.mem_cons_self _ _) ⟨dat, p.peerLocations.get ⟨i, hi⟩, ?_, ?_, hc⟩
        · rw [List.get?_eq_get he, hdat]
        · rw [List.get?_eq_get hi]
      · exact ih1

theorem basePeerList.findLoop_none (p : basePeerList F) (loc : V F)
    (data : List (Option (Data F))) (indices : List Nat) (offset : Nat)
    (hoff : offset < p.peers.length)
    (hno : ∀ m, m < p.peers.length →
      p.firstCloser loc data ((offset + m) % p.peers.length) indices = some none)
    (fuel : Nat) :
    ∀ m, m < p.peers.length → p.peers.length - m ≤ fuel →
      p.findLoop loc data indices offset fuel ((offset + m) % p.peers.length)
        = some (offset, -1) := by
  induction fuel with
  | zero => intro m h1 h2; omega
  | succ fuel ih =>
    intro m h1 h2
    simp only [basePeerList.findLoop, hno m h1]
    rw [cyc_next _ _ (by omega)]
    by_cases hback : (offset + m + 1) % p.peers.length = offset
    · rw [if_pos hback, hback]
    · rw [if_neg hback]
      have hm1 : m + 1 < p.peers.length := by
        rcases Nat.lt_or_ge (m + 1) p.peers.length with h3 | h3
        · exact h3
        · exact absurd ((cyc_eq_offset _ offset (m + 1) hoff (by omega) (by omega)).mpr
            (by omega)) hback
      exact ih (m + 1) hm1 (by omega)

/-- C22, counterexample. No peer of the list `peersX` is nearer than the owner
at `(1, 0, 0)` to the datum of slot 0, and `RandomlyFindPeerCloserToData`
returns the peer 1 with the index `-1`, not `nil`. -/
theorem randomlyFindPeerCloserToData_none_counterexample :
    (∀ i d, d ∈ [0] → ¬ (peersX : basePeerList ℝ).closerAt ⟨1, 0, 0⟩ slotsX i d) ∧
    (peersX : basePeerList ℝ).RandomlyFindPeerCloserToData zeroRng 0 ⟨1, 0, 0⟩ slotsX [0]
      = some ((some 1, -1), 1) :=
  ⟨find_peersX.2.2, find_peersX.2.1⟩

/-- C22, amended. On a list with as many locations as peers and indices within
the data slots, when no stored location is strictly nearer than `loc` to any
non-nil datum among `indices`, `RandomlyFindPeerCloserToData` returns the
index `-1`; the peer returned with it is `nil` on the empty list (no draw is
made) and the peer at the random offset on a non-empty list (one draw). -/
theorem randomlyFindPeerCloserToData_none (p : basePeerList F) (g : Rng F) (k : Nat)
    (loc : V F) (data : List (Option (Data F))) (indices : List Nat)
    (hlen : p.peerLocations.length = p.peers.length)
    (hin : ∀ d ∈ indices, d < data.length)
    (hno : ∀ i d, d ∈ indices → ¬ p.closerAt loc data i d) :
    p.RandomlyFindPeerCloserToData g k loc data indices
      = some ((p.peers.get? (g.int k % p.peers.length), -1),
          if p.peers.length = 0 then k else k + 1) := by
  simp only [basePeerList.RandomlyFindPeerCloserToData]
  by_cases hempty : p.peers.length = 0
  · rw [if_pos hempty, if_pos hempty]
    have : p.peers = [] := List.length_eq_zero.mp hempty
    simp [this]
  · rw [if_neg hempty, if_neg hempty]
    simp only [Rng.Intn, if_neg hempty]
    have hoff : g.int k % p.peers.length < p.peers.length := Nat.mod_lt _ (by omega)
    have hloop := p.findLoop_none loc data indices _ hoff
      (fun m _ => p.firstCloser_total loc data _ indices
        (by rw [hlen]; exact Nat.mod_lt _ (by omega)) hin (fun d hd => hno _ d hd))
      p.peers.length 0 (by omega) (by omega)
    rw [Nat.add_zero, Nat.mod_mod] at hloop
    rw [hloop]
    simp only
    rw [List.get?_eq_get hoff]

/-- Witness for C22 (amended): the list `peersX` and the datum of slot 0. -/
theorem randomlyFindPeerCloserToData_none_witness :
    (peersX : basePeerList ℝ).RandomlyFindPeerCloserToData zeroRng 0 ⟨1, 0, 0⟩ slotsX [0]
      = some (((peersX : basePeerList ℝ).peers.get?
          ((zeroRng : Rng ℝ).int 0 % (peersX : basePeerList ℝ).peers.length), -1),
          if (peersX : basePeerList ℝ).peers.length = 0 then 0 else 0 + 1) :=
  randomlyFindPeerCloserToData_none peersX zeroRng 0 ⟨1, 0, 0⟩ slotsX [0] rfl
    (by simp [slotsX]) find_peersX.2.2
/-! ### Random peers -/

/-- On a non-empty list the loop of `GetRandomPeerThatsNot` returns after at
most `n` draws, with `nil` or with a member of the list other than `o`. -/
theorem basePeerList.randomPeerLoop_spec (p : basePeerList F) (g : Rng F) (o : NodeId)
    (hne : p.peers.length ≠ 0) (n : Nat) :
    ∀ k, ∃ r k1, p.randomPeerLoop g o n k = some (r, k1) ∧ k1 ≤ k + n ∧
      ∀ q, r = some q → q ∈ p.peers ∧ q ≠ o := by
  induction n with
  | zero => intro k; exact ⟨none, k, rfl, le_refl _, fun q h => Option.noConfusion h⟩
  | succ n ih =>
    intro k
    have hoff : g.int k % p.peers.length < p.peers.length := Nat.mod_lt _ (by omega)
    simp only [basePeerList.randomPeerLoop, Rng.Intn, if_neg hne]
    rw [List.get?_eq_get hoff]
    simp only
    by_cases hq : p.peers.get ⟨g.int k % p.peers.length, hoff⟩ = o
    · rw [if_neg (by simpa using hq)]
      obtain ⟨r, k1, h1, h2, h3⟩ := ih (k + 1)
      exact ⟨r, k1, h1, by omega, h3⟩
    · rw [if_pos hq]
      refine ⟨_, _, rfl, by omega, ?_⟩
      intro q h
      simp only [Option.some.injEq] at h
      subst h
      exact ⟨List.get_mem _ _ _, hq⟩

/-- C23, the code on an empty list. `GetRandomPeer` tests for the empty list
and returns `nil` without a draw; `GetRandomPeerThatsNot` has no such test and
calls `rand.Intn(0)`, which panics: for a list whose `peers` is empty, and so
for the new lists of the three policies, the call does not return. -/
theorem getRandomPeerThatsNot_empty (p : basePeerList F) (g : Rng F) (k : Nat) (o : NodeId)
    (n nm nc : Nat) :
    ({ p with peers := [] } : basePeerList F).GetRandomPeer g k = some (none, k) ∧
    ({ p with peers := [] } : basePeerList F).GetRandomPeerThatsNot g k o = none ∧
    (NewMaximizePeerSpread n : PeerList F).GetRandomPeerThatsNot g k o = none ∧
    (NewClosestNeighbors n : PeerList F).GetRandomPeerThatsNot g k o = none ∧
    (NewMaxSpreadThenClosestNeighbors nm nc : PeerList F).GetRandomPeerThatsNot g k o = none := by
  refine ⟨?_, ?_, ?_, ?_, ?_⟩ <;>
    simp [basePeerList.GetRandomPeer, basePeerList.GetRandomPeerThatsNot, getPeerForMaxTries,
      basePeerList.randomPeerLoop, Rng.Intn, PeerList.GetRandomPeerThatsNot,
      NewMaximizePeerSpread, NewClosestNeighbors, NewMaxSpreadThenClosestNeighbors,
      newBasePeerList, basePeerList.length]

/-! ### The allocation table -/

/-- C24, the code at the failing input. In a new simulation with one data slot
(`DataAllocdToNode = [false]`, `NDataCacheFree = 1`), `createNode` with an
allocation function that returns 0 reserves the index 0 all the same: the node
gets `DataIndices = [0]`, the table becomes `[true]` and `NDataCacheFree` stays
1, with no `false` entry left. -/
theorem createNode_zero_slots (sha256 : List (Fin 256) → Address) (fuel : Nat) (g : Rng F)
    (k : Nat) (pl : PeerList F) :
    (NewSimulation sha256 fuel g k 0 1 1 (fun _ => setupX 0 pl)).map
        (fun r => (r.1.DataAllocdToNode, r.1.NDataCacheFree)) = some ([false], 1) ∧
    ((NewSimulation sha256 fuel g k 0 1 1 (fun _ => setupX 0 pl)).bind fun r =>
      (r.1.createNode sha256 fuel g r.2 (setupX 0 pl)).map fun q =>
        (q.1.2.DataIndices, q.1.1.DataAllocdToNode, q.1.1.NDataCacheFree))
      = some ([0], [true], 1) := by
  constructor
  · rfl
  · simp [NewSimulation, Simulation.startLoop, Simulation.createNode, setupX, allocLoop,
      initDataLoop, NewNode, Node.computeLocationAndCurrentSize, collectOwned]

/-- C25, the code at the failing input. A new simulation with one data slot
and one start node that takes the slot has `DataAllocdToNode = [true]` and the
live node 0 with `DataIndices = [0]`. After `ExistingNodeLeaves` no node is
live, and `DataAllocdToNode` is still `[true]`; `removeNode` is the method that
resets the entries of the node. -/
theorem existingNodeLeaves_keeps_allocation (sha256 : List (Fin 256) → Address) (fuel : Nat)
    (g : Rng F) (k : Nat) (pl : PeerList F) :
    (NewSimulation sha256 fuel g k 1 1 1 (fun _ => setupX 1 pl)).map
        (fun r => (r.1.NodeCache, r.1.heap.map Node.DataIndices, r.1.DataAllocdToNode))
      = some ([some 0], [[0]], [true]) ∧
    ((NewSimulation sha256 fuel g k 1 1 1 (fun _ => setupX 1 pl)).bind fun r =>
      r.1.ExistingNodeLeaves.map fun s => (s.NodeCache, s.DataAllocdToNode))
      = some ([none], [true]) ∧
    ((NewSimulation sha256 fuel g k 1 1 1 (fun _ => setupX 1 pl)).bind fun r =>
      (r.1.removeNode 0).map fun s => (s.NodeCache, s.DataAllocdToNode))
      = some ([none], [false]) := by
  refine ⟨?_, ?_, ?_⟩ <;>
    simp [NewSimulation, Simulation.startLoop, Simulation.createNodeAt, Simulation.createNode,
      setupX, allocLoop, initDataLoop, NewNode, Node.computeLocationAndCurrentSize,
      collectOwned, Simulation.ExistingNodeLeaves, Simulation.leaveLoop, List.enum,
      List.enumFrom, Simulation.removeNode, List.indexOf?, List.findIdx?,
      List.range_succ]
/-! ### The selection rule of the Monte Carlo wrapper -/

theorem monteCarloInv_step (st s : V ℝ × ℝ × ℝ × Int) (prev : List (V ℝ × ℝ × ℝ × Int))
    (h : monteCarloInv st prev) :
    monteCarloInv
      (if !s.1.Equals noAnswer && (st.1.Equals noAnswer || decide (s.2.1 < st.2.1)) then s
        else st) (prev ++ [s]) := by
  obtain ⟨h1, h2⟩ := h
  cases hs : s.1.Equals noAnswer with
  | true =>
    simp only [Bool.not_true, Bool.false_and, Bool.false_eq_true, if_false]
    refine ⟨?_, ?_⟩
    · rw [h1]
      constructor
      · intro h3 s1 hs1
        rcases List.mem_append.mp hs1 with e | e
        · exact h3 s1 e
        · rw [List.mem_singleton.mp e]; exact hs
      · intro h3 s1 hs1
        exact h3 s1 (List.mem_append_left _ hs1)
    · intro h3
      obtain ⟨s0, a1, a2, a3, a4, a5⟩ := h2 h3
      refine ⟨s0, List.mem_append_left _ a1, a2, a3, a4, ?_⟩
      intro s1 hs1 hn
      rcases List.mem_append.mp hs1 with e | e
      · exact a5 s1 e hn
      · rw [List.mem_singleton.mp e, hs] at hn
        exact Bool.noConfusion hn
  | false =>
    cases hst : st.1.Equals noAnswer with
    | true =>
      simp only [Bool.not_false, Bool.true_or, Bool.and_self, if_true]
      have hall := h1.mp hst
      refine ⟨?_, ?_⟩
      · rw [hs]
        constructor
        · intro h3; exact Bool.noConfusion h3
        · intro h3
          have := h3 s (List.mem_append_right _ (List.mem_singleton.mpr rfl))
          rw [hs] at this
          exact this
      · intro _
        refine ⟨s, List.mem_append_right _ (List.mem_singleton.mpr rfl), hs, rfl, rfl, ?_⟩
        intro s1 hs1 hn
        rcases List.mem_append.mp hs1 with e | e
        · rw [hall s1 e] at hn
          exact Bool.noConfusion hn
        · rw [List.mem_singleton.mp e]
    | false =>
      obtain ⟨s0, a1, a2, a3, a4, a5⟩ := h2 hst
      by_cases hlt : s.2.1 < st.2.1
      · simp only [Bool.not_false, Bool.false_or, Bool.true_and, decide_eq_true_eq, hlt, if_true]
        refine ⟨?_, ?_⟩
        · rw [hs]
          constructor
          · intro h3; exact Bool.noConfusion h3
          · intro h3
            have := h3 s (List.mem_append_right _ (List.mem_singleton.mpr rfl))
            rw [hs] at this
            exact this
        · intro _
          refine ⟨s, List.mem_append_right _ (List.mem_singleton.mpr rfl), hs, rfl, rfl, ?_⟩
          intro s1 hs1 hn
          rcases List.mem_append.mp hs1 with e | e
          · have := a5 s1 e hn
            rw [a4] at hlt
            linarith
          · rw [List.mem_singleton.mp e]
      · simp only [Bool.not_false, Bool.false_or, Bool.true_and, decide_eq_true_eq, hlt,
          if_false]
        refine ⟨?_, ?_⟩
        · rw [hst]
          constructor
          · intro h3; exact Bool.noConfusion h3
          · intro h3
            have := h3 s (List.mem_append_right _ (List.mem_singleton.mpr rfl))
            rw [hs] at this
            exact this
        · intro _
          refine ⟨s0, List.mem_append_left _ a1, a2, a3, a4, ?_⟩
          intro s1 hs1 hn
          rcases List.mem_append.mp hs1 with e | e
          · exact a5 s1 e hn
          · rw [List.mem_singleton.mp e, ← a4]
            exact not_lt.mp hlt

set_option maxHeartbeats 4000000 in
/-- The invariant of the loop of the Monte Carlo wrapper over the runs it has
made, for every list of indices and for the indices `0, …, K - 1`. -/
theorem monteCarloLoop_facts :
    (∀ (g : Rng ℝ) (locs : List (V ℝ)) (c : List ℝ) (tol : ℝ) (x0 : V ℝ) (alpha0 : ℝ) (l : List Nat),
      (∀ i ∈ l, i ≠ 0) →
        ∀ (st : V ℝ × ℝ × ℝ × Int) (k : Nat) (prev : List (V ℝ × ℝ × ℝ × Int)),
              monteCarloInv st prev →
              monteCarloInv (monteCarloLoop g locs c tol x0 alpha0 l st k).1
                (prev ++ monteCarloRuns g locs c tol x0 alpha0 l k)) ∧
    (∀ (g : Rng ℝ) (locs : List (V ℝ)) (c : List ℝ) (tol : ℝ) (x0 : V ℝ) (alpha0 : ℝ) (n : Nat) (z1 z2 : ℝ) (z3 : Int) (k : Nat),
        monteCarloInv (monteCarloLoop g locs c tol x0 alpha0 (List.range n) (noAnswer, z1, z2, z3) k).1
              (monteCarloRuns g locs c tol x0 alpha0 (List.range n) k)) := by
  have h_monteCarloLoop_inv : ∀ (g : Rng ℝ) (locs : List (V ℝ)) (c : List ℝ) (tol : ℝ) (x0 : V ℝ) (alpha0 : ℝ) (l : List Nat),
      (∀ i ∈ l, i ≠ 0) →
        ∀ (st : V ℝ × ℝ × ℝ × Int) (k : Nat) (prev : List (V ℝ × ℝ × ℝ × Int)),
              monteCarloInv st prev →
              monteCarloInv (monteCarloLoop g locs c tol x0 alpha0 l st k).1
                (prev ++ monteCarloRuns g locs c tol x0 alpha0 l k) := by
    intro g locs c tol x0 alpha0 l hl
    induction l with
    | nil => intro st k prev h; simpa [monteCarloLoop, monteCarloRuns] using h
    | cons i rest ih =>
      intro st k prev h
      have hi : i ≠ 0 := hl i (List.mem_cons_self _ _)
      have hrest : ∀ j ∈ rest, j ≠ 0 := fun j hj => hl j (List.mem_cons_of_mem _ hj)
      have hstep := monteCarloInv_step st
        (solveNonEuclideanMultifacilityLocationSmooth locs c tol (RandomVector g k).1 0.001)
        prev h
      have := ih hrest _ (RandomVector g k).2 _ hstep
      simp only [monteCarloLoop, monteCarloRuns, if_neg hi]
      rw [List.append_assoc] at this
      split_ifs with hc
      · rw [if_pos hc] at this
        exact this
      · rw [if_neg hc] at this
        exact this
  have h_monteCarloLoop_range_inv : ∀ (g : Rng ℝ) (locs : List (V ℝ)) (c : List ℝ) (tol : ℝ) (x0 : V ℝ) (alpha0 : ℝ) (n : Nat) (z1 z2 : ℝ) (z3 : Int) (k : Nat),
        monteCarloInv (monteCarloLoop g locs c tol x0 alpha0 (List.range n) (noAnswer, z1, z2, z3) k).1
              (monteCarloRuns g locs c tol x0 alpha0 (List.range n) k) := by
    intro g locs c tol x0 alpha0 n z1 z2 z3 k
    cases n with
    | zero =>
      simp only [List.range_zero, monteCarloLoop, monteCarloRuns]
      refine ⟨?_, ?_⟩
      · simp [V.Equals, noAnswer]
      · intro h
        simp [V.Equals, noAnswer] at h
    | succ m =>
      rw [List.range_succ_eq_map]
      simp only [monteCarloLoop, monteCarloRuns, if_true]
      have h0 : monteCarloInv
          (solveNonEuclideanMultifacilityLocationSmooth locs c tol x0 alpha0)
          [solveNonEuclideanMultifacilityLocationSmooth locs c tol x0 alpha0] := by
        refine ⟨?_, ?_⟩
        · simp
        · intro h
          exact ⟨_, List.mem_singleton.mpr rfl, h, rfl, rfl, fun s1 hs1 _ => by
            rw [List.mem_singleton.mp hs1]⟩
      have := h_monteCarloLoop_inv g locs c tol x0 alpha0 ((List.range m).map Nat.succ)
        (by intro i hi; simp only [List.mem_map] at hi; obtain ⟨j, _, e⟩ := hi; omega)
        _ k _ h0
      simpa using this
  exact ⟨h_monteCarloLoop_inv, h_monteCarloLoop_range_inv⟩

/-- C26. The selection rule of the Monte Carlo wrapper, once Phase A has
returned. When Phase A returns an input point (not the sentinel), the wrapper
returns it with the values of Phase A and no error. Otherwise the wrapper
returns, with an error if and only if every one of the smooth runs returned the
sentinel; and without an error the point and the `F` value returned are those
of a run that did not return the sentinel, whose `F` value is `≤` that of every
other such run. -/
theorem monteCarlo_selection (fuel : Nat) (g : Rng ℝ) (k : Nat) (a : List (V ℝ)) (c : List ℝ)
    (nsTol sTol : ℝ) (nMC : Int) (ns : NonSmooth ℝ) (k1 : Nat)
    (hns : solveNonEuclideanMultifacilityLocationNonSmooth fuel g k a c nsTol = some (ns, k1)) :
    (ns.result.Equals noAnswer = false →
      SolveNonEuclideanMultifacilityLocationMonteCarlo fuel g k a c nsTol sTol nMC
        = some ((ns.result, ns.fxaj, ns.fxsq, ns.nfx, none), k1)) ∧
    (ns.result.Equals noAnswer = true →
      ∃ v fx fxsq nfx err k2,
        SolveNonEuclideanMultifacilityLocationMonteCarlo fuel g k a c nsTol sTol nMC
          = some ((v, fx, fxsq, nfx, err), k2) ∧
        (err ≠ none ↔
          ∀ s ∈ monteCarloRuns g a c sTol ns.x0 ns.alpha0 (List.range nMC.toNat) k1,
            s.1.Equals noAnswer = true) ∧
        (err = none →
          ∃ s ∈ monteCarloRuns g a c sTol ns.x0 ns.alpha0 (List.range nMC.toNat) k1,
            s.1.Equals noAnswer = false ∧ v = s.1 ∧ fx = s.2.1 ∧
            ∀ s1 ∈ monteCarloRuns g a c sTol ns.x0 ns.alpha0 (List.range nMC.toNat) k1,
              s1.1.Equals noAnswer = false → s.2.1 ≤ s1.2.1)) := by
  constructor
  · intro h
    simp [SolveNonEuclideanMultifacilityLocationMonteCarlo, hns, h]
  · intro h
    obtain ⟨h1, h2⟩ := monteCarloLoop_facts.2 g a c sTol ns.x0 ns.alpha0 nMC.toNat 0 ns.fxsq
      ns.nfx k1
    simp only [SolveNonEuclideanMultifacilityLocationMonteCarlo, hns, h, Bool.not_true,
      Bool.false_eq_true, if_false]
    cases hfin : (monteCarloLoop g a c sTol ns.x0 ns.alpha0 (List.range nMC.toNat)
        (noAnswer, 0, ns.fxsq, ns.nfx) k1).1.1.Equals noAnswer with
    | true =>
      simp only [if_true]
      refine ⟨_, _, _, _, _, _, rfl, ?_, ?_⟩
      · constructor
        · intro _; exact h1.mp hfin
        · intro _; simp
      · intro he; simp at he
    | false =>
      simp only [Bool.false_eq_true, if_false]
      refine ⟨_, _, _, _, _, _, rfl, ?_, ?_⟩
      · constructor
        · intro he; exact absurd rfl he
        · intro hall
          rw [h1.mpr hall] at hfin
          exact Bool.noConfusion hfin
      · intro _
        obtain ⟨s, a1, a2, a3, a4, a5⟩ := h2 hfin
        exact ⟨s, a1, a2, a3, a4, a5⟩

/-- Witness for C26: Phase A returns the single point `(1, 0, 0)`. -/
theorem monteCarlo_selection_witness :
    solveNonEuclideanMultifacilityLocationNonSmooth 0 (zeroRng : Rng ℝ) 0 [⟨1, 0, 0⟩] [1] 0.1
      = some (⟨⟨1, 0, 0⟩, ⟨0, 0, 0⟩, 0, 0, 0, 1⟩, 0) ∧
    SolveNonEuclideanMultifacilityLocationMonteCarlo 0 (zeroRng : Rng ℝ) 0 [⟨1, 0, 0⟩] [1] 0.1 0.1 2
      = some ((⟨1, 0, 0⟩, 0, 0, 1, none), 0) :=
  ⟨single_point_facts.2.2.2.1 0 zeroRng 0 ⟨1, 0, 0⟩ 1 0.1 (by norm_num) (by norm_num),
    (monteCarlo_selection 0 zeroRng 0 [⟨1, 0, 0⟩] [1] 0.1 0.1 2
      ⟨⟨1, 0, 0⟩, ⟨0, 0, 0⟩, 0, 0, 0, 1⟩ 0
      (single_point_facts.2.2.2.1 0 zeroRng 0 ⟨1, 0, 0⟩ 1 0.1 (by norm_num) (by norm_num))).1
      (single_point_facts.2.1 _ (by simp [V.Norm]))⟩
/-! ### The non-smooth phase -/

/-- The loop of Step 1 returns at the first index that is a "minimum" and meets
the optimality condition. -/
theorem nonSmoothStep1_accept (locs : List (V F)) (c : List F) (tol : F) (faj fsqaj : List F)
    (l : List (V F)) :
    ∀ (k at0idx t : Nat) (e : V F), l.get? t = some e →
      isMinAt locs.length faj (k + t) = true →
      optimalityConditionFromI (k + t) locs c tol = true →
      (∀ t1, t1 < t → ¬ (isMinAt locs.length faj (k + t1) = true ∧
        optimalityConditionFromI (k + t1) locs c tol = true)) →
      nonSmoothStep1 locs c tol faj fsqaj (l.enumFrom k) at0idx
        = .inl ⟨e, ⟨0, 0, 0⟩, 0, faj.getD (k + t) 0, fsqaj.getD (k + t) 0,
            (locs.length : Int)⟩ := by
  induction l with
  | nil => intro k at0idx t e h; simp at h
  | cons x rest ih =>
    intro k at0idx t e hget hmin hopt hleast
    cases t with
    | zero =>
      simp only [List.get?_cons_zero, Option.some.injEq] at hget
      subst hget
      simp only [Nat.add_zero] at hmin hopt ⊢
      simp only [List.enumFrom, nonSmoothStep1, hmin, hopt, if_true]
    | succ t1 =>
      simp only [List.get?_cons_succ] at hget
      have e1 : k + (t1 + 1) = k + 1 + t1 := by omega
      rw [e1] at hmin hopt ⊢
      have h0 := hleast 0 (Nat.succ_pos _)
      simp only [Nat.add_zero] at h0
      have hrest : ∀ t2, t2 < t1 → ¬ (isMinAt locs.length faj (k + 1 + t2) = true ∧
          optimalityConditionFromI (k + 1 + t2) locs c tol = true) := by
        intro t2 h2
        have := hleast (t2 + 1) (by omega)
        rwa [show k + (t2 + 1) = k + 1 + t2 by omega] at this
      simp only [List.enumFrom, nonSmoothStep1]
      by_cases hm : isMinAt locs.length faj k = true
      · have ho : optimalityConditionFromI k locs c tol = false := by
          rw [← Bool.not_eq_true]
          exact fun h => h0 ⟨hm, h⟩
        simp only [hm, ho, if_true, if_false, Bool.false_eq_true]
        exact ih (k + 1) k t1 e hget hmin hopt hrest
      · simp only [hm, if_false]
        exact ih (k + 1) at0idx t1 e hget hmin hopt hrest

/-- A result of the loop of Step 1 comes from an index that is a "minimum" and
meets the optimality condition. -/
theorem nonSmoothStep1_inl (locs : List (V F)) (c : List F) (tol : F) (faj fsqaj : List F)
    (l : List (V F)) :
    ∀ (k at0idx : Nat) (r : NonSmooth F),
      nonSmoothStep1 locs c tol faj fsqaj (l.enumFrom k) at0idx = .inl r →
      ∃ t e, l.get? t = some e ∧ r.result = e ∧ isMinAt locs.length faj (k + t) = true ∧
        optimalityConditionFromI (k + t) locs c tol = true := by
  induction l with
  | nil => intro k at0idx r h; simp [List.enumFrom, nonSmoothStep1] at h
  | cons x rest ih =>
    intro k at0idx r h
    simp only [List.enumFrom, nonSmoothStep1] at h
    by_cases hm : isMinAt locs.length faj k = true
    · by_cases ho : optimalityConditionFromI k locs c tol = true
      · simp only [hm, ho, if_true, Sum.inl.injEq] at h
        subst h
        exact ⟨0, x, rfl, rfl, hm, ho⟩
      · simp only [hm, ho, if_true, if_false] at h
        obtain ⟨t, e, h1, h2, h3, h4⟩ := ih (k + 1) k r h
        refine ⟨t + 1, e, h1, h2, ?_, ?_⟩
        · rwa [show k + (t + 1) = k + 1 + t by omega]
        · rwa [show k + (t + 1) = k + 1 + t by omega]
    · simp only [hm, if_false] at h
      obtain ⟨t, e, h1, h2, h3, h4⟩ := ih (k + 1) at0idx r h
      refine ⟨t + 1, e, h1, h2, ?_, ?_⟩
      · rwa [show k + (t + 1) = k + 1 + t by omega]
      · rwa [show k + (t + 1) = k + 1 + t by omega]

/-- The sampling loop of Step 2 returns the sentinel as its result. -/
theorem nonSmoothStep2_sentinel (g : Rng F) (locs : List (V F)) (c faj : List F)
    (at0idx fuel : Nat) :
    ∀ (k : Nat) (r : NonSmooth F) (k1 : Nat),
      nonSmoothStep2 g locs c faj at0idx fuel k = some (r, k1) → r.result = noAnswer := by
  induction fuel with
  | zero => intro k r k1 h; simp [nonSmoothStep2] at h
  | succ fuel ih =>
    intro k r k1 h
    simp only [nonSmoothStep2] at h
    split at h
    · exact Option.noConfusion h
    · split_ifs at h
      · simp only [Option.some.injEq, Prod.mk.injEq] at h
        rw [← h.1]
      · exact ih _ r k1 h
/-- A left fold over an enumerated list that adds `φ j x` to the measure `m`
of the state is the sum of the `φ j x`. -/
theorem foldl_enumFrom_sum {α β : Type} [Inhabited α] (m : β → ℝ) (h : β → ℕ × α → β)
    (φ : ℕ → α → ℝ) (hm : ∀ b j x, m (h b (j, x)) = m b + φ j x) (l : List α) :
    ∀ (k : ℕ) (b : β), m ((l.enumFrom k).foldl h b)
      = m b + ∑ j ∈ Finset.range l.length, φ (k + j) (l.getD j default) := by
  induction l with
  | nil => intro k b; simp
  | cons x rest ih =>
    intro k b
    simp only [List.enumFrom, List.foldl_cons, List.length_cons]
    rw [ih (k + 1) (h b (k, x)), hm, Finset.sum_range_succ', add_assoc]
    congr 1
    rw [add_comm]
    congr 1
    apply Finset.sum_congr rfl
    intro j _
    rw [show k + 1 + j = k + (j + 1) by omega, List.getD_cons_succ]

set_option maxHeartbeats 4000000 in
/-- The sums of Phase A: the summand of the optimality tests is the summand of the
specification where it is defined and `NaN` (`none`) elsewhere; the loop of
`optimalityConditionFromI` gives the sum of the summands when all are defined
and `none` otherwise; the values that `geodesicDistancesFromI` and
`optimalityConditionFromI` compute are the sums of the specification; and the
test `isMin` holds exactly for an index with the largest value. -/
theorem phaseA_facts :
    (∀ (p e : V ℝ) (cj : ℝ),
        (specOptimalityDefined p e → optimalitySummand p e cj = some (specOptimalityTerm p e cj)) ∧
            (¬ specOptimalityDefined p e → optimalitySummand p e cj = none)) ∧
    (∀ (p : V ℝ) (c : List ℝ) (t : Nat) (l : List (Nat × V ℝ)),
        l.foldl (fun (s : Option (V ℝ)) ie =>
              if ie.1 = t then s else optimalityAdd s p ie.2 (c.getD ie.1 0)) none = none) ∧
    (∀ (p : V ℝ) (c : List ℝ) (t : Nat) (l : List (V ℝ)),
        ∀ (k : Nat) (s0 : V ℝ),
              (∀ j, j < l.length → k + j ≠ t → specOptimalityDefined p (l.getD j default)) →
              (l.enumFrom k).foldl (fun (s : Option (V ℝ)) ie =>
                if ie.1 = t then s else optimalityAdd s p ie.2 (c.getD ie.1 0)) (some s0)
              = some ((l.enumFrom k).foldl (fun (s : V ℝ) ie =>
                  if ie.1 = t then s
                  else s.Add (specOptimalityTerm p ie.2 (c.getD ie.1 0))) s0)) ∧
    (∀ (p : V ℝ) (c : List ℝ) (t : Nat) (l : List (V ℝ)),
        ∀ (k : Nat) (s : Option (V ℝ)),
              ¬ (∀ j, j < l.length → k + j ≠ t → specOptimalityDefined p (l.getD j default)) →
              (l.enumFrom k).foldl (fun (s : Option (V ℝ)) ie =>
                if ie.1 = t then s else optimalityAdd s p ie.2 (c.getD ie.1 0)) s = none) ∧
    (∀ (a : List (V ℝ)) (c : List ℝ) (tol : ℝ) (t : Nat),
        ((geodesicDistancesFromI t a c).1 = ∑ j ∈ Finset.range a.length,
              (if j = t then 0
                else c.getD j 0 * (a.getD t default).GreatCircleDistance (a.getD j default)) ∧
            (geodesicDistancesFromI t a c).2 = ∑ j ∈ Finset.range a.length,
              (if j = t then 0
                else (c.getD j 0 * (a.getD t default).GreatCircleDistance (a.getD j default)) ^ 2) ∧
            (optimalityConditionFromI t a c tol = true ↔
              (∀ j, j < a.length → j ≠ t →
                specOptimalityDefined (a.getD t default) (a.getD j default)) ∧
              (V.mk
                (∑ j ∈ Finset.range a.length, if j = t then 0
                  else (specOptimalityTerm (a.getD t default) (a.getD j default) (c.getD j 0)).X)
                (∑ j ∈ Finset.range a.length, if j = t then 0
                  else (specOptimalityTerm (a.getD t default) (a.getD j default) (c.getD j 0)).Y)
                (∑ j ∈ Finset.range a.length, if j = t then 0
                  else (specOptimalityTerm (a.getD t default) (a.getD j default) (c.getD j 0)).Z)).Norm
                ≤ c.getD t 0 + tol))) ∧
    (∀ (a : List (V ℝ)) (c : List ℝ) (t : Nat), t < a.length →
        (isMinAt a.length ((List.range a.length).map fun j => (geodesicDistancesFromI j a c).1) t
              = true ↔
            ∀ j, j < a.length → (geodesicDistancesFromI t a c).1 ≥ (geodesicDistancesFromI j a c).1)) := by
  -- The summand of the optimality tests is the summand of the specification where that is
  -- defined.
  have h_optimalitySummand_eq : ∀ (p e : V ℝ) (cj : ℝ),
        (specOptimalityDefined p e → optimalitySummand p e cj = some (specOptimalityTerm p e cj)) ∧
            (¬ specOptimalityDefined p e → optimalitySummand p e cj = none) := by
    intro p e cj
    simp only [specOptimalityDefined, optimalitySummand, specOptimalityTerm]
    constructor
    · rintro ⟨h1, h2⟩
      rw [if_neg (by rintro (h | h); exact h1 h; exact h2 h)]
    · intro h
      rw [if_pos]
      by_contra hn
      exact h ⟨fun h1 => hn (Or.inl h1), fun h2 => hn (Or.inr h2)⟩
  have h_optimalityFold_none : ∀ (p : V ℝ) (c : List ℝ) (t : Nat) (l : List (Nat × V ℝ)),
        l.foldl (fun (s : Option (V ℝ)) ie =>
              if ie.1 = t then s else optimalityAdd s p ie.2 (c.getD ie.1 0)) none = none := by
    intro p c t l
    induction l with
    | nil => rfl
    | cons x rest ih =>
      simp only [List.foldl_cons]
      by_cases e : x.1 = t
      · simp only [e, if_true]
        exact ih
      · simp only [e, if_false, optimalityAdd]
        exact ih
  -- The loop of `optimalityConditionFromI` where every summand is defined: it is the sum of
  -- the summands of the specification.
  have h_optimalityFold_defined : ∀ (p : V ℝ) (c : List ℝ) (t : Nat) (l : List (V ℝ)),
        ∀ (k : Nat) (s0 : V ℝ),
              (∀ j, j < l.length → k + j ≠ t → specOptimalityDefined p (l.getD j default)) →
              (l.enumFrom k).foldl (fun (s : Option (V ℝ)) ie =>
                if ie.1 = t then s else optimalityAdd s p ie.2 (c.getD ie.1 0)) (some s0)
              = some ((l.enumFrom k).foldl (fun (s : V ℝ) ie =>
                  if ie.1 = t then s
                  else s.Add (specOptimalityTerm p ie.2 (c.getD ie.1 0))) s0) := by
    intro p c t l
    induction l with
    | nil => intro k s0 _; rfl
    | cons x rest ih =>
      intro k s0 h
      simp only [List.enumFrom, List.foldl_cons]
      have hrest : ∀ j, j < rest.length → k + 1 + j ≠ t →
          specOptimalityDefined p (rest.getD j default) := by
        intro j hj hne
        have := h (j + 1) (by simp only [List.length_cons]; omega)
          (by rw [show k + (j + 1) = k + 1 + j by omega]; exact hne)
        rwa [List.getD_cons_succ] at this
      by_cases e : k = t
      · simp only [if_pos e]
        exact ih (k + 1) s0 hrest
      · have hx : specOptimalityDefined p x := by
          have := h 0 (by simp) (by rw [Nat.add_zero]; exact e)
          rwa [List.getD_cons_zero] at this
        simp only [e, if_false, optimalityAdd, (h_optimalitySummand_eq p x _).1 hx]
        exact ih (k + 1) _ hrest
  -- The loop of `optimalityConditionFromI` where some summand is not defined.
  have h_optimalityFold_undefined : ∀ (p : V ℝ) (c : List ℝ) (t : Nat) (l : List (V ℝ)),
        ∀ (k : Nat) (s : Option (V ℝ)),
              ¬ (∀ j, j < l.length → k + j ≠ t → specOptimalityDefined p (l.getD j default)) →
              (l.enumFrom k).foldl (fun (s : Option (V ℝ)) ie =>
                if ie.1 = t then s else optimalityAdd s p ie.2 (c.getD ie.1 0)) s = none := by
    intro p c t l
    induction l with
    | nil => intro k s h; exact absurd (fun j hj => absurd hj (Nat.not_lt_zero j)) h
    | cons x rest ih =>
      intro k s h
      simp only [List.enumFrom, List.foldl_cons]
      by_cases hx : k ≠ t ∧ ¬ specOptimalityDefined p x
      · obtain ⟨e, hx⟩ := hx
        simp only [e, if_false, optimalityAdd, (h_optimalitySummand_eq p x _).2 hx]
        cases s <;> exact h_optimalityFold_none p c t _
      · apply ih (k + 1)
        intro hall
        apply h
        intro j hj hne
        cases j with
        | zero =>
          rw [List.getD_cons_zero]
          by_contra hnd
          exact hx ⟨by rw [Nat.add_zero] at hne; exact hne, hnd⟩
        | succ j =>
          rw [List.getD_cons_succ]
          exact hall j (by simp only [List.length_cons] at hj; omega)
            (by rw [show k + 1 + j = k + (j + 1) by omega]; exact hne)
  -- The sums that `geodesicDistancesFromI` and `optimalityConditionFromI` compute.
  have h_phaseA_sums : ∀ (a : List (V ℝ)) (c : List ℝ) (tol : ℝ) (t : Nat),
        ((geodesicDistancesFromI t a c).1 = ∑ j ∈ Finset.range a.length,
              (if j = t then 0
                else c.getD j 0 * (a.getD t default).GreatCircleDistance (a.getD j default)) ∧
            (geodesicDistancesFromI t a c).2 = ∑ j ∈ Finset.range a.length,
              (if j = t then 0
                else (c.getD j 0 * (a.getD t default).GreatCircleDistance (a.getD j default)) ^ 2) ∧
            (optimalityConditionFromI t a c tol = true ↔
              (∀ j, j < a.length → j ≠ t →
                specOptimalityDefined (a.getD t default) (a.getD j default)) ∧
              (V.mk
                (∑ j ∈ Finset.range a.length, if j = t then 0
                  else (specOptimalityTerm (a.getD t default) (a.getD j default) (c.getD j 0)).X)
                (∑ j ∈ Finset.range a.length, if j = t then 0
                  else (specOptimalityTerm (a.getD t default) (a.getD j default) (c.getD j 0)).Y)
                (∑ j ∈ Finset.range a.length, if j = t then 0
                  else (specOptimalityTerm (a.getD t default) (a.getD j default) (c.getD j 0)).Z)).Norm
                ≤ c.getD t 0 + tol)) := by
    intro a c tol t
    refine ⟨?_, ?_, ?_⟩
    · have h := foldl_enumFrom_sum (fun b : ℝ × ℝ => b.1)
        (fun acc ie => if ie.1 = t then acc
          else (acc.1 + (a.getD t default).GreatCircleDistance ie.2 * c.getD ie.1 0,
            acc.2 + (a.getD t default).GreatCircleDistance ie.2 * c.getD ie.1 0
              * ((a.getD t default).GreatCircleDistance ie.2 * c.getD ie.1 0)))
        (fun j x => if j = t then 0 else c.getD j 0 * (a.getD t default).GreatCircleDistance x)
        (by intro b j x; by_cases e : j = t <;> simp [e, mul_comm]) a 0 (0, 0)
      simp only [zero_add] at h
      exact h
    · have h := foldl_enumFrom_sum (fun b : ℝ × ℝ => b.2)
        (fun acc ie => if ie.1 = t then acc
          else (acc.1 + (a.getD t default).GreatCircleDistance ie.2 * c.getD ie.1 0,
            acc.2 + (a.getD t default).GreatCircleDistance ie.2 * c.getD ie.1 0
              * ((a.getD t default).GreatCircleDistance ie.2 * c.getD ie.1 0)))
        (fun j x => if j = t then 0
          else (c.getD j 0 * (a.getD t default).GreatCircleDistance x) ^ 2)
        (by intro b j x; by_cases e : j = t <;> simp [e]; ring) a 0 (0, 0)
      simp only [zero_add] at h
      exact h
    · have hs : ∀ m : V ℝ → ℝ, (∀ u v : V ℝ, m (u.Add v) = m u + m v) → m ⟨0, 0, 0⟩ = 0 →
          m (a.enum.foldl (fun (s : V ℝ) ie =>
            if ie.1 = t then s
            else s.Add (specOptimalityTerm (a.getD t default) ie.2 (c.getD ie.1 0))) ⟨0, 0, 0⟩)
          = ∑ j ∈ Finset.range a.length, if j = t then 0
            else m (specOptimalityTerm (a.getD t default) (a.getD j default) (c.getD j 0)) := by
        intro m hadd hzero
        have h := foldl_enumFrom_sum m
          (fun (s : V ℝ) ie =>
            if ie.1 = t then s
            else s.Add (specOptimalityTerm (a.getD t default) ie.2 (c.getD ie.1 0)))
          (fun j x => if j = t then 0
            else m (specOptimalityTerm (a.getD t default) x (c.getD j 0)))
          (by intro b j x; by_cases e : j = t <;> simp [e, hadd]) a 0 ⟨0, 0, 0⟩
        simp only [zero_add, hzero] at h
        exact h
      have hX := hs V.X (fun u v => rfl) rfl
      have hY := hs V.Y (fun u v => rfl) rfl
      have hZ := hs V.Z (fun u v => rfl) rfl
      rw [← hX, ← hY, ← hZ]
      simp only [optimalityConditionFromI, List.enum]
      by_cases hdef : ∀ j, j < a.length → 0 + j ≠ t →
          specOptimalityDefined (a.getD t default) (a.getD j default)
      · rw [h_optimalityFold_defined (a.getD t default) c t a 0 _ hdef]
        simp only [decide_eq_true_eq, List.enum]
        constructor
        · intro h
          exact ⟨fun j hj hne => hdef j hj (by rw [Nat.zero_add]; exact hne), h⟩
        · exact fun h => h.2
      · rw [h_optimalityFold_undefined (a.getD t default) c t a 0 _ hdef]
        simp only [Bool.false_eq_true, false_iff, not_and]
        intro h
        exact absurd (fun j hj hne => h j hj (by rw [Nat.zero_add] at hne; exact hne)) hdef
  -- The test `isMin` of Step 1, over the values `faj` that the solver computes: `f(a_t)` is
  -- `≥` every `f(a_j)`.
  have h_isMinAt_iff : ∀ (a : List (V ℝ)) (c : List ℝ) (t : Nat), t < a.length →
        (isMinAt a.length ((List.range a.length).map fun j => (geodesicDistancesFromI j a c).1) t
              = true ↔
            ∀ j, j < a.length → (geodesicDistancesFromI t a c).1 ≥ (geodesicDistancesFromI j a c).1) := by
    intro a c t ht
    have hget : ∀ j, j < a.length →
        ((List.range a.length).map fun j => (geodesicDistancesFromI j a c).1).getD j 0
          = (geodesicDistancesFromI j a c).1 := by
      intro j hj
      simp [List.getD_eq_getElem?_getD, List.getElem?_map, List.getElem?_range hj]
    simp only [isMinAt, List.all_eq_true, List.mem_range, Bool.or_eq_true, decide_eq_true_eq,
      Bool.not_eq_true', decide_eq_false_iff_not, not_lt, gt_iff_lt]
    constructor
    · intro h j hj
      rcases h j hj with e | e
      · rw [e]
      · rw [hget j hj, hget t ht] at e
        exact e
    · intro h j hj
      right
      rw [hget j hj, hget t ht]
      exact h j hj
  exact ⟨h_optimalitySummand_eq, h_optimalityFold_none, h_optimalityFold_defined,
    h_optimalityFold_undefined, h_phaseA_sums, h_isMinAt_iff⟩

/-- C27. Phase A on a non-empty list of unit points `a` with weights `c`: the
values `f(a_t)`, the sums of squares and the optimality test are the sums of
the specification, the test being met when every summand of `s_t` is defined
(no `a_t · a_j` and no `||a_t − a_j/(a_t·a_j)||` is zero: the program computes
`NaN` otherwise, and the test fails) and `||s_t|| ≤ c_t + tol`; some index `t`
has `f(a_t) ≥ f(a_j)` for all `j`; when some index is accepted (`f(a_t)` is
`≥` every `f(a_j)` and the test is met), the phase returns
`(a_t, f(a_t), Σ_{j≠t} (c_j·gcd(a_t, a_j))², len(a))` for the least accepted
`t`, a result that is not the sentinel, without a random draw; and a result
that is not the sentinel is the point of an accepted index. -/
theorem nonSmooth_phaseA (fuel : Nat) (g : Rng ℝ) (k : Nat) (a : List (V ℝ)) (c : List ℝ)
    (tol : ℝ) (hne : a ≠ []) (hunit : ∀ e ∈ a, e.Norm = 1) :
    (∀ t, (geodesicDistancesFromI t a c).1 = ∑ j ∈ Finset.range a.length,
        (if j = t then 0
          else c.getD j 0 * (a.getD t default).GreatCircleDistance (a.getD j default)) ∧
      (geodesicDistancesFromI t a c).2 = ∑ j ∈ Finset.range a.length,
        (if j = t then 0
          else (c.getD j 0 * (a.getD t default).GreatCircleDistance (a.getD j default)) ^ 2) ∧
      (optimalityConditionFromI t a c tol = true ↔
        (∀ j, j < a.length → j ≠ t →
          specOptimalityDefined (a.getD t default) (a.getD j default)) ∧
        (V.mk
          (∑ j ∈ Finset.range a.length, if j = t then 0
            else (specOptimalityTerm (a.getD t default) (a.getD j default) (c.getD j 0)).X)
          (∑ j ∈ Finset.range a.length, if j = t then 0
            else (specOptimalityTerm (a.getD t default) (a.getD j default) (c.getD j 0)).Y)
          (∑ j ∈ Finset.range a.length, if j = t then 0
            else (specOptimalityTerm (a.getD t default) (a.getD j default) (c.getD j 0)).Z)).Norm
          ≤ c.getD t 0 + tol)) ∧
    (∃ t, t < a.length ∧
      ∀ j, j < a.length → (geodesicDistancesFromI t a c).1 ≥ (geodesicDistancesFromI j a c).1) ∧
    ((∃ t, specPhaseAAccepts a c tol t) →
      ∃ t, specPhaseAAccepts a c tol t ∧ (∀ t1, t1 < t → ¬ specPhaseAAccepts a c tol t1) ∧
        solveNonEuclideanMultifacilityLocationNonSmooth fuel g k a c tol
          = some (⟨a.getD t default, ⟨0, 0, 0⟩, 0, (geodesicDistancesFromI t a c).1,
              (geodesicDistancesFromI t a c).2, (a.length : Int)⟩, k) ∧
        (a.getD t default).Equals noAnswer = false) ∧
    (∀ r k1, solveNonEuclideanMultifacilityLocationNonSmooth fuel g k a c tol = some (r, k1) →
      r.result.Equals noAnswer = false →
      ∃ t, specPhaseAAccepts a c tol t ∧ r.result = a.getD t default) := by
  refine ⟨fun t => phaseA_facts.2.2.2.2.1 a c tol t, ?_, ?_, ?_⟩
  · have hpos : 0 < a.length := List.length_pos.mpr hne
    obtain ⟨t, ht, hmax⟩ := Finset.exists_max_image (Finset.range a.length)
      (fun j => (geodesicDistancesFromI j a c).1) ⟨0, Finset.mem_range.mpr hpos⟩
    exact ⟨t, Finset.mem_range.mp ht, fun j hj => hmax j (Finset.mem_range.mpr hj)⟩
  · intro hex
    classical
    refine ⟨Nat.find hex, Nat.find_spec hex, fun t1 h1 => Nat.find_min hex h1, ?_, ?_⟩
    · obtain ⟨ht, hmax, hopt⟩ := Nat.find_spec hex
      have hget : a.get? (Nat.find hex) = some (a.getD (Nat.find hex) default) := by
        rw [List.getD_eq_getElem?_getD, List.get?_eq_getElem?, List.getElem?_eq_getElem ht]
        rfl
      have h := nonSmoothStep1_accept a c tol
        ((List.range a.length).map fun j => (geodesicDistancesFromI j a c).1)
        ((List.range a.length).map fun j => (geodesicDistancesFromI j a c).2) a 0 0
        (Nat.find hex) _ hget
        (by rw [Nat.zero_add]; exact (phaseA_facts.2.2.2.2.2 a c _ ht).mpr hmax)
        (by rw [Nat.zero_add]; exact hopt)
        (by
          intro t1 h1 hacc
          rw [Nat.zero_add] at hacc
          exact Nat.find_min hex h1
            ⟨by omega, (phaseA_facts.2.2.2.2.2 a c _ (by omega)).mp hacc.1, hacc.2⟩)
      simp only [solveNonEuclideanMultifacilityLocationNonSmooth, List.enum]
      rw [h]
      simp [List.getD_eq_getElem?_getD, List.getElem?_map, List.getElem?_range ht]
    · obtain ⟨ht, _, _⟩ := Nat.find_spec hex
      apply single_point_facts.2.1
      apply hunit
      rw [List.getD_eq_getElem?_getD, List.getElem?_eq_getElem ht]
      exact List.getElem_mem _
  · intro r k1 h hns
    simp only [solveNonEuclideanMultifacilityLocationNonSmooth, List.enum] at h
    split at h
    · rename_i r1 hstep
      simp only [Option.some.injEq, Prod.mk.injEq] at h
      obtain ⟨e1, _⟩ := h
      subst e1
      obtain ⟨t, e, h1, h2, h3, h4⟩ := nonSmoothStep1_inl a c tol _ _ a 0 0 r1 hstep
      rw [Nat.zero_add] at h3 h4
      have ht : t < a.length := by
        rw [List.get?_eq_getElem?] at h1
        exact (List.getElem?_eq_some_iff.mp h1).1
      refine ⟨t, ⟨ht, (phaseA_facts.2.2.2.2.2 a c t ht).mp h3, h4⟩, ?_⟩
      rw [h2, List.getD_eq_getElem?_getD, ← List.get?_eq_getElem?, h1]
      rfl
    · have := nonSmoothStep2_sentinel g a c _ _ fuel k r k1 h
      rw [this] at hns
      simp [V.Equals, noAnswer] at hns

theorem phaseA_accepts_xy :
    specPhaseAAccepts ([⟨1, 0, 0⟩, ⟨0.6, 0.8, 0⟩] : List (V ℝ)) [1, 1] 0.1 0 := by
  obtain ⟨hxx, hyy, hxy, hyx, _⟩ := nodeW_facts.1
  refine ⟨by simp, ?_, nodeW_facts.2.1⟩
  intro j hj
  simp only [List.length_cons, List.length_nil] at hj
  interval_cases j <;>
    simp [geodesicDistancesFromI, List.enum, List.enumFrom, hxy, hyx]

/-- Witness for C27: the two points `(1, 0, 0)` and `(0.6, 0.8, 0)` with the
weights 1 and the tolerance `0.1`. Both have the same `f`, the index 0 meets
the test (`s_0 = (0, -1, 0)`), and the phase returns the first point. -/
theorem nonSmooth_phaseA_witness :
    ([⟨1, 0, 0⟩, ⟨0.6, 0.8, 0⟩] : List (V ℝ)) ≠ [] ∧
    (∀ e ∈ ([⟨1, 0, 0⟩, ⟨0.6, 0.8, 0⟩] : List (V ℝ)), e.Norm = 1) ∧
    specPhaseAAccepts ([⟨1, 0, 0⟩, ⟨0.6, 0.8, 0⟩] : List (V ℝ)) [1, 1] 0.1 0 ∧
    ∃ t, specPhaseAAccepts ([⟨1, 0, 0⟩, ⟨0.6, 0.8, 0⟩] : List (V ℝ)) [1, 1] 0.1 t ∧
      (∀ t1, t1 < t →
        ¬ specPhaseAAccepts ([⟨1, 0, 0⟩, ⟨0.6, 0.8, 0⟩] : List (V ℝ)) [1, 1] 0.1 t1) ∧
      solveNonEuclideanMultifacilityLocationNonSmooth 0 (zeroRng : Rng ℝ) 0
          [⟨1, 0, 0⟩, ⟨0.6, 0.8, 0⟩] [1, 1] 0.1
        = some (⟨([⟨1, 0, 0⟩, ⟨0.6, 0.8, 0⟩] : List (V ℝ)).getD t default, ⟨0, 0, 0⟩, 0,
            (geodesicDistancesFromI t [⟨1, 0, 0⟩, ⟨0.6, 0.8, 0⟩] ([1, 1] : List ℝ)).1,
            (geodesicDistancesFromI t [⟨1, 0, 0⟩, ⟨0.6, 0.8, 0⟩] ([1, 1] : List ℝ)).2,
            (([⟨1, 0, 0⟩, ⟨0.6, 0.8, 0⟩] : List (V ℝ)).length : Int)⟩, 0) ∧
      (([⟨1, 0, 0⟩, ⟨0.6, 0.8, 0⟩] : List (V ℝ)).getD t default).Equals noAnswer = false :=
  have hunit : ∀ e ∈ ([⟨1, 0, 0⟩, ⟨0.6, 0.8, 0⟩] : List (V ℝ)), e.Norm = 1 := by
    intro e he
    simp only [List.mem_cons, List.mem_singleton, List.not_mem_nil, or_false] at he
    rcases he with he | he <;> rw [he, V.unit_facts.1] <;> norm_num
  ⟨by simp, hunit, phaseA_accepts_xy,
    (nonSmooth_phaseA 0 zeroRng 0 [⟨1, 0, 0⟩, ⟨0.6, 0.8, 0⟩] [1, 1] 0.1 (by simp) hunit).2.2.1
      ⟨0, phaseA_accepts_xy⟩⟩

/-! ### The rescaled stereographic projection -/

set_option maxHeartbeats 4000000 in
/-- The projection `stp`: scaling a vector by `1 / s` with `s > 0` scales its
norm; for unit vectors `a ≠ ±x`, `stp(a, x)` is `x` plus an offset that is
orthogonal to `x` and as long as the great circle distance; polynomial bounds
of `arctan`; and the value of `stp` at the input of
`TestStereographicPrjection`. -/
theorem stp_facts :
    (∀ (v : V ℝ) (s : ℝ), 0 < s → v.Norm ≠ 0 →
        (v.DivScalar s).Norm = v.Norm / s ∧ (v.DivScalar s).Unit = v.Unit) ∧
    (∀ (a x : V ℝ), a.Norm = 1 → x.Norm = 1 → a ≠ x → a ≠ x.MulScalar (-1) →
        -1 < a.Dot x ∧ a.Dot x < 1 ∧
            (a.Sub (x.MulScalar (a.Dot x))).Norm = Real.sqrt (1 - a.Dot x ^ 2) ∧
            stp a x = ((a.Sub (x.MulScalar (a.Dot x))).Unit.MulScalar (x.GreatCircleDistance a)).Add x) ∧
    (∀ (a x : V ℝ), a.Norm = 1 → x.Norm = 1 → a ≠ x → a ≠ x.MulScalar (-1) →
        stp a x = x.Add ((a.Sub (x.MulScalar (a.Dot x))).Unit.MulScalar (x.GreatCircleDistance a)) ∧
            ((stp a x).Sub x).Dot x = 0 ∧ ((stp a x).Sub x).Norm = x.GreatCircleDistance a) ∧
    (∀ (y : ℝ), 0 ≤ y →
        y - y ^ 3 / 3 ≤ Real.arctan y ∧ Real.arctan y ≤ y - y ^ 3 / 3 + y ^ 5 / 5) ∧
    (∀ (t : ℝ), 0 < t → t * t = 2 →
        0.9552 < Real.arctan t ∧ Real.arctan t < 0.95534) ∧
    (|(stp ⟨1, 0, 0⟩ (V.Unit (⟨1, 1, 1⟩ : V ℝ))).X - 1.35736| < 0.0001 ∧
          |(stp ⟨1, 0, 0⟩ (V.Unit (⟨1, 1, 1⟩ : V ℝ))).Y - 0.18734| < 0.0001 ∧
          |(stp ⟨1, 0, 0⟩ (V.Unit (⟨1, 1, 1⟩ : V ℝ))).Z - 0.18734| < 0.0001) := by
  -- Scaling a vector by `1 / s` with `s > 0` scales its norm and leaves its unit vector
  -- unchanged.
  have h_V_unit_divScalar : ∀ (v : V ℝ) (s : ℝ), 0 < s → v.Norm ≠ 0 →
        (v.DivScalar s).Norm = v.Norm / s ∧ (v.DivScalar s).Unit = v.Unit := by
    intro v s hs hv
    have hs0 : s ≠ 0 := ne_of_gt hs
    have hn : (v.DivScalar s).Norm = v.Norm / s := by
      simp only [V.Norm, sqrt_real, V.DivScalar]
      rw [show v.X / s * (v.X / s) + v.Y / s * (v.Y / s) + v.Z / s * (v.Z / s)
          = (v.X * v.X + v.Y * v.Y + v.Z * v.Z) / s ^ 2 by
        rw [div_mul_div_comm, div_mul_div_comm, div_mul_div_comm, ← add_div, ← add_div,
          ← pow_two s]]
      rw [Real.sqrt_div' _ (sq_nonneg _), Real.sqrt_sq hs.le]
    refine ⟨hn, ?_⟩
    simp only [V.Unit]
    rw [hn]
    simp only [V.DivScalar, V.mk.injEq]
    refine ⟨?_, ?_, ?_⟩ <;> field_simp
  -- For unit vectors `a ≠ ±x`, `stp(a, x)` is `x` plus the unit vector of `a - (a · x) x`
  -- scaled by the great circle distance from `x` to `a`; and `-1 < a · x < 1`.
  have h_stp_eq : ∀ (a x : V ℝ), a.Norm = 1 → x.Norm = 1 → a ≠ x → a ≠ x.MulScalar (-1) →
        -1 < a.Dot x ∧ a.Dot x < 1 ∧
            (a.Sub (x.MulScalar (a.Dot x))).Norm = Real.sqrt (1 - a.Dot x ^ 2) ∧
            stp a x = ((a.Sub (x.MulScalar (a.Dot x))).Unit.MulScalar (x.GreatCircleDistance a)).Add x := by
    intro a x ha hx h1 h2
    have hx1 := (V.unit_facts.1 x).mp hx
    have ha1 := (V.unit_facts.1 a).mp ha
    have hd1 : 1 + a.Dot x ≠ 0 := fun h => h2 (unit_norm_facts.2.2.1 a x ha hx h)
    have hge : 0 ≤ 1 + a.Dot x := by
      simp only [V.Dot]
      nlinarith [mul_self_nonneg (a.X + x.X), mul_self_nonneg (a.Y + x.Y),
        mul_self_nonneg (a.Z + x.Z)]
    have hpos : 0 < 1 + a.Dot x := lt_of_le_of_ne hge (Ne.symm hd1)
    have hle : 0 ≤ 1 - a.Dot x := by
      simp only [V.Dot]
      nlinarith [mul_self_nonneg (a.X - x.X), mul_self_nonneg (a.Y - x.Y),
        mul_self_nonneg (a.Z - x.Z)]
    have hd2 : 1 - a.Dot x ≠ 0 := by
      intro h
      apply h1
      simp only [V.Dot] at h
      have hsum : (a.X - x.X) * (a.X - x.X) + (a.Y - x.Y) * (a.Y - x.Y)
          + (a.Z - x.Z) * (a.Z - x.Z) = 0 := by
        linear_combination ha1 + hx1 + 2 * h
      have eX : (a.X - x.X) * (a.X - x.X) = 0 := by
        nlinarith [mul_self_nonneg (a.X - x.X), mul_self_nonneg (a.Y - x.Y),
          mul_self_nonneg (a.Z - x.Z)]
      have eY : (a.Y - x.Y) * (a.Y - x.Y) = 0 := by
        nlinarith [mul_self_nonneg (a.X - x.X), mul_self_nonneg (a.Y - x.Y),
          mul_self_nonneg (a.Z - x.Z)]
      have eZ : (a.Z - x.Z) * (a.Z - x.Z) = 0 := by
        nlinarith [mul_self_nonneg (a.X - x.X), mul_self_nonneg (a.Y - x.Y),
          mul_self_nonneg (a.Z - x.Z)]
      have fX := mul_self_eq_zero.mp eX
      have fY := mul_self_eq_zero.mp eY
      have fZ := mul_self_eq_zero.mp eZ
      cases a; cases x
      simp only [V.mk.injEq] at *
      exact ⟨by linarith, by linarith, by linarith⟩
    have hlt : 0 < 1 - a.Dot x := lt_of_le_of_ne hle (Ne.symm hd2)
    have hwsq : (a.X - x.X * a.Dot x) * (a.X - x.X * a.Dot x)
        + (a.Y - x.Y * a.Dot x) * (a.Y - x.Y * a.Dot x)
        + (a.Z - x.Z * a.Dot x) * (a.Z - x.Z * a.Dot x) = 1 - a.Dot x ^ 2 := by
      simp only [V.Dot]
      linear_combination ha1 + (a.X * x.X + a.Y * x.Y + a.Z * x.Z) ^ 2 * hx1
    have hwn : (a.Sub (x.MulScalar (a.Dot x))).Norm = Real.sqrt (1 - a.Dot x ^ 2) := by
      simp only [V.Norm, sqrt_real, V.Sub, V.MulScalar]
      rw [hwsq]
    have hw0 : 0 < Real.sqrt (1 - a.Dot x ^ 2) := by
      apply Real.sqrt_pos.mpr
      nlinarith
    refine ⟨by linarith, by linarith, hwn, ?_⟩
    have e1 : a.Equals x = false := by
      rw [← Bool.not_eq_true, V.equals_iff]; exact h1
    have e2 : a.Equals (x.MulScalar (-1)) = false := by
      rw [← Bool.not_eq_true, V.equals_iff]; exact h2
    have hden : 1 - a.Dot (x.MulScalar (-1)) = 1 + a.Dot x := by
      simp only [V.Dot, V.MulScalar]; ring
    have hproj : (x.MulScalar (-1)).Add ((a.Sub (x.MulScalar (-1))).DivScalar
        (1 - a.Dot (x.MulScalar (-1)))) = (a.Sub (x.MulScalar (a.Dot x))).DivScalar (1 + a.Dot x) := by
      rw [hden]
      simp only [V.Add, V.Sub, V.MulScalar, V.DivScalar, V.mk.injEq]
      refine ⟨?_, ?_, ?_⟩ <;> field_simp <;> ring
    have hunit : ((a.Sub (x.MulScalar (a.Dot x))).DivScalar (1 + a.Dot x)).Unit
        = (a.Sub (x.MulScalar (a.Dot x))).Unit :=
      (h_V_unit_divScalar _ _ hpos (by rw [hwn]; exact ne_of_gt hw0)).2
    simp only [stp, e1, e2, if_false, Bool.false_eq_true]
    rw [hproj, hunit]
  -- The offset of `stp(a, x)` from `x` is orthogonal to `x` and as long as the great circle
  -- distance from `x` to `a`.
  have h_stp_offset : ∀ (a x : V ℝ), a.Norm = 1 → x.Norm = 1 → a ≠ x → a ≠ x.MulScalar (-1) →
        stp a x = x.Add ((a.Sub (x.MulScalar (a.Dot x))).Unit.MulScalar (x.GreatCircleDistance a)) ∧
            ((stp a x).Sub x).Dot x = 0 ∧ ((stp a x).Sub x).Norm = x.GreatCircleDistance a := by
    intro a x ha hx h1 h2
    obtain ⟨hlo, hhi, hwn, hstp⟩ := h_stp_eq a x ha hx h1 h2
    have hx1 := (V.unit_facts.1 x).mp hx
    have hw0 : 0 < Real.sqrt (1 - a.Dot x ^ 2) := by
      apply Real.sqrt_pos.mpr
      nlinarith
    have hdist : 0 ≤ x.GreatCircleDistance a := by
      rw [V.unit_facts.2.2 x a hx ha]
      exact Real.arccos_nonneg _
    have hsq : (a.X - x.X * a.Dot x) * (a.X - x.X * a.Dot x)
        + (a.Y - x.Y * a.Dot x) * (a.Y - x.Y * a.Dot x)
        + (a.Z - x.Z * a.Dot x) * (a.Z - x.Z * a.Dot x)
        = Real.sqrt (1 - a.Dot x ^ 2) * Real.sqrt (1 - a.Dot x ^ 2) := by
      rw [← hwn]
      simp only [V.Norm, sqrt_real, V.Sub, V.MulScalar]
      rw [Real.mul_self_sqrt]
      nlinarith [mul_self_nonneg (a.X - x.X * a.Dot x), mul_self_nonneg (a.Y - x.Y * a.Dot x),
        mul_self_nonneg (a.Z - x.Z * a.Dot x)]
    rw [hstp]
    simp only [V.Unit]
    rw [hwn]
    generalize x.GreatCircleDistance a = dist at hdist ⊢
    generalize Real.sqrt (1 - a.Dot x ^ 2) = n at hw0 hsq ⊢
    have hn0 : n ≠ 0 := ne_of_gt hw0
    refine ⟨?_, ?_, ?_⟩
    · simp only [V.Add, V.Sub, V.MulScalar, V.DivScalar, V.mk.injEq]
      exact ⟨add_comm _ _, add_comm _ _, add_comm _ _⟩
    · simp only [V.Add, V.Sub, V.MulScalar, V.DivScalar, V.Dot]
      field_simp
      linear_combination (-(dist * (a.X * x.X + a.Y * x.Y + a.Z * x.Z))) * hx1
    · simp only [V.Add, V.Sub, V.MulScalar, V.DivScalar, V.Norm, sqrt_real]
      rw [show ((a.X - x.X * a.Dot x) / n * dist + x.X - x.X)
            * ((a.X - x.X * a.Dot x) / n * dist + x.X - x.X)
          + ((a.Y - x.Y * a.Dot x) / n * dist + x.Y - x.Y)
            * ((a.Y - x.Y * a.Dot x) / n * dist + x.Y - x.Y)
          + ((a.Z - x.Z * a.Dot x) / n * dist + x.Z - x.Z)
            * ((a.Z - x.Z * a.Dot x) / n * dist + x.Z - x.Z) = dist * dist by
        field_simp
        linear_combination dist ^ 2 * hsq]
      exact Real.sqrt_mul_self hdist
  -- Polynomial bounds of `arctan` on the non-negative reals.
  have h_arctan_poly_bounds : ∀ (y : ℝ), 0 ≤ y →
        y - y ^ 3 / 3 ≤ Real.arctan y ∧ Real.arctan y ≤ y - y ^ 3 / 3 + y ^ 5 / 5 := by
    intro y hy
    have hlo : Monotone (fun t : ℝ => Real.arctan t - (t - t ^ 3 / 3)) := by
      have hd : ∀ t : ℝ, HasDerivAt (fun t : ℝ => Real.arctan t - (t - t ^ 3 / 3))
          (1 / (1 + t ^ 2) - (1 - 3 * t ^ 2 / 3)) t := by
        intro t
        have h3 : HasDerivAt (fun t : ℝ => t ^ 3 / 3) (3 * t ^ 2 / 3) t := by
          simpa using (hasDerivAt_pow 3 t).div_const 3
        exact (Real.hasDerivAt_arctan t).sub ((hasDerivAt_id t).sub h3)
      apply monotone_of_deriv_nonneg (fun t => (hd t).differentiableAt)
      intro t
      rw [(hd t).deriv]
      have hpos : 0 < 1 + t ^ 2 := by positivity
      have e : 1 / (1 + t ^ 2) - (1 - 3 * t ^ 2 / 3) = t ^ 4 / (1 + t ^ 2) := by
        field_simp
        ring
      rw [e]
      positivity
    have hhi : Monotone (fun t : ℝ => t - t ^ 3 / 3 + t ^ 5 / 5 - Real.arctan t) := by
      have hd : ∀ t : ℝ, HasDerivAt (fun t : ℝ => t - t ^ 3 / 3 + t ^ 5 / 5 - Real.arctan t)
          (1 - 3 * t ^ 2 / 3 + 5 * t ^ 4 / 5 - 1 / (1 + t ^ 2)) t := by
        intro t
        have h3 : HasDerivAt (fun t : ℝ => t ^ 3 / 3) (3 * t ^ 2 / 3) t := by
          simpa using (hasDerivAt_pow 3 t).div_const 3
        have h5 : HasDerivAt (fun t : ℝ => t ^ 5 / 5) (5 * t ^ 4 / 5) t := by
          simpa using (hasDerivAt_pow 5 t).div_const 5
        exact (((hasDerivAt_id t).sub h3).add h5).sub (Real.hasDerivAt_arctan t)
      apply monotone_of_deriv_nonneg (fun t => (hd t).differentiableAt)
      intro t
      rw [(hd t).deriv]
      have hpos : 0 < 1 + t ^ 2 := by positivity
      have e : 1 - 3 * t ^ 2 / 3 + 5 * t ^ 4 / 5 - 1 / (1 + t ^ 2) = t ^ 6 / (1 + t ^ 2) := by
        field_simp
        ring
      rw [e]
      positivity
    have h1 := hlo hy
    have h2 := hhi hy
    simp only [Real.arctan_zero] at h1 h2
    constructor
    · linarith
    · norm_num at h2
      linarith
  -- Bounds of `arctan r` for `r` near `√2`.
  have h_arctan_sqrt_two_bounds : ∀ (t : ℝ), 0 < t → t * t = 2 →
        0.9552 < Real.arctan t ∧ Real.arctan t < 0.95534 := by
    intro t ht ht2
    have hlo : (1.4142 : ℝ) < t := by
      by_contra h
      push_neg at h
      nlinarith
    have hhi : t < (1.41422 : ℝ) := by
      by_contra h
      push_neg at h
      nlinarith
    have hpi1 := Real.pi_gt_d6
    have hpi2 := Real.pi_lt_d6
    have hsplit : ∀ r : ℝ, 1 < r →
        Real.arctan r = Real.pi / 4 + Real.arctan ((r - 1) / (r + 1)) := by
      intro r hr
      have hu : (1 : ℝ) * ((r - 1) / (r + 1)) < 1 := by
        rw [one_mul, div_lt_one (by linarith)]
        linarith
      rw [← Real.arctan_one, Real.arctan_add hu]
      congr 1
      field_simp
      ring
    constructor
    · have h1 := Real.arctan_strictMono hlo
      rw [hsplit 1.4142 (by norm_num)] at h1
      have h2 := (h_arctan_poly_bounds ((1.4142 - 1) / (1.4142 + 1)) (by norm_num)).1
      have h3 : (0.16988 : ℝ) < (1.4142 - 1) / (1.4142 + 1) - ((1.4142 - 1) / (1.4142 + 1)) ^ 3 / 3 := by
        norm_num
      linarith
    · have h1 := Real.arctan_strictMono hhi
      rw [hsplit 1.41422 (by norm_num)] at h1
      have h2 := (h_arctan_poly_bounds ((1.41422 - 1) / (1.41422 + 1)) (by norm_num)).2
      have h3 : (1.41422 - 1) / (1.41422 + 1) - ((1.41422 - 1) / (1.41422 + 1)) ^ 3 / 3
          + ((1.41422 - 1) / (1.41422 + 1)) ^ 5 / 5 < (0.16994 : ℝ) := by
        norm_num
      linarith
  -- The value of `stp` at the input of `TestStereographicPrjection`.
  have h_stp_test_value : |(stp ⟨1, 0, 0⟩ (V.Unit (⟨1, 1, 1⟩ : V ℝ))).X - 1.35736| < 0.0001 ∧
          |(stp ⟨1, 0, 0⟩ (V.Unit (⟨1, 1, 1⟩ : V ℝ))).Y - 0.18734| < 0.0001 ∧
          |(stp ⟨1, 0, 0⟩ (V.Unit (⟨1, 1, 1⟩ : V ℝ))).Z - 0.18734| < 0.0001 := by
    have h3pos : 0 < Real.sqrt 3 := Real.sqrt_pos.mpr (by norm_num)
    have h3 : Real.sqrt 3 * Real.sqrt 3 = 3 := Real.mul_self_sqrt (by norm_num)
    obtain ⟨A, hA⟩ : ∃ A : ℝ, A = 1 / Real.sqrt 3 := ⟨_, rfl⟩
    have hApos : 0 < A := by rw [hA]; positivity
    have hA2 : A * A = 1 / 3 := by
      rw [hA]; field_simp
    have hx : V.Unit (⟨1, 1, 1⟩ : V ℝ) = ⟨A, A, A⟩ := by
      simp only [V.Unit, V.Norm, sqrt_real, V.DivScalar, hA]
      norm_num
    rw [hx]
    have hxn : (⟨A, A, A⟩ : V ℝ).Norm = 1 := by
      rw [V.unit_facts.1]
      simp only
      linarith
    have han : (⟨1, 0, 0⟩ : V ℝ).Norm = 1 := by simp [V.Norm]
    have hAlt : A < 1 := by nlinarith
    have hne1 : (⟨1, 0, 0⟩ : V ℝ) ≠ ⟨A, A, A⟩ := by
      intro h
      simp only [V.mk.injEq] at h
      linarith [h.1]
    have hne2 : (⟨1, 0, 0⟩ : V ℝ) ≠ (⟨A, A, A⟩ : V ℝ).MulScalar (-1) := by
      intro h
      simp only [V.MulScalar, V.mk.injEq] at h
      linarith [h.1]
    obtain ⟨hval, _, _⟩ := h_stp_offset ⟨1, 0, 0⟩ ⟨A, A, A⟩ han hxn hne1 hne2
    have hdot : (⟨1, 0, 0⟩ : V ℝ).Dot ⟨A, A, A⟩ = A := by simp [V.Dot]
    have hdot2 : (⟨A, A, A⟩ : V ℝ).Dot ⟨1, 0, 0⟩ = A := by simp [V.Dot]
    obtain ⟨n, hn⟩ : ∃ n : ℝ, n = Real.sqrt (1 - A ^ 2) := ⟨_, rfl⟩
    have hnpos : 0 < n := by
      rw [hn]; apply Real.sqrt_pos.mpr; nlinarith
    have hn2 : n * n = 2 / 3 := by
      rw [hn, Real.mul_self_sqrt (by nlinarith)]
      nlinarith
    have hwn : ((⟨1, 0, 0⟩ : V ℝ).Sub ((⟨A, A, A⟩ : V ℝ).MulScalar A)).Norm = n := by
      have := (h_stp_eq ⟨1, 0, 0⟩ ⟨A, A, A⟩ han hxn hne1 hne2).2.2.1
      rw [hdot] at this
      rw [this, hn]
    have hdist : (⟨A, A, A⟩ : V ℝ).GreatCircleDistance ⟨1, 0, 0⟩ = Real.arctan (n / A) := by
      rw [V.unit_facts.2.2 _ _ hxn han, hdot2, Real.arccos_eq_arctan hApos, hn]
    have hb := h_arctan_sqrt_two_bounds (n / A) (by positivity) (by
      rw [div_mul_div_comm, hn2, hA2]; norm_num)
    have hwn1 : (⟨1 - A * A, 0 - A * A, 0 - A * A⟩ : V ℝ).Norm = n := by
      simpa only [V.Sub, V.MulScalar] using hwn
    rw [hval, hdot]
    simp only [V.Unit, hdist, V.Add, V.Sub, V.MulScalar, V.DivScalar, hwn1]
    generalize Real.arctan (n / A) = dist at hb ⊢
    obtain ⟨hd1, hd2⟩ := hb
    have hA1 : (0.57735 : ℝ) < A := by
      by_contra h
      push_neg at h
      nlinarith
    have hA3 : A < (0.57736 : ℝ) := by
      by_contra h
      push_neg at h
      nlinarith
    have hn1 : (0.81649 : ℝ) < n := by
      by_contra h
      push_neg at h
      nlinarith
    have hn3 : n < (0.8165 : ℝ) := by
      by_contra h
      push_neg at h
      nlinarith
    have eX : (1 - A * A) / n = n := by
      rw [hA2, div_eq_iff (ne_of_gt hnpos), hn2]; norm_num
    have eY : (0 - A * A) / n = -(n / 2) := by
      rw [hA2, div_eq_iff (ne_of_gt hnpos)]
      linear_combination (1 / 2 : ℝ) * hn2
    rw [eX, eY]
    have hp1 : 0.81649 * 0.9552 < n * dist :=
      mul_lt_mul'' hn1 hd1 (by norm_num) (by norm_num)
    have hp2 : n * dist < 0.8165 * 0.95534 :=
      mul_lt_mul'' hn3 hd2 hnpos.le (by linarith)
    norm_num at hp1 hp2
    refine ⟨?_, ?_, ?_⟩ <;> rw [abs_lt] <;> constructor <;> linarith
  exact ⟨h_V_unit_divScalar, h_stp_eq, h_stp_offset, h_arctan_poly_bounds,
    h_arctan_sqrt_two_bounds, h_stp_test_value⟩

/-- C29. For unit vectors `a` and `x` with `a ≠ x` and `a ≠ -x`,
`stp(a, x) = x + gcd(x, a) · unit(a − (a · x) x)`: the offset `stp(a, x) − x`
is orthogonal to `x` and its Euclidean length is the great circle distance
from `x` to `a`. And `stp((1, 0, 0), unit(1, 1, 1))` is within `1e-4` of
`(1.35736, 0.18734, 0.18734)` in every coordinate. -/
theorem stp_tangent (a x : V ℝ) (ha : a.Norm = 1) (hx : x.Norm = 1) (h1 : a ≠ x)
    (h2 : a ≠ x.MulScalar (-1)) :
    (stp a x = x.Add ((a.Sub (x.MulScalar (a.Dot x))).Unit.MulScalar (x.GreatCircleDistance a)) ∧
      ((stp a x).Sub x).Dot x = 0 ∧ ((stp a x).Sub x).Norm = x.GreatCircleDistance a) ∧
    (|(stp ⟨1, 0, 0⟩ (V.Unit (⟨1, 1, 1⟩ : V ℝ))).X - 1.35736| < 0.0001 ∧
      |(stp ⟨1, 0, 0⟩ (V.Unit (⟨1, 1, 1⟩ : V ℝ))).Y - 0.18734| < 0.0001 ∧
      |(stp ⟨1, 0, 0⟩ (V.Unit (⟨1, 1, 1⟩ : V ℝ))).Z - 0.18734| < 0.0001) :=
  ⟨stp_facts.2.2.1 a x ha hx h1 h2, stp_facts.2.2.2.2.2⟩

/-- Witness for C29 at `a = (1, 0, 0)` and `x = (0, 1, 0)`. -/
theorem stp_tangent_witness :
    (⟨1, 0, 0⟩ : V ℝ).Norm = 1 ∧ (⟨0, 1, 0⟩ : V ℝ).Norm = 1 ∧
    ((stp (⟨1, 0, 0⟩ : V ℝ) ⟨0, 1, 0⟩).Sub ⟨0, 1, 0⟩).Norm
      = (⟨0, 1, 0⟩ : V ℝ).GreatCircleDistance ⟨1, 0, 0⟩ :=
  ⟨by simp [V.Norm], by simp [V.Norm],
    (stp_tangent ⟨1, 0, 0⟩ ⟨0, 1, 0⟩ (by simp [V.Norm]) (by simp [V.Norm])
      (by intro h; simp only [V.mk.injEq] at h; norm_num at h)
      (by intro h; simp only [V.MulScalar, V.mk.injEq] at h; norm_num at h)).1.2.2⟩
/-! ### The termination test of the smooth phase -/

/-- The summand of `gradFxk` (and of `dx`) for the point `a`: the unit vector
of `(a · x) x - a`, scaled by the weight. -/
theorem stp_direction (a x : V ℝ) (c : ℝ) (ha : a.Norm = 1) (hx : x.Norm = 1) (h1 : a ≠ x)
    (h2 : a ≠ x.MulScalar (-1)) :
    ((x.Sub (stp a x)).MulScalar c).DivScalar (x.Sub (stp a x)).Norm
      = ((x.MulScalar (a.Dot x)).Sub a).MulScalar (c / Real.sqrt (1 - a.Dot x ^ 2)) := by
  obtain ⟨hlo, hhi, hwn, hstp⟩ := stp_facts.2.1 a x ha hx h1 h2
  have hw0 : 0 < Real.sqrt (1 - a.Dot x ^ 2) := by
    apply Real.sqrt_pos.mpr
    nlinarith
  have hdist : 0 < x.GreatCircleDistance a := by
    rw [V.unit_facts.2.2 x a hx ha, Real.arccos_pos, V.dot_comm]
    exact hhi
  have hsq : (a.X - x.X * a.Dot x) * (a.X - x.X * a.Dot x)
      + (a.Y - x.Y * a.Dot x) * (a.Y - x.Y * a.Dot x)
      + (a.Z - x.Z * a.Dot x) * (a.Z - x.Z * a.Dot x)
      = Real.sqrt (1 - a.Dot x ^ 2) * Real.sqrt (1 - a.Dot x ^ 2) := by
    rw [← hwn]
    simp only [V.Norm, sqrt_real, V.Sub, V.MulScalar]
    rw [Real.mul_self_sqrt]
    nlinarith [mul_self_nonneg (a.X - x.X * a.Dot x), mul_self_nonneg (a.Y - x.Y * a.Dot x),
      mul_self_nonneg (a.Z - x.Z * a.Dot x)]
  rw [hstp]
  simp only [V.Unit]
  rw [hwn]
  generalize x.GreatCircleDistance a = dist at hdist ⊢
  generalize Real.sqrt (1 - a.Dot x ^ 2) = n at hw0 hsq ⊢
  generalize a.Dot x = d at hsq ⊢
  have hn0 : n ≠ 0 := ne_of_gt hw0
  have hd0 : dist ≠ 0 := ne_of_gt hdist
  have hnorm : (x.Sub ((((a.Sub (x.MulScalar d)).DivScalar n).MulScalar dist).Add x)).Norm
      = dist := by
    simp only [V.Add, V.Sub, V.MulScalar, V.DivScalar, V.Norm, sqrt_real]
    rw [show (x.X - ((a.X - x.X * d) / n * dist + x.X))
          * (x.X - ((a.X - x.X * d) / n * dist + x.X))
        + (x.Y - ((a.Y - x.Y * d) / n * dist + x.Y))
          * (x.Y - ((a.Y - x.Y * d) / n * dist + x.Y))
        + (x.Z - ((a.Z - x.Z * d) / n * dist + x.Z))
          * (x.Z - ((a.Z - x.Z * d) / n * dist + x.Z)) = dist * dist by
      field_simp
      linear_combination dist ^ 2 * hsq]
    exact Real.sqrt_mul_self hdist.le
  rw [hnorm]
  simp only [V.Add, V.Sub, V.MulScalar, V.DivScalar, V.mk.injEq]
  refine ⟨?_, ?_, ?_⟩ <;> field_simp <;> ring

/-- C28, the code at the failing input `x = (1, 0, 0)`,
`a = [(0.6, 0.8, 0), (-0.6, 0.8, 0)]`, `c = [1, 1]`, `tol = 0.1`. The test
`optimalityCondition` is built on the projection `a_j / (x · a_j)`, which
reverses the direction of a point with `x · a_j < 0`: the two summands cancel
and the test holds, while the gradient `gradFxk`, built on `stp`, is
`(0, -2, 0)`, of norm 2, and `dx` is `(0, 2, 0)`. -/
theorem optimalityCondition_gnomonic :
    optimalityCondition (⟨1, 0, 0⟩ : V ℝ) [⟨0.6, 0.8, 0⟩, ⟨-0.6, 0.8, 0⟩] [1, 1] 0.1 = true ∧
    gradFxk (⟨1, 0, 0⟩ : V ℝ) [⟨0.6, 0.8, 0⟩, ⟨-0.6, 0.8, 0⟩] [1, 1] = ⟨0, -2, 0⟩ ∧
    (gradFxk (⟨1, 0, 0⟩ : V ℝ) [⟨0.6, 0.8, 0⟩, ⟨-0.6, 0.8, 0⟩] [1, 1]).Norm = 2 ∧
    dx (⟨1, 0, 0⟩ : V ℝ) [⟨0.6, 0.8, 0⟩, ⟨-0.6, 0.8, 0⟩] [1, 1] = ⟨0, 2, 0⟩ := by
  have hx : (⟨1, 0, 0⟩ : V ℝ).Norm = 1 := by simp [V.Norm]
  have ha0 : (⟨0.6, 0.8, 0⟩ : V ℝ).Norm = 1 := by rw [V.unit_facts.1]; norm_num
  have ha1 : (⟨-0.6, 0.8, 0⟩ : V ℝ).Norm = 1 := by rw [V.unit_facts.1]; norm_num
  have hs : Real.sqrt (0.8 * 0.8) = 0.8 := Real.sqrt_mul_self (by norm_num)
  have hs2 : Real.sqrt (2 * 2) = 2 := Real.sqrt_mul_self (by norm_num)
  have hs43 : Real.sqrt (4 / 3 * (4 / 3)) = 4 / 3 := Real.sqrt_mul_self (by norm_num)
  have hm : (⟨1, 0, 0⟩ : V ℝ).MulScalar (-1) = ⟨-1, 0, 0⟩ := by
    simp [V.MulScalar]
  have hE0 : (⟨0.6, 0.8, 0⟩ : V ℝ).Equals ⟨-1, 0, 0⟩ = false := by
    simp only [V.Equals, decide_eq_false_iff_not]; norm_num
  have hE1 : (⟨-0.6, 0.8, 0⟩ : V ℝ).Equals ⟨-1, 0, 0⟩ = false := by
    simp only [V.Equals, decide_eq_false_iff_not]; norm_num
  have t0 := stp_direction ⟨0.6, 0.8, 0⟩ ⟨1, 0, 0⟩ 1 ha0 hx
    (by intro h; simp only [V.mk.injEq] at h; norm_num at h)
    (by rw [hm]; intro h; simp only [V.mk.injEq] at h; norm_num at h)
  have t1 := stp_direction ⟨-0.6, 0.8, 0⟩ ⟨1, 0, 0⟩ 1 ha1 hx
    (by intro h; simp only [V.mk.injEq] at h; norm_num at h)
    (by rw [hm]; intro h; simp only [V.mk.injEq] at h; norm_num at h)
  have d0 : (⟨0.6, 0.8, 0⟩ : V ℝ).Dot ⟨1, 0, 0⟩ = 0.6 := by simp [V.Dot]
  have d1 : (⟨-0.6, 0.8, 0⟩ : V ℝ).Dot ⟨1, 0, 0⟩ = -0.6 := by simp [V.Dot]
  have r0 : Real.sqrt (1 - (0.6 : ℝ) ^ 2) = 0.8 := by
    rw [show (1 : ℝ) - 0.6 ^ 2 = 0.8 * 0.8 by norm_num]; exact hs
  have r1 : Real.sqrt (1 - (-0.6 : ℝ) ^ 2) = 0.8 := by
    rw [show (1 : ℝ) - (-0.6) ^ 2 = 0.8 * 0.8 by norm_num]; exact hs
  rw [d0, r0] at t0
  rw [d1, r1] at t1
  have hgrad : gradFxk (⟨1, 0, 0⟩ : V ℝ) [⟨0.6, 0.8, 0⟩, ⟨-0.6, 0.8, 0⟩] [1, 1]
      = ⟨0, -2, 0⟩ := by
    simp only [gradFxk, List.enum, List.enumFrom, List.foldl, List.getD_cons_zero,
      List.getD_cons_succ, hm, hE0, hE1, if_false, Bool.false_eq_true, zero_add, t0, t1]
    simp only [V.Add, V.Sub, V.MulScalar, V.mk.injEq]
    norm_num
  refine ⟨?_, hgrad, ?_, ?_⟩
  · have e0 : V.Dot ⟨1, 0, 0⟩ (⟨0.6, 0.8, 0⟩ : V ℝ) = 0.6 := by simp [V.Dot]
    have e1 : V.Dot ⟨1, 0, 0⟩ (⟨-0.6, 0.8, 0⟩ : V ℝ) = -0.6 := by simp [V.Dot]
    have n0 : (V.Sub ⟨1, 0, 0⟩ (V.DivScalar (⟨0.6, 0.8, 0⟩ : V ℝ) 0.6))
        = ⟨0, -(4 / 3), 0⟩ := by
      simp only [V.Sub, V.DivScalar]; norm_num
    have n1 : (V.Sub ⟨1, 0, 0⟩ (V.DivScalar (⟨-0.6, 0.8, 0⟩ : V ℝ) (-0.6)))
        = ⟨0, 4 / 3, 0⟩ := by
      simp only [V.Sub, V.DivScalar]; norm_num
    have m0 : (⟨0, -(4 / 3), 0⟩ : V ℝ).Norm = 4 / 3 := by
      simp only [V.Norm, sqrt_real]
      rw [show (0 : ℝ) * 0 + -(4 / 3) * -(4 / 3) + 0 * 0 = 4 / 3 * (4 / 3) by norm_num]
      exact hs43
    have m1 : (⟨0, 4 / 3, 0⟩ : V ℝ).Norm = 4 / 3 := by
      simp only [V.Norm, sqrt_real]
      rw [show (0 : ℝ) * 0 + 4 / 3 * (4 / 3) + 0 * 0 = 4 / 3 * (4 / 3) by norm_num]
      exact hs43
    have s0 : optimalitySummand ⟨1, 0, 0⟩ (⟨0.6, 0.8, 0⟩ : V ℝ) 1 = some ⟨0, -1, 0⟩ := by
      simp only [optimalitySummand, e0, n0, m0]
      rw [if_neg (by norm_num)]
      simp only [V.DivScalar, V.MulScalar]
      norm_num
    have s1 : optimalitySummand ⟨1, 0, 0⟩ (⟨-0.6, 0.8, 0⟩ : V ℝ) 1 = some ⟨0, 1, 0⟩ := by
      simp only [optimalitySummand, e1, n1, m1]
      rw [if_neg (by norm_num)]
      simp only [V.DivScalar, V.MulScalar]
      norm_num
    have hsum : (V.Add (V.Add ⟨0, 0, 0⟩ (⟨0, -1, 0⟩ : V ℝ)) ⟨0, 1, 0⟩) = ⟨0, 0, 0⟩ := by
      simp only [V.Add]
      norm_num
    have hz : (⟨0, 0, 0⟩ : V ℝ).Norm = 0 := by simp [V.Norm]
    simp only [optimalityCondition, List.enum, List.enumFrom, List.foldl, List.getD_cons_zero,
      List.getD_cons_succ, zero_add, optimalityAdd, s0, s1, hsum, hz]
    norm_num
  · rw [hgrad]
    simp only [V.Norm, sqrt_real]
    rw [show (0 : ℝ) * 0 + -2 * -2 + 0 * 0 = 2 * 2 by norm_num]
    exact hs2
  · have : dx (⟨1, 0, 0⟩ : V ℝ) [⟨0.6, 0.8, 0⟩, ⟨-0.6, 0.8, 0⟩] [1, 1]
        = (gradFxk (⟨1, 0, 0⟩ : V ℝ) [⟨0.6, 0.8, 0⟩, ⟨-0.6, 0.8, 0⟩] [1, 1]).MulScalar (-1) := rfl
    rw [this, hgrad]
    simp [V.MulScalar]
/-! ### Antipodal points -/

/-- The great circle distances from a unit vector to a unit vector and to its
antipode add up to `π`. -/
theorem V.greatCircleDistance_antipodal (x a b : V ℝ) (hx : x.Norm = 1) (ha : a.Norm = 1)
    (hb : b = a.MulScalar (-1)) :
    b.Norm = 1 ∧ x.GreatCircleDistance a + x.GreatCircleDistance b = Real.pi := by
  have hb1 : b.Norm = 1 := by
    rw [V.unit_facts.1] at ha ⊢
    rw [hb]
    simp only [V.MulScalar]
    linear_combination ha
  refine ⟨hb1, ?_⟩
  rw [V.unit_facts.2.2 x a hx ha, V.unit_facts.2.2 x b hx hb1]
  have hd : x.Dot b = -(x.Dot a) := by
    rw [hb]
    simp only [V.Dot, V.MulScalar]
    ring
  rw [hd, Real.arccos_neg]
  ring

/-- C30. For a unit vector `a`, a weight `c` (positive or not) and every unit vector `x`,
`F(x) = geodesicDistances(x, [a, -a], [c, c])` is `c·π`: `F` is constant on the
sphere, so that every unit vector minimises it. For the six axis points of
`TestEqualEverywhere` with unit weights, `F(x) = 3π` for every unit `x`. -/
theorem antipodal_constant (a x : V ℝ) (c : ℝ) (ha : a.Norm = 1) (hx : x.Norm = 1) :
    (geodesicDistances x [a, a.MulScalar (-1)] [c, c]).1 = c * Real.pi ∧
    (∀ y : V ℝ, y.Norm = 1 →
      (geodesicDistances x [a, a.MulScalar (-1)] [c, c]).1
        ≤ (geodesicDistances y [a, a.MulScalar (-1)] [c, c]).1) ∧
    (geodesicDistances x
      [⟨0, 0, -1⟩, ⟨0, -1, 0⟩, ⟨-1, 0, 0⟩, ⟨0, 0, 1⟩, ⟨0, 1, 0⟩, ⟨1, 0, 0⟩]
      [1, 1, 1, 1, 1, 1]).1 = 3 * Real.pi := by
  have key : ∀ y : V ℝ, y.Norm = 1 →
      (geodesicDistances y [a, a.MulScalar (-1)] [c, c]).1 = c * Real.pi := by
    intro y hy
    have h := (V.greatCircleDistance_antipodal y a _ hy ha rfl).2
    simp only [geodesicDistances, List.enum, List.enumFrom, List.foldl, List.getD_cons_zero,
      List.getD_cons_succ]
    linear_combination c * h
  refine ⟨key x hx, fun y hy => by rw [key x hx, key y hy], ?_⟩
  have h1 := (V.greatCircleDistance_antipodal x ⟨0, 0, 1⟩ ⟨0, 0, -1⟩ hx (by simp [V.Norm])
    (by simp [V.MulScalar])).2
  have h2 := (V.greatCircleDistance_antipodal x ⟨0, 1, 0⟩ ⟨0, -1, 0⟩ hx (by simp [V.Norm])
    (by simp [V.MulScalar])).2
  have h3 := (V.greatCircleDistance_antipodal x ⟨1, 0, 0⟩ ⟨-1, 0, 0⟩ hx (by simp [V.Norm])
    (by simp [V.MulScalar])).2
  simp only [geodesicDistances, List.enum, List.enumFrom, List.foldl, List.getD_cons_zero,
    List.getD_cons_succ]
  linear_combination h1 + h2 + h3

/-- Witness for C30 at `a = (1, 0, 0)`, `x = (0, 1, 0)` and `c = 1`. -/
theorem antipodal_constant_witness :
    (⟨1, 0, 0⟩ : V ℝ).Norm = 1 ∧ (⟨0, 1, 0⟩ : V ℝ).Norm = 1 ∧
    (geodesicDistances (⟨0, 1, 0⟩ : V ℝ) [⟨1, 0, 0⟩, (⟨1, 0, 0⟩ : V ℝ).MulScalar (-1)] [1, 1]).1
      = 1 * Real.pi :=
  ⟨by simp [V.Norm], by simp [V.Norm],
    (antipodal_constant ⟨1, 0, 0⟩ ⟨0, 1, 0⟩ 1 (by simp [V.Norm]) (by simp [V.Norm])).1⟩

/-! ### The state machine -/

theorem World.sameStates_refl (w : World F) : w.sameStates w :=
  ⟨rfl, fun _ nd h => ⟨nd, h, rfl, rfl, rfl⟩⟩

theorem World.sameStates_trans (w w1 w2 : World F) (h1 : w.sameStates w1)
    (h2 : w1.sameStates w2) : w.sameStates w2 := by
  obtain ⟨a1, b1⟩ := h1
  obtain ⟨a2, b2⟩ := h2
  refine ⟨a2.trans a1, ?_⟩
  intro i nd hi
  obtain ⟨nd1, c1, c2, c3, c4⟩ := b1 i nd hi
  obtain ⟨nd2, d1, d2, d3, d4⟩ := b2 i nd1 c1
  exact ⟨nd2, d1, d2.trans c2, d3.trans c3, d4.trans c4⟩

/-- Replacing a node by one with the same states keeps the states. -/
theorem World.sameStates_set (w : World F) (data : List (Option (Data F))) (j : Nat)
    (nd nd1 : Node F) (hj : w.heap.get? j = some nd) (hS : nd1.S = nd.S)
    (hN : nd1.NextS = nd.NextS) (hW : nd1.WaitActivity = nd.WaitActivity) :
    w.sameStates { DataCache := data, heap := w.heap.set j nd1 } := by
  refine ⟨by simp, ?_⟩
  intro i x hi
  by_cases e : j = i
  · subst e
    rw [hj] at hi
    simp only [Option.some.injEq] at hi
    subst hi
    refine ⟨nd1, ?_, hS, hN, hW⟩
    simp only [List.get?_eq_getElem?, List.getElem?_set_self']
    rw [← List.get?_eq_getElem?, hj]
    rfl
  · refine ⟨x, ?_, rfl, rfl, rfl⟩
    simp only [List.get?_eq_getElem?] at hi ⊢
    rw [List.getElem?_set_ne e, hi]

theorem World.sameStates_of_sameButPeers (w w1 : World F) (h : w.sameButPeers w1) :
    w.sameStates w1 := by
  obtain ⟨_, a, b⟩ := h
  refine ⟨a, ?_⟩
  intro i nd hi
  obtain ⟨pl, hp⟩ := b i nd hi
  exact ⟨_, hp, rfl, rfl, rfl⟩

theorem World.hello_sameStates (w w1 : World F) (n o peer : NodeId)
    (h : w.hello n o peer = some w1) : w.sameStates w1 := by
  simp only [World.hello] at h
  split at h
  · exact Option.noConfusion h
  · split_ifs at h
    · split at h
      · exact Option.noConfusion h
      · rename_i w2 h2
        exact World.sameStates_trans w w2 w1
          (World.sameStates_of_sameButPeers w w2 (World.addPeer_sameButPeers w w2 o n h2))
          (World.sameStates_of_sameButPeers w2 w1 (World.addPeer_sameButPeers w2 w1 n peer h))
    · simp only [Option.some.injEq] at h
      subst h
      exact World.sameStates_refl w

theorem World.requestPeer_sameStates (g : Rng F) (k : Nat) (w w1 : World F) (n : NodeId)
    (k1 : Nat) (h : w.requestPeer g k n = some (w1, k1)) : w.sameStates w1 := by
  simp only [World.requestPeer] at h
  split at h
  · exact Option.noConfusion h
  · split at h
    · exact Option.noConfusion h
    · simp only [Option.some.injEq, Prod.mk.injEq] at h
      rw [← h.1]
      exact World.sameStates_refl w
    · split at h
      · exact Option.noConfusion h
      · split at h
        · exact Option.noConfusion h
        · simp only [Option.some.injEq, Prod.mk.injEq] at h
          rw [← h.1]
          exact World.sameStates_refl w
        · simp only [Option.map_eq_some', Prod.mk.injEq] at h
          obtain ⟨w2, h2, e, _⟩ := h
          subst e
          exact World.hello_sameStates w w2 n _ _ h2

theorem World.exchangeData_sameStates (fuel : Nat) (g : Rng F) (k : Nat) (w w1 : World F)
    (n : NodeId) (msg : ExchangeMsg) (k1 : Nat)
    (h : w.exchangeData fuel g k n = some ((w1, msg), k1)) : w.sameStates w1 := by
  simp only [World.exchangeData] at h
  split at h
  · exact Option.noConfusion h
  · rename_i nNode hn
    split at h
    · exact Option.noConfusion h
    · rename_i peer dataIdx k2 hfind
      split_ifs at h with c1 c2
      · simp only [Option.some.injEq, Prod.mk.injEq] at h
        rw [← h.1.1]
        exact World.sameStates_refl w
      · simp only [Option.some.injEq, Prod.mk.injEq] at h
        rw [← h.1.1]
        exact World.sameStates_refl w
      · split at h
        · exact Option.noConfusion h
        · rename_i o
          split at h
          · exact Option.noConfusion h
          · rename_i oNode ho
            split_ifs at h with c3
            · split at h
              · exact Option.noConfusion h
              · exact Option.noConfusion h
              · rename_i d hd
                split at h
                · exact Option.noConfusion h
                · rename_i oNode1 data1 ok k3 hrecv
                  have hO : oNode1.S = oNode.S ∧ oNode1.NextS = oNode.NextS ∧
                      oNode1.WaitActivity = oNode.WaitActivity := by
                    rcases receive_cases fuel g k2 w.DataCache oNode d oNode1 data1 ok k3 hrecv
                      with ⟨_, a, _⟩ | ⟨_, _, j, _, _, e⟩
                    · rw [a]; exact ⟨rfl, rfl, rfl⟩
                    · have := compute_spec fuel g k2 _ oNode oNode1 k3 e
                      exact ⟨this.2.2.2.2.1, this.2.2.2.2.2.1, this.2.2.2.2.2.2⟩
                  have hw1 := World.sameStates_set w data1 o oNode oNode1 ho hO.1 hO.2.1 hO.2.2
                  split at h
                  · exact Option.noConfusion h
                  · rename_i w2 msg2 k4 hgiven
                    have hw2 : w.sameStates w2 := by
                      split_ifs at hgiven with hok
                      · split at hgiven
                        · exact Option.noConfusion hgiven
                        · rename_i nNode1 hn1
                          split at hgiven
                          · exact Option.noConfusion hgiven
                          · rename_i nNode2 data2 k5 hgive
                            simp only [Option.some.injEq, Prod.mk.injEq] at hgiven
                            rw [← hgiven.1]
                            have hN : nNode2.S = nNode1.S ∧ nNode2.NextS = nNode1.NextS ∧
                                nNode2.WaitActivity = nNode1.WaitActivity := by
                              simp only [Node.exchangeDataGive] at hgive
                              split_ifs at hgive
                              split at hgive
                              · exact Option.noConfusion hgive
                              · rename_i n3 k6 hc
                                simp only [Option.some.injEq, Prod.mk.injEq] at hgive
                                have := compute_spec fuel g k3 _ nNode1 n3 k6 hc
                                rw [← hgive.1.1]
                                exact ⟨this.2.2.2.2.1, this.2.2.2.2.2.1, this.2.2.2.2.2.2⟩
                            exact World.sameStates_trans w _ _ hw1
                              (World.sameStates_set _ data2 n nNode1 nNode2 hn1 hN.1 hN.2.1
                                hN.2.2)
                      · simp only [Option.some.injEq, Prod.mk.injEq] at hgiven
                        rw [← hgiven.1]
                        exact hw1
                    split at h
                    · exact Option.noConfusion h
                    · rename_i w3 h3
                      split at h
                      · exact Option.noConfusion h
                      · rename_i w4 h4
                        simp only [Option.some.injEq, Prod.mk.injEq] at h
                        rw [← h.1.1]
                        exact World.sameStates_trans w w2 w4 hw2
                          (World.sameStates_trans w2 w3 w4
                            (World.sameStates_of_sameButPeers w2 w3
                              (World.addPeer_sameButPeers w2 w3 o n h3))
                            (World.sameStates_of_sameButPeers w3 w4
                              (World.addPeer_sameButPeers w3 w4 n o h4)))
            · simp only [Option.some.injEq, Prod.mk.injEq] at h
              rw [← h.1.1]
              exact World.sameStates_refl w

/-- The assignment of `NextS` changes `NextS` of the node `n` only. -/
theorem World.setNextS_spec (w w1 : World F) (n : NodeId) (s : State)
    (h : w.setNextS n s = some w1) :
    w1.heap.length = w.heap.length ∧
    ∀ i nd, w.heap.get? i = some nd →
      ∃ nd1, w1.heap.get? i = some nd1 ∧ nd1.S = nd.S ∧
        nd1.WaitActivity = nd.WaitActivity ∧
        (i ≠ n → nd1.NextS = nd.NextS) ∧ (i = n → nd1.NextS = s) := by
  simp only [World.setNextS] at h
  split at h
  · exact Option.noConfusion h
  · rename_i nNode hn
    simp only [Option.some.injEq] at h
    subst h
    refine ⟨by simp, ?_⟩
    intro i nd hi
    by_cases e : n = i
    · subst e
      rw [hn] at hi
      simp only [Option.some.injEq] at hi
      subst hi
      refine ⟨{ nNode with NextS := s }, ?_, rfl, rfl, fun h => absurd rfl h, fun _ => rfl⟩
      simp only [List.get?_eq_getElem?, List.getElem?_set_self']
      rw [← List.get?_eq_getElem?, hn]
      rfl
    · refine ⟨nd, ?_, rfl, rfl, fun _ => rfl, fun h => absurd h.symm e⟩
      simp only [List.get?_eq_getElem?] at hi ⊢
      rw [List.getElem?_set_ne e, hi]

/-- After operations that keep the states, the assignment of `NextS`. -/
theorem World.sameStates_setNextS (w w1 w2 : World F) (n : NodeId) (s : State)
    (h1 : w.sameStates w1) (h2 : w1.setNextS n s = some w2) :
    w2.heap.length = w.heap.length ∧
    ∀ i nd, w.heap.get? i = some nd →
      ∃ nd1, w2.heap.get? i = some nd1 ∧ nd1.S = nd.S ∧
        (i ≠ n → nd1.NextS = nd.NextS) ∧ (i = n → nd1.NextS = s) := by
  obtain ⟨a1, b1⟩ := h1
  obtain ⟨a2, b2⟩ := World.setNextS_spec w1 w2 n s h2
  refine ⟨a2.trans a1, ?_⟩
  intro i nd hi
  obtain ⟨nd1, c1, c2, c3, _⟩ := b1 i nd hi
  obtain ⟨nd2, d1, d2, _, d4, d5⟩ := b2 i nd1 c1
  exact ⟨nd2, d1, d2.trans c2, fun h => (d4 h).trans c3, d5⟩

/-- What `ApplyState` does to the states: no `S` changes, `NextS` changes for
the node `n` only, and for a node in one of the four states the new `NextS` is
`nextStateOf` of its own `S` and of the outcome of its own draw. -/
theorem World.applyState_states (fuel : Nat) (g : Rng F) (k : Nat) (c : coordinator)
    (w w1 : World F) (n : NodeId) (k1 : Nat)
    (h : w.ApplyState fuel g k c n = some (w1, k1)) :
    w1.heap.length = w.heap.length ∧
    ∀ i nd, w.heap.get? i = some nd →
      ∃ nd1, w1.heap.get? i = some nd1 ∧ nd1.S = nd.S ∧
        (i ≠ n → nd1.NextS = nd.NextS) ∧
        (i = n → nd.S.known →
          nd1.NextS = nextStateOf nd.S (decide (g.float64 k < nd.WaitActivity))) := by
  simp only [World.ApplyState] at h
  split at h
  · exact Option.noConfusion h
  · rename_i nNode hn
    have key : ∀ (s : State) (w2 w3 : World F), w.sameStates w2 → w2.setNextS n s = some w3 →
        (nNode.S.known → s = nextStateOf nNode.S (decide (g.float64 k < nNode.WaitActivity))) →
        w3.heap.length = w.heap.length ∧
        ∀ i nd, w.heap.get? i = some nd →
          ∃ nd1, w3.heap.get? i = some nd1 ∧ nd1.S = nd.S ∧
            (i ≠ n → nd1.NextS = nd.NextS) ∧
            (i = n → nd.S.known →
              nd1.NextS = nextStateOf nd.S (decide (g.float64 k < nd.WaitActivity))) := by
      intro s w2 w3 hs hset heq
      obtain ⟨a, b⟩ := World.sameStates_setNextS w w2 w3 n s hs hset
      refine ⟨a, ?_⟩
      intro i nd hi
      obtain ⟨nd1, c1, c2, c3, c4⟩ := b i nd hi
      refine ⟨nd1, c1, c2, c3, ?_⟩
      intro e hk
      subst e
      rw [hn] at hi
      simp only [Option.some.injEq] at hi
      subst hi
      rw [c4 rfl]
      exact heq hk
    have hne1 : StateJoin ≠ StateWait := by decide
    split_ifs at h with s1 s2 s3 s4 s5 s6
    · have hnext : nNode.S.known →
          (⟨StateWait, StateJoin⟩ : State)
            = nextStateOf nNode.S (decide (g.float64 k < nNode.WaitActivity)) := by
        intro _
        simp only [nextStateOf, s1, if_neg hne1]
      split at h
      · exact Option.noConfusion h
      · simp only [Option.map_eq_some', Prod.mk.injEq] at h
        obtain ⟨w2, h2, e, _⟩ := h
        subst e
        exact key _ w _ (World.sameStates_refl w) h2 hnext
      · rename_i o k2 hc
        split at h
        · exact Option.noConfusion h
        · rename_i w2 hh
          simp only [Option.map_eq_some', Prod.mk.injEq] at h
          obtain ⟨w3, h3, e, _⟩ := h
          subst e
          exact key _ w2 _ (World.hello_sameStates w w2 n o o hh) h3 hnext
    · simp only [Option.map_eq_some', Prod.mk.injEq] at h
      obtain ⟨w2, h2, e, _⟩ := h
      subst e
      exact key _ w _ (World.sameStates_refl w) h2
        (fun _ => by simp only [nextStateOf, s2, s3, s4, if_true, decide_True])
    · simp only [Option.map_eq_some', Prod.mk.injEq] at h
      obtain ⟨w2, h2, e, _⟩ := h
      subst e
      exact key _ w _ (World.sameStates_refl w) h2
        (fun _ => by simp only [nextStateOf, s2, s3, s4, if_true, if_false, decide_True])
    · simp only [Option.map_eq_some', Prod.mk.injEq] at h
      obtain ⟨w2, h2, e, _⟩ := h
      subst e
      exact key _ w _ (World.sameStates_refl w) h2
        (fun _ => by simp [nextStateOf, s2, s3])
    · have hnext : nNode.S.known →
          (⟨StateWait, StateExchangeData⟩ : State)
            = nextStateOf nNode.S (decide (g.float64 k < nNode.WaitActivity)) := by
        intro _
        have hne2 : StateExchangeData ≠ StateWait := by decide
        simp only [nextStateOf, s5, if_neg hne2]
      split at h
      · exact Option.noConfusion h
      · rename_i w2 msg k2 hx
        simp only [Option.map_eq_some', Prod.mk.injEq] at h
        obtain ⟨w3, h3, e, _⟩ := h
        subst e
        exact key _ w2 _ (World.exchangeData_sameStates fuel g k w w2 n msg k2 hx) h3 hnext
    · have hnext : nNode.S.known →
          (⟨StateWait, StateAskPeer⟩ : State)
            = nextStateOf nNode.S (decide (g.float64 k < nNode.WaitActivity)) := by
        intro _
        have hne3 : StateAskPeer ≠ StateWait := by decide
        simp only [nextStateOf, s6, if_neg hne3]
      split at h
      · exact Option.noConfusion h
      · rename_i w2 k2 hx
        simp only [Option.map_eq_some', Prod.mk.injEq] at h
        obtain ⟨w3, h3, e, _⟩ := h
        subst e
        exact key _ w2 _ (World.requestPeer_sameStates g k w w2 n k2 hx) h3 hnext
    · simp only [Option.some.injEq, Prod.mk.injEq] at h
      rw [← h.1]
      refine ⟨rfl, ?_⟩
      intro i nd hi
      refine ⟨nd, hi, rfl, fun _ => rfl, ?_⟩
      intro e hk
      subst e
      rw [hn] at hi
      simp only [Option.some.injEq] at hi
      subst hi
      rcases hk with a | a | a | a
      · exact absurd a s1
      · exact absurd a s2
      · exact absurd a s5
      · exact absurd a s6

/-- The tick of a node in the state Wait: `ApplyState` returns after one draw,
and it has changed `NextS` of the node only. -/
theorem World.applyState_wait (fuel : Nat) (g : Rng F) (k : Nat) (c : coordinator) (w : World F)
    (n : NodeId) (nd : Node F) (hn : w.heap.get? n = some nd) (hS : nd.S.id = StateWait) :
    ∃ w1, w.ApplyState fuel g k c n = some (w1, k + 1) ∧
      w1.heap.get? n
        = some { nd with NextS := nextStateOf nd.S (decide (g.float64 k < nd.WaitActivity)) } := by
  have hne : StateWait ≠ StateJoin := by decide
  have hget : ∀ x : Node F, (w.heap.set n x)[n]? = some x := by
    intro x
    simp only [List.getElem?_set_self']
    rw [← List.get?_eq_getElem?, hn]
    rfl
  simp only [World.ApplyState, hn, hS, if_neg hne, if_true, World.setNextS, nextStateOf]
  by_cases hu : g.float64 k < nd.WaitActivity
  · by_cases hl : nd.S.lastState = StateExchangeData
    · simp [hu, hl, hget]
    · simp [hu, hl, hget]
  · simp [hu, hget]

theorem World.sameStates_setNextS_some (w w1 : World F) (n : NodeId) (nd : Node F) (s : State)
    (hn : w.heap.get? n = some nd) (h : w.sameStates w1) : ∃ w2, w1.setNextS n s = some w2 := by
  obtain ⟨nd1, h1, -⟩ := h.2 n nd hn
  simp only [World.setNextS, h1]
  exact ⟨_, rfl⟩

/-- The call `ApplyState` returns whenever the interaction of the state of the
node returns: the coordinator and the peer hello in Join, `exchangeData` in
ExchangeData, `requestPeer` in AskPeer. -/
theorem World.applyState_returns (fuel : Nat) (g : Rng F) (k : Nat) (c : coordinator)
    (w : World F) (n : NodeId) (nd : Node F) (hn : w.heap.get? n = some nd) :
    (nd.S.id = StateJoin → ∀ k1, c n k = some (none, k1) →
      ∃ w1, w.ApplyState fuel g k c n = some (w1, k1)) ∧
    (nd.S.id = StateJoin → ∀ o k1 w0, c n k = some (some o, k1) → w.hello n o o = some w0 →
      ∃ w1, w.ApplyState fuel g k c n = some (w1, k1)) ∧
    (nd.S.id = StateExchangeData → ∀ w0 msg k1,
      w.exchangeData fuel g k n = some ((w0, msg), k1) →
      ∃ w1, w.ApplyState fuel g k c n = some (w1, k1)) ∧
    (nd.S.id = StateAskPeer → ∀ w0 k1, w.requestPeer g k n = some (w0, k1) →
      ∃ w1, w.ApplyState fuel g k c n = some (w1, k1)) := by
  have e1 : StateExchangeData ≠ StateJoin := by decide
  have e2 : StateExchangeData ≠ StateWait := by decide
  have e3 : StateAskPeer ≠ StateJoin := by decide
  have e4 : StateAskPeer ≠ StateWait := by decide
  have e5 : StateAskPeer ≠ StateExchangeData := by decide
  refine ⟨?_, ?_, ?_, ?_⟩
  · intro hS k1 hc
    obtain ⟨w2, h2⟩ := World.sameStates_setNextS_some w w n nd ⟨StateWait, StateJoin⟩ hn
      (World.sameStates_refl w)
    exact ⟨w2, by simp only [World.ApplyState, hn, hS, if_true, hc, h2, Option.map_some']⟩
  · intro hS o k1 w0 hc hh
    obtain ⟨w2, h2⟩ := World.sameStates_setNextS_some w w0 n nd ⟨StateWait, StateJoin⟩ hn
      (World.hello_sameStates w w0 n o o hh)
    exact ⟨w2, by simp only [World.ApplyState, hn, hS, if_true, hc, hh, h2, Option.map_some']⟩
  · intro hS w0 msg k1 hx
    obtain ⟨w2, h2⟩ := World.sameStates_setNextS_some w w0 n nd ⟨StateWait, StateExchangeData⟩
      hn (World.exchangeData_sameStates fuel g k w w0 n msg k1 hx)
    exact ⟨w2, by
      simp only [World.ApplyState, hn, hS, if_neg e1, if_neg e2, if_true, hx, h2,
        Option.map_some']⟩
  · intro hS w0 k1 hr
    obtain ⟨w2, h2⟩ := World.sameStates_setNextS_some w w0 n nd ⟨StateWait, StateAskPeer⟩ hn
      (World.requestPeer_sameStates g k w w0 n k1 hr)
    exact ⟨w2, by
      simp only [World.ApplyState, hn, hS, if_neg e3, if_neg e4, if_neg e5, if_true, hr, h2,
        Option.map_some']⟩

/-- C14. The transition table of `Node.ApplyState`, for a node `n` of the
world. In the state Wait the call returns after one uniform draw `u`, with the
next state id ExchangeData or AskPeer when `u < WaitActivity` and Wait when
not (over the reals: when `u ≥ WaitActivity`). In the states Join, ExchangeData
and AskPeer the call returns whenever the interaction of the state returns
(the coordinator and the peer hello, `exchangeData`, `requestPeer`), and the
next state id is then Wait. In none of the four states is the next state id
Join. -/
theorem applyState_transition (fuel : Nat) (g : Rng F) (k : Nat) (c : coordinator)
    (w : World F) (n : NodeId) (nd : Node F) (hn : w.heap.get? n = some nd) :
    (nd.S.id = StateWait →
      ∃ w1 nd1, w.ApplyState fuel g k c n = some (w1, k + 1) ∧ w1.heap.get? n = some nd1 ∧
        (g.float64 k < nd.WaitActivity →
          nd1.NextS.id = StateExchangeData ∨ nd1.NextS.id = StateAskPeer) ∧
        (¬ g.float64 k < nd.WaitActivity → nd1.NextS.id = StateWait)) ∧
    ((nd.S.id = StateJoin → ∀ k1, c n k = some (none, k1) →
        ∃ w1, w.ApplyState fuel g k c n = some (w1, k1)) ∧
      (nd.S.id = StateJoin → ∀ o k1 w0, c n k = some (some o, k1) →
        w.hello n o o = some w0 → ∃ w1, w.ApplyState fuel g k c n = some (w1, k1)) ∧
      (nd.S.id = StateExchangeData → ∀ w0 msg k1,
        w.exchangeData fuel g k n = some ((w0, msg), k1) →
        ∃ w1, w.ApplyState fuel g k c n = some (w1, k1)) ∧
      (nd.S.id = StateAskPeer → ∀ w0 k1, w.requestPeer g k n = some (w0, k1) →
        ∃ w1, w.ApplyState fuel g k c n = some (w1, k1))) ∧
    (∀ w1 k1, w.ApplyState fuel g k c n = some (w1, k1) → nd.S.known →
      ∃ nd1, w1.heap.get? n = some nd1 ∧
        (nd.S.id = StateJoin ∨ nd.S.id = StateExchangeData ∨ nd.S.id = StateAskPeer →
          nd1.NextS.id = StateWait) ∧
        nd1.NextS.id ≠ StateJoin) := by
  refine ⟨?_, World.applyState_returns fuel g k c w n nd hn, ?_⟩
  · intro hS
    obtain ⟨w1, h1, h2⟩ := World.applyState_wait fuel g k c w n nd hn hS
    refine ⟨w1, _, h1, h2, ?_, ?_⟩
    · intro hu
      by_cases hl : nd.S.lastState = StateExchangeData
      · right; simp [nextStateOf, hS, hu, hl]
      · left; simp [nextStateOf, hS, hu, hl]
    · intro hu
      simp [nextStateOf, hS, hu]
  · intro w1 k1 h hk
    obtain ⟨_, b⟩ := World.applyState_states fuel g k c w w1 n k1 h
    obtain ⟨nd1, c1, _, _, c4⟩ := b n nd hn
    have hN := c4 rfl hk
    refine ⟨nd1, c1, ?_, ?_⟩
    · intro hs
      rw [hN]
      have hne : nd.S.id ≠ StateWait := by
        rcases hs with e | e | e <;> rw [e] <;> decide
      simp [nextStateOf, hne]
    · rw [hN]
      simp only [nextStateOf]
      split_ifs <;> simp [StateJoin, StateWait, StateExchangeData, StateAskPeer]

/-- Witness for C14: the peer of `worldX` is in the state Wait. -/
theorem applyState_transition_witness :
    (worldX : World ℝ).heap.get? 1 = some peerX ∧
    ∃ w1 nd1, (worldX : World ℝ).ApplyState 0 zeroRng 0 (fun _ _ => none) 1 = some (w1, 0 + 1) ∧
      w1.heap.get? 1 = some nd1 ∧
      ((zeroRng : Rng ℝ).float64 0 < (peerX : Node ℝ).WaitActivity →
        nd1.NextS.id = StateExchangeData ∨ nd1.NextS.id = StateAskPeer) ∧
      (¬ (zeroRng : Rng ℝ).float64 0 < (peerX : Node ℝ).WaitActivity →
        nd1.NextS.id = StateWait) :=
  ⟨rfl, (applyState_transition 0 zeroRng 0 (fun _ _ => none) worldX 1 peerX rfl).1 rfl⟩

/-- C15, counterexample. The node `waiterX` is in ExchangeData at the first
tick and in Wait at the second and the third. Its draw at the second tick is
`0.9 ≥ WaitActivity`, an idle tick, and its draw at the third tick is
`0 < WaitActivity`: its next state is then ExchangeData again, although the
most recent state other than Wait was ExchangeData. -/
theorem wait_alternation_counterexample :
    ((simW : Simulation ℝ).heap.map Node.S) = [⟨StateExchangeData, StateWait⟩] ∧
    ((simW : Simulation ℝ).ticks 0 idleThenActive 1 0).map (fun r => (r.1.heap.map Node.S, r.2))
      = some ([⟨StateWait, StateExchangeData⟩], 0) ∧
    ((simW : Simulation ℝ).ticks 0 idleThenActive 2 0).map (fun r => (r.1.heap.map Node.S, r.2))
      = some ([⟨StateWait, StateWait⟩], 1) ∧
    ((simW : Simulation ℝ).ticks 0 idleThenActive 3 0).map (fun r => (r.1.heap.map Node.S, r.2))
      = some ([⟨StateExchangeData, StateWait⟩], 2) ∧
    ¬ (idleThenActive : Rng ℝ).float64 0 < (waiterX : Node ℝ).WaitActivity ∧
    (idleThenActive : Rng ℝ).float64 1 < (waiterX : Node ℝ).WaitActivity := by
  have h1 : ¬ ((0.9 : ℝ) < 0.5) := by norm_num
  have h2 : (0 : ℝ) < 0.5 := by norm_num
  refine ⟨rfl, ?_, ?_, ?_, ?_, ?_⟩
  · simp [Simulation.ticks, Simulation.tick, Simulation.applyStates, Simulation.advanceStates,
      simW, waiterX, World.ApplyState, World.exchangeData, World.setNextS, World.AdvanceState,
      PeerList.RandomlyFindPeerCloserToData, basePeerList.RandomlyFindPeerCloserToData,
      NewMaximizePeerSpread, newBasePeerList, StateJoin, StateWait, StateExchangeData,
      StateAskPeer]
  · simp [Simulation.ticks, Simulation.tick, Simulation.applyStates, Simulation.advanceStates,
      simW, waiterX, World.ApplyState, World.exchangeData, World.setNextS, World.AdvanceState,
      PeerList.RandomlyFindPeerCloserToData, basePeerList.RandomlyFindPeerCloserToData,
      NewMaximizePeerSpread, newBasePeerList, StateJoin, StateWait, StateExchangeData,
      StateAskPeer, idleThenActive, h1]
  · simp [Simulation.ticks, Simulation.tick, Simulation.applyStates, Simulation.advanceStates,
      simW, waiterX, World.ApplyState, World.exchangeData, World.setNextS, World.AdvanceState,
      PeerList.RandomlyFindPeerCloserToData, basePeerList.RandomlyFindPeerCloserToData,
      NewMaximizePeerSpread, newBasePeerList, StateJoin, StateWait, StateExchangeData,
      StateAskPeer, idleThenActive, h1, h2]
  · simp [idleThenActive, waiterX, h1]
  · simp [idleThenActive, waiterX, h2]

/-- C15, amended. For a node in Wait whose draw is below `WaitActivity`, the
call returns and the next state is AskPeer if the memo `S.lastState` is
ExchangeData, and ExchangeData otherwise; and whenever `ApplyState` returns for
a node in one of the four states, the memo of the next state is the id of the
current state (also on an idle Wait tick, which stores Wait). So the next
state is AskPeer exactly when the node was in ExchangeData at the tick before,
with no idle Wait tick in between. -/
theorem wait_alternation (fuel : Nat) (g : Rng F) (k : Nat) (c : coordinator) (w : World F)
    (n : NodeId) (nd : Node F) (hn : w.heap.get? n = some nd) :
    (nd.S.id = StateWait → g.float64 k < nd.WaitActivity →
      ∃ w1 nd1, w.ApplyState fuel g k c n = some (w1, k + 1) ∧ w1.heap.get? n = some nd1 ∧
        nd1.NextS.id
          = if nd.S.lastState = StateExchangeData then StateAskPeer else StateExchangeData) ∧
    (∀ w1 k1, w.ApplyState fuel g k c n = some (w1, k1) → nd.S.known →
      ∃ nd1, w1.heap.get? n = some nd1 ∧ nd1.NextS.lastState = nd.S.id) := by
  constructor
  · intro hS hu
    obtain ⟨w1, h1, h2⟩ := World.applyState_wait fuel g k c w n nd hn hS
    refine ⟨w1, _, h1, h2, ?_⟩
    by_cases hl : nd.S.lastState = StateExchangeData
    · simp [nextStateOf, hS, hu, hl]
    · simp [nextStateOf, hS, hu, hl]
  · intro w1 k1 h hk
    obtain ⟨_, b⟩ := World.applyState_states fuel g k c w w1 n k1 h
    obtain ⟨nd1, c1, _, _, c4⟩ := b n nd hn
    refine ⟨nd1, c1, ?_⟩
    rw [c4 rfl hk]
    simp only [nextStateOf]
    split_ifs with e1 <;> simp [e1]

/-- Witness for C15 (amended): the peer of `worldX` is in Wait, with the memo
Join, and `WaitActivity = 1`. -/
theorem wait_alternation_witness :
    (worldX : World ℝ).heap.get? 1 = some peerX ∧ (peerX : Node ℝ).S.id = StateWait ∧
    (zeroRng : Rng ℝ).float64 0 < (peerX : Node ℝ).WaitActivity ∧
    ∃ w1 nd1, (worldX : World ℝ).ApplyState 0 zeroRng 0 (fun _ _ => none) 1 = some (w1, 0 + 1) ∧
      w1.heap.get? 1 = some nd1 ∧
      nd1.NextS.id
        = if (peerX : Node ℝ).S.lastState = StateExchangeData then StateAskPeer
          else StateExchangeData :=
  ⟨rfl, rfl, by simp [zeroRng, peerX],
    (wait_alternation 0 zeroRng 0 (fun _ _ => none) worldX 1 peerX rfl).1 rfl
      (by simp [zeroRng, peerX])⟩

theorem Simulation.applyStates_states (fuel : Nat) (g : Rng F) (c : coordinator)
    (l : List (Option NodeId)) :
    ∀ (w w1 : World F) (k k1 : Nat), Simulation.applyStates fuel g c l w k = some (w1, k1) →
      w1.heap.length = w.heap.length ∧
      ∀ i nd, w.heap.get? i = some nd → ∃ nd1, w1.heap.get? i = some nd1 ∧ nd1.S = nd.S := by
  induction l with
  | nil =>
    intro w w1 k k1 h
    simp only [Simulation.applyStates, Option.some.injEq, Prod.mk.injEq] at h
    rw [← h.1]
    exact ⟨rfl, fun i nd hi => ⟨nd, hi, rfl⟩⟩
  | cons x rest ih =>
    intro w w1 k k1 h
    cases x with
    | none => exact ih w w1 k k1 (by simpa [Simulation.applyStates] using h)
    | some n =>
      simp only [Simulation.applyStates] at h
      split at h
      · exact Option.noConfusion h
      · rename_i w2 k2 h2
        obtain ⟨a1, b1⟩ := World.applyState_states fuel g k c w w2 n k2 h2
        obtain ⟨a2, b2⟩ := ih w2 w1 k2 k1 h
        refine ⟨a2.trans a1, ?_⟩
        intro i nd hi
        obtain ⟨nd1, c1, c2, _⟩ := b1 i nd hi
        obtain ⟨nd2, d1, d2⟩ := b2 i nd1 c1
        exact ⟨nd2, d1, d2.trans c2⟩

/-- C16. The two phases of a tick. `ApplyState` of the node `n` changes the
current state `S` of no node of the world (the node itself, its peers and the
node of the coordinator included) and `NextS` of the node `n` only; for a node
in one of the four states the new `NextS` is a function (`nextStateOf`) of its
own `S` and of the outcome of its own draw against its own `WaitActivity`. So
the first loop of `tick` changes no `S`. `AdvanceState` of the node `n` sets
its `S` to its `NextS` and changes nothing else. -/
theorem two_phase_tick (fuel : Nat) (g : Rng F) (k : Nat) (c : coordinator) (w : World F)
    (n : NodeId) :
    (∀ w1 k1, w.ApplyState fuel g k c n = some (w1, k1) →
      w1.heap.length = w.heap.length ∧
      ∀ i nd, w.heap.get? i = some nd →
        ∃ nd1, w1.heap.get? i = some nd1 ∧ nd1.S = nd.S ∧
          (i ≠ n → nd1.NextS = nd.NextS) ∧
          (i = n → nd.S.known →
            nd1.NextS = nextStateOf nd.S (decide (g.float64 k < nd.WaitActivity)))) ∧
    (∀ l w1 k1, Simulation.applyStates fuel g c l w k = some (w1, k1) →
      w1.heap.length = w.heap.length ∧
      ∀ i nd, w.heap.get? i = some nd → ∃ nd1, w1.heap.get? i = some nd1 ∧ nd1.S = nd.S) ∧
    (∀ nd, w.heap.get? n = some nd →
      w.AdvanceState n
        = some { DataCache := w.DataCache, heap := w.heap.set n { nd with S := nd.NextS } }) :=
  ⟨fun w1 k1 h => World.applyState_states fuel g k c w w1 n k1 h,
    fun l w1 k1 h => Simulation.applyStates_states fuel g c l w w1 k k1 h,
    fun nd hn => by simp only [World.AdvanceState, hn]⟩

/-- Witness for C16: `ApplyState` of the peer of `worldX`, in Wait. -/
theorem two_phase_tick_witness :
    ∃ w1, (worldX : World ℝ).ApplyState 0 zeroRng 0 (fun _ _ => none) 1 = some (w1, 0 + 1) ∧
      w1.heap.length = (worldX : World ℝ).heap.length := by
  obtain ⟨w1, h1, _⟩ := World.applyState_wait 0 (zeroRng : Rng ℝ) 0 (fun _ _ => none) worldX 1
    peerX rfl rfl
  exact ⟨w1, h1, ((two_phase_tick 0 zeroRng 0 (fun _ _ => none) worldX 1).1 w1 (0 + 1) h1).1⟩

/-! ### The hybrid list -/

/-- The max-spread and the closest `AddPeer` return `false` only with the list
unchanged. -/
theorem addPeer_false_unchanged (p q : basePeerList F) (loc : V F) (o : NodeId) (oLoc : V F) :
    (maximizePeerSpread.AddPeer p loc o oLoc = some (q, false) → q = p) ∧
    (closestNeighbors.AddPeer p loc o oLoc = some (q, false) → q = p) := by
  constructor
  · intro h
    simp only [maximizePeerSpread.AddPeer, basePeerList.updateLocation] at h
    split at h
    · split_ifs at h
      simp at h
    · split_ifs at h
      · simp at h
      · split at h
        · simp at h
        · simp only [Option.some.injEq, Prod.mk.injEq] at h
          exact h.1.symm
  · intro h
    simp only [closestNeighbors.AddPeer, basePeerList.updateLocation] at h
    split at h
    · split_ifs at h
      simp at h
    · split_ifs at h
      · simp at h
      · split at h
        · simp at h
        · simp only [Option.some.injEq, Prod.mk.injEq] at h
          exact h.1.symm

/-- C20. The hybrid `AddPeer(loc, o)` offers `o` to the max-spread sublist `M`
first. If `M` accepts, the call returns true and the closest sublist `C` is
unchanged. If `M` rejects, `M` is unchanged and the call returns what
`C.AddPeer(loc, o)` returns. So the call returns false if and only if both
sublists reject, and then neither has changed. (A sublist call that panics
makes the hybrid call panic.) -/
theorem hybrid_addPeer (M C : basePeerList F) (loc : V F) (o : NodeId) (oLoc : V F) :
    (∀ M1, maximizePeerSpread.AddPeer M loc o oLoc = some (M1, true) →
      (PeerList.maxSpreadThenClosestNeighbors M C).AddPeer loc o oLoc
        = some (.maxSpreadThenClosestNeighbors M1 C, true)) ∧
    (∀ M1, maximizePeerSpread.AddPeer M loc o oLoc = some (M1, false) →
      M1 = M ∧
      (PeerList.maxSpreadThenClosestNeighbors M C).AddPeer loc o oLoc
        = (closestNeighbors.AddPeer C loc o oLoc).map fun r =>
            (.maxSpreadThenClosestNeighbors M r.1, r.2)) ∧
    (∀ pl, (PeerList.maxSpreadThenClosestNeighbors M C).AddPeer loc o oLoc = some (pl, false) ↔
      (maximizePeerSpread.AddPeer M loc o oLoc = some (M, false) ∧
        closestNeighbors.AddPeer C loc o oLoc = some (C, false) ∧
        pl = .maxSpreadThenClosestNeighbors M C)) ∧
    (maximizePeerSpread.AddPeer M loc o oLoc = none →
      (PeerList.maxSpreadThenClosestNeighbors M C).AddPeer loc o oLoc = none) := by
  refine ⟨?_, ?_, ?_, ?_⟩
  · intro M1 h
    simp [PeerList.AddPeer, h]
  · intro M1 h
    have e := (addPeer_false_unchanged M M1 loc o oLoc).1 h
    subst e
    exact ⟨rfl, by simp [PeerList.AddPeer, h]⟩
  · intro pl
    constructor
    · intro h
      simp only [PeerList.AddPeer] at h
      split at h
      · exact Option.noConfusion h
      · rename_i M1 ok hM
        split_ifs at h with hok
        · simp only [Option.some.injEq, Prod.mk.injEq] at h
          rw [hok] at h
          exact absurd h.2 (by decide)
        · have hok1 : ok = false := by simpa using hok
          subst hok1
          have e := (addPeer_false_unchanged M M1 loc o oLoc).1 hM
          subst e
          simp only [Option.map_eq_some', Prod.mk.injEq] at h
          obtain ⟨⟨C1, ok2⟩, hC, e1, e2⟩ := h
          simp only at e1 e2
          subst e2
          have e3 := (addPeer_false_unchanged C C1 loc o oLoc).2 hC
          subst e3
          exact ⟨hM, hC, e1.symm⟩
    · rintro ⟨h1, h2, h3⟩
      subst h3
      simp [PeerList.AddPeer, h1, h2]
  · intro h
    simp [PeerList.AddPeer, h]

/-- Witness for C20: the first peer offered to a new hybrid list. -/
theorem hybrid_addPeer_witness :
    maximizePeerSpread.AddPeer (newBasePeerList 1 : basePeerList ℝ) ⟨1, 0, 0⟩ 1 ⟨0, 1, 0⟩
      = some ((newBasePeerList 1 : basePeerList ℝ).append 1 ⟨0, 1, 0⟩, true) ∧
    (PeerList.maxSpreadThenClosestNeighbors (newBasePeerList 1 : basePeerList ℝ)
        (newBasePeerList 1)).AddPeer ⟨1, 0, 0⟩ 1 ⟨0, 1, 0⟩
      = some (.maxSpreadThenClosestNeighbors
          ((newBasePeerList 1 : basePeerList ℝ).append 1 ⟨0, 1, 0⟩) (newBasePeerList 1), true) :=
  ⟨by simp [maximizePeerSpread.AddPeer, newBasePeerList],
    (hybrid_addPeer (newBasePeerList 1 : basePeerList ℝ) (newBasePeerList 1) ⟨1, 0, 0⟩ 1
      ⟨0, 1, 0⟩).1 _ (by simp [maximizePeerSpread.AddPeer, newBasePeerList])⟩
/-! ### The stale index of a moved peer -/

/-- C11, the code at the failing input. After `callsX` (three peers added, the
first removed) the peer 3 is among the peers, at index 0, and `uniqueIdx[3]` is
still 2: `AddPeer(loc, 3)` indexes `p.peerLocations[2]` in a slice of length 2
and panics. Once a peer 4 has been added (at index 2), `AddPeer(loc, 3)` with
the new location `(0, 1, 0)` overwrites the location stored for the peer 4 and
leaves the location stored for the peer 3 as it was. -/
theorem addPeer_stale_index :
    (NewMaximizePeerSpread 3).calls callsX = some (listX : PeerList F) ∧
    (listX : PeerList F).peers = [3, 2] ∧
    (listX : PeerList F).AddPeer ⟨1, 0, 0⟩ 3 ⟨0, 0, 1⟩ = none ∧
    ((listX : PeerList F).calls [.add ⟨1, 0, 0⟩ 4 ⟨1, 0, 0⟩]).map
        (fun pl => (pl.peers, pl.Locations))
      = some ([3, 2, 4], [⟨0, 0, 1⟩, ⟨0, 1, 0⟩, ⟨1, 0, 0⟩]) ∧
    ((listX : PeerList F).calls [.add ⟨1, 0, 0⟩ 4 ⟨1, 0, 0⟩, .add ⟨1, 0, 0⟩ 3 ⟨0, 1, 0⟩]).map
        (fun pl => (pl.peers, pl.Locations))
      = some ([3, 2, 4], [⟨0, 0, 1⟩, ⟨0, 1, 0⟩, ⟨0, 1, 0⟩]) := by
  refine ⟨calls_callsX, rfl, ?_, ?_, ?_⟩
  · simp [listX, PeerList.AddPeer, maximizePeerSpread.AddPeer, basePeerList.updateLocation,
      Function.update]
  · simp [listX, PeerList.calls, PeerList.call, PeerList.AddPeer, maximizePeerSpread.AddPeer,
      basePeerList.append, PeerList.peers, PeerList.Locations, basePeerList.Locations,
      Function.update]
  · simp [listX, PeerList.calls, PeerList.call, PeerList.AddPeer, maximizePeerSpread.AddPeer,
      basePeerList.append, basePeerList.updateLocation, PeerList.peers, PeerList.Locations,
      basePeerList.Locations, Function.update]

/-- C12, the code at the failing input. Three start nodes without data, with
max-spread lists of capacity 3, make one tick: the node 0 finds the node 2 and
the nodes 1 and 2 find the node 0, so that the node 0 has the peers `[2, 1]`.
The first `ExistingNodeLeaves` removes the node 2: in the list of the node 0
the peer 1 moves to index 0, and `uniqueIdx[1]` stays 1. The second
`ExistingNodeLeaves` removes the node 1, and `RemovePeer` in the list of the
node 0 indexes `p.peers[1]` in a slice of length 1: it panics. -/
theorem existingNodeLeaves_stale_index (sha256 : List (Fin 256) → Address) :
    (((NewSimulation sha256 0 (rngX : Rng F) 0 3 0 3
          (fun _ => setupX 0 (NewMaximizePeerSpread 3))).bind
        fun r => r.1.tick 1 rngX r.2).map
      fun r => (r.1.NodeCache, r.1.heap.map fun nd => nd.peers.peers))
      = some ([some 0, some 1, some 2], [[2, 1], [0], [0]]) ∧
    ((((NewSimulation sha256 0 (rngX : Rng F) 0 3 0 3
          (fun _ => setupX 0 (NewMaximizePeerSpread 3))).bind
        fun r => r.1.tick 1 rngX r.2).bind fun r => r.1.ExistingNodeLeaves).map
      fun s => (s.NodeCache, s.heap.map fun nd => nd.peers.peers))
      = some ([some 0, some 1, none], [[1], [0], [0]]) ∧
    ((((NewSimulation sha256 0 (rngX : Rng F) 0 3 0 3
          (fun _ => setupX 0 (NewMaximizePeerSpread 3))).bind
        fun r => r.1.tick 1 rngX r.2).bind fun r => r.1.ExistingNodeLeaves).bind
      fun s => s.ExistingNodeLeaves) = none := by
  refine ⟨?_, ?_, ?_⟩ <;>
  simp [NewSimulation, Simulation.startLoop, Simulation.createNodeAt, Simulation.createNode,
    setupX, allocLoop, initDataLoop, NewNode, Node.computeLocationAndCurrentSize, collectOwned,
    List.range_succ, RandomVector, RandomQuaternion,
    Simulation.tick, Simulation.applyStates, Simulation.advanceStates, Simulation.asCoordinator,
    Simulation.FindOtherArbitraryNode, World.ApplyState, World.hello, World.addPeer,
    World.setNextS, World.AdvanceState, PeerList.AddPeer, maximizePeerSpread.AddPeer,
    basePeerList.append, basePeerList.updateLocation, NewMaximizePeerSpread, newBasePeerList,
    Rng.Intn, rngX, StateJoin, StateWait, PeerList.peers, Function.update,
    Simulation.ExistingNodeLeaves, Simulation.leaveLoop, World.removePeer, PeerList.RemovePeer,
    basePeerList.RemovePeer, List.enum, List.enumFrom]
/-! ### The tick after a leave -/

/-- C13, the code at the failing input. Three start nodes without data, with
`WaitActivity = 1` and max-spread lists of capacity 1, make four ticks: in the
first the node 0 finds the node 2 and the nodes 1 and 2 find the node 0, whose
full list rejects the node 1, and after the fourth every node is in the state
AskPeer, with the peers `[2]`, `[0]` and `[0]`. `ExistingNodeLeaves` removes the
node 2 and empties the list of the node 0. In the next tick, for every outcome
of the random draws, the node 1 asks its only peer, the node 0, for a peer, and
`GetRandomPeerThatsNot` on the empty list of the node 0 calls `rand.Intn(0)`:
the tick panics. -/
theorem tick_after_leave_panics (sha256 : List (Fin 256) → Address) :
    (((NewSimulation sha256 0 (rngX : Rng ℝ) 0 3 0 3
          (fun _ => setupActive (NewMaximizePeerSpread 1))).bind
        fun r => r.1.ticks 1 rngX 4 r.2).map
      fun r => (r.1.NodeCache, r.1.heap.map fun nd => (nd.S.id, nd.peers.peers)))
      = some ([some 0, some 1, some 2],
          [(StateAskPeer, [2]), (StateAskPeer, [0]), (StateAskPeer, [0])]) ∧
    ((((NewSimulation sha256 0 (rngX : Rng ℝ) 0 3 0 3
          (fun _ => setupActive (NewMaximizePeerSpread 1))).bind
        fun r => r.1.ticks 1 rngX 4 r.2).bind fun r => r.1.ExistingNodeLeaves).map
      fun s => (s.NodeCache, s.heap.map fun nd => (nd.S.id, nd.peers.peers)))
      = some ([some 0, some 1, none],
          [(StateAskPeer, []), (StateAskPeer, [0]), (StateAskPeer, [0])]) ∧
    ∀ (fuel : Nat) (g : Rng ℝ) (k : Nat),
      ((((NewSimulation sha256 0 (rngX : Rng ℝ) 0 3 0 3
            (fun _ => setupActive (NewMaximizePeerSpread 1))).bind
          fun r => r.1.ticks 1 rngX 4 r.2).bind fun r => r.1.ExistingNodeLeaves).bind
        fun s => s.tick fuel g k) = none := by
  refine ⟨?_, ?_, fun fuel g k => ?_⟩ <;>
  simp [NewSimulation, Simulation.startLoop, Simulation.createNodeAt, Simulation.createNode,
    setupActive, allocLoop, initDataLoop, NewNode, Node.computeLocationAndCurrentSize,
    collectOwned, List.range_succ, RandomVector, RandomQuaternion, Simulation.ticks,
    Simulation.tick, Simulation.applyStates, Simulation.advanceStates, Simulation.asCoordinator,
    Simulation.FindOtherArbitraryNode, World.ApplyState, World.hello, World.addPeer,
    World.setNextS, World.AdvanceState, PeerList.AddPeer, maximizePeerSpread.AddPeer,
    basePeerList.append, basePeerList.updateLocation, NewMaximizePeerSpread, newBasePeerList,
    Rng.Intn, rngX, StateJoin, StateWait, StateExchangeData, StateAskPeer, PeerList.peers,
    Function.update, spreadDists, spreadPick, List.enum, List.enumFrom, World.exchangeData,
    PeerList.RandomlyFindPeerCloserToData, basePeerList.RandomlyFindPeerCloserToData,
    basePeerList.findLoop, basePeerList.firstCloser,
    Simulation.ExistingNodeLeaves, Simulation.leaveLoop, World.removePeer, PeerList.RemovePeer,
    basePeerList.RemovePeer, World.requestPeer, PeerList.GetRandomPeer,
    basePeerList.GetRandomPeer, PeerList.GetRandomPeerThatsNot,
    basePeerList.GetRandomPeerThatsNot, basePeerList.randomPeerLoop, getPeerForMaxTries, Nat.mod_one]
/-! ### The closest-neighbours replacement -/

/-- C19, the code at the failing input. The owner is at `(1, 0, 0)`; the full
closest-neighbours list of capacity 2 holds the peer 1 at `(-1, 0, 0)`, at the
distance `π`, and the peer 2 at `(0, 1, 0)`, at the distance `π / 2`. The
candidate 3 at `(1, 0, 0)` is at the distance 0: `AddPeer` returns true and
replaces the peer 2, the last peer farther than the candidate, and keeps the
peer 1, the farthest: `maxDist` is never updated in the loop. -/
theorem closestNeighbors_keeps_farthest :
    (⟨1, 0, 0⟩ : V ℝ).GreatCircleDistance ⟨-1, 0, 0⟩ = Real.pi ∧
    (⟨1, 0, 0⟩ : V ℝ).GreatCircleDistance ⟨0, 1, 0⟩ = Real.pi / 2 ∧
    (⟨1, 0, 0⟩ : V ℝ).GreatCircleDistance ⟨1, 0, 0⟩ = 0 ∧
    ((NewClosestNeighbors 2 : PeerList ℝ).calls
        [.add ⟨1, 0, 0⟩ 1 ⟨-1, 0, 0⟩, .add ⟨1, 0, 0⟩ 2 ⟨0, 1, 0⟩]).map
        (fun pl => (pl.peers, pl.Locations))
      = some ([1, 2], [⟨-1, 0, 0⟩, ⟨0, 1, 0⟩]) ∧
    (((NewClosestNeighbors 2 : PeerList ℝ).calls
        [.add ⟨1, 0, 0⟩ 1 ⟨-1, 0, 0⟩, .add ⟨1, 0, 0⟩ 2 ⟨0, 1, 0⟩]).bind
        fun pl => pl.AddPeer ⟨1, 0, 0⟩ 3 ⟨1, 0, 0⟩).map
        (fun r => (r.1.peers, r.1.Locations, r.2))
      = some ([1, 3], [⟨-1, 0, 0⟩, ⟨1, 0, 0⟩], true) := by
  have h1 : (⟨1, 0, 0⟩ : V ℝ).GreatCircleDistance ⟨-1, 0, 0⟩ = Real.pi := by
    simp [V.GreatCircleDistance, V.Dot, V.Cross, V.Norm]
  have h2 : (⟨1, 0, 0⟩ : V ℝ).GreatCircleDistance ⟨0, 1, 0⟩ = Real.pi / 2 := by
    simp [V.GreatCircleDistance, V.Dot]
  have h3 : (⟨1, 0, 0⟩ : V ℝ).GreatCircleDistance ⟨1, 0, 0⟩ = 0 := by
    simp [V.GreatCircleDistance, V.Dot, V.Cross, V.Norm]
  have hp := Real.pi_pos
  refine ⟨h1, h2, h3, ?_, ?_⟩
  · simp [PeerList.calls, PeerList.call, PeerList.AddPeer, closestNeighbors.AddPeer,
      NewClosestNeighbors, newBasePeerList, basePeerList.append, PeerList.peers,
      PeerList.Locations, basePeerList.Locations, Function.update]
  · simp [PeerList.calls, PeerList.call, PeerList.AddPeer, closestNeighbors.AddPeer,
      NewClosestNeighbors, newBasePeerList, basePeerList.append, PeerList.peers,
      PeerList.Locations, basePeerList.Locations, Function.update, closestPick,
      basePeerList.replaceAt, List.enum, List.enumFrom, List.range_succ, h1, h2, h3, hp]
/-! ### The max-spread replacement -/

theorem V.greatCircleDistance_comm (v w : V ℝ) :
    v.GreatCircleDistance w = w.GreatCircleDistance v := by
  have hd : v.Dot w = w.Dot v := by simp only [V.Dot]; ring
  have hc : (v.Cross w).Norm = (w.Cross v).Norm := by
    simp only [V.Cross, V.Norm]
    congr 1
    ring
  simp only [V.GreatCircleDistance, hd, hc]

theorem foldl_range_succ {β : Type} (f : β → Nat → β) (b : β) (n : Nat) :
    (List.range (n + 1)).foldl f b = f ((List.range n).foldl f b) n := by
  rw [List.range_succ, List.foldl_append]
  rfl

theorem getD_set_real (l : List ℝ) (i a : Nat) (x : ℝ) :
    (l.set i x).getD a 0 = if a = i ∧ i < l.length then x else l.getD a 0 := by
  simp only [List.getD_eq_getElem?_getD, List.getElem?_set]
  by_cases h : i = a
  · subst h
    by_cases h2 : i < l.length
    · simp [h2]
    · simp [h2]
      rw [List.getElem?_eq_none (by omega)]
      rfl
  · have h1 : ¬ (a = i ∧ i < l.length) := fun hh => h hh.1.symm
    simp [h, h1]

/-- The inner loop of `maximizePeerSpread.AddPeer` for the index `m`, after the
indices `j < t`. -/
theorem spreadInner_spec (d : Nat → ℝ) (m : Nat) (ds0 : List ℝ) (hm : m < ds0.length) (t : Nat)
    (ht : t ≤ m) :
    ((List.range t).foldl (fun (ds : List ℝ) j =>
        (ds.set m (ds.getD m 0 + d j)).set j ((ds.set m (ds.getD m 0 + d j)).getD j 0 + d j))
        ds0).length = ds0.length ∧
    ∀ a, ((List.range t).foldl (fun (ds : List ℝ) j =>
        (ds.set m (ds.getD m 0 + d j)).set j ((ds.set m (ds.getD m 0 + d j)).getD j 0 + d j))
        ds0).getD a 0 =
      if a = m then ds0.getD m 0 + ∑ b in Finset.range t, d b
      else if a < t then ds0.getD a 0 + d a else ds0.getD a 0 := by
  induction t with
  | zero =>
    refine ⟨rfl, fun a => ?_⟩
    simp only [List.range_zero, List.foldl_nil, Finset.range_zero, Finset.sum_empty, add_zero,
      Nat.not_lt_zero, if_false]
    by_cases h : a = m
    · rw [if_pos h, h]
    · rw [if_neg h]
  | succ t ih =>
    obtain ⟨ihl, ihv⟩ := ih (by omega)
    rw [foldl_range_succ]
    refine ⟨by rw [List.length_set, List.length_set]; exact ihl, fun a => ?_⟩
    rw [getD_set_real, getD_set_real, getD_set_real, List.length_set, ihl, ihv m, ihv t, ihv a,
      Finset.sum_range_succ]
    have htm : t ≠ m := by omega
    by_cases ham : a = m
    · subst ham
      have : ¬ (a = t ∧ t < ds0.length) := fun hh => htm hh.1.symm
      simp [this, hm]
      ring
    · by_cases hat : a = t
      · subst hat
        have h1 : a < ds0.length := by omega
        simp [ham, h1]
      · have h1 : ¬ (a = t ∧ t < ds0.length) := fun hh => hat hh.1
        have h2 : ¬ (a = m ∧ m < ds0.length) := fun hh => ham hh.1
        simp only [h1, h2, if_false, ham]
        by_cases h3 : a < t
        · have h4 : a < t + 1 := by omega
          simp [h3, h4]
        · have h4 : ¬ a < t + 1 := by omega
          simp [h3, h4]

/-- The outer loop of `maximizePeerSpread.AddPeer` after the indices `i < m`:
`dists[a]` holds the sum of the distances from the peer `a` to the other peers
below `m`, `distO` the sum of the distances from the peers below `m` to the
candidate, and `distOs[a]` the distance from the peer `a` to the candidate. -/
theorem spreadOuter_spec (locs : List (V ℝ)) (n : Nat) (oLoc : V ℝ) (m : Nat) (hm : m ≤ n) :
    ((List.range m).foldl (fun (st : List ℝ × ℝ × List ℝ) i =>
      ((List.range i).foldl (fun (ds : List ℝ) j =>
          (ds.set i (ds.getD i 0 +
              (locs.getD i default).GreatCircleDistance (locs.getD j default))).set j
            ((ds.set i (ds.getD i 0 +
              (locs.getD i default).GreatCircleDistance (locs.getD j default))).getD j 0 +
              (locs.getD i default).GreatCircleDistance (locs.getD j default))) st.1,
        st.2.1 + (locs.getD i default).GreatCircleDistance oLoc,
        st.2.2.set i ((locs.getD i default).GreatCircleDistance oLoc)))
      (List.replicate n 0, 0, List.replicate n 0)) =
    ((List.range n).map fun a => if a < m then
        ∑ b in Finset.range m, if b = a then 0
          else (locs.getD a default).GreatCircleDistance (locs.getD b default) else 0,
      ∑ b in Finset.range m, (locs.getD b default).GreatCircleDistance oLoc,
      (List.range n).map fun a => if a < m then
        (locs.getD a default).GreatCircleDistance oLoc else 0) := by
  induction m with
  | zero =>
    simp only [List.range_zero, List.foldl_nil, Nat.not_lt_zero, if_false, Finset.range_zero,
      Finset.sum_empty]
    refine Prod.ext ?_ (Prod.ext rfl ?_)
    · apply List.ext_getElem <;> simp
    · apply List.ext_getElem <;> simp
  | succ m ih =>
    rw [foldl_range_succ, ih (by omega)]
    have hlen : m < ((List.range n).map fun a => if a < m then
        ∑ b in Finset.range m, if b = a then 0
          else (locs.getD a default).GreatCircleDistance (locs.getD b default) else 0).length := by
      simp only [List.length_map, List.length_range]
      omega
    obtain ⟨hl, hv⟩ := spreadInner_spec
      (fun j => (locs.getD m default).GreatCircleDistance (locs.getD j default)) m _ hlen m
      (le_refl m)
    refine Prod.ext ?_ (Prod.ext ?_ ?_)
    · apply List.ext_getElem
      · simp only [hl, List.length_map, List.length_range]
      · intro a h1 h2
        have han : a < n := by simpa using h2
        have hg := hv a
        rw [List.getD_eq_getElem _ _ h1] at hg
        simp only at hg ⊢
        rw [hg]
        simp only [List.getD_eq_getElem?_getD, List.getElem?_map, List.getElem?_range han,
          List.getElem?_range (show m < n by omega), Option.map_some', Option.getD_some,
          List.getElem_map, List.getElem_range, lt_irrefl, if_false, zero_add,
          Finset.sum_range_succ]
        by_cases ham : a = m
        · subst ham
          simp only [if_true, Nat.lt_succ_self, add_zero]
          apply Finset.sum_congr rfl
          intro b hb
          have : b ≠ a := by
            have := Finset.mem_range.mp hb
            omega
          rw [if_neg this]
        · by_cases h3 : a < m
          · have h4 : a < m + 1 := by omega
            have h5 : m ≠ a := fun h => ham h.symm
            simp only [ham, h3, h4, h5, if_true, if_false]
            rw [V.greatCircleDistance_comm (locs[m]?.getD default)]
          · have h4 : ¬ a < m + 1 := by omega
            simp only [ham, h3, h4, if_false]
    · simp only [Finset.sum_range_succ]
    · apply List.ext_getElem
      · simp
      · intro a h1 h2
        have han : a < n := by simpa using h2
        simp only [List.getElem_set, List.getElem_map, List.getElem_range]
        by_cases ham : m = a
        · subst ham
          simp
        · by_cases h3 : a < m
          · have h4 : a < m + 1 := by omega
            simp [ham, h3, h4]
          · have h4 : ¬ a < m + 1 := by omega
            simp [ham, h3, h4]

theorem foldl_filter_ne_sum (f : Nat → ℝ) (i n : Nat) :
    ((List.range n).filter fun j => j ≠ i).foldl (fun acc j => acc + f j) 0 =
      ∑ b in Finset.range n, if b = i then 0 else f b := by
  induction n with
  | zero => simp
  | succ n ih =>
    rw [List.range_succ, List.filter_append, List.foldl_append, ih, Finset.sum_range_succ]
    by_cases h : n = i
    · simp [h]
    · simp [h]

theorem sum_sub_eq_sum_ne (f : Nat → ℝ) (i n : Nat) (hi : i < n) :
    (∑ b in Finset.range n, f b) - f i = ∑ b in Finset.range n, if b = i then 0 else f b := by
  have h1 : ∀ b, (if b = i then 0 else f b) = f b - (if b = i then f b else 0) := by
    intro b
    by_cases h : b = i
    · simp [h]
    · simp [h]
  simp only [h1, Finset.sum_sub_distrib, Finset.sum_ite_eq', Finset.mem_range, hi, if_true]

set_option maxHeartbeats 4000000 in
/-- The sums of the max-spread policy: the sums `S_i` and `T_i` of the
specification as finite sums, and the arrays that the two loops of
`maximizePeerSpread.AddPeer` fill. -/
theorem spread_sums_facts :
    (∀ (locs : List (V ℝ)) (i : Nat),
        specSpreadS locs i = ∑ b in Finset.range locs.length, if b = i then 0
              else (locs.getD i default).GreatCircleDistance (locs.getD b default)) ∧
    (∀ (locs : List (V ℝ)) (oLoc : V ℝ) (i : Nat), i < locs.length →
        specSpreadT locs oLoc i =
              (∑ b in Finset.range locs.length, (locs.getD b default).GreatCircleDistance oLoc) -
                (locs.getD i default).GreatCircleDistance oLoc) ∧
    (∀ (locs : List (V ℝ)) (oLoc : V ℝ),
        (spreadDists locs locs.length oLoc).1 = (List.range locs.length).map (specSpreadS locs) ∧
            (spreadDists locs locs.length oLoc).2.2.length = locs.length ∧
            ∀ i, i < locs.length →
              (spreadDists locs locs.length oLoc).2.1 - (spreadDists locs locs.length oLoc).2.2.getD i 0
                = specSpreadT locs oLoc i) := by
  have h_specSpreadS_eq : ∀ (locs : List (V ℝ)) (i : Nat),
        specSpreadS locs i = ∑ b in Finset.range locs.length, if b = i then 0
              else (locs.getD i default).GreatCircleDistance (locs.getD b default) := by
    intro locs i
    exact
      foldl_filter_ne_sum _ i locs.length
  have h_specSpreadT_eq : ∀ (locs : List (V ℝ)) (oLoc : V ℝ) (i : Nat), i < locs.length →
        specSpreadT locs oLoc i =
              (∑ b in Finset.range locs.length, (locs.getD b default).GreatCircleDistance oLoc) -
                (locs.getD i default).GreatCircleDistance oLoc := by
    intro locs oLoc i hi
    rw [sum_sub_eq_sum_ne _ i _ hi]
    unfold specSpreadT
    rw [foldl_filter_ne_sum]
    apply Finset.sum_congr rfl
    intro b _
    rw [V.greatCircleDistance_comm]
  -- The arrays that the two loops of `maximizePeerSpread.AddPeer` fill: `dists[i] = S_i`,
  -- and `distO - distOs[i] = T_i`.
  have h_spreadDists_spec : ∀ (locs : List (V ℝ)) (oLoc : V ℝ),
        (spreadDists locs locs.length oLoc).1 = (List.range locs.length).map (specSpreadS locs) ∧
            (spreadDists locs locs.length oLoc).2.2.length = locs.length ∧
            ∀ i, i < locs.length →
              (spreadDists locs locs.length oLoc).2.1 - (spreadDists locs locs.length oLoc).2.2.getD i 0
                = specSpreadT locs oLoc i := by
    intro locs oLoc
    have h := spreadOuter_spec locs locs.length oLoc locs.length (le_refl _)
    have h1 : spreadDists locs locs.length oLoc = _ := h
    rw [h1]
    refine ⟨?_, by simp, fun i hi => ?_⟩
    · apply List.map_congr_left
      intro a ha
      rw [if_pos (List.mem_range.mp ha), h_specSpreadS_eq]
    · rw [h_specSpreadT_eq locs oLoc i hi]
      simp only [List.getD_eq_getElem?_getD, List.getElem?_map, List.getElem?_range hi,
        Option.map_some', Option.getD_some, if_pos hi]
  exact ⟨h_specSpreadS_eq, h_specSpreadT_eq, h_spreadDists_spec⟩

theorem enum_eq_map_range (l : List ℝ) :
    l.enum = (List.range l.length).map fun i => (i, l.getD i 0) := by
  apply List.ext_getElem
  · simp
  · intro i h1 h2
    have hi : i < l.length := by simpa using h1
    simp [List.getElem?_eq_getElem hi]

/-- The selection loop of `maximizePeerSpread.AddPeer` over the first `n`
entries: it ends without an index exactly when no entry is below its bound, and
otherwise at the first of the least entries that are below their bounds. -/
theorem spreadPickLoop_spec (S T : Nat → ℝ) (n : Nat) :
    ((List.range n).foldl (fun (idx : Option Nat) i =>
        if S i < T i then
          match idx with
          | none => some i
          | some j => if S i < S j then some i else some j
        else idx) none = none → ∀ i, i < n → ¬ S i < T i) ∧
    ∀ i, (List.range n).foldl (fun (idx : Option Nat) i =>
        if S i < T i then
          match idx with
          | none => some i
          | some j => if S i < S j then some i else some j
        else idx) none = some i →
      i < n ∧ S i < T i ∧ ∀ j, j < n → S j < T j → S i ≤ S j ∧ (j < i → S i < S j) := by
  induction n with
  | zero => simp
  | succ n ih =>
    rw [foldl_range_succ]
    obtain ⟨ih0, ih1⟩ := ih
    by_cases hel : S n < T n
    · rw [if_pos hel]
      cases hP : (List.range n).foldl (fun (idx : Option Nat) i =>
          if S i < T i then
            match idx with
            | none => some i
            | some j => if S i < S j then some i else some j
          else idx) none with
      | none =>
        refine ⟨fun h => by simp at h, fun i hi => ?_⟩
        have hin : i = n := by simpa using hi.symm
        subst hin
        refine ⟨by omega, hel, fun j hj hjel => ?_⟩
        have hjn : j = i := by
          by_contra hne
          exact ih0 hP j (by omega) hjel
        subst hjn
        exact ⟨le_refl _, fun h => absurd h (lt_irrefl _)⟩
      | some j0 =>
        obtain ⟨hj0, hj0el, hj0min⟩ := ih1 j0 hP
        by_cases hlt : S n < S j0
        · refine ⟨fun h => by simp [hlt] at h, fun i hi => ?_⟩
          have hin : i = n := by simpa [hlt] using hi.symm
          subst hin
          refine ⟨by omega, hel, fun j hj hjel => ?_⟩
          by_cases hjn : j = i
          · subst hjn
            exact ⟨le_refl _, fun h => absurd h (lt_irrefl _)⟩
          · have h1 := (hj0min j (by omega) hjel).1
            exact ⟨by linarith, fun _ => by linarith⟩
        · refine ⟨fun h => by simp [hlt] at h, fun i hi => ?_⟩
          have hin : i = j0 := by simpa [hlt] using hi.symm
          subst hin
          refine ⟨by omega, hj0el, fun j hj hjel => ?_⟩
          by_cases hjn : j = n
          · subst hjn
            exact ⟨not_lt.mp hlt, fun h => by omega⟩
          · exact hj0min j (by omega) hjel
    · rw [if_neg hel]
      refine ⟨fun h i hi => ?_, fun i hi => ?_⟩
      · by_cases hin : i = n
        · subst hin; exact hel
        · exact ih0 h i (by omega)
      · obtain ⟨h1, h2, h3⟩ := ih1 i hi
        refine ⟨by omega, h2, fun j hj hjel => ?_⟩
        by_cases hjn : j = n
        · subst hjn; exact absurd hjel hel
        · exact h3 j (by omega) hjel

/-- The selection loop of `maximizePeerSpread.AddPeer` on the arrays that the
two loops before it fill. -/
theorem spreadPick_spec (locs : List (V ℝ)) (oLoc : V ℝ) :
    (spreadPick (spreadDists locs locs.length oLoc).1 (spreadDists locs locs.length oLoc).2.1
        (spreadDists locs locs.length oLoc).2.2 = none →
      ∀ i, i < locs.length → ¬ specSpreadS locs i < specSpreadT locs oLoc i) ∧
    ∀ i, spreadPick (spreadDists locs locs.length oLoc).1 (spreadDists locs locs.length oLoc).2.1
        (spreadDists locs locs.length oLoc).2.2 = some i →
      i < locs.length ∧ specSpreadS locs i < specSpreadT locs oLoc i ∧
      ∀ j, j < locs.length → specSpreadS locs j < specSpreadT locs oLoc j →
        specSpreadS locs i ≤ specSpreadS locs j ∧
        (j < i → specSpreadS locs i < specSpreadS locs j) := by
  obtain ⟨hd, hl, hT⟩ := spread_sums_facts.2.2 locs oLoc
  have hS : ∀ i, i < locs.length →
      (spreadDists locs locs.length oLoc).1.getD i 0 = specSpreadS locs i := by
    intro i hi
    rw [hd]
    simp [List.getD_eq_getElem?_getD, List.getElem?_range hi]
  have hlen : (spreadDists locs locs.length oLoc).1.length = locs.length := by
    rw [hd]; simp
  have hpick : spreadPick (spreadDists locs locs.length oLoc).1
      (spreadDists locs locs.length oLoc).2.1 (spreadDists locs locs.length oLoc).2.2 =
      (List.range locs.length).foldl (fun (idx : Option Nat) i =>
        if (fun i => (spreadDists locs locs.length oLoc).1.getD i 0) i <
            (fun i => (spreadDists locs locs.length oLoc).2.1 -
              (spreadDists locs locs.length oLoc).2.2.getD i 0) i then
          match idx with
          | none => some i
          | some j =>
            if (fun i => (spreadDists locs locs.length oLoc).1.getD i 0) i <
                (fun i => (spreadDists locs locs.length oLoc).1.getD i 0) j then some i
            else some j
        else idx) none := by
    unfold spreadPick
    rw [enum_eq_map_range, List.foldl_map, hlen]
  obtain ⟨h0, h1⟩ := spreadPickLoop_spec
    (fun i => (spreadDists locs locs.length oLoc).1.getD i 0)
    (fun i => (spreadDists locs locs.length oLoc).2.1 -
      (spreadDists locs locs.length oLoc).2.2.getD i 0) locs.length
  rw [hpick]
  refine ⟨fun h i hi => ?_, fun i hi => ?_⟩
  · have := h0 h i hi
    simp only [hS i hi, hT i hi] at this
    exact this
  · obtain ⟨h2, h3, h4⟩ := h1 i hi
    simp only [hS i h2, hT i h2] at h3 h4
    refine ⟨h2, h3, fun j hj hjel => ?_⟩
    have := h4 j hj
    simp only [hS j hj, hT j hj] at this
    exact this hjel

/-- C17. Max-spread `AddPeer` on a full list, for a candidate `o` that is not
among the peers, with `S_i` the sum of the great circle distances from the peer
`i` to the other peers and `T_i` the sum of the distances from `o` to the peers
other than `i`: either some `i` has `S_i < T_i`, and the call returns true and
puts `o` at the index `i` whose `S_i` is least among those (the lowest such
index on ties), in place of the peer that was there; or no `i` has `S_i < T_i`,
and the call returns false and the list is unchanged. -/
theorem maximizePeerSpread_addPeer_full (p : basePeerList ℝ) (loc : V ℝ) (o : NodeId)
    (oLoc : V ℝ) (hfull : p.maxPeers ≤ p.peers.length) (hnew : p.uniqueIdx o = none)
    (hlen : p.peerLocations.length = p.peers.length) :
    (∃ i old, i < p.peers.length ∧ p.peers.get? i = some old ∧
        specSpreadS p.peerLocations i < specSpreadT p.peerLocations oLoc i ∧
        (∀ j, j < p.peers.length →
          specSpreadS p.peerLocations j < specSpreadT p.peerLocations oLoc j →
          specSpreadS p.peerLocations i ≤ specSpreadS p.peerLocations j ∧
          (j < i → specSpreadS p.peerLocations i < specSpreadS p.peerLocations j)) ∧
        maximizePeerSpread.AddPeer p loc o oLoc = some ({ p with
          uniqueIdx := Function.update (Function.update p.uniqueIdx old none) o (some i)
          peers := p.peers.set i o
          peerLocations := p.peerLocations.set i oLoc }, true)) ∨
    ((∀ i, i < p.peers.length →
        ¬ specSpreadS p.peerLocations i < specSpreadT p.peerLocations oLoc i) ∧
      maximizePeerSpread.AddPeer p loc o oLoc = some (p, false)) := by
  obtain ⟨h0, h1⟩ := spreadPick_spec p.peerLocations oLoc
  rw [hlen] at h0 h1
  have hnf : ¬ p.peers.length < p.maxPeers := by omega
  have hnl : ¬ p.peerLocations.length < p.peers.length := by omega
  cases hP : spreadPick (spreadDists p.peerLocations p.peers.length oLoc).1
      (spreadDists p.peerLocations p.peers.length oLoc).2.1
      (spreadDists p.peerLocations p.peers.length oLoc).2.2 with
  | none =>
    right
    refine ⟨h0 hP, ?_⟩
    simp only [maximizePeerSpread.AddPeer, hnew, hnf, hnl, if_false, hP]
  | some i =>
    left
    obtain ⟨hi, hel, hmin⟩ := h1 i hP
    have hget : p.peers.get? i = some (p.peers.get ⟨i, hi⟩) := List.get?_eq_get hi
    refine ⟨i, p.peers.get ⟨i, hi⟩, hi, hget, hel, hmin, ?_⟩
    have hil : i < p.peerLocations.length := by omega
    simp only [maximizePeerSpread.AddPeer, hnew, hnf, hnl, if_false, hP, basePeerList.replaceAt,
      hget, hil, if_true, Option.map_some']

/-- Witness for C17: the full list `peersX` of capacity 1 and the candidate 2
at `(1, 0, 0)`. -/
theorem maximizePeerSpread_addPeer_full_witness :
    (peersX : basePeerList ℝ).maxPeers ≤ (peersX : basePeerList ℝ).peers.length ∧
    (peersX : basePeerList ℝ).uniqueIdx 2 = none ∧
    (peersX : basePeerList ℝ).peerLocations.length = (peersX : basePeerList ℝ).peers.length ∧
    ((∃ i old, i < (peersX : basePeerList ℝ).peers.length ∧
        (peersX : basePeerList ℝ).peers.get? i = some old ∧
        specSpreadS (peersX : basePeerList ℝ).peerLocations i
          < specSpreadT (peersX : basePeerList ℝ).peerLocations ⟨1, 0, 0⟩ i ∧
        (∀ j, j < (peersX : basePeerList ℝ).peers.length →
          specSpreadS (peersX : basePeerList ℝ).peerLocations j
            < specSpreadT (peersX : basePeerList ℝ).peerLocations ⟨1, 0, 0⟩ j →
          specSpreadS (peersX : basePeerList ℝ).peerLocations i
            ≤ specSpreadS (peersX : basePeerList ℝ).peerLocations j ∧
          (j < i → specSpreadS (peersX : basePeerList ℝ).peerLocations i
            < specSpreadS (peersX : basePeerList ℝ).peerLocations j)) ∧
        maximizePeerSpread.AddPeer (peersX : basePeerList ℝ) ⟨0, 0, 1⟩ 2 ⟨1, 0, 0⟩ =
          some ({ (peersX : basePeerList ℝ) with
            uniqueIdx := Function.update
              (Function.update (peersX : basePeerList ℝ).uniqueIdx old none) 2 (some i)
            peers := (peersX : basePeerList ℝ).peers.set i 2
            peerLocations := (peersX : basePeerList ℝ).peerLocations.set i ⟨1, 0, 0⟩ }, true)) ∨
      ((∀ i, i < (peersX : basePeerList ℝ).peers.length →
          ¬ specSpreadS (peersX : basePeerList ℝ).peerLocations i
            < specSpreadT (peersX : basePeerList ℝ).peerLocations ⟨1, 0, 0⟩ i) ∧
        maximizePeerSpread.AddPeer (peersX : basePeerList ℝ) ⟨0, 0, 1⟩ 2 ⟨1, 0, 0⟩
          = some (peersX, false))) :=
  ⟨by simp [peersX], by simp [peersX, Function.update], by simp [peersX],
    maximizePeerSpread_addPeer_full peersX ⟨0, 0, 1⟩ 2 ⟨1, 0, 0⟩ (by simp [peersX])
      (by simp [peersX, Function.update]) (by simp [peersX])⟩
/-! ### The max-spread list of capacity 3 -/

set_option maxHeartbeats 4000000 in
/-- A full max-spread list of three peers: the sums `S_i` and `T_i`, one offer of
a new peer, and a sequence of offers. -/
theorem maxSpread_three_facts :
    (∀ (x y z : V ℝ),
        specSpreadS [x, y, z] 0 = x.GreatCircleDistance y + x.GreatCircleDistance z ∧
            specSpreadS [x, y, z] 1 = x.GreatCircleDistance y + y.GreatCircleDistance z ∧
            specSpreadS [x, y, z] 2 = x.GreatCircleDistance z + y.GreatCircleDistance z) ∧
    (∀ (x y z o : V ℝ),
        specSpreadT [x, y, z] o 0 = o.GreatCircleDistance y + o.GreatCircleDistance z ∧
            specSpreadT [x, y, z] o 1 = o.GreatCircleDistance x + o.GreatCircleDistance z ∧
            specSpreadT [x, y, z] o 2 = o.GreatCircleDistance x + o.GreatCircleDistance y) ∧
    (∀ (q : basePeerList ℝ) (x y z : V ℝ) (loc : V ℝ) (o : NodeId) (oLoc : V ℝ),
      q.peerLocations = [x, y, z] → q.peers.length = 3 → q.maxPeers = 3 →
      q.uniqueIdx o = none →
        ∃ q1 b x1 y1 z1, maximizePeerSpread.AddPeer q loc o oLoc = some (q1, b) ∧
              q1.peerLocations = [x1, y1, z1] ∧ q1.peers.length = 3 ∧ q1.maxPeers = 3 ∧
              (∀ o1, o1 ≠ o → q.uniqueIdx o1 = none → q1.uniqueIdx o1 = none) ∧
              (∀ o1, o1 ∈ q1.peers → o1 = o ∨ o1 ∈ q.peers) ∧
              (b = false → q1 = q) ∧
              (b = true → specPairwiseSum3 x y z < specPairwiseSum3 x1 y1 z1) ∧
              specPairwiseSum3 x y z ≤ specPairwiseSum3 x1 y1 z1) ∧
    (∀ (loc : V ℝ) (rest : List (NodeId × V ℝ)),
        ∀ (q : basePeerList ℝ) (x y z : V ℝ), q.peerLocations = [x, y, z] → q.peers.length = 3 →
              q.maxPeers = 3 → (rest.map Prod.fst).Nodup →
              (∀ o, o ∈ rest.map Prod.fst → q.uniqueIdx o = none) →
              ∃ q1 x1 y1 z1,
                (PeerList.maximizePeerSpread q).calls (rest.map fun a => PeerCall.add loc a.1 a.2)
                  = some (.maximizePeerSpread q1) ∧
                q1.peerLocations = [x1, y1, z1] ∧ q1.peers.length = 3 ∧
                (∀ o1, o1 ∈ q1.peers → o1 ∈ rest.map Prod.fst ∨ o1 ∈ q.peers) ∧
                specPairwiseSum3 x y z ≤ specPairwiseSum3 x1 y1 z1) := by
  have h_specSpreadS_three : ∀ (x y z : V ℝ),
        specSpreadS [x, y, z] 0 = x.GreatCircleDistance y + x.GreatCircleDistance z ∧
            specSpreadS [x, y, z] 1 = x.GreatCircleDistance y + y.GreatCircleDistance z ∧
            specSpreadS [x, y, z] 2 = x.GreatCircleDistance z + y.GreatCircleDistance z := by
    intro x y z
    refine ⟨?_, ?_, ?_⟩
    · simp [specSpreadS, List.range_succ, List.filter]
    · simp [specSpreadS, List.range_succ, List.filter, V.greatCircleDistance_comm y x]
    · simp [specSpreadS, List.range_succ, List.filter, V.greatCircleDistance_comm z x,
        V.greatCircleDistance_comm z y]
  have h_specSpreadT_three : ∀ (x y z o : V ℝ),
        specSpreadT [x, y, z] o 0 = o.GreatCircleDistance y + o.GreatCircleDistance z ∧
            specSpreadT [x, y, z] o 1 = o.GreatCircleDistance x + o.GreatCircleDistance z ∧
            specSpreadT [x, y, z] o 2 = o.GreatCircleDistance x + o.GreatCircleDistance y := by
    intro x y z o
    refine ⟨?_, ?_, ?_⟩ <;> simp [specSpreadT, List.range_succ, List.filter]
  -- One offer of a new peer to a full max-spread list of three peers: the list is unchanged,
  -- or the new peer replaces one peer and the sum of the pairwise distances grows.
  have h_maxSpread_three_step : ∀ (q : basePeerList ℝ) (x y z : V ℝ) (loc : V ℝ) (o : NodeId) (oLoc : V ℝ),
      q.peerLocations = [x, y, z] → q.peers.length = 3 → q.maxPeers = 3 →
      q.uniqueIdx o = none →
        ∃ q1 b x1 y1 z1, maximizePeerSpread.AddPeer q loc o oLoc = some (q1, b) ∧
              q1.peerLocations = [x1, y1, z1] ∧ q1.peers.length = 3 ∧ q1.maxPeers = 3 ∧
              (∀ o1, o1 ≠ o → q.uniqueIdx o1 = none → q1.uniqueIdx o1 = none) ∧
              (∀ o1, o1 ∈ q1.peers → o1 = o ∨ o1 ∈ q.peers) ∧
              (b = false → q1 = q) ∧
              (b = true → specPairwiseSum3 x y z < specPairwiseSum3 x1 y1 z1) ∧
              specPairwiseSum3 x y z ≤ specPairwiseSum3 x1 y1 z1 := by
    intro q x y z loc o oLoc hq hp hmax hnew
    obtain ⟨h0, h1⟩ := spreadPick_spec q.peerLocations oLoc
    have hl : q.peerLocations.length = 3 := by rw [hq]; rfl
    rw [hl, ← hp] at h0 h1
    have hnf : ¬ q.peers.length < q.maxPeers := by omega
    have hnl : ¬ q.peerLocations.length < q.peers.length := by omega
    cases hP : spreadPick (spreadDists q.peerLocations q.peers.length oLoc).1
        (spreadDists q.peerLocations q.peers.length oLoc).2.1
        (spreadDists q.peerLocations q.peers.length oLoc).2.2 with
    | none =>
      refine ⟨q, false, x, y, z, ?_, hq, hp, hmax, fun _ _ h => h, fun _ h => Or.inr h,
        fun _ => rfl, fun h => by simp at h, le_refl _⟩
      simp only [maximizePeerSpread.AddPeer, hnew, hnf, hnl, if_false, hP]
    | some i =>
      obtain ⟨hi, hel, -⟩ := h1 i hP
      have hi3 : i < 3 := by omega
      have hget : q.peers.get? i = some (q.peers.get ⟨i, hi⟩) := List.get?_eq_get hi
      have hil : i < q.peerLocations.length := by omega
      have hres : maximizePeerSpread.AddPeer q loc o oLoc = some ({ q with
          uniqueIdx := Function.update (Function.update q.uniqueIdx (q.peers.get ⟨i, hi⟩) none) o
            (some i)
          peers := q.peers.set i o
          peerLocations := q.peerLocations.set i oLoc }, true) := by
        simp only [maximizePeerSpread.AddPeer, hnew, hnf, hnl, if_false, hP,
          basePeerList.replaceAt, hget, hil, if_true, Option.map_some']
      have huniq : ∀ o1, o1 ≠ o → q.uniqueIdx o1 = none →
          Function.update (Function.update q.uniqueIdx (q.peers.get ⟨i, hi⟩) none) o (some i) o1
            = none := by
        intro o1 ho1 hn
        rw [Function.update_noteq ho1]
        by_cases h : o1 = q.peers.get ⟨i, hi⟩
        · rw [h, Function.update_same]
        · rw [Function.update_noteq h, hn]
      have hmem : ∀ o1, o1 ∈ q.peers.set i o → o1 = o ∨ o1 ∈ q.peers := by
        intro o1 h
        rcases List.mem_or_eq_of_mem_set h with h | h
        · exact Or.inr h
        · exact Or.inl h
      obtain ⟨hS0, hS1, hS2⟩ := h_specSpreadS_three x y z
      obtain ⟨hT0, hT1, hT2⟩ := h_specSpreadT_three x y z oLoc
      rw [hq] at hel
      have hc1 := V.greatCircleDistance_comm oLoc x
      have hc2 := V.greatCircleDistance_comm oLoc y
      have hc3 := V.greatCircleDistance_comm oLoc z
      interval_cases i
      · rw [hS0, hT0] at hel
        have hlt : specPairwiseSum3 x y z < specPairwiseSum3 oLoc y z := by
          simp only [specPairwiseSum3]; linarith
        exact ⟨_, true, oLoc, y, z, hres, by simp [hq], by simp [hp], hmax, huniq, hmem,
          fun h => by simp at h, fun _ => hlt, le_of_lt hlt⟩
      · rw [hS1, hT1] at hel
        have hlt : specPairwiseSum3 x y z < specPairwiseSum3 x oLoc z := by
          simp only [specPairwiseSum3]; linarith
        exact ⟨_, true, x, oLoc, z, hres, by simp [hq], by simp [hp], hmax, huniq, hmem,
          fun h => by simp at h, fun _ => hlt, le_of_lt hlt⟩
      · rw [hS2, hT2] at hel
        have hlt : specPairwiseSum3 x y z < specPairwiseSum3 x y oLoc := by
          simp only [specPairwiseSum3]; linarith
        exact ⟨_, true, x, y, oLoc, hres, by simp [hq], by simp [hp], hmax, huniq, hmem,
          fun h => by simp at h, fun _ => hlt, le_of_lt hlt⟩
  -- The offers of new peers to a full max-spread list of three peers, one by one: the list
  -- stays a list of three peers, and the sum of the pairwise distances does not fall.
  have h_maxSpread_three_calls : ∀ (loc : V ℝ) (rest : List (NodeId × V ℝ)),
        ∀ (q : basePeerList ℝ) (x y z : V ℝ), q.peerLocations = [x, y, z] → q.peers.length = 3 →
              q.maxPeers = 3 → (rest.map Prod.fst).Nodup →
              (∀ o, o ∈ rest.map Prod.fst → q.uniqueIdx o = none) →
              ∃ q1 x1 y1 z1,
                (PeerList.maximizePeerSpread q).calls (rest.map fun a => PeerCall.add loc a.1 a.2)
                  = some (.maximizePeerSpread q1) ∧
                q1.peerLocations = [x1, y1, z1] ∧ q1.peers.length = 3 ∧
                (∀ o1, o1 ∈ q1.peers → o1 ∈ rest.map Prod.fst ∨ o1 ∈ q.peers) ∧
                specPairwiseSum3 x y z ≤ specPairwiseSum3 x1 y1 z1 := by
    intro loc rest
    induction rest with
    | nil =>
      intro q x y z hq hp _ _ _
      exact ⟨q, x, y, z, rfl, hq, hp, fun _ h => Or.inr h, le_refl _⟩
    | cons a rest ih =>
      intro q x y z hq hp hmax hnd hnew
      simp only [List.map_cons, List.nodup_cons] at hnd
      obtain ⟨q1, b, x1, y1, z1, hres, hq1, hp1, hmax1, huniq, hmem, -, -, hle⟩ :=
        h_maxSpread_three_step q x y z loc a.1 a.2 hq hp hmax
          (hnew a.1 (by simp))
      have hnew1 : ∀ o, o ∈ rest.map Prod.fst → q1.uniqueIdx o = none := by
        intro o ho
        have hne : o ≠ a.1 := fun h => hnd.1 (h ▸ ho)
        exact huniq o hne (hnew o (by simp only [List.map_cons]; exact List.mem_cons_of_mem _ ho))
      obtain ⟨q2, x2, y2, z2, hcalls, hq2, hp2, hmem2, hle2⟩ :=
        ih q1 x1 y1 z1 hq1 hp1 hmax1 hnd.2 hnew1
      refine ⟨q2, x2, y2, z2, ?_, hq2, hp2, fun o1 ho1 => ?_, le_trans hle hle2⟩
      · simp only [List.map_cons, PeerList.calls, PeerList.call, PeerList.AddPeer, hres,
          Option.map_some']
        exact hcalls
      · rcases hmem2 o1 ho1 with h | h
        · exact Or.inl (by simp only [List.map_cons]; exact List.mem_cons_of_mem _ h)
        · rcases hmem o1 h with h | h
          · exact Or.inl (by simp [h])
          · exact Or.inr h
  exact ⟨h_specSpreadS_three, h_specSpreadT_three, h_maxSpread_three_step,
    h_maxSpread_three_calls⟩

/-- C18, amended. For every sequence of at least 3 distinct peers offered one
by one via `AddPeer` to an empty max-spread list of capacity 3, the list ends
holding exactly 3 of the offered peers, and the sum of their pairwise great
circle distances is at least the sum for the first three peers offered: every
replacement makes the sum grow. -/
theorem maxSpread_three_monotone (loc : V ℝ) (a b c : NodeId × V ℝ)
    (rest : List (NodeId × V ℝ))
    (hd : ((a :: b :: c :: rest).map Prod.fst).Nodup) :
    ∃ q x y z,
      (NewMaximizePeerSpread 3 : PeerList ℝ).calls
          ((a :: b :: c :: rest).map fun p => PeerCall.add loc p.1 p.2)
        = some (.maximizePeerSpread q) ∧
      q.peerLocations = [x, y, z] ∧ q.peers.length = 3 ∧
      (∀ o, o ∈ q.peers → o ∈ (a :: b :: c :: rest).map Prod.fst) ∧
      specPairwiseSum3 a.2 b.2 c.2 ≤ specPairwiseSum3 x y z := by
  simp only [List.map_cons, List.nodup_cons, List.mem_cons, not_or] at hd
  obtain ⟨⟨hab, hac, har⟩, ⟨hbc, hbr⟩, hcr, hnd⟩ := hd
  have hba : b.1 ≠ a.1 := fun h => hab h.symm
  have hca : c.1 ≠ a.1 := fun h => hac h.symm
  have hcb : c.1 ≠ b.1 := fun h => hbc h.symm
  obtain ⟨q1, x1, y1, z1, hcalls, hq1, hp1, hmem, hle⟩ :=
    maxSpread_three_facts.2.2.2 loc rest
      { uniqueIdx := Function.update (Function.update (Function.update (fun _ => none) a.1
          (some 0)) b.1 (some 1)) c.1 (some 2)
        peers := [a.1, b.1, c.1]
        peerLocations := [a.2, b.2, c.2]
        maxPeers := 3 } a.2 b.2 c.2 rfl rfl rfl hnd
      (by
        intro o ho
        have h1 : o ≠ a.1 := fun h => har (h ▸ ho)
        have h2 : o ≠ b.1 := fun h => hbr (h ▸ ho)
        have h3 : o ≠ c.1 := fun h => hcr (h ▸ ho)
        simp [Function.update, h1, h2, h3])
  refine ⟨q1, x1, y1, z1, ?_, hq1, hp1, fun o ho => ?_, hle⟩
  · rw [← hcalls]
    simp [PeerList.calls, PeerList.call, PeerList.AddPeer, maximizePeerSpread.AddPeer,
      NewMaximizePeerSpread, newBasePeerList, basePeerList.append, Function.update, hba, hca,
      hcb]
  · rcases hmem o ho with h | h
    · simp only [List.map_cons, List.mem_cons]
      exact Or.inr (Or.inr (Or.inr h))
    · simp only [List.map_cons, List.mem_cons]
      simp only [List.mem_cons, List.mem_singleton, List.not_mem_nil, or_false] at h
      rcases h with h | h | h
      · exact Or.inl h
      · exact Or.inr (Or.inl h)
      · exact Or.inr (Or.inr (Or.inl h))

/-- Witness for C18, amended: the peers 1, 2 and 3 at the three axis points,
then the peer 4 at `(0.6, 0.8, 0)` and the peer 5 at `(-0.6, -0.8, 0)`. -/
theorem maxSpread_three_monotone_witness :
    (([((1 : NodeId), (⟨1, 0, 0⟩ : V ℝ)), (2, ⟨0, 1, 0⟩), (3, ⟨0, 0, 1⟩), (4, ⟨0.6, 0.8, 0⟩),
        (5, ⟨-0.6, -0.8, 0⟩)]).map Prod.fst).Nodup ∧
    ∃ q x y z,
      (NewMaximizePeerSpread 3 : PeerList ℝ).calls
          (([((1 : NodeId), (⟨1, 0, 0⟩ : V ℝ)), (2, ⟨0, 1, 0⟩), (3, ⟨0, 0, 1⟩),
              (4, ⟨0.6, 0.8, 0⟩), (5, ⟨-0.6, -0.8, 0⟩)]).map
            fun p => PeerCall.add ⟨1, 0, 0⟩ p.1 p.2)
        = some (.maximizePeerSpread q) ∧
      q.peerLocations = [x, y, z] ∧ q.peers.length = 3 ∧
      (∀ o, o ∈ q.peers →
        o ∈ ([((1 : NodeId), (⟨1, 0, 0⟩ : V ℝ)), (2, ⟨0, 1, 0⟩), (3, ⟨0, 0, 1⟩),
          (4, ⟨0.6, 0.8, 0⟩), (5, ⟨-0.6, -0.8, 0⟩)]).map Prod.fst) ∧
      specPairwiseSum3 (⟨1, 0, 0⟩ : V ℝ) ⟨0, 1, 0⟩ ⟨0, 0, 1⟩ ≤ specPairwiseSum3 x y z :=
  ⟨by decide,
    maxSpread_three_monotone ⟨1, 0, 0⟩ (1, ⟨1, 0, 0⟩) (2, ⟨0, 1, 0⟩) (3, ⟨0, 0, 1⟩)
      [(4, ⟨0.6, 0.8, 0⟩), (5, ⟨-0.6, -0.8, 0⟩)] (by decide)⟩

theorem PeerList.calls_append (l1 l2 : List (PeerCall F)) :
    ∀ pl : PeerList F, pl.calls (l1 ++ l2) = (pl.calls l1).bind fun pl1 => pl1.calls l2 := by
  induction l1 with
  | nil => intro pl; rfl
  | cons c l1 ih =>
    intro pl
    simp only [List.cons_append, PeerList.calls]
    cases pl.call c with
    | none => rfl
    | some pl1 => exact ih pl1

theorem calls_axesX (loc : V F) :
    (NewMaximizePeerSpread 3).calls
        [.add loc 1 ⟨1, 0, 0⟩, .add loc 2 ⟨0, 1, 0⟩, .add loc 3 ⟨0, 0, 1⟩]
      = some (.maximizePeerSpread (axesX : basePeerList F)) := by
  simp [axesX, PeerList.calls, PeerList.call, PeerList.AddPeer, maximizePeerSpread.AddPeer,
    basePeerList.append, NewMaximizePeerSpread, newBasePeerList, Function.update]

set_option maxHeartbeats 4000000 in
/-- The list `axesX` of the three axis points: the distances among the points
involved; the offer of the peer 4 at `(0.6, 0.8, 0)` is rejected; the offer of
the peer 5 at `(-0.6, -0.8, 0)` replaces a peer. -/
theorem axesX_facts :
    ((⟨1, 0, 0⟩ : V ℝ).GreatCircleDistance ⟨0, 1, 0⟩ = Real.pi / 2 ∧
          (⟨1, 0, 0⟩ : V ℝ).GreatCircleDistance ⟨0, 0, 1⟩ = Real.pi / 2 ∧
          (⟨0, 1, 0⟩ : V ℝ).GreatCircleDistance ⟨0, 0, 1⟩ = Real.pi / 2 ∧
          (⟨0.6, 0.8, 0⟩ : V ℝ).GreatCircleDistance ⟨1, 0, 0⟩ = Real.arccos 0.6 ∧
          (⟨0.6, 0.8, 0⟩ : V ℝ).GreatCircleDistance ⟨0, 1, 0⟩ = Real.arccos 0.8 ∧
          (⟨0.6, 0.8, 0⟩ : V ℝ).GreatCircleDistance ⟨0, 0, 1⟩ = Real.pi / 2 ∧
          (⟨-0.6, -0.8, 0⟩ : V ℝ).GreatCircleDistance ⟨1, 0, 0⟩ = Real.pi - Real.arccos 0.6 ∧
          (⟨-0.6, -0.8, 0⟩ : V ℝ).GreatCircleDistance ⟨0, 1, 0⟩ = Real.pi - Real.arccos 0.8 ∧
          (⟨-0.6, -0.8, 0⟩ : V ℝ).GreatCircleDistance ⟨0, 0, 1⟩ = Real.pi / 2 ∧
          (⟨0.6, 0.8, 0⟩ : V ℝ).GreatCircleDistance ⟨-0.6, -0.8, 0⟩ = Real.pi ∧
          0 < Real.arccos 0.6 ∧ Real.arccos 0.6 < Real.pi / 2 ∧
          0 < Real.arccos 0.8 ∧ Real.arccos 0.8 < Real.pi / 2) ∧
    (∀ (loc : V ℝ),
        maximizePeerSpread.AddPeer (axesX : basePeerList ℝ) loc 4 ⟨0.6, 0.8, 0⟩
              = some (axesX, false)) ∧
    (∀ (loc : V ℝ),
        (maximizePeerSpread.AddPeer (axesX : basePeerList ℝ) loc 5 ⟨-0.6, -0.8, 0⟩).map
                (fun r => (r.1.peers, r.1.peerLocations, r.2))
              = some ([5, 2, 3], [⟨-0.6, -0.8, 0⟩, ⟨0, 1, 0⟩, ⟨0, 0, 1⟩], true)) := by
  have h_axes_distances : (⟨1, 0, 0⟩ : V ℝ).GreatCircleDistance ⟨0, 1, 0⟩ = Real.pi / 2 ∧
          (⟨1, 0, 0⟩ : V ℝ).GreatCircleDistance ⟨0, 0, 1⟩ = Real.pi / 2 ∧
          (⟨0, 1, 0⟩ : V ℝ).GreatCircleDistance ⟨0, 0, 1⟩ = Real.pi / 2 ∧
          (⟨0.6, 0.8, 0⟩ : V ℝ).GreatCircleDistance ⟨1, 0, 0⟩ = Real.arccos 0.6 ∧
          (⟨0.6, 0.8, 0⟩ : V ℝ).GreatCircleDistance ⟨0, 1, 0⟩ = Real.arccos 0.8 ∧
          (⟨0.6, 0.8, 0⟩ : V ℝ).GreatCircleDistance ⟨0, 0, 1⟩ = Real.pi / 2 ∧
          (⟨-0.6, -0.8, 0⟩ : V ℝ).GreatCircleDistance ⟨1, 0, 0⟩ = Real.pi - Real.arccos 0.6 ∧
          (⟨-0.6, -0.8, 0⟩ : V ℝ).GreatCircleDistance ⟨0, 1, 0⟩ = Real.pi - Real.arccos 0.8 ∧
          (⟨-0.6, -0.8, 0⟩ : V ℝ).GreatCircleDistance ⟨0, 0, 1⟩ = Real.pi / 2 ∧
          (⟨0.6, 0.8, 0⟩ : V ℝ).GreatCircleDistance ⟨-0.6, -0.8, 0⟩ = Real.pi ∧
          0 < Real.arccos 0.6 ∧ Real.arccos 0.6 < Real.pi / 2 ∧
          0 < Real.arccos 0.8 ∧ Real.arccos 0.8 < Real.pi / 2 := by
    have hu : (⟨0.6, 0.8, 0⟩ : V ℝ).Norm = 1 := by rw [V.unit_facts.1]; norm_num
    have hv : (⟨-0.6, -0.8, 0⟩ : V ℝ).Norm = 1 := by rw [V.unit_facts.1]; norm_num
    have h1 : (⟨1, 0, 0⟩ : V ℝ).Norm = 1 := by rw [V.unit_facts.1]; norm_num
    have h2 : (⟨0, 1, 0⟩ : V ℝ).Norm = 1 := by rw [V.unit_facts.1]; norm_num
    refine ⟨?_, ?_, ?_, ?_, ?_, ?_, ?_, ?_, ?_, ?_, ?_, ?_, ?_, ?_⟩
    · simp [V.GreatCircleDistance, V.Dot]
    · simp [V.GreatCircleDistance, V.Dot]
    · simp [V.GreatCircleDistance, V.Dot]
    · rw [V.unit_facts.2.2 _ _ hu h1]; simp [V.Dot]
    · rw [V.unit_facts.2.2 _ _ hu h2]; simp [V.Dot]
    · simp [V.GreatCircleDistance, V.Dot]
    · rw [V.unit_facts.2.2 _ _ hv h1, ← Real.arccos_neg]; simp [V.Dot]
    · rw [V.unit_facts.2.2 _ _ hv h2, ← Real.arccos_neg]; simp [V.Dot]
    · simp [V.GreatCircleDistance, V.Dot]
    · rw [V.unit_facts.2.2 _ _ hu hv]
      have : (⟨0.6, 0.8, 0⟩ : V ℝ).Dot ⟨-0.6, -0.8, 0⟩ = -1 := by simp only [V.Dot]; norm_num
      rw [this, Real.arccos_neg_one]
    · rw [Real.arccos_pos]; norm_num
    · rw [Real.arccos_lt_pi_div_two]; norm_num
    · rw [Real.arccos_pos]; norm_num
    · rw [Real.arccos_lt_pi_div_two]; norm_num
  -- The offer of the peer 4 at `(0.6, 0.8, 0)` to the list `axesX` is rejected.
  have h_axesX_reject : ∀ (loc : V ℝ),
        maximizePeerSpread.AddPeer (axesX : basePeerList ℝ) loc 4 ⟨0.6, 0.8, 0⟩
              = some (axesX, false) := by
    intro loc
    obtain ⟨d12, d13, d23, u1, u2, u3, -, -, -, -, a0, a1, b0, b1⟩ := h_axes_distances
    obtain ⟨h0, h1⟩ := spreadPick_spec (axesX : basePeerList ℝ).peerLocations ⟨0.6, 0.8, 0⟩
    obtain ⟨hS0, hS1, hS2⟩ := maxSpread_three_facts.1 (⟨1, 0, 0⟩ : V ℝ) ⟨0, 1, 0⟩ ⟨0, 0, 1⟩
    obtain ⟨hT0, hT1, hT2⟩ :=
      maxSpread_three_facts.2.1 (⟨1, 0, 0⟩ : V ℝ) ⟨0, 1, 0⟩ ⟨0, 0, 1⟩ ⟨0.6, 0.8, 0⟩
    have hnew : (axesX : basePeerList ℝ).uniqueIdx 4 = none := by simp [axesX, Function.update]
    cases hP : spreadPick
        (spreadDists (axesX : basePeerList ℝ).peerLocations
          (axesX : basePeerList ℝ).peerLocations.length ⟨0.6, 0.8, 0⟩).1
        (spreadDists (axesX : basePeerList ℝ).peerLocations
          (axesX : basePeerList ℝ).peerLocations.length ⟨0.6, 0.8, 0⟩).2.1
        (spreadDists (axesX : basePeerList ℝ).peerLocations
          (axesX : basePeerList ℝ).peerLocations.length ⟨0.6, 0.8, 0⟩).2.2 with
    | none =>
      have hP1 := hP
      simp only [axesX, List.length_cons, List.length_nil] at hP1
      simp only [maximizePeerSpread.AddPeer, hnew]
      simp only [axesX, List.length_cons, List.length_nil, hP1]
      simp
    | some i =>
      exfalso
      obtain ⟨hi, hel, -⟩ := h1 i hP
      have hi3 : i < 3 := hi
      have hl : (axesX : basePeerList ℝ).peerLocations = [⟨1, 0, 0⟩, ⟨0, 1, 0⟩, ⟨0, 0, 1⟩] := rfl
      rw [hl] at hel
      interval_cases i
      · rw [hS0, hT0] at hel; linarith
      · rw [hS1, hT1] at hel; linarith
      · rw [hS2, hT2] at hel; linarith
  -- The offer of the peer 5 at `(-0.6, -0.8, 0)` to the list `axesX` replaces the peer 1.
  have h_axesX_replace : ∀ (loc : V ℝ),
        (maximizePeerSpread.AddPeer (axesX : basePeerList ℝ) loc 5 ⟨-0.6, -0.8, 0⟩).map
                (fun r => (r.1.peers, r.1.peerLocations, r.2))
              = some ([5, 2, 3], [⟨-0.6, -0.8, 0⟩, ⟨0, 1, 0⟩, ⟨0, 0, 1⟩], true) := by
    intro loc
    obtain ⟨d12, d13, d23, -, -, -, v1, v2, v3, -, a0, a1, b0, b1⟩ := h_axes_distances
    obtain ⟨h0, h1⟩ := spreadPick_spec (axesX : basePeerList ℝ).peerLocations ⟨-0.6, -0.8, 0⟩
    obtain ⟨hS0, hS1, hS2⟩ := maxSpread_three_facts.1 (⟨1, 0, 0⟩ : V ℝ) ⟨0, 1, 0⟩ ⟨0, 0, 1⟩
    obtain ⟨hT0, hT1, hT2⟩ :=
      maxSpread_three_facts.2.1 (⟨1, 0, 0⟩ : V ℝ) ⟨0, 1, 0⟩ ⟨0, 0, 1⟩ ⟨-0.6, -0.8, 0⟩
    have hnew : (axesX : basePeerList ℝ).uniqueIdx 5 = none := by simp [axesX, Function.update]
    have hl : (axesX : basePeerList ℝ).peerLocations = [⟨1, 0, 0⟩, ⟨0, 1, 0⟩, ⟨0, 0, 1⟩] := rfl
    have hel0 : specSpreadS (axesX : basePeerList ℝ).peerLocations 0
        < specSpreadT (axesX : basePeerList ℝ).peerLocations ⟨-0.6, -0.8, 0⟩ 0 := by
      rw [hl, hS0, hT0]; linarith
    cases hP : spreadPick
        (spreadDists (axesX : basePeerList ℝ).peerLocations
          (axesX : basePeerList ℝ).peerLocations.length ⟨-0.6, -0.8, 0⟩).1
        (spreadDists (axesX : basePeerList ℝ).peerLocations
          (axesX : basePeerList ℝ).peerLocations.length ⟨-0.6, -0.8, 0⟩).2.1
        (spreadDists (axesX : basePeerList ℝ).peerLocations
          (axesX : basePeerList ℝ).peerLocations.length ⟨-0.6, -0.8, 0⟩).2.2 with
    | none => exact absurd hel0 (h0 hP 0 (by simp [axesX]))
    | some i =>
      obtain ⟨hi, -, hmin⟩ := h1 i hP
      have hi3 : i < 3 := hi
      have h00 := (hmin 0 (by simp [axesX]) hel0).2
      rw [hl] at h00
      have hi0 : i = 0 := by
        interval_cases i
        · rfl
        · exfalso; have := h00 (by omega); rw [hS0, hS1] at this; linarith
        · exfalso; have := h00 (by omega); rw [hS0, hS2] at this; linarith
      subst hi0
      have hP1 := hP
      simp only [axesX, List.length_cons, List.length_nil] at hP1
      simp only [maximizePeerSpread.AddPeer, hnew]
      simp only [axesX, List.length_cons, List.length_nil, hP1]
      simp [basePeerList.replaceAt]
  exact ⟨h_axes_distances, h_axesX_reject, h_axesX_replace⟩

/-- C18, the claim at a counterexample. A max-spread list of capacity 3 is
offered the peers 1, 2 and 3 at the three axis points, then the peer 4 at
`(0.6, 0.8, 0)` and the peer 5 at `(-0.6, -0.8, 0)`, all unit vectors. The peer
4 is rejected and the peer 5 replaces the peer 1: the list ends with the peers
5, 2 and 3, whose pairwise distances add up to less than those of the peers 4,
5 and 3. -/
theorem maxSpread_three_counterexample :
    (∀ v ∈ [(⟨1, 0, 0⟩ : V ℝ), ⟨0, 1, 0⟩, ⟨0, 0, 1⟩, ⟨0.6, 0.8, 0⟩, ⟨-0.6, -0.8, 0⟩],
      v.Norm = 1) ∧
    ((NewMaximizePeerSpread 3 : PeerList ℝ).calls
        [.add ⟨1, 0, 0⟩ 1 ⟨1, 0, 0⟩, .add ⟨1, 0, 0⟩ 2 ⟨0, 1, 0⟩, .add ⟨1, 0, 0⟩ 3 ⟨0, 0, 1⟩,
          .add ⟨1, 0, 0⟩ 4 ⟨0.6, 0.8, 0⟩, .add ⟨1, 0, 0⟩ 5 ⟨-0.6, -0.8, 0⟩]).map
        (fun pl => (pl.peers, pl.Locations))
      = some ([5, 2, 3], [⟨-0.6, -0.8, 0⟩, ⟨0, 1, 0⟩, ⟨0, 0, 1⟩]) ∧
    specPairwiseSum3 (⟨-0.6, -0.8, 0⟩ : V ℝ) ⟨0, 1, 0⟩ ⟨0, 0, 1⟩
      < specPairwiseSum3 (⟨0.6, 0.8, 0⟩ : V ℝ) ⟨-0.6, -0.8, 0⟩ ⟨0, 0, 1⟩ := by
  obtain ⟨d12, d13, d23, u1, u2, u3, v1, v2, v3, uv, a0, a1, b0, b1⟩ := axesX_facts.1
  refine ⟨?_, ?_, ?_⟩
  · intro v hv
    simp only [List.mem_cons, List.mem_singleton, List.not_mem_nil, or_false] at hv
    rcases hv with h | h | h | h | h <;> rw [h, V.unit_facts.1] <;> norm_num
  · have happ := PeerList.calls_append
      [PeerCall.add (⟨1, 0, 0⟩ : V ℝ) 1 ⟨1, 0, 0⟩, .add ⟨1, 0, 0⟩ 2 ⟨0, 1, 0⟩,
        .add ⟨1, 0, 0⟩ 3 ⟨0, 0, 1⟩]
      [.add ⟨1, 0, 0⟩ 4 ⟨0.6, 0.8, 0⟩, .add ⟨1, 0, 0⟩ 5 ⟨-0.6, -0.8, 0⟩]
      (NewMaximizePeerSpread 3)
    simp only [List.cons_append, List.nil_append] at happ
    rw [happ, calls_axesX]
    have hA := axesX_facts.2.1 ⟨1, 0, 0⟩
    have hB := axesX_facts.2.2 ⟨1, 0, 0⟩
    cases hR : maximizePeerSpread.AddPeer (axesX : basePeerList ℝ) ⟨1, 0, 0⟩ 5 ⟨-0.6, -0.8, 0⟩ with
    | none => rw [hR] at hB; simp at hB
    | some r =>
      rw [hR] at hB
      simp only [Option.map_some', Option.some.injEq, Prod.mk.injEq] at hB
      simp only [Option.some_bind, PeerList.calls, PeerList.call, PeerList.AddPeer, hA, hR,
        Option.map_some', PeerList.peers, PeerList.Locations, basePeerList.Locations, hB.1,
        hB.2.1]
  · have hc := V.greatCircleDistance_comm (⟨-0.6, -0.8, 0⟩ : V ℝ) ⟨0.6, 0.8, 0⟩
    simp only [specPairwiseSum3]
    linarith

/-! ### Quaternions -/

/-- C33. Over the exact reals the quaternion product `Q.Mul` is associative:
`p.Mul(q).Mul(r) = p.Mul(q.Mul(r))` for all quaternions `p`, `q`, `r`. -/
theorem quaternion_mul_assoc (p q r : Q ℝ) : (p.Mul q).Mul r = p.Mul (q.Mul r) := by
  simp only [Q.Mul, Q.mk.injEq]
  refine ⟨?_, ?_, ?_, ?_⟩ <;> ring

/-- C34. Over the exact reals, `q.Mul(q.Conj())` has `I = J = K = 0` and
`R = q.Norm()² = I² + J² + K² + R²`, for every quaternion `q`. -/
theorem quaternion_mul_conj (q : Q ℝ) :
    (q.Mul q.Conj).I = 0 ∧ (q.Mul q.Conj).J = 0 ∧ (q.Mul q.Conj).K = 0 ∧
    (q.Mul q.Conj).R = q.Norm ^ 2 ∧
    q.Norm ^ 2 = q.I ^ 2 + q.J ^ 2 + q.K ^ 2 + q.R ^ 2 := by
  have hN : 0 ≤ q.R * q.R + q.I * q.I + q.J * q.J + q.K * q.K := by
    nlinarith [mul_self_nonneg q.R, mul_self_nonneg q.I, mul_self_nonneg q.J, mul_self_nonneg q.K]
  have hs : q.Norm ^ 2 = q.R * q.R + q.I * q.I + q.J * q.J + q.K * q.K := by
    simp only [Q.Norm, sqrt_real]
    exact Real.sq_sqrt hN
  refine ⟨?_, ?_, ?_, ?_, ?_⟩
  · simp only [Q.Mul, Q.Conj]; ring
  · simp only [Q.Mul, Q.Conj]; ring
  · simp only [Q.Mul, Q.Conj]; ring
  · rw [hs]; simp only [Q.Mul, Q.Conj]; ring
  · rw [hs]; ring

/-! ### Special values of the great circle distance -/

/-- C35. Special values of `GreatCircleDistance` over the exact reals: for a
unit vector `v`, `v.GreatCircleDistance(v) = 0` and
`v.GreatCircleDistance(v.MulScalar(-1)) = π`; for all vectors `v`, `w` with
`v·w = 0` the result is `π / 2`; so `(0,0,1)` and `(0,1,0)` give `π / 2` and
`(0,0,1)` and `(0,0,-1)` give `π`. -/
theorem greatCircleDistance_special (v w : V ℝ) :
    (v.Norm = 1 → v.GreatCircleDistance v = 0 ∧
      v.GreatCircleDistance (v.MulScalar (-1)) = Real.pi ∧
      v.GreatCircleDistance ⟨-v.X, -v.Y, -v.Z⟩ = Real.pi) ∧
    (v.Dot w = 0 → v.GreatCircleDistance w = Real.pi / 2) ∧
    (⟨0, 0, 1⟩ : V ℝ).GreatCircleDistance ⟨0, 1, 0⟩ = Real.pi / 2 ∧
    (⟨0, 0, 1⟩ : V ℝ).GreatCircleDistance ⟨0, 0, -1⟩ = Real.pi := by
  have hanti : ∀ u : V ℝ, u.Norm = 1 → u.GreatCircleDistance u = 0 ∧
      u.GreatCircleDistance (u.MulScalar (-1)) = Real.pi := by
    intro u hu
    have h0 := single_point_facts.1 u hu
    have h1 := (V.greatCircleDistance_antipodal u u (u.MulScalar (-1)) hu hu rfl).2
    rw [h0, zero_add] at h1
    exact ⟨h0, h1⟩
  refine ⟨fun hv => ?_, fun hd => ?_, ?_, ?_⟩
  · obtain ⟨h0, h1⟩ := hanti v hv
    refine ⟨h0, h1, ?_⟩
    have e : (⟨-v.X, -v.Y, -v.Z⟩ : V ℝ) = v.MulScalar (-1) := by
      simp only [V.MulScalar, mul_neg, mul_one]
    rw [e]
    exact h1
  · simp only [V.GreatCircleDistance, hd, if_true, pi_real]
  · simp [V.GreatCircleDistance, V.Dot]
  · have h := (hanti ⟨0, 0, 1⟩ (by simp [V.Norm])).2
    simpa [V.MulScalar] using h

/-- Witness for C35 at `v = (0, 0, 1)` and `w = (0, 1, 0)`. -/
theorem greatCircleDistance_special_witness :
    (⟨0, 0, 1⟩ : V ℝ).Norm = 1 ∧ (⟨0, 0, 1⟩ : V ℝ).Dot ⟨0, 1, 0⟩ = 0 ∧
    (⟨0, 0, 1⟩ : V ℝ).GreatCircleDistance ⟨0, 0, 1⟩ = 0 ∧
    (⟨0, 0, 1⟩ : V ℝ).GreatCircleDistance ((⟨0, 0, 1⟩ : V ℝ).MulScalar (-1)) = Real.pi ∧
    (⟨0, 0, 1⟩ : V ℝ).GreatCircleDistance ⟨0, 1, 0⟩ = Real.pi / 2 :=
  ⟨by simp [V.Norm], by simp [V.Dot],
    ((greatCircleDistance_special ⟨0, 0, 1⟩ ⟨0, 1, 0⟩).1 (by simp [V.Norm])).1,
    ((greatCircleDistance_special ⟨0, 0, 1⟩ ⟨0, 1, 0⟩).1 (by simp [V.Norm])).2.1,
    (greatCircleDistance_special ⟨0, 0, 1⟩ ⟨0, 1, 0⟩).2.1 (by simp [V.Dot])⟩
/-! ### The scaled stereographic projection -/

theorem V.greatCircleDistance_north_south :
    (⟨0, 0, -1⟩ : V ℝ).GreatCircleDistance ⟨0, 0, 1⟩ = Real.pi := by
  simp [V.GreatCircleDistance, V.Dot, V.Cross, V.Norm]

/-- C36. `ProjectGSD` keeps the distance from the north pole: for every unit
vector `v`, the poles included, the Euclidean length of the point
`ProjectGSD(v)` is the great circle distance from `v` to `(0, 0, 1)`. At the
poles it returns `(0, 0)` for `(0, 0, 1)` and `(0, π)` for `(0, 0, -1)`;
elsewhere the point is a positive multiple of `(v.X, v.Y)`. -/
theorem projectGSD_radial (v : V ℝ) (hv : v.Norm = 1) :
    Real.sqrt (v.ProjectGSD.1 ^ 2 + v.ProjectGSD.2 ^ 2) = v.GreatCircleDistance ⟨0, 0, 1⟩ ∧
    (⟨0, 0, 1⟩ : V ℝ).ProjectGSD = (0, 0) ∧
    (⟨0, 0, -1⟩ : V ℝ).ProjectGSD = (0, Real.pi) ∧
    (¬ (v.X = 0 ∧ v.Y = 0) →
      ∃ t, 0 < t ∧ v.ProjectGSD = (t * v.X, t * v.Y)) := by
  have hn : (⟨0, 0, 1⟩ : V ℝ).ProjectGSD = (0, 0) := by simp [V.ProjectGSD]
  have hs : (⟨0, 0, -1⟩ : V ℝ).ProjectGSD = (0, Real.pi) := by
    have h1 : ¬ ((-1 : ℝ) = 1) := by norm_num
    simp [V.ProjectGSD, h1]
  have hu := (V.unit_facts.1 v).mp hv
  have hmain : ¬ (v.X = 0 ∧ v.Y = 0) →
      ∃ t, 0 < t ∧ v.ProjectGSD = (t * v.X, t * v.Y) ∧
        Real.sqrt (v.ProjectGSD.1 ^ 2 + v.ProjectGSD.2 ^ 2) = v.GreatCircleDistance ⟨0, 0, 1⟩ := by
    intro hne
    have hr2 : 0 < v.X * v.X + v.Y * v.Y := by
      by_contra hcon
      have h0 : v.X * v.X + v.Y * v.Y = 0 :=
        le_antisymm (not_lt.mp hcon) (by nlinarith [mul_self_nonneg v.X, mul_self_nonneg v.Y])
      have hx : v.X = 0 := mul_self_eq_zero.mp (by nlinarith [mul_self_nonneg v.Y])
      have hy : v.Y = 0 := mul_self_eq_zero.mp (by nlinarith [mul_self_nonneg v.X])
      exact hne ⟨hx, hy⟩
    have hz : v.Z < 1 := by nlinarith [mul_self_nonneg (v.Z - 1), mul_self_nonneg (v.Z + 1)]
    have hz1 : 0 < 1 - v.Z := by linarith
    have hr : 0 < Real.sqrt (v.X * v.X + v.Y * v.Y) := Real.sqrt_pos.mpr hr2
    have hrr : Real.sqrt (v.X * v.X + v.Y * v.Y) * Real.sqrt (v.X * v.X + v.Y * v.Y)
        = v.X * v.X + v.Y * v.Y := Real.mul_self_sqrt (le_of_lt hr2)
    have hD : v.GreatCircleDistance ⟨0, 0, 1⟩ = Real.arccos v.Z := by
      rw [V.unit_facts.2.2 v ⟨0, 0, 1⟩ hv (by simp [V.Norm])]
      simp [V.Dot]
    have hDpos : 0 < v.GreatCircleDistance ⟨0, 0, 1⟩ := by
      rw [hD]; exact Real.arccos_pos.mpr hz
    have hnorm : (⟨v.X / (1 - v.Z), v.Y / (1 - v.Z), 0⟩ : V ℝ).Norm
        = Real.sqrt (v.X * v.X + v.Y * v.Y) / (1 - v.Z) := by
      simp only [V.Norm, sqrt_real]
      have h1 : 0 ≤ v.X / (1 - v.Z) * (v.X / (1 - v.Z)) + v.Y / (1 - v.Z) * (v.Y / (1 - v.Z))
          + 0 * 0 :=
        add_nonneg (add_nonneg (mul_self_nonneg _) (mul_self_nonneg _)) (mul_self_nonneg _)
      rw [Real.sqrt_eq_iff_mul_self_eq h1 (div_nonneg (le_of_lt hr) (le_of_lt hz1))]
      have h2 : Real.sqrt (v.X * v.X + v.Y * v.Y) / (1 - v.Z)
          * (Real.sqrt (v.X * v.X + v.Y * v.Y) / (1 - v.Z))
          = (v.X * v.X + v.Y * v.Y) / ((1 - v.Z) * (1 - v.Z)) := by
        rw [div_mul_div_comm, hrr]
      rw [h2]
      field_simp
    have hval : v.ProjectGSD =
        (v.GreatCircleDistance ⟨0, 0, 1⟩ / Real.sqrt (v.X * v.X + v.Y * v.Y) * v.X,
          v.GreatCircleDistance ⟨0, 0, 1⟩ / Real.sqrt (v.X * v.X + v.Y * v.Y) * v.Y) := by
      have e : v.ProjectGSD =
          (((V.Unit ⟨v.Project.1, v.Project.2, 0⟩).MulScalar
              (v.GreatCircleDistance ⟨0, 0, 1⟩)).X,
            ((V.Unit ⟨v.Project.1, v.Project.2, 0⟩).MulScalar
              (v.GreatCircleDistance ⟨0, 0, 1⟩)).Y) := by
        simp only [V.ProjectGSD, if_neg hne]
      rw [e]
      simp only [V.Unit, V.Project, hnorm, V.DivScalar, V.MulScalar, Prod.mk.injEq]
      constructor <;> field_simp <;> ring
    refine ⟨_, div_pos hDpos hr, hval, ?_⟩
    rw [hval]
    simp only
    rw [Real.sqrt_eq_iff_mul_self_eq (by positivity) (le_of_lt hDpos)]
    have hr0 : Real.sqrt (v.X * v.X + v.Y * v.Y) ≠ 0 := ne_of_gt hr
    field_simp
    nlinarith [hrr]
  refine ⟨?_, hn, hs, fun hne => ?_⟩
  · by_cases hp : v.X = 0 ∧ v.Y = 0
    · have hzz : v.Z * v.Z = 1 := by
        rw [hp.1, hp.2] at hu; linarith
      have hz : v.Z = 1 ∨ v.Z = -1 := mul_self_eq_one_iff.mp hzz
      have hv3 : v = ⟨0, 0, v.Z⟩ := by
        cases v; simp only [V.mk.injEq] at *; exact ⟨hp.1, hp.2, trivial⟩
      rcases hz with h | h
      · rw [hv3, h, hn, single_point_facts.1 _ (by simp [V.Norm])]
        simp
      · rw [hv3, h, hs, V.greatCircleDistance_north_south]
        simp [Real.sqrt_sq (le_of_lt Real.pi_pos)]
    · obtain ⟨_, _, _, h⟩ := hmain hp
      exact h
  · obtain ⟨t, ht, h, _⟩ := hmain hne
    exact ⟨t, ht, h⟩

/-- Witness for C36 at `v = (1, 0, 0)`. -/
theorem projectGSD_radial_witness :
    (⟨1, 0, 0⟩ : V ℝ).Norm = 1 ∧
    Real.sqrt ((⟨1, 0, 0⟩ : V ℝ).ProjectGSD.1 ^ 2 + (⟨1, 0, 0⟩ : V ℝ).ProjectGSD.2 ^ 2)
      = (⟨1, 0, 0⟩ : V ℝ).GreatCircleDistance ⟨0, 0, 1⟩ :=
  ⟨by simp [V.Norm], (projectGSD_radial ⟨1, 0, 0⟩ (by simp [V.Norm])).1⟩
/-! ### The reference definition of `AddressToPosition` -/

set_option maxHeartbeats 4000000 in
/-- The reference definition of `AddressToPosition`: over the reals `Q.Unit`
divides every component by the norm, where the norm is not zero; and the loop
of `AddressToPosition` followed by the rotation for the trailing bytes is the
reference rotation of the remaining bytes. -/
theorem address_reference_facts :
    (∀ (q : Q ℝ), q.Norm ≠ 0 →
        specUnitQ q = some q.Unit) ∧
    (∀ (n : Nat),
        ∀ (a : List (Fin 256)) (v : V ℝ), a.length ≤ n →
              (addressLoop a v ⟨0, 0, 0, 0⟩ 0).map
                  (fun r => if r.2.2 ≠ 0 then r.1.Rotate r.2.1 else r.1)
                = specAddressRotations a v) := by
  -- Over the reals `Q.Unit` divides every component by the norm, where the norm is not zero.
  have h_Q_unit_eq_specUnitQ : ∀ (q : Q ℝ), q.Norm ≠ 0 →
        specUnitQ q = some q.Unit := by
    intro q h
    simp only [specUnitQ, if_neg h, Q.Unit, Q.DivScalar, Q.Div, Option.some.injEq, Q.mk.injEq,
      mul_zero, add_zero]
    refine ⟨?_, ?_, ?_, ?_⟩ <;> field_simp <;> ring
  -- The loop of `AddressToPosition` followed by the rotation for the trailing bytes is the
  -- reference definition.
  have h_addressLoop_reference : ∀ (n : Nat),
        ∀ (a : List (Fin 256)) (v : V ℝ), a.length ≤ n →
              (addressLoop a v ⟨0, 0, 0, 0⟩ 0).map
                  (fun r => if r.2.2 ≠ 0 then r.1.Rotate r.2.1 else r.1)
                = specAddressRotations a v := by
    intro n
    induction n with
    | zero =>
      intro a v h
      have : a = [] := List.length_eq_zero.mp (Nat.le_zero.mp h)
      subst this
      simp [addressLoop, specAddressRotations]
    | succ n ih =>
      intro a v h
      match a, h with
      | [], _ => simp [addressLoop, specAddressRotations]
      | [b0], _ => simp [addressLoop, specAddressRotations, V.Rotate]
      | [b0, b1], _ => simp [addressLoop, specAddressRotations, V.Rotate]
      | [b0, b1, b2], _ => simp [addressLoop, specAddressRotations, V.Rotate]
      | b0 :: b1 :: b2 :: b3 :: rest, h =>
        have hl : rest.length ≤ n := by
          simp only [List.length_cons] at h
          omega
        have e := ih rest
          (v.Rotate (Q.Unit ⟨(b0.val : ℝ), (b1.val : ℝ), (b2.val : ℝ), (b3.val : ℝ)⟩)) hl
        simp only [addressLoop, specAddressRotations]
        by_cases h0 : (⟨(b0.val : ℝ), (b1.val : ℝ), (b2.val : ℝ), (b3.val : ℝ)⟩ : Q ℝ).Norm = 0
        · simp only [h0, if_true, specUnitQ, Option.map_none']
        · rw [if_neg h0, h_Q_unit_eq_specUnitQ _ h0]
          exact e
  exact ⟨h_Q_unit_eq_specUnitQ, h_addressLoop_reference⟩

/-- C32. `AddressToPosition` is its reference definition: for every byte
sequence `a` the result is obtained from `(1, 0, 0)` by a rotation, for each
complete group of four bytes `(b0, b1, b2, b3)` in order, by the
unit-normalised quaternion with `I = b0`, `J = b1`, `K = b2`, `R = b3`, and
then, for 1 to 3 bytes left over, by one more rotation by the quaternion as it
is, with the bytes left over in `I`, `J`, `K` and the other components zero.
Where a complete group is four zero bytes, which has no unit-normalised
quaternion, the program returns `(NaN, NaN, NaN)`: both sides are `none`, as
for the address `[0, 0, 0, 0]`. The empty address gives `(1, 0, 0)`. -/
theorem addressToPosition_reference (a : Address) :
    (AddressToPosition a : Option (V ℝ)) = specAddressToPosition a ∧
    (AddressToPosition [] : Option (V ℝ)) = some ⟨1, 0, 0⟩ ∧
    (AddressToPosition [0, 0, 0, 0] : Option (V ℝ)) = none ∧
    (specAddressToPosition [0, 0, 0, 0] : Option (V ℝ)) = none := by
  refine ⟨?_, ?_, ?_, ?_⟩
  · simp only [AddressToPosition, specAddressToPosition]
    exact address_reference_facts.2 a.length a ⟨1, 0, 0⟩ (le_refl _)
  · simp [AddressToPosition, addressLoop]
  · simp [AddressToPosition, addressLoop, Q.Norm]
  · simp [specAddressToPosition, specAddressRotations, specUnitQ, Q.Norm]

/-! ### The norm of a position -/

theorem completeNonzeroGroups_of_spec (n : Nat) :
    ∀ a : Address, a.length ≤ n → a.length % 4 = 0 → specGroupsNonzero a →
      completeNonzeroGroups a := by
  induction n with
  | zero =>
    intro a h _ _
    have : a = [] := List.length_eq_zero.mp (Nat.le_zero.mp h)
    subst this
    simp [completeNonzeroGroups]
  | succ n ih =>
    intro a h hlen hgrp
    match a, h, hlen, hgrp with
    | [], _, _, _ => simp [completeNonzeroGroups]
    | [_], _, hlen, _ => simp at hlen
    | [_, _], _, hlen, _ => simp at hlen
    | [_, _, _], _, hlen, _ => simp at hlen
    | b0 :: b1 :: b2 :: b3 :: rest, h, hlen, hgrp =>
      simp only [completeNonzeroGroups]
      refine ⟨?_, ih rest ?_ ?_ ?_⟩
      · have := hgrp 0 (by simp)
        simpa using this
      · simp only [List.length_cons] at h
        omega
      · simp only [List.length_cons] at hlen
        omega
      · intro i hi
        have := hgrp (i + 1) (by simp only [List.length_cons]; omega)
        have key : ∀ m, (b0 :: b1 :: b2 :: b3 :: rest).getD (m + 4) 0 = rest.getD m 0 :=
          fun m => rfl
        rw [show 4 * (i + 1) = 4 * i + 4 by ring, show 4 * i + 4 + 1 = 4 * i + 1 + 4 by ring,
          show 4 * i + 4 + 2 = 4 * i + 2 + 4 by ring,
          show 4 * i + 4 + 3 = 4 * i + 3 + 4 by ring, key, key, key, key] at this
        exact this

/-- C38. For every address whose length is a multiple of 4 and in which every
aligned group of four bytes has a byte that is not zero, `AddressToPosition`
returns a vector of norm 1 over the exact reals, because a rotation scales the
norm by the squared norm of the quaternion:
`|q.Rotate(v)| = |q|² · |v|` for all `q` and `v`. -/
theorem addressToPosition_unit_norm (a : Address) (hlen : a.length % 4 = 0)
    (hgrp : specGroupsNonzero a) :
    (∃ p, (AddressToPosition a : Option (V ℝ)) = some p ∧ p.Norm = 1) ∧
    ∀ (q : Q ℝ) (v : V ℝ), (q.Rotate v).Norm = q.Norm ^ 2 * v.Norm := by
  refine ⟨address_unit_facts.2.2.2.2.2 a
    (completeNonzeroGroups_of_spec a.length a (le_refl _) hlen hgrp), fun q v => ?_⟩
  have hN : 0 ≤ q.R * q.R + q.I * q.I + q.J * q.J + q.K * q.K := by
    nlinarith [mul_self_nonneg q.R, mul_self_nonneg q.I, mul_self_nonneg q.J, mul_self_nonneg q.K]
  have hs : q.Norm ^ 2 = q.R * q.R + q.I * q.I + q.J * q.J + q.K * q.K := by
    simp only [Q.Norm, sqrt_real]
    exact Real.sq_sqrt hN
  rw [hs]
  exact address_unit_facts.1 q v

/-- Witness for C38 at the address `[0, 0, 0, 1]`. -/
theorem addressToPosition_unit_norm_witness :
    ([0, 0, 0, 1] : Address).length % 4 = 0 ∧ specGroupsNonzero [0, 0, 0, 1] ∧
    ∃ p, (AddressToPosition [0, 0, 0, 1] : Option (V ℝ)) = some p ∧ p.Norm = 1 :=
  ⟨by decide,
    by
      intro i hi
      have : i = 0 := by simp at hi; omega
      subst this
      simp,
    (addressToPosition_unit_norm [0, 0, 0, 1] (by decide)
      (by
        intro i hi
        have : i = 0 := by simp at hi; omega
        subst this
        simp)).1⟩
/-! ### The spread of a max-spread list -/

theorem foldl_range_add (f : Nat → ℝ) (n : Nat) (b : ℝ) :
    (List.range n).foldl (fun acc j => acc + f j) b = b + ∑ j in Finset.range n, f j := by
  induction n with
  | zero => simp
  | succ n ih => rw [foldl_range_succ, ih, Finset.sum_range_succ, add_assoc]

theorem getD_set_vec (l : List (V ℝ)) (k i : Nat) (o : V ℝ) :
    (l.set k o).getD i default = if i = k ∧ k < l.length then o else l.getD i default := by
  simp only [List.getD_eq_getElem?_getD, List.getElem?_set]
  by_cases h : k = i
  · subst h
    by_cases h2 : k < l.length
    · simp [h2]
    · simp [h2]
      rw [List.getElem?_eq_none (by omega)]
      rfl
  · have h1 : ¬ (i = k ∧ k < l.length) := fun hh => h hh.1.symm
    simp [h, h1]

set_option maxHeartbeats 4000000 in
/-- The total of the pairwise distances: it is the double sum over the pairs `j <
i`; twice the sum over the pairs `j < i` of a symmetric function is the sum
over all pairs `i ≠ j`; and replacing the location at `k` changes the total by
`T_k - S_k`. -/
theorem pairwiseTotal_facts :
    (∀ (locs : List (V ℝ)),
        specPairwiseTotal locs = ∑ i in Finset.range locs.length, ∑ j in Finset.range i,
              (locs.getD j default).GreatCircleDistance (locs.getD i default)) ∧
    (∀ (E : Nat → Nat → ℝ), (∀ i j, E i j = E j i) → ∀ (n : Nat),
        2 * ∑ i in Finset.range n, ∑ j in Finset.range i, E j i
              = ∑ i in Finset.range n, ∑ j in Finset.range n, if j = i then 0 else E i j) ∧
    (∀ (locs : List (V ℝ)) (k : Nat), k < locs.length → ∀ (o : V ℝ),
        specPairwiseTotal (locs.set k o)
              = specPairwiseTotal locs - specSpreadS locs k + specSpreadT locs o k) := by
  have h_specPairwiseTotal_eq : ∀ (locs : List (V ℝ)),
        specPairwiseTotal locs = ∑ i in Finset.range locs.length, ∑ j in Finset.range i,
              (locs.getD j default).GreatCircleDistance (locs.getD i default) := by
    intro locs
    unfold specPairwiseTotal
    have h : (fun (acc : ℝ) (i : Nat) => (List.range i).foldl (fun acc2 j =>
        acc2 + (locs.getD j default).GreatCircleDistance (locs.getD i default)) acc)
        = fun acc i => acc + ∑ j in Finset.range i,
            (locs.getD j default).GreatCircleDistance (locs.getD i default) := by
      funext acc i
      exact foldl_range_add _ i acc
    rw [h, foldl_range_add, zero_add]
  -- Twice the sum over the pairs `j < i` of a symmetric function is the sum over the ordered
  -- pairs of distinct indices.
  have h_sum_pairs_symm : ∀ (E : Nat → Nat → ℝ), (∀ i j, E i j = E j i) → ∀ (n : Nat),
        2 * ∑ i in Finset.range n, ∑ j in Finset.range i, E j i
              = ∑ i in Finset.range n, ∑ j in Finset.range n, if j = i then 0 else E i j := by
    intro E hE n
    induction n with
    | zero => simp
    | succ n ih =>
      rw [Finset.sum_range_succ, mul_add, ih, Finset.sum_range_succ]
      have h1 : ∀ i ∈ Finset.range n, (∑ j in Finset.range (n + 1), if j = i then 0 else E i j)
          = (∑ j in Finset.range n, if j = i then 0 else E i j) + E i n := by
        intro i hi
        have hne : n ≠ i := by
          have := Finset.mem_range.mp hi
          omega
        rw [Finset.sum_range_succ, if_neg hne]
      have h2 : (∑ j in Finset.range (n + 1), if j = n then 0 else E n j)
          = ∑ j in Finset.range n, E n j := by
        rw [Finset.sum_range_succ, if_pos rfl, add_zero]
        apply Finset.sum_congr rfl
        intro j hj
        have hne : j ≠ n := by
          have := Finset.mem_range.mp hj
          omega
        rw [if_neg hne]
      rw [Finset.sum_congr rfl h1, Finset.sum_add_distrib, h2]
      have h3 : ∑ j in Finset.range n, E n j = ∑ j in Finset.range n, E j n :=
        Finset.sum_congr rfl fun j _ => hE n j
      rw [h3]
      ring
  -- Replacing the location at `k` changes the total of the pairwise distances by `T_k -
  -- S_k`.
  have h_specPairwiseTotal_set : ∀ (locs : List (V ℝ)) (k : Nat), k < locs.length → ∀ (o : V ℝ),
        specPairwiseTotal (locs.set k o)
              = specPairwiseTotal locs - specSpreadS locs k + specSpreadT locs o k := by
    intro locs k hk o
    have hS : specSpreadS locs k = ∑ b in Finset.range locs.length, if b = k then 0
        else (locs.getD k default).GreatCircleDistance (locs.getD b default) :=
      spread_sums_facts.1 locs k
    have hT : specSpreadT locs o k = ∑ b in Finset.range locs.length, if b = k then 0
        else o.GreatCircleDistance (locs.getD b default) := by
      unfold specSpreadT
      exact foldl_filter_ne_sum _ k locs.length
    have h1 := h_sum_pairs_symm
      (fun i j => (locs.getD i default).GreatCircleDistance (locs.getD j default))
      (fun i j => V.greatCircleDistance_comm _ _) locs.length
    have h2 := h_sum_pairs_symm
      (fun i j => ((locs.set k o).getD i default).GreatCircleDistance
        ((locs.set k o).getD j default))
      (fun i j => V.greatCircleDistance_comm _ _) locs.length
    have e1 := h_specPairwiseTotal_eq locs
    have e2 := h_specPairwiseTotal_eq (locs.set k o)
    rw [List.length_set] at e2
    simp only at h1 h2
    have g1 : ∀ a, (locs.set k o).getD a default = if a = k then o else locs.getD a default := by
      intro a
      rw [getD_set_vec]
      simp [hk]
    have hdiff : (∑ i in Finset.range locs.length, ∑ j in Finset.range locs.length,
          if j = i then 0 else ((locs.set k o).getD i default).GreatCircleDistance
            ((locs.set k o).getD j default))
        - (∑ i in Finset.range locs.length, ∑ j in Finset.range locs.length,
          if j = i then 0 else (locs.getD i default).GreatCircleDistance (locs.getD j default))
        = 2 * (specSpreadT locs o k - specSpreadS locs k) := by
      rw [← Finset.sum_sub_distrib]
      have hrow : ∀ i ∈ Finset.range locs.length,
          ((∑ j in Finset.range locs.length,
            if j = i then 0 else ((locs.set k o).getD i default).GreatCircleDistance
              ((locs.set k o).getD j default))
          - ∑ j in Finset.range locs.length,
            if j = i then 0 else (locs.getD i default).GreatCircleDistance (locs.getD j default))
          = (if i = k then specSpreadT locs o k - specSpreadS locs k else 0)
            + (if i = k then 0 else
                o.GreatCircleDistance (locs.getD i default)
                  - (locs.getD k default).GreatCircleDistance (locs.getD i default)) := by
        intro i hi
        rw [← Finset.sum_sub_distrib]
        by_cases hik : i = k
        · rw [hik, if_pos rfl, if_pos rfl, add_zero, hS, hT, ← Finset.sum_sub_distrib]
          apply Finset.sum_congr rfl
          intro j _
          by_cases hjk : j = k
          · simp [hjk]
          · simp only [if_neg hjk, g1, if_true]
        · rw [if_neg hik, if_neg hik, zero_add]
          rw [Finset.sum_eq_single k]
          · have hki : k ≠ i := fun h => hik h.symm
            simp only [if_neg hki, g1, if_neg hik, if_true]
            rw [V.greatCircleDistance_comm (locs.getD i default) o,
              V.greatCircleDistance_comm (locs.getD i default) (locs.getD k default)]
          · intro j _ hjk
            simp only [g1, if_neg hik, if_neg hjk, sub_self]
          · intro hkn
            exact absurd (Finset.mem_range.mpr hk) hkn
      rw [Finset.sum_congr rfl hrow, Finset.sum_add_distrib, Finset.sum_ite_eq',
        if_pos (Finset.mem_range.mpr hk)]
      have hcol : (∑ i in Finset.range locs.length, if i = k then 0 else
            o.GreatCircleDistance (locs.getD i default)
              - (locs.getD k default).GreatCircleDistance (locs.getD i default))
          = specSpreadT locs o k - specSpreadS locs k := by
        rw [hS, hT, ← Finset.sum_sub_distrib]
        apply Finset.sum_congr rfl
        intro i _
        by_cases hik : i = k
        · simp [hik]
        · simp [hik]
      rw [hcol]
      ring
    rw [e1, e2]
    linarith
  exact ⟨h_specPairwiseTotal_eq, h_sum_pairs_symm, h_specPairwiseTotal_set⟩

/-- C39. Max-spread `AddPeer` on a full list never makes the spread smaller:
for a full list and a candidate `o` that is not among the peers the call
returns; if it returns true the total of the pairwise great circle distances
among the stored locations is strictly greater after the call than before; and
it returns false exactly when putting `o` in the place of any single peer
would not make that total strictly greater (the list is then unchanged). -/
theorem maxSpread_never_decreases (p : basePeerList ℝ) (loc : V ℝ) (o : NodeId) (oLoc : V ℝ)
    (hfull : p.maxPeers ≤ p.peers.length) (hnew : p.uniqueIdx o = none)
    (hlen : p.peerLocations.length = p.peers.length) :
    (∃ r, maximizePeerSpread.AddPeer p loc o oLoc = some r) ∧
    (∀ q, maximizePeerSpread.AddPeer p loc o oLoc = some (q, true) →
      specPairwiseTotal p.peerLocations < specPairwiseTotal q.peerLocations) ∧
    (∀ q, maximizePeerSpread.AddPeer p loc o oLoc = some (q, false) → q = p) ∧
    ((∃ q, maximizePeerSpread.AddPeer p loc o oLoc = some (q, false)) ↔
      ∀ i, i < p.peers.length →
        ¬ specPairwiseTotal p.peerLocations
          < specPairwiseTotal (p.peerLocations.set i oLoc)) := by
  obtain ⟨h0, h1⟩ := spreadPick_spec p.peerLocations oLoc
  rw [hlen] at h0 h1
  have hnf : ¬ p.peers.length < p.maxPeers := by omega
  have hnl : ¬ p.peerLocations.length < p.peers.length := by omega
  have htot : ∀ i, i < p.peers.length →
      (specPairwiseTotal p.peerLocations < specPairwiseTotal (p.peerLocations.set i oLoc) ↔
        specSpreadS p.peerLocations i < specSpreadT p.peerLocations oLoc i) := by
    intro i hi
    rw [pairwiseTotal_facts.2.2 p.peerLocations i (by omega) oLoc]
    constructor <;> intro h <;> linarith
  cases hP : spreadPick (spreadDists p.peerLocations p.peers.length oLoc).1
      (spreadDists p.peerLocations p.peers.length oLoc).2.1
      (spreadDists p.peerLocations p.peers.length oLoc).2.2 with
  | none =>
    have hres : maximizePeerSpread.AddPeer p loc o oLoc = some (p, false) := by
      simp only [maximizePeerSpread.AddPeer, hnew, hnf, hnl, if_false, hP]
    refine ⟨⟨_, hres⟩, fun q hq => ?_, fun q hq => ?_, fun _ i hi h => ?_, fun _ => ⟨p, hres⟩⟩
    · rw [hres] at hq
      simp at hq
    · rw [hres] at hq
      simp only [Option.some.injEq, Prod.mk.injEq, and_true] at hq
      exact hq.symm
    · exact h0 hP i hi ((htot i hi).mp h)
  | some i =>
    obtain ⟨hi, hel, -⟩ := h1 i hP
    have hget : p.peers.get? i = some (p.peers.get ⟨i, hi⟩) := List.get?_eq_get hi
    have hil : i < p.peerLocations.length := by omega
    have hres : maximizePeerSpread.AddPeer p loc o oLoc = some ({ p with
        uniqueIdx := Function.update (Function.update p.uniqueIdx (p.peers.get ⟨i, hi⟩) none) o
          (some i)
        peers := p.peers.set i o
        peerLocations := p.peerLocations.set i oLoc }, true) := by
      simp only [maximizePeerSpread.AddPeer, hnew, hnf, hnl, if_false, hP,
        basePeerList.replaceAt, hget, hil, if_true, Option.map_some']
    refine ⟨⟨_, hres⟩, fun q hq => ?_, fun q hq => ?_, fun h => ?_, fun h => ?_⟩
    · rw [hres] at hq
      simp only [Option.some.injEq, Prod.mk.injEq, and_true] at hq
      rw [← hq]
      exact (htot i hi).mpr hel
    · rw [hres] at hq
      simp at hq
    · obtain ⟨q, hq⟩ := h
      rw [hres] at hq
      simp at hq
    · exact absurd ((htot i hi).mpr hel) (h i hi)

/-- Witness for C39: the full list `axesX` and the candidate 4 at
`(0.6, 0.8, 0)`. -/
theorem maxSpread_never_decreases_witness :
    (axesX : basePeerList ℝ).maxPeers ≤ (axesX : basePeerList ℝ).peers.length ∧
    (axesX : basePeerList ℝ).uniqueIdx 4 = none ∧
    (axesX : basePeerList ℝ).peerLocations.length = (axesX : basePeerList ℝ).peers.length ∧
    ∃ r, maximizePeerSpread.AddPeer (axesX : basePeerList ℝ) ⟨1, 0, 0⟩ 4 ⟨0.6, 0.8, 0⟩ = some r :=
  ⟨by simp [axesX], by simp [axesX, Function.update], by simp [axesX],
    (maxSpread_never_decreases axesX ⟨1, 0, 0⟩ 4 ⟨0.6, 0.8, 0⟩ (by simp [axesX])
      (by simp [axesX, Function.update]) (by simp [axesX])).1⟩
/-! ### The descent of the smooth phase -/

theorem getD_nonneg (c : List ℝ) (hc : ∀ w ∈ c, 0 < w) (j : Nat) : 0 ≤ c.getD j 0 := by
  rw [List.getD_eq_getElem?_getD, ← List.get?_eq_getElem?]
  rcases h : c.get? j with _ | w
  · simp
  · simp only [Option.getD_some]
    exact le_of_lt (hc w (List.get?_mem h))

set_option maxHeartbeats 4000000 in
/-- The descent of the smooth phase: `geodesicDistances` computes `F`; the norm is
not negative; with positive weights the step length of Step 3 is not negative;
an accepted step of the inner loop meets the Armijo test; and the outer loop
ends with the sentinel or with a point whose value of `F` is not above that of
the start. -/
theorem descent_facts :
    (∀ (x : V ℝ) (a : List (V ℝ)) (c : List ℝ),
        (geodesicDistances x a c).1 = specF x a c) ∧
    (∀ (v : V ℝ),
        0 ≤ v.Norm) ∧
    (∀ (xk : V ℝ) (a : List (V ℝ)) (c : List ℝ), (∀ w ∈ c, 0 < w) →
        0 ≤ alphax xk a c) ∧
    (∀ (locs : List (V ℝ)) (c : List ℝ) (xk dk : V ℝ) (fxk : ℝ) (n alphaIter : Nat) (alphak prevFxn : ℝ) (xn : V ℝ) (a1 : ℝ),
      0 ≤ alphak →
      armijoLoop locs c xk dk fxk n alphaIter alphak prevFxn = .accepted xn a1 →
        0 ≤ a1 ∧ xn = (xk.Add (dk.MulScalar a1)).DivScalar (xk.Add (dk.MulScalar a1)).Norm ∧
            (geodesicDistances xn locs c).1 ≤ fxk - 0.1 * a1 * dk.Norm * dk.Norm) ∧
    (∀ (locs : List (V ℝ)) (c : List ℝ) (tol : ℝ), (∀ w ∈ c, 0 < w) →
      ∀ (n k : Nat) (xk : V ℝ) (alphak prevFxk : ℝ),
        smoothLoop locs c tol n k xk alphak prevFxk = (noAnswer, 0, 0, 0) ∨
            ((smoothLoop locs c tol n k xk alphak prevFxk).2.1
                = (geodesicDistances (smoothLoop locs c tol n k xk alphak prevFxk).1 locs c).1 ∧
              (smoothLoop locs c tol n k xk alphak prevFxk).2.2.2 = (locs.length : Int) ∧
              (geodesicDistances (smoothLoop locs c tol n k xk alphak prevFxk).1 locs c).1
                ≤ (geodesicDistances xk locs c).1)) := by
  have h_geodesicDistances_eq_specF : ∀ (x : V ℝ) (a : List (V ℝ)) (c : List ℝ),
        (geodesicDistances x a c).1 = specF x a c := by
    intro x a c
    have h := foldl_enumFrom_sum (fun b : ℝ × ℝ => b.1)
      (fun acc ie => (acc.1 + x.GreatCircleDistance ie.2 * c.getD ie.1 0,
        acc.2 + x.GreatCircleDistance ie.2 * c.getD ie.1 0
          * (x.GreatCircleDistance ie.2 * c.getD ie.1 0)))
      (fun j e => c.getD j 0 * x.GreatCircleDistance e)
      (by intro b j e; simp [mul_comm]) a 0 (0, 0)
    simp only [zero_add] at h
    unfold specF
    rw [foldl_range_add, zero_add]
    exact h
  have h_V_norm_nonneg : ∀ (v : V ℝ),
        0 ≤ v.Norm := by
    intro v
    simp only [V.Norm, sqrt_real]
    exact Real.sqrt_nonneg _
  -- With positive weights the step length of Step 3 is not negative.
  have h_alphax_nonneg : ∀ (xk : V ℝ) (a : List (V ℝ)) (c : List ℝ), (∀ w ∈ c, 0 < w) →
        0 ≤ alphax xk a c := by
    intro xk a c hc
    unfold alphax
    apply div_nonneg zero_le_one
    refine foldl_invariant (fun s : ℝ => 0 ≤ s) _ _ (fun s jaj _ hs => ?_) 0 (le_refl _)
    simp only
    split_ifs
    · exact hs
    · exact add_nonneg hs (div_nonneg (getD_nonneg c hc _) (h_V_norm_nonneg _))
  -- An accepted step of the inner loop meets the Armijo test with the step length it
  -- returns, which is not negative when the first step length is not.
  have h_armijoLoop_accepted : ∀ (locs : List (V ℝ)) (c : List ℝ) (xk dk : V ℝ) (fxk : ℝ) (n alphaIter : Nat) (alphak prevFxn : ℝ) (xn : V ℝ) (a1 : ℝ),
      0 ≤ alphak →
      armijoLoop locs c xk dk fxk n alphaIter alphak prevFxn = .accepted xn a1 →
        0 ≤ a1 ∧ xn = (xk.Add (dk.MulScalar a1)).DivScalar (xk.Add (dk.MulScalar a1)).Norm ∧
            (geodesicDistances xn locs c).1 ≤ fxk - 0.1 * a1 * dk.Norm * dk.Norm := by
    intro locs c xk dk fxk n alphaIter alphak prevFxn xn a1 h0 h
    induction n generalizing alphaIter alphak prevFxn with
    | zero => simp [armijoLoop] at h
    | succ n ih =>
      simp only [armijoLoop] at h
      have h5 : 0 ≤ alphak * 0.5 := mul_nonneg h0 (by norm_num)
      split_ifs at h with h1 h2 h3
      · injection h with e1 e2
        subst e1 e2
        exact ⟨h0, rfl, h1⟩
      · exact ih _ _ _ h5 h
      · exact ih _ _ _ h5 h
  -- The outer loop of the smooth phase ends with the sentinel, or with a point, its `F`
  -- value and the number of locations, and the `F` value is at most that of the point it
  -- started from.
  have h_smoothLoop_descent : ∀ (locs : List (V ℝ)) (c : List ℝ) (tol : ℝ), (∀ w ∈ c, 0 < w) →
      ∀ (n k : Nat) (xk : V ℝ) (alphak prevFxk : ℝ),
        smoothLoop locs c tol n k xk alphak prevFxk = (noAnswer, 0, 0, 0) ∨
            ((smoothLoop locs c tol n k xk alphak prevFxk).2.1
                = (geodesicDistances (smoothLoop locs c tol n k xk alphak prevFxk).1 locs c).1 ∧
              (smoothLoop locs c tol n k xk alphak prevFxk).2.2.2 = (locs.length : Int) ∧
              (geodesicDistances (smoothLoop locs c tol n k xk alphak prevFxk).1 locs c).1
                ≤ (geodesicDistances xk locs c).1) := by
    intro locs c tol hc n k xk alphak prevFxk
    induction n generalizing k xk alphak prevFxk with
    | zero => left; simp [smoothLoop]
    | succ n ih =>
      simp only [smoothLoop]
      split_ifs with h1 h2
      · right; exact ⟨rfl, rfl, le_refl _⟩
      · right; exact ⟨rfl, rfl, le_refl _⟩
      · split
        · rename_i xn a1 heq
          obtain ⟨ha1, -, hle⟩ := h_armijoLoop_accepted locs c xk (dx xk locs c) _ _ _ _ _ xn a1
            (h_alphax_nonneg xk locs c hc) heq
          have hstep : (geodesicDistances xn locs c).1 ≤ (geodesicDistances xk locs c).1 := by
            have h3 : 0 ≤ 0.1 * a1 * (dx xk locs c).Norm * (dx xk locs c).Norm :=
              mul_nonneg (mul_nonneg (mul_nonneg (by norm_num) ha1) (h_V_norm_nonneg _))
                (h_V_norm_nonneg _)
            linarith
          rcases ih (k + 1) xn a1 (geodesicDistances xk locs c).1 with h | ⟨e1, e2, e3⟩
          · exact Or.inl h
          · exact Or.inr ⟨e1, e2, le_trans e3 hstep⟩
        · right; exact ⟨rfl, rfl, le_refl _⟩
        · exact ih _ xk _ _
  exact ⟨h_geodesicDistances_eq_specF, h_V_norm_nonneg, h_alphax_nonneg, h_armijoLoop_accepted,
    h_smoothLoop_descent⟩

/-- C40. The descent property of the smooth phase over the exact reals, for
positive weights: if `solveNonEuclideanMultifacilityLocationSmooth` returns a
point `x` other than the sentinel, with the value `f` and the count `n`, then
`f = F(x) = Σ_j c_j · gcd(x, a_j)`, `n = len(a)` and `F(x) ≤ F(x0)`. Every
step `x_n` that the inner loop accepts from `x_k`, with the step length
`α_k ≥ 0` it ends with, has `F(x_n) ≤ F(x_k) - 0.1 · α_k · ||d_k||²`, so that
`F` does not grow from one outer iteration to the next. -/
theorem smooth_descent (a : List (V ℝ)) (c : List ℝ) (tol : ℝ) (x0 : V ℝ) (alpha0 : ℝ)
    (hc : ∀ w ∈ c, 0 < w)
    (hres : (solveNonEuclideanMultifacilityLocationSmooth a c tol x0 alpha0).1.Equals noAnswer
      = false) :
    ((solveNonEuclideanMultifacilityLocationSmooth a c tol x0 alpha0).2.1
        = specF (solveNonEuclideanMultifacilityLocationSmooth a c tol x0 alpha0).1 a c ∧
      (solveNonEuclideanMultifacilityLocationSmooth a c tol x0 alpha0).2.2.2
        = (a.length : Int) ∧
      specF (solveNonEuclideanMultifacilityLocationSmooth a c tol x0 alpha0).1 a c
        ≤ specF x0 a c) ∧
    ∀ (xk xn : V ℝ) (ak : ℝ),
      armijoLoop a c xk (dx xk a c) (geodesicDistances xk a c).1 (maxAlpha - 1) 1
          (alphax xk a c) 0 = .accepted xn ak →
        0 ≤ ak ∧
        specF xn a c ≤ specF xk a c - 0.1 * ak * (dx xk a c).Norm ^ 2 ∧
        specF xn a c ≤ specF xk a c := by
  constructor
  · rcases descent_facts.2.2.2.2 a c tol hc (maxK - 1) 1 x0 alpha0 0 with h | ⟨e1, e2, e3⟩
    · exfalso
      have : (solveNonEuclideanMultifacilityLocationSmooth a c tol x0 alpha0).1 = noAnswer := by
        unfold solveNonEuclideanMultifacilityLocationSmooth
        rw [h]
      rw [this] at hres
      simp [V.Equals] at hres
    · simp only [descent_facts.1] at e1 e3
      exact ⟨e1, e2, e3⟩
  · intro xk xn ak h
    obtain ⟨h1, -, h3⟩ := descent_facts.2.2.2.1 a c xk (dx xk a c) _ _ _ _ _ xn ak
      (descent_facts.2.2.1 xk a c hc) h
    simp only [descent_facts.1] at h3
    have h4 : 0 ≤ 0.1 * ak * (dx xk a c).Norm ^ 2 :=
      mul_nonneg (mul_nonneg (by norm_num) h1) (sq_nonneg _)
    have h5 : 0.1 * ak * (dx xk a c).Norm * (dx xk a c).Norm
        = 0.1 * ak * (dx xk a c).Norm ^ 2 := by ring
    rw [h5] at h3
    exact ⟨h1, h3, by linarith⟩

/-! ### The conservation of the data -/

/-- Exchanging the entries of two places permutes a list. -/
theorem set_set_perm {α : Type} [DecidableEq α] (l : List α) (i j : Nat) (x y : α)
    (hil : i < l.length) (hjl : j < l.length) (hgi : l[i] = x) (hgj : l[j] = y)
    (hij : j ≠ i) : ((l.set j x).set i y).Perm l := by
  rw [List.perm_iff_count]
  intro b
  have hil2 : i < (l.set j x).length := by rw [List.length_set]; exact hil
  have c1 := List.count_set y b (l.set j x) i hil2
  have c2 := List.count_set x b l j hjl
  rw [List.getElem_set_ne hij, hgi] at c1
  rw [hgj] at c2
  rw [c1, c2]
  have hmem : (if (y == b) = true then 1 else 0) ≤ l.count b := by
    by_cases hb : y = b
    · subst hb
      simp only [beq_self_eq_true, if_true]
      apply List.count_pos_iff.mpr
      rw [← hgj]
      exact List.getElem_mem _
    · have h1 : (y == b) = false := by
        simp only [beq_eq_false_iff_ne, ne_eq]
        exact hb
      simp [h1]
  omega

/-- Moving the descriptor of slot `i` to the nil slot `j` permutes the
slots. -/
theorem swap_slots_perm (data : List (Option (Data F))) (i j : Nat) (d : Data F)
    (hi : data.get? i = some (some d)) (hj : data.get? j = some none) :
    ((data.set j (some d)).set i none).Perm data := by
  classical
  have hil : i < data.length := by
    by_contra hcon
    rw [List.get?_eq_none.mpr (by omega)] at hi
    exact Option.noConfusion hi
  have hjl : j < data.length := by
    by_contra hcon
    rw [List.get?_eq_none.mpr (by omega)] at hj
    exact Option.noConfusion hj
  have hgi : data[i] = some d := by
    rw [List.get?_eq_getElem?, List.getElem?_eq_getElem hil] at hi
    exact Option.some.inj hi
  have hgj : data[j] = none := by
    rw [List.get?_eq_getElem?, List.getElem?_eq_getElem hjl] at hj
    exact Option.some.inj hj
  have hij : j ≠ i := by
    intro e
    subst e
    rw [hgi] at hgj
    exact Option.noConfusion hgj
  exact set_set_perm data i j (some d) none hil hjl hgi hgj hij

theorem basePeerList.findLoop_mem (p : basePeerList F) (loc : V F)
    (data : List (Option (Data F))) (indices : List Nat) (offset fuel : Nat) :
    ∀ (i i1 : Nat) (dataIdx : Int), p.findLoop loc data indices offset fuel i = some (i1, dataIdx) →
      0 ≤ dataIdx → dataIdx.toNat ∈ indices := by
  induction fuel with
  | zero => intro i i1 dataIdx h; simp [basePeerList.findLoop] at h
  | succ fuel ih =>
    intro i i1 dataIdx h h0
    simp only [basePeerList.findLoop] at h
    split at h
    · exact Option.noConfusion h
    · rename_i d hd
      simp only [Option.some.injEq, Prod.mk.injEq] at h
      rw [← h.2]
      simp only [Int.toNat_ofNat]
      exact (basePeerList.firstCloser_some p loc data i indices d hd).1
    · split_ifs at h
      all_goals first
        | exact ih _ _ _ h h0
        | (simp only [Option.some.injEq, Prod.mk.injEq] at h
           rw [← h.2] at h0
           exact absurd h0 (by decide))

theorem basePeerList.find_mem (p : basePeerList F) (g : Rng F) (k : Nat) (loc : V F)
    (data : List (Option (Data F))) (indices : List Nat) (peer : Option NodeId) (dataIdx : Int)
    (k1 : Nat)
    (h : p.RandomlyFindPeerCloserToData g k loc data indices = some ((peer, dataIdx), k1))
    (h0 : 0 ≤ dataIdx) : dataIdx.toNat ∈ indices := by
  simp only [basePeerList.RandomlyFindPeerCloserToData] at h
  split_ifs at h with he
  · simp only [Option.some.injEq, Prod.mk.injEq] at h
    rw [← h.1.2] at h0
    exact absurd h0 (by decide)
  · split at h
    · exact Option.noConfusion h
    · split at h
      · exact Option.noConfusion h
      · rename_i i dIdx hfind
        split at h
        · exact Option.noConfusion h
        · simp only [Option.some.injEq, Prod.mk.injEq] at h
          rw [← h.1.2]
          rw [← h.1.2] at h0
          exact basePeerList.findLoop_mem p loc data indices _ _ _ _ _ hfind h0

theorem PeerList.findCloser_mem (pl : PeerList F) (g : Rng F) (k : Nat) (loc : V F)
    (data : List (Option (Data F))) (indices : List Nat) (peer : Option NodeId) (dataIdx : Int)
    (k1 : Nat)
    (h : pl.RandomlyFindPeerCloserToData g k loc data indices = some ((peer, dataIdx), k1))
    (h0 : 0 ≤ dataIdx) : dataIdx.toNat ∈ indices := by
  cases pl with
  | maximizePeerSpread p => exact basePeerList.find_mem p g k loc data indices peer dataIdx k1 h h0
  | closestNeighbors p => exact basePeerList.find_mem p g k loc data indices peer dataIdx k1 h h0
  | maxSpreadThenClosestNeighbors M C =>
    simp only [PeerList.RandomlyFindPeerCloserToData] at h
    split_ifs at h with h1 h2
    · split at h
      · exact Option.noConfusion h
      · rename_i r k2 hM
        split_ifs at h with h3
        · exact basePeerList.find_mem C g k2 loc data indices peer dataIdx k1 h h0
        · simp only [Option.some.injEq, Prod.mk.injEq] at h
          obtain ⟨e1, e2⟩ := h
          subst e1 e2
          exact basePeerList.find_mem M g k loc data indices _ _ _ hM h0
    · exact basePeerList.find_mem M g k loc data indices peer dataIdx k1 h h0
    · exact basePeerList.find_mem C g k loc data indices peer dataIdx k1 h h0

theorem World.addPeer_dataCache (w w1 : World F) (n o : NodeId) (h : w.addPeer n o = some w1) :
    w1.DataCache = w.DataCache :=
  (World.addPeer_sameButPeers w w1 n o h).1

/-- C37. The conservation of the data in `Node.exchangeData`: whenever the
call returns, the non-nil descriptors of the shared data array are the same
multiset as before. If the transfer is accepted, the chosen datum has moved
from the slot `dataIdx` of the owner `n`, which is nil afterwards, to a slot
`j` of the peer `o` that was nil before, and no other slot has changed. In
every other outcome (no peers, no closer peer, a peer that is not in Wait or
Join, a rejection for size or for slots) every slot is unchanged. -/
theorem exchangeData_conserves (fuel : Nat) (g : Rng F) (k : Nat) (w w1 : World F)
    (n : NodeId) (msg : ExchangeMsg) (k1 : Nat)
    (h : w.exchangeData fuel g k n = some ((w1, msg), k1)) :
    w1.DataCache.reduceOption.Perm w.DataCache.reduceOption ∧
    (∀ dataIdx, msg = .exchanged dataIdx →
      ∃ nNode o oNode d j, w.heap.get? n = some nNode ∧ w.heap.get? o = some oNode ∧
        dataIdx ∈ nNode.DataIndices ∧ j ∈ oNode.DataIndices ∧
        w.DataCache.get? dataIdx = some (some d) ∧ w.DataCache.get? j = some none ∧
        w1.DataCache = (w.DataCache.set j (some d)).set dataIdx none ∧
        w1.DataCache.get? j = some (some d) ∧ w1.DataCache.get? dataIdx = some none) ∧
    ((∀ dataIdx, msg ≠ .exchanged dataIdx) → w1.DataCache = w.DataCache) := by
  have unchanged : ∀ (w2 : World F) (m : ExchangeMsg), w2.DataCache = w.DataCache →
      (∀ dataIdx, m ≠ .exchanged dataIdx) →
      w2.DataCache.reduceOption.Perm w.DataCache.reduceOption ∧
      (∀ dataIdx, m = .exchanged dataIdx →
        ∃ nNode o oNode d j, w.heap.get? n = some nNode ∧ w.heap.get? o = some oNode ∧
          dataIdx ∈ nNode.DataIndices ∧ j ∈ oNode.DataIndices ∧
          w.DataCache.get? dataIdx = some (some d) ∧ w.DataCache.get? j = some none ∧
          w2.DataCache = (w.DataCache.set j (some d)).set dataIdx none ∧
          w2.DataCache.get? j = some (some d) ∧ w2.DataCache.get? dataIdx = some none) ∧
      ((∀ dataIdx, m ≠ .exchanged dataIdx) → w2.DataCache = w.DataCache) := by
    intro w2 m hd hm
    refine ⟨by rw [hd], fun dataIdx e => absurd e (hm dataIdx), fun _ => hd⟩
  simp only [World.exchangeData] at h
  split at h
  · exact Option.noConfusion h
  · rename_i nNode hn
    split at h
    · exact Option.noConfusion h
    · rename_i peer dataIdx k2 hfind
      split_ifs at h with c1 c2
      · simp only [Option.some.injEq, Prod.mk.injEq] at h
        rw [← h.1.1, ← h.1.2]
        exact unchanged w _ rfl (fun _ e => ExchangeMsg.noConfusion e)
      · simp only [Option.some.injEq, Prod.mk.injEq] at h
        rw [← h.1.1, ← h.1.2]
        exact unchanged w _ rfl (fun _ e => ExchangeMsg.noConfusion e)
      · have hidx : 0 ≤ dataIdx := not_lt.mp c2
        have hmemIdx : dataIdx.toNat ∈ nNode.DataIndices :=
          PeerList.findCloser_mem nNode.peers g k nNode.Location w.DataCache nNode.DataIndices peer
            dataIdx k2 hfind hidx
        split at h
        · exact Option.noConfusion h
        · rename_i o
          split at h
          · exact Option.noConfusion h
          · rename_i oNode ho
            split_ifs at h with c3
            · split at h
              · exact Option.noConfusion h
              · exact Option.noConfusion h
              · rename_i d hd
                split at h
                · exact Option.noConfusion h
                · rename_i oNode1 data1 ok k3 hrecv
                  split at h
                  · exact Option.noConfusion h
                  · rename_i w2 msg2 k4 hgiven
                    split at h
                    · exact Option.noConfusion h
                    · rename_i w3 h3
                      split at h
                      · exact Option.noConfusion h
                      · rename_i w4 h4
                        simp only [Option.some.injEq, Prod.mk.injEq] at h
                        have hdc : w4.DataCache = w2.DataCache := by
                          rw [World.addPeer_dataCache w3 w4 n o h4,
                            World.addPeer_dataCache w2 w3 o n h3]
                        rw [← h.1.1, ← h.1.2]
                        rcases receive_cases fuel g k2 w.DataCache oNode d oNode1 data1 ok k3
                          hrecv with ⟨hok, _, hdata, _, _⟩ | ⟨hok, _, j, hfree, hdata, _⟩
                        · subst hok
                          simp only [Bool.false_eq_true, if_false, Option.some.injEq,
                            Prod.mk.injEq] at hgiven
                          obtain ⟨e1, e2, _⟩ := hgiven
                          rw [← e2]
                          refine unchanged w4 _ ?_ (fun _ e => ExchangeMsg.noConfusion e)
                          rw [hdc, ← e1]
                          exact hdata
                        · subst hok
                          simp only [if_true] at hgiven
                          split at hgiven
                          · exact Option.noConfusion hgiven
                          · rename_i nNode1 hn1
                            split at hgiven
                            · exact Option.noConfusion hgiven
                            · rename_i nNode2 data2 k5 hgive
                              simp only [Option.some.injEq, Prod.mk.injEq] at hgiven
                              obtain ⟨e1, e2, _⟩ := hgiven
                              have hdata2 : data2 = data1.set dataIdx.toNat none := by
                                simp only [Node.exchangeDataGive] at hgive
                                split_ifs at hgive
                                split at hgive
                                · exact Option.noConfusion hgive
                                · simp only [Option.some.injEq, Prod.mk.injEq] at hgive
                                  exact hgive.1.2.symm
                              obtain ⟨pre, post, hsplit, _, hjnone⟩ :=
                                firstFree_some w.DataCache oNode.DataIndices j hfree
                              have hjmem : j ∈ oNode.DataIndices := by
                                rw [hsplit]; simp
                              have hw4 : w4.DataCache
                                  = (w.DataCache.set j (some d)).set dataIdx.toNat none := by
                                rw [hdc, ← e1, hdata2, hdata]
                              have hjl : j < w.DataCache.length := by
                                by_contra hcon
                                rw [List.get?_eq_none.mpr (by omega)] at hjnone
                                exact Option.noConfusion hjnone
                              have hil : dataIdx.toNat < w.DataCache.length := by
                                by_contra hcon
                                rw [List.get?_eq_none.mpr (by omega)] at hd
                                exact Option.noConfusion hd
                              have hne : j ≠ dataIdx.toNat := by
                                intro e
                                rw [e, hd] at hjnone
                                simp at hjnone
                              have hg1 : w4.DataCache.get? j = some (some d) := by
                                rw [hw4, List.get?_eq_getElem?,
                                  List.getElem?_set_ne (fun e => hne e.symm),
                                  List.getElem?_set_self hjl]
                              have hg2 : w4.DataCache.get? dataIdx.toNat = some none := by
                                rw [hw4, List.get?_eq_getElem?, List.getElem?_set_self
                                  (by rw [List.length_set]; exact hil)]
                              rw [← e2]
                              refine ⟨?_, fun di hdi => ?_, fun hno => ?_⟩
                              · rw [hw4]
                                exact (swap_slots_perm w.DataCache dataIdx.toNat j d hd
                                  hjnone).filterMap id
                              · have : di = dataIdx.toNat := by
                                  injection hdi with e
                                  exact e.symm
                                subst this
                                exact ⟨nNode, o, oNode, d, j, hn, ho, hmemIdx, hjmem, hd, hjnone,
                                  hw4, hg1, hg2⟩
                              · exact absurd rfl (hno dataIdx.toNat)
            · simp only [Option.some.injEq, Prod.mk.injEq] at h
              rw [← h.1.1, ← h.1.2]
              exact unchanged w _ rfl (fun _ e => ExchangeMsg.noConfusion e)

/-! ### Three orthogonal points -/

set_option maxHeartbeats 4000000 in
/-- The three orthogonal points with weights 1: every location has the value `π`
and none passes the non-smooth test; the sampling loop of Step 2 returns at,
and only at, the first candidate below the bound; the non-smooth phase is that
loop with the bound `π`; the points are unit vectors; and once Step 2 has
found the start `x0`, the solver returns the error or a unit vector whose `F`
value is at most that of `x0`. -/
theorem threeOrthogonal_facts :
    ((List.range 3).map (fun j =>
              (geodesicDistancesFromI j (threeOrthogonalPoints : List (V ℝ)) [1, 1, 1]).1)
            = [Real.pi, Real.pi, Real.pi] ∧
          (∀ t, t < 3 →
            optimalityConditionFromI t (threeOrthogonalPoints : List (V ℝ)) [1, 1, 1] 0.0001
              = false) ∧
          ∀ fsqaj, nonSmoothStep1 (threeOrthogonalPoints : List (V ℝ)) [1, 1, 1] 0.0001
              [Real.pi, Real.pi, Real.pi] fsqaj (threeOrthogonalPoints : List (V ℝ)).enum 0
            = .inr 2) ∧
    (∀ (g : Rng ℝ) (locs : List (V ℝ)) (c faj : List ℝ) (at0idx : Nat) (m : ℝ),
      faj.get? at0idx = some m → ∀ (fuel : Nat),
        ∀ (k j : Nat), j < fuel →
              (∀ i, i < j → ¬ specF (RandomVector g (k + 3 * i)).1 locs c < m) →
              specF (RandomVector g (k + 3 * j)).1 locs c < m →
              nonSmoothStep2 g locs c faj at0idx fuel k
                = some (⟨noAnswer, (RandomVector g (k + 3 * j)).1, 0.001, 0, 0, 0⟩,
                    k + 3 * (j + 1))) ∧
    (∀ (g : Rng ℝ) (locs : List (V ℝ)) (c faj : List ℝ) (at0idx : Nat) (fuel : Nat),
        ∀ (k : Nat) (r : NonSmooth ℝ) (k1 : Nat),
              nonSmoothStep2 g locs c faj at0idx fuel k = some (r, k1) →
              ∃ j m, j < fuel ∧ faj.get? at0idx = some m ∧
                (∀ i, i < j → ¬ specF (RandomVector g (k + 3 * i)).1 locs c < m) ∧
                specF (RandomVector g (k + 3 * j)).1 locs c < m ∧
                r = ⟨noAnswer, (RandomVector g (k + 3 * j)).1, 0.001, 0, 0, 0⟩ ∧
                k1 = k + 3 * (j + 1)) ∧
    (∀ (fuel : Nat) (g : Rng ℝ) (k : Nat),
        solveNonEuclideanMultifacilityLocationNonSmooth fuel g k
                (threeOrthogonalPoints : List (V ℝ)) [1, 1, 1] 0.0001
              = nonSmoothStep2 g (threeOrthogonalPoints : List (V ℝ)) [1, 1, 1]
                  [Real.pi, Real.pi, Real.pi] 2 fuel k) ∧
    (∀ e ∈ (threeOrthogonalPoints : List (V ℝ)), e.Norm = 1) ∧
    (∀ (fuel : Nat) (g : Rng ℝ) (k k1 : Nat) (x0 : V ℝ), x0.Norm = 1 →
      nonSmoothStep2 g (threeOrthogonalPoints : List (V ℝ)) [1, 1, 1] [Real.pi, Real.pi, Real.pi] 2 fuel k = some (⟨noAnswer, x0, 0.001, 0, 0, 0⟩, k1) →
        ∃ x err, SolveNonEuclideanMultifacilityLocation fuel g k
                (threeOrthogonalPoints : List (V ℝ)) [1, 1, 1] 0.0001 0.0001 = some ((x, err), k1) ∧
              (err = none → x.Norm = 1 ∧
                specF x threeOrthogonalPoints [1, 1, 1] ≤ specF x0 threeOrthogonalPoints [1, 1, 1])) := by
  -- Step 1 on the three orthogonal points with weights 1: every location has the value `π`,
  -- none passes the non-smooth test, and the loop ends with `at0idx = 2`.
  have h_threeOrthogonal_step1 : (List.range 3).map (fun j =>
              (geodesicDistancesFromI j (threeOrthogonalPoints : List (V ℝ)) [1, 1, 1]).1)
            = [Real.pi, Real.pi, Real.pi] ∧
          (∀ t, t < 3 →
            optimalityConditionFromI t (threeOrthogonalPoints : List (V ℝ)) [1, 1, 1] 0.0001
              = false) ∧
          ∀ fsqaj, nonSmoothStep1 (threeOrthogonalPoints : List (V ℝ)) [1, 1, 1] 0.0001
              [Real.pi, Real.pi, Real.pi] fsqaj (threeOrthogonalPoints : List (V ℝ)).enum 0
            = .inr 2 := by
    have hopt : ∀ t, t < 3 →
        optimalityConditionFromI t (threeOrthogonalPoints : List (V ℝ)) [1, 1, 1] 0.0001
          = false := by
      intro t ht
      interval_cases t <;>
      simp [optimalityConditionFromI, threeOrthogonalPoints, List.enum, List.enumFrom,
        optimalityAdd, optimalitySummand, V.Dot]
    refine ⟨?_, hopt, ?_⟩
    · simp [geodesicDistancesFromI, threeOrthogonalPoints, List.enum, List.enumFrom,
        List.range_succ, V.GreatCircleDistance, V.Dot]
    · intro fsqaj
      have hopt1 := hopt
      simp only [threeOrthogonalPoints] at hopt1
      simp [nonSmoothStep1, threeOrthogonalPoints, List.enum, List.enumFrom, isMinAt,
        List.range_succ, hopt1 0 (by norm_num), hopt1 1 (by norm_num), hopt1 2 (by norm_num)]
  -- The sampling loop of Step 2 returns at the first candidate below the bound `m`, the
  -- `j`-th, when `j` is within the fuel.
  have h_nonSmoothStep2_found : ∀ (g : Rng ℝ) (locs : List (V ℝ)) (c faj : List ℝ) (at0idx : Nat) (m : ℝ),
      faj.get? at0idx = some m → ∀ (fuel : Nat),
        ∀ (k j : Nat), j < fuel →
              (∀ i, i < j → ¬ specF (RandomVector g (k + 3 * i)).1 locs c < m) →
              specF (RandomVector g (k + 3 * j)).1 locs c < m →
              nonSmoothStep2 g locs c faj at0idx fuel k
                = some (⟨noAnswer, (RandomVector g (k + 3 * j)).1, 0.001, 0, 0, 0⟩,
                    k + 3 * (j + 1)) := by
    intro g locs c faj at0idx m hm fuel
    induction fuel with
    | zero => intro k j hj; omega
    | succ fuel ih =>
      intro k j hj hbefore hat
      simp only [nonSmoothStep2, hm, descent_facts.1]
      cases j with
      | zero =>
        simp only [Nat.mul_zero, Nat.add_zero] at hat
        rw [if_pos hat]
        rfl
      | succ j =>
        have h0 := hbefore 0 (by omega)
        simp only [Nat.mul_zero, Nat.add_zero] at h0
        rw [if_neg h0]
        have e : (RandomVector g k).2 = k + 3 := rfl
        have hb1 : ∀ i, i < j → ¬ specF (RandomVector g (k + 3 + 3 * i)).1 locs c < m := by
          intro i hi
          have := hbefore (i + 1) (by omega)
          rw [show k + 3 * (i + 1) = k + 3 + 3 * i by ring] at this
          exact this
        have ha1 : specF (RandomVector g (k + 3 + 3 * j)).1 locs c < m := by
          rw [show k + 3 + 3 * j = k + 3 * (j + 1) by ring]
          exact hat
        rw [e, ih (k + 3) j (by omega) hb1 ha1]
        rw [show k + 3 + 3 * j = k + 3 * (j + 1) by ring,
          show k + 3 + 3 * (j + 1) = k + 3 * (j + 1 + 1) by ring]
  -- The sampling loop of Step 2 returns only at the first candidate below the bound.
  have h_nonSmoothStep2_some : ∀ (g : Rng ℝ) (locs : List (V ℝ)) (c faj : List ℝ) (at0idx : Nat) (fuel : Nat),
        ∀ (k : Nat) (r : NonSmooth ℝ) (k1 : Nat),
              nonSmoothStep2 g locs c faj at0idx fuel k = some (r, k1) →
              ∃ j m, j < fuel ∧ faj.get? at0idx = some m ∧
                (∀ i, i < j → ¬ specF (RandomVector g (k + 3 * i)).1 locs c < m) ∧
                specF (RandomVector g (k + 3 * j)).1 locs c < m ∧
                r = ⟨noAnswer, (RandomVector g (k + 3 * j)).1, 0.001, 0, 0, 0⟩ ∧
                k1 = k + 3 * (j + 1) := by
    intro g locs c faj at0idx fuel
    induction fuel with
    | zero => intro k r k1 h; simp [nonSmoothStep2] at h
    | succ fuel ih =>
      intro k r k1 h
      simp only [nonSmoothStep2, descent_facts.1] at h
      split at h
      · exact Option.noConfusion h
      · rename_i m hm
        split_ifs at h with hlt
        · simp only [Option.some.injEq, Prod.mk.injEq] at h
          refine ⟨0, m, by omega, hm, fun i hi => by omega, hlt, h.1.symm, ?_⟩
          rw [← h.2]
          rfl
        · have e : (RandomVector g k).2 = k + 3 := rfl
          rw [e] at h
          obtain ⟨j, m1, hj, hm1, hb, ha, hr, hk⟩ := ih (k + 3) r k1 h
          have em : m1 = m := by
            rw [hm] at hm1
            exact (Option.some.inj hm1).symm
          subst em
          refine ⟨j + 1, m1, by omega, hm, fun i hi => ?_, ?_, ?_, ?_⟩
          · cases i with
            | zero => simpa using hlt
            | succ i =>
              have := hb i (by omega)
              rw [show k + 3 + 3 * i = k + 3 * (i + 1) by ring] at this
              exact this
          · rw [show k + 3 * (j + 1) = k + 3 + 3 * j by ring]
            exact ha
          · rw [show k + 3 * (j + 1) = k + 3 + 3 * j by ring]
            exact hr
          · rw [hk]
            ring
  have h_threeOrthogonal_nonSmooth : ∀ (fuel : Nat) (g : Rng ℝ) (k : Nat),
        solveNonEuclideanMultifacilityLocationNonSmooth fuel g k
                (threeOrthogonalPoints : List (V ℝ)) [1, 1, 1] 0.0001
              = nonSmoothStep2 g (threeOrthogonalPoints : List (V ℝ)) [1, 1, 1]
                  [Real.pi, Real.pi, Real.pi] 2 fuel k := by
    intro fuel g k
    obtain ⟨h1, -, h3⟩ := h_threeOrthogonal_step1
    have hl : (threeOrthogonalPoints : List (V ℝ)).length = 3 := rfl
    simp only [solveNonEuclideanMultifacilityLocationNonSmooth, hl, h1, h3]
  have h_threeOrthogonal_unit : ∀ e ∈ (threeOrthogonalPoints : List (V ℝ)), e.Norm = 1 := by
    intro e he
    simp only [threeOrthogonalPoints, List.mem_cons, List.mem_singleton, List.not_mem_nil,
      or_false] at he
    rcases he with h | h | h <;> rw [h, V.unit_facts.1] <;> norm_num
  -- Once Step 2 has found the start `x0`, the solver returns the error or the point of the
  -- smooth phase, a unit vector whose `F` value is at most that of `x0`.
  have h_threeOrthogonal_after_step2 : ∀ (fuel : Nat) (g : Rng ℝ) (k k1 : Nat) (x0 : V ℝ), x0.Norm = 1 →
      nonSmoothStep2 g (threeOrthogonalPoints : List (V ℝ)) [1, 1, 1] [Real.pi, Real.pi, Real.pi] 2 fuel k = some (⟨noAnswer, x0, 0.001, 0, 0, 0⟩, k1) →
        ∃ x err, SolveNonEuclideanMultifacilityLocation fuel g k
                (threeOrthogonalPoints : List (V ℝ)) [1, 1, 1] 0.0001 0.0001 = some ((x, err), k1) ∧
              (err = none → x.Norm = 1 ∧
                specF x threeOrthogonalPoints [1, 1, 1] ≤ specF x0 threeOrthogonalPoints [1, 1, 1]) := by
    intro fuel g k k1 x0 hx0 h
    have hc : ∀ w ∈ ([1, 1, 1] : List ℝ), 0 < w := by
      intro w hw
      simp only [List.mem_cons, List.mem_singleton, List.not_mem_nil, or_false] at hw
      rcases hw with e | e | e <;> rw [e] <;> norm_num
    have hsent : (noAnswer : V ℝ).Equals noAnswer = true := by simp [V.Equals]
    simp only [SolveNonEuclideanMultifacilityLocation, h_threeOrthogonal_nonSmooth, h, hsent,
      Bool.not_true, Bool.false_eq_true, if_false]
    by_cases hs : (solveNonEuclideanMultifacilityLocationSmooth
        (threeOrthogonalPoints : List (V ℝ)) [1, 1, 1] 0.0001 x0 0.001).1.Equals noAnswer = true
    · rw [if_pos hs]
      exact ⟨_, _, rfl, fun e => Option.noConfusion e⟩
    · rw [if_neg hs]
      refine ⟨_, _, rfl, fun _ => ⟨?_, ?_⟩⟩
      · rcases unit_norm_facts.2.2.2.2.2.2.2.2.2.1 threeOrthogonalPoints [1, 1, 1] 0.0001 h_threeOrthogonal_unit x0 0.001
          hx0 with e | e
        · exfalso
          apply hs
          rw [e]
          exact hsent
        · exact e
      · rcases descent_facts.2.2.2.2 threeOrthogonalPoints [1, 1, 1] 0.0001 hc (maxK - 1) 1 x0
          0.001 0 with e | ⟨_, _, e3⟩
        · exfalso
          apply hs
          have : (solveNonEuclideanMultifacilityLocationSmooth
              (threeOrthogonalPoints : List (V ℝ)) [1, 1, 1] 0.0001 x0 0.001).1 = noAnswer := by
            unfold solveNonEuclideanMultifacilityLocationSmooth
            rw [e]
          rw [this]
          exact hsent
        · simp only [descent_facts.1] at e3
          exact e3
  exact ⟨h_threeOrthogonal_step1, h_nonSmoothStep2_found, h_nonSmoothStep2_some,
    h_threeOrthogonal_nonSmooth, h_threeOrthogonal_unit, h_threeOrthogonal_after_step2⟩


/-! ## A run of the solver with an accepted step -/

/-! ### A run of the smooth descent -/

set_option maxHeartbeats 4000000 in
/-- A run of the solver on `locsY` and `weightsY` from the start `startY`, step by
step: facts on the norm and on the summands of the optimality tests; the
values at `startY`; the first iterate `stepY`; the smooth descent, which
accepts its first trial step; and the whole wrapper with the random source
`eighthRng`. -/
theorem run_startY :
    ((∀ (v : V ℝ) (s : ℝ), 0 < s →
              (v.DivScalar s).Norm = v.Norm / s) ∧
          (∀ (v o : V ℝ) (s : ℝ), 0 < s →
              (v.DivScalar s).GreatCircleDistance o = v.GreatCircleDistance o) ∧
          (∀ (u v : V ℝ),
              (u.Sub v).Norm = (v.Sub u).Norm) ∧
          (∀ (u v : V ℝ),
              (u.Add v).Norm ≤ u.Norm + v.Norm) ∧
          (∀ (v o : V ℝ), 0 < v.Dot o →
              v.GreatCircleDistance o = Real.arctan ((v.Cross o).Norm / v.Dot o))) ∧
    ((∀ (p e : V ℝ) (cj : ℝ), specOptimalityDefined p e →
              (specOptimalityTerm p e cj).Norm = |cj|) ∧
          (∀ (p e : V ℝ), p.Dot e ≠ 0 →
            (p.Cross e).X ≠ 0 ∨ (p.Cross e).Y ≠ 0 ∨ (p.Cross e).Z ≠ 0 →
              specOptimalityDefined p e) ∧
          (∀ (p e1 e2 : V ℝ) (c1 c2 tol : ℝ), specOptimalityDefined p e1 →
            specOptimalityDefined p e2 → |c1| + |c2| < tol →
              optimalityCondition p [e1, e2] [c1, c2] tol = true)) ∧
    (((startY : V ℝ).GreatCircleDistance ⟨1, 0, 0⟩ = Real.pi / 2 ∧
            (startY : V ℝ).GreatCircleDistance ⟨0.28, 0.96, 0⟩ = Real.arctan (7 / 24) ∧
            (⟨1, 0, 0⟩ : V ℝ).GreatCircleDistance ⟨0.28, 0.96, 0⟩ = Real.arctan (24 / 7) ∧
            (⟨0.28, 0.96, 0⟩ : V ℝ).GreatCircleDistance ⟨1, 0, 0⟩ = Real.arctan (24 / 7)) ∧
          (0.28 < Real.arctan (7 / 24) ∧ Real.arctan (7 / 24) < 0.3 ∧
            0.1 < 1 / (1 / (Real.pi / 2) + 2 / Real.arctan (7 / 24)) ∧
            1 / (1 / (Real.pi / 2) + 2 / Real.arctan (7 / 24)) < 0.15) ∧
          ((startY : V ℝ).Norm = 1 ∧ (⟨1, 0, 0⟩ : V ℝ).Norm = 1 ∧
            (⟨0.28, 0.96, 0⟩ : V ℝ).Norm = 1 ∧
            (startY : V ℝ).MulScalar (-1) = ⟨0, -1, 0⟩ ∧
            (⟨1, 0, 0⟩ : V ℝ).Equals ⟨0, -1, 0⟩ = false ∧
            (⟨0.28, 0.96, 0⟩ : V ℝ).Equals ⟨0, -1, 0⟩ = false) ∧
          (dx (startY : V ℝ) locsY weightsY = ⟨3, 0, 0⟩ ∧
            alphax (startY : V ℝ) locsY weightsY
              = 1 / (1 / (Real.pi / 2) + 2 / Real.arctan (7 / 24)) ∧
            (geodesicDistances (startY : V ℝ) locsY weightsY).1
              = Real.pi / 2 + 2 * Real.arctan (7 / 24))) ∧
    ((∃ al N : ℝ, al = 1 / (1 / (Real.pi / 2) + 2 / Real.arctan (7 / 24)) ∧ 0 < N ∧
              (stepY : V ℝ) = ⟨3 * al / N, 1 / N, 0⟩ ∧
              (stepY : V ℝ) = (V.Add startY (V.MulScalar ⟨3, 0, 0⟩ al)).DivScalar
                (V.Add startY (V.MulScalar ⟨3, 0, 0⟩ al)).Norm ∧
              (geodesicDistances (stepY : V ℝ) locsY weightsY).1 < Real.pi / 2 + 0.32 ∧
              specOptimalityDefined (stepY : V ℝ) ⟨1, 0, 0⟩ ∧
              specOptimalityDefined (stepY : V ℝ) ⟨0.28, 0.96, 0⟩) ∧
          ((stepY : V ℝ).Equals noAnswer = false)) ∧
    ((armijoLoop locsY weightsY (startY : V ℝ) (dx startY locsY weightsY)
                (geodesicDistances (startY : V ℝ) locsY weightsY).1 (maxAlpha - 1) 1
                (alphax startY locsY weightsY) 0
              = .accepted stepY (alphax startY locsY weightsY) ∧
            (geodesicDistances (stepY : V ℝ) locsY weightsY).1
              < (geodesicDistances (startY : V ℝ) locsY weightsY).1) ∧
          (∀ (alpha0 : ℝ),
              solveNonEuclideanMultifacilityLocationSmooth locsY weightsY 4 (startY : V ℝ) alpha0
                  = (stepY, (geodesicDistances (stepY : V ℝ) locsY weightsY).1,
                      (geodesicDistances (stepY : V ℝ) locsY weightsY).2, 2))) ∧
    ((∀ (k : Nat), k % 3 = 0 →
              RandomVector (eighthRng : Rng ℝ) k = (startY, k + 3)) ∧
          ((eighthRng : Rng ℝ).Valid) ∧
          (∀ (fuel k : Nat), k % 3 = 0 →
              solveNonEuclideanMultifacilityLocationNonSmooth (fuel + 1) (eighthRng : Rng ℝ) k
                    locsY weightsY 0.1
                  = some (⟨noAnswer, startY, 0.001, 0, 0, 0⟩, k + 3)) ∧
          (∀ e ∈ (locsY : List (V ℝ)), e.Norm = 1) ∧
          (∀ (fuel : Nat),
              SolveNonEuclideanMultifacilityLocationMonteCarlo (fuel + 1) (eighthRng : Rng ℝ) 0
                    locsY weightsY 0.1 4 2
                  = some ((stepY, (geodesicDistances (stepY : V ℝ) locsY weightsY).1,
                      (geodesicDistances (stepY : V ℝ) locsY weightsY).2, 2, none), 6))) := by
  -- Facts on the norm and the great circle distance: the norm of `v / s` for `s > 0` is
  -- `||v|| / s`; the great circle distance does not depend on the length of the first
  -- vector; `||u - v|| = ||v - u||`; the triangle inequality; and for a positive dot product
  -- the distance is `atan (||v × o|| / (v · o))`.
  have h_V_norm_facts : (∀ (v : V ℝ) (s : ℝ), 0 < s →
              (v.DivScalar s).Norm = v.Norm / s) ∧
          (∀ (v o : V ℝ) (s : ℝ), 0 < s →
              (v.DivScalar s).GreatCircleDistance o = v.GreatCircleDistance o) ∧
          (∀ (u v : V ℝ),
              (u.Sub v).Norm = (v.Sub u).Norm) ∧
          (∀ (u v : V ℝ),
              (u.Add v).Norm ≤ u.Norm + v.Norm) ∧
          (∀ (v o : V ℝ), 0 < v.Dot o →
              v.GreatCircleDistance o = Real.arctan ((v.Cross o).Norm / v.Dot o)) := by
    have h_V_norm_divScalar : ∀ (v : V ℝ) (s : ℝ), 0 < s →
          (v.DivScalar s).Norm = v.Norm / s := by
      intro v s hs
      simp only [V.Norm, sqrt_real, V.DivScalar]
      rw [show v.X / s * (v.X / s) + v.Y / s * (v.Y / s) + v.Z / s * (v.Z / s)
          = (v.X * v.X + v.Y * v.Y + v.Z * v.Z) / s ^ 2 by
        rw [div_mul_div_comm, div_mul_div_comm, div_mul_div_comm, ← add_div, ← add_div,
          ← pow_two s]]
      rw [Real.sqrt_div' _ (sq_nonneg _), Real.sqrt_sq hs.le]
    have h_V_greatCircleDistance_divScalar : ∀ (v o : V ℝ) (s : ℝ), 0 < s →
          (v.DivScalar s).GreatCircleDistance o = v.GreatCircleDistance o := by
      intro v o s hs
      have hd : (v.DivScalar s).Dot o = v.Dot o / s := by
        simp only [V.Dot, V.DivScalar]; ring
      have hc : (v.DivScalar s).Cross o = (v.Cross o).DivScalar s := by
        simp only [V.Cross, V.DivScalar, V.mk.injEq]
        refine ⟨?_, ?_, ?_⟩ <;> ring
      have hs0 : s ≠ 0 := ne_of_gt hs
      simp only [V.GreatCircleDistance, hd, hc, h_V_norm_divScalar _ s hs, atan_real, pi_real]
      have e1 : (v.Dot o / s = 0) ↔ v.Dot o = 0 := by
        rw [div_eq_zero_iff]; simp [hs0]
      have e2 : (v.Dot o / s < 0) ↔ v.Dot o < 0 := by
        rw [div_lt_iff₀ hs, zero_mul]
      have e3 : (v.Cross o).Norm / s / (v.Dot o / s) = (v.Cross o).Norm / v.Dot o := by
        by_cases h : v.Dot o = 0
        · simp [h]
        · field_simp
      simp only [e1, e2, e3]
    have h_V_norm_neg_sub : ∀ (u v : V ℝ),
          (u.Sub v).Norm = (v.Sub u).Norm := by
      intro u v
      simp only [V.Norm, V.Sub, sqrt_real]
      congr 1
      ring
    have h_V_norm_add_le : ∀ (u v : V ℝ),
          (u.Add v).Norm ≤ u.Norm + v.Norm := by
      intro u v
      have hu := descent_facts.2.1 u
      have hv := descent_facts.2.1 v
      have hu2 : u.Norm * u.Norm = u.X * u.X + u.Y * u.Y + u.Z * u.Z := by
        simp only [V.Norm, sqrt_real]
        exact Real.mul_self_sqrt
          (by nlinarith [mul_self_nonneg u.X, mul_self_nonneg u.Y, mul_self_nonneg u.Z])
      have hv2 : v.Norm * v.Norm = v.X * v.X + v.Y * v.Y + v.Z * v.Z := by
        simp only [V.Norm, sqrt_real]
        exact Real.mul_self_sqrt
          (by nlinarith [mul_self_nonneg v.X, mul_self_nonneg v.Y, mul_self_nonneg v.Z])
      have hcs : u.X * v.X + u.Y * v.Y + u.Z * v.Z ≤ u.Norm * v.Norm := by
        by_contra h
        push_neg at h
        have h1 : 0 ≤ u.Norm * v.Norm := mul_nonneg hu hv
        have h2 : (u.Norm * v.Norm) ^ 2 < (u.X * v.X + u.Y * v.Y + u.Z * v.Z) ^ 2 := by
          apply pow_lt_pow_left₀ h h1 (by norm_num)
        have h3 : (u.Norm * v.Norm) ^ 2
            = (u.X * u.X + u.Y * u.Y + u.Z * u.Z) * (v.X * v.X + v.Y * v.Y + v.Z * v.Z) := by
          rw [← hu2, ← hv2]; ring
        rw [h3] at h2
        nlinarith [sq_nonneg (u.X * v.Y - u.Y * v.X), sq_nonneg (u.Y * v.Z - u.Z * v.Y),
          sq_nonneg (u.Z * v.X - u.X * v.Z)]
      have key : (u.Add v).Norm = Real.sqrt ((u.X + v.X) * (u.X + v.X) + (u.Y + v.Y) * (u.Y + v.Y)
          + (u.Z + v.Z) * (u.Z + v.Z)) := rfl
      rw [key, Real.sqrt_le_left (add_nonneg hu hv)]
      nlinarith
    have h_V_greatCircleDistance_of_pos : ∀ (v o : V ℝ), 0 < v.Dot o →
          v.GreatCircleDistance o = Real.arctan ((v.Cross o).Norm / v.Dot o) := by
      intro v o h
      simp only [V.GreatCircleDistance, atan_real, if_neg (ne_of_gt h), if_neg (not_lt.mpr h.le)]
    exact ⟨h_V_norm_divScalar, h_V_greatCircleDistance_divScalar, h_V_norm_neg_sub,
      h_V_norm_add_le, h_V_greatCircleDistance_of_pos⟩
  -- Facts on the summands of the optimality tests: the norm of a summand that is defined is
  -- the absolute value of the weight; a point with a non-zero dot product and a non-zero
  -- cross product with `e` has a defined summand; and the smooth test on two locations whose
  -- summands are defined holds for every tolerance above the sum of the weights.
  have h_optimalityTerm_facts : (∀ (p e : V ℝ) (cj : ℝ), specOptimalityDefined p e →
              (specOptimalityTerm p e cj).Norm = |cj|) ∧
          (∀ (p e : V ℝ), p.Dot e ≠ 0 →
            (p.Cross e).X ≠ 0 ∨ (p.Cross e).Y ≠ 0 ∨ (p.Cross e).Z ≠ 0 →
              specOptimalityDefined p e) ∧
          (∀ (p e1 e2 : V ℝ) (c1 c2 tol : ℝ), specOptimalityDefined p e1 →
            specOptimalityDefined p e2 → |c1| + |c2| < tol →
              optimalityCondition p [e1, e2] [c1, c2] tol = true) := by
    have h_specOptimalityTerm_norm : ∀ (p e : V ℝ) (cj : ℝ), specOptimalityDefined p e →
          (specOptimalityTerm p e cj).Norm = |cj| := by
      intro p e cj h
      have h_V_norm_divScalar := h_V_norm_facts.1
      obtain ⟨_, h2⟩ := h
      have hn := descent_facts.2.1 (p.Sub (e.DivScalar (p.Dot e)))
      have hpos : 0 < (p.Sub (e.DivScalar (p.Dot e))).Norm := lt_of_le_of_ne hn (Ne.symm h2)
      simp only [specOptimalityTerm]
      rw [h_V_norm_divScalar _ _ hpos]
      have : ((p.Sub (e.DivScalar (p.Dot e))).MulScalar cj).Norm
          = (p.Sub (e.DivScalar (p.Dot e))).Norm * |cj| := by
        simp only [V.Norm, V.MulScalar, sqrt_real]
        rw [← Real.sqrt_sq (abs_nonneg cj), ← Real.sqrt_mul
          (add_nonneg (add_nonneg (mul_self_nonneg _) (mul_self_nonneg _)) (mul_self_nonneg _))]
        congr 1
        rw [sq_abs]
        ring
      rw [this]
      field_simp
    have h_specOptimalityDefined_of_cross : ∀ (p e : V ℝ), p.Dot e ≠ 0 →
        (p.Cross e).X ≠ 0 ∨ (p.Cross e).Y ≠ 0 ∨ (p.Cross e).Z ≠ 0 →
          specOptimalityDefined p e := by
      intro p e hd hc
      refine ⟨hd, fun h0 => ?_⟩
      simp only [V.Norm, sqrt_real] at h0
      rw [Real.sqrt_eq_zero (add_nonneg (add_nonneg (mul_self_nonneg _) (mul_self_nonneg _))
        (mul_self_nonneg _))] at h0
      have hx : (p.Sub (e.DivScalar (p.Dot e))).X = 0 := by
        nlinarith [mul_self_nonneg (p.Sub (e.DivScalar (p.Dot e))).X,
          mul_self_nonneg (p.Sub (e.DivScalar (p.Dot e))).Y,
          mul_self_nonneg (p.Sub (e.DivScalar (p.Dot e))).Z]
      have hy : (p.Sub (e.DivScalar (p.Dot e))).Y = 0 := by
        nlinarith [mul_self_nonneg (p.Sub (e.DivScalar (p.Dot e))).X,
          mul_self_nonneg (p.Sub (e.DivScalar (p.Dot e))).Y,
          mul_self_nonneg (p.Sub (e.DivScalar (p.Dot e))).Z]
      have hz : (p.Sub (e.DivScalar (p.Dot e))).Z = 0 := by
        nlinarith [mul_self_nonneg (p.Sub (e.DivScalar (p.Dot e))).X,
          mul_self_nonneg (p.Sub (e.DivScalar (p.Dot e))).Y,
          mul_self_nonneg (p.Sub (e.DivScalar (p.Dot e))).Z]
      simp only [V.Sub, V.DivScalar] at hx hy hz
      have ex : e.X = p.X * p.Dot e := by field_simp at hx; linarith
      have ey : e.Y = p.Y * p.Dot e := by field_simp at hy; linarith
      have ez : e.Z = p.Z * p.Dot e := by field_simp at hz; linarith
      simp only [V.Cross] at hc
      rcases hc with h | h | h
      · apply h; rw [ey, ez]; ring
      · apply h; rw [ex, ez]; ring
      · apply h; rw [ex, ey]; ring
    have h_optimalityCondition_two : ∀ (p e1 e2 : V ℝ) (c1 c2 tol : ℝ),
        specOptimalityDefined p e1 →
        specOptimalityDefined p e2 → |c1| + |c2| < tol →
          optimalityCondition p [e1, e2] [c1, c2] tol = true := by
      intro p e1 e2 c1 c2 tol h1 h2 ht
      have h_V_norm_add_le := h_V_norm_facts.2.2.2.1
      have hs1 := (phaseA_facts.1 p e1 c1).1 h1
      have hs2 := (phaseA_facts.1 p e2 c2).1 h2
      have hz : (⟨0, 0, 0⟩ : V ℝ).Norm = 0 := by simp [V.Norm]
      have hb : ((V.Add ⟨0, 0, 0⟩ (specOptimalityTerm p e1 c1)).Add (specOptimalityTerm p e2 c2)).Norm
          ≤ |c1| + |c2| := by
        have a1 := h_V_norm_add_le (V.Add ⟨0, 0, 0⟩ (specOptimalityTerm p e1 c1))
          (specOptimalityTerm p e2 c2)
        have a2 := h_V_norm_add_le ⟨0, 0, 0⟩ (specOptimalityTerm p e1 c1)
        rw [h_specOptimalityTerm_norm p e1 c1 h1, hz] at a2
        rw [h_specOptimalityTerm_norm p e2 c2 h2] at a1
        linarith
      have hn := descent_facts.2.1
        ((V.Add ⟨0, 0, 0⟩ (specOptimalityTerm p e1 c1)).Add (specOptimalityTerm p e2 c2))
      have hpos : 0 ≤ |c1| + |c2| := add_nonneg (abs_nonneg _) (abs_nonneg _)
      simp only [optimalityCondition, List.enum, List.enumFrom, List.foldl, List.getD_cons_zero,
        List.getD_cons_succ, zero_add, optimalityAdd, hs1, hs2, Bool.and_eq_true, decide_eq_true_eq,
        gt_iff_lt]
      constructor <;> linarith
    exact ⟨h_specOptimalityTerm_norm, h_specOptimalityDefined_of_cross, h_optimalityCondition_two⟩
  -- The values at the start `startY` of the run: the great circle distances among `locsY`
  -- and `startY`; bounds of `arctan (7/24)` and of the first step length; the projections
  -- `stp` of the two locations; and the descent direction `(3, 0, 0)`, the step length and
  -- the value of `F`.
  have h_startY_values : ((startY : V ℝ).GreatCircleDistance ⟨1, 0, 0⟩ = Real.pi / 2 ∧
            (startY : V ℝ).GreatCircleDistance ⟨0.28, 0.96, 0⟩ = Real.arctan (7 / 24) ∧
            (⟨1, 0, 0⟩ : V ℝ).GreatCircleDistance ⟨0.28, 0.96, 0⟩ = Real.arctan (24 / 7) ∧
            (⟨0.28, 0.96, 0⟩ : V ℝ).GreatCircleDistance ⟨1, 0, 0⟩ = Real.arctan (24 / 7)) ∧
          (0.28 < Real.arctan (7 / 24) ∧ Real.arctan (7 / 24) < 0.3 ∧
            0.1 < 1 / (1 / (Real.pi / 2) + 2 / Real.arctan (7 / 24)) ∧
            1 / (1 / (Real.pi / 2) + 2 / Real.arctan (7 / 24)) < 0.15) ∧
          ((startY : V ℝ).Norm = 1 ∧ (⟨1, 0, 0⟩ : V ℝ).Norm = 1 ∧
            (⟨0.28, 0.96, 0⟩ : V ℝ).Norm = 1 ∧
            (startY : V ℝ).MulScalar (-1) = ⟨0, -1, 0⟩ ∧
            (⟨1, 0, 0⟩ : V ℝ).Equals ⟨0, -1, 0⟩ = false ∧
            (⟨0.28, 0.96, 0⟩ : V ℝ).Equals ⟨0, -1, 0⟩ = false) ∧
          (dx (startY : V ℝ) locsY weightsY = ⟨3, 0, 0⟩ ∧
            alphax (startY : V ℝ) locsY weightsY
              = 1 / (1 / (Real.pi / 2) + 2 / Real.arctan (7 / 24)) ∧
            (geodesicDistances (startY : V ℝ) locsY weightsY).1
              = Real.pi / 2 + 2 * Real.arctan (7 / 24)) := by
    have h_gcd_startY : (startY : V ℝ).GreatCircleDistance ⟨1, 0, 0⟩ = Real.pi / 2 ∧
        (startY : V ℝ).GreatCircleDistance ⟨0.28, 0.96, 0⟩ = Real.arctan (7 / 24) ∧
        (⟨1, 0, 0⟩ : V ℝ).GreatCircleDistance ⟨0.28, 0.96, 0⟩ = Real.arctan (24 / 7) ∧
        (⟨0.28, 0.96, 0⟩ : V ℝ).GreatCircleDistance ⟨1, 0, 0⟩ = Real.arctan (24 / 7) := by
      have s1 : Real.sqrt (0.28 * 0.28) = 0.28 := Real.sqrt_mul_self (by norm_num)
      have s2 : Real.sqrt (0.96 * 0.96) = 0.96 := Real.sqrt_mul_self (by norm_num)
      refine ⟨?_, ?_, ?_, ?_⟩
      · simp [V.GreatCircleDistance, V.Dot, startY]
      · have hn : (V.Cross (startY : V ℝ) ⟨0.28, 0.96, 0⟩).Norm = 0.28 := by
          simp only [V.Cross, V.Norm, sqrt_real, startY]
          rw [show ((1 : ℝ) * 0 - 0 * 0.96) * (1 * 0 - 0 * 0.96)
              + (0 * 0.28 - 0 * 0) * (0 * 0.28 - 0 * 0)
              + (0 * 0.96 - 1 * 0.28) * (0 * 0.96 - 1 * 0.28) = 0.28 * 0.28 by norm_num]
          exact s1
        have hd : V.Dot (startY : V ℝ) ⟨0.28, 0.96, 0⟩ = 0.96 := by
          simp only [V.Dot, startY]; norm_num
        simp only [V.GreatCircleDistance, atan_real, pi_real, hn, hd]
        norm_num
      · have hn : (V.Cross (⟨1, 0, 0⟩ : V ℝ) ⟨0.28, 0.96, 0⟩).Norm = 0.96 := by
          simp only [V.Cross, V.Norm, sqrt_real]
          rw [show ((0 : ℝ) * 0 - 0 * 0.96) * (0 * 0 - 0 * 0.96)
              + (0 * 0.28 - 1 * 0) * (0 * 0.28 - 1 * 0)
              + (1 * 0.96 - 0 * 0.28) * (1 * 0.96 - 0 * 0.28) = 0.96 * 0.96 by norm_num]
          exact s2
        have hd : V.Dot (⟨1, 0, 0⟩ : V ℝ) ⟨0.28, 0.96, 0⟩ = 0.28 := by
          simp only [V.Dot]; norm_num
        simp only [V.GreatCircleDistance, atan_real, pi_real, hn, hd]
        norm_num
      · have hn : (V.Cross (⟨0.28, 0.96, 0⟩ : V ℝ) ⟨1, 0, 0⟩).Norm = 0.96 := by
          simp only [V.Cross, V.Norm, sqrt_real]
          rw [show ((0.96 : ℝ) * 0 - 0 * 0) * (0.96 * 0 - 0 * 0)
              + (0 * 1 - 0.28 * 0) * (0 * 1 - 0.28 * 0)
              + (0.28 * 0 - 0.96 * 1) * (0.28 * 0 - 0.96 * 1) = 0.96 * 0.96 by norm_num]
          exact s2
        have hd : V.Dot (⟨0.28, 0.96, 0⟩ : V ℝ) ⟨1, 0, 0⟩ = 0.28 := by
          simp only [V.Dot]; norm_num
        simp only [V.GreatCircleDistance, atan_real, pi_real, hn, hd]
        norm_num
    have h_alpha_startY_bounds : 0.28 < Real.arctan (7 / 24) ∧ Real.arctan (7 / 24) < 0.3 ∧
        0.1 < 1 / (1 / (Real.pi / 2) + 2 / Real.arctan (7 / 24)) ∧
        1 / (1 / (Real.pi / 2) + 2 / Real.arctan (7 / 24)) < 0.15 := by
      obtain ⟨hlo, hhi⟩ := stp_facts.2.2.2.1 (7 / 24) (by norm_num)
      have h1 : 0.28 < Real.arctan (7 / 24) := by
        have : (0.28 : ℝ) < 7 / 24 - (7 / 24) ^ 3 / 3 := by norm_num
        linarith
      have h2 : Real.arctan (7 / 24) < 0.3 := by
        have : (7 / 24 : ℝ) - (7 / 24) ^ 3 / 3 + (7 / 24) ^ 5 / 5 < 0.3 := by norm_num
        linarith
      have hp1 := Real.pi_gt_three
      have hp2 := Real.pi_lt_d2
      have hd : 0 < Real.arctan (7 / 24) := by linarith
      have hs1 : 1 / (Real.pi / 2) < 0.67 := by
        rw [div_lt_iff₀ (by linarith)]
        linarith
      have hs0 : 0.63 < 1 / (Real.pi / 2) := by
        rw [lt_div_iff₀ (by linarith)]
        linarith
      have ht1 : 2 / Real.arctan (7 / 24) < 7.15 := by
        rw [div_lt_iff₀ hd]
        linarith
      have ht2 : 6.66 < 2 / Real.arctan (7 / 24) := by
        rw [lt_div_iff₀ hd]
        linarith
      have hsum : 0 < 1 / (Real.pi / 2) + 2 / Real.arctan (7 / 24) := by linarith
      refine ⟨h1, h2, ?_, ?_⟩
      · rw [lt_div_iff₀ hsum]
        linarith
      · rw [div_lt_iff₀ hsum]
        linarith
    have h_startY_facts : (startY : V ℝ).Norm = 1 ∧ (⟨1, 0, 0⟩ : V ℝ).Norm = 1 ∧
        (⟨0.28, 0.96, 0⟩ : V ℝ).Norm = 1 ∧
        (startY : V ℝ).MulScalar (-1) = ⟨0, -1, 0⟩ ∧
        (⟨1, 0, 0⟩ : V ℝ).Equals ⟨0, -1, 0⟩ = false ∧
        (⟨0.28, 0.96, 0⟩ : V ℝ).Equals ⟨0, -1, 0⟩ = false := by
      refine ⟨by simp [V.Norm, startY], by simp [V.Norm], by rw [V.unit_facts.1]; norm_num,
        by simp [V.MulScalar, startY], ?_, ?_⟩
      · simp only [V.Equals, decide_eq_false_iff_not]; norm_num
      · simp only [V.Equals, decide_eq_false_iff_not]; norm_num
    have h_dx_startY : dx (startY : V ℝ) locsY weightsY = ⟨3, 0, 0⟩ ∧
        alphax (startY : V ℝ) locsY weightsY
          = 1 / (1 / (Real.pi / 2) + 2 / Real.arctan (7 / 24)) ∧
        (geodesicDistances (startY : V ℝ) locsY weightsY).1
          = Real.pi / 2 + 2 * Real.arctan (7 / 24) := by
      have h_V_norm_neg_sub := h_V_norm_facts.2.2.1
      obtain ⟨hx, ha1, ha2, hm, hE1, hE2⟩ := h_startY_facts
      obtain ⟨g1, g2, _, _⟩ := h_gcd_startY
      have n1 : (⟨1, 0, 0⟩ : V ℝ) ≠ startY := by
        intro h; simp only [startY, V.mk.injEq] at h; norm_num at h
      have m1 : (⟨1, 0, 0⟩ : V ℝ) ≠ (startY : V ℝ).MulScalar (-1) := by
        rw [hm]; intro h; simp only [V.mk.injEq] at h; norm_num at h
      have n2 : (⟨0.28, 0.96, 0⟩ : V ℝ) ≠ startY := by
        intro h; simp only [startY, V.mk.injEq] at h; norm_num at h
      have m2 : (⟨0.28, 0.96, 0⟩ : V ℝ) ≠ (startY : V ℝ).MulScalar (-1) := by
        rw [hm]; intro h; simp only [V.mk.injEq] at h; norm_num at h
      have t1 := stp_direction ⟨1, 0, 0⟩ startY 1 ha1 hx n1 m1
      have t2 := stp_direction ⟨0.28, 0.96, 0⟩ startY 2 ha2 hx n2 m2
      have d1 : (⟨1, 0, 0⟩ : V ℝ).Dot startY = 0 := by simp [V.Dot, startY]
      have d2 : (⟨0.28, 0.96, 0⟩ : V ℝ).Dot startY = 0.96 := by simp [V.Dot, startY]
      have r1 : Real.sqrt (1 - (0 : ℝ) ^ 2) = 1 := by norm_num
      have r2 : Real.sqrt (1 - (0.96 : ℝ) ^ 2) = 0.28 := by
        rw [show (1 : ℝ) - 0.96 ^ 2 = 0.28 * 0.28 by norm_num]
        exact Real.sqrt_mul_self (by norm_num)
      rw [d1, r1] at t1
      rw [d2, r2] at t2
      have o1 := (stp_facts.2.2.1 ⟨1, 0, 0⟩ startY ha1 hx n1 m1).2.2
      have o2 := (stp_facts.2.2.1 ⟨0.28, 0.96, 0⟩ startY ha2 hx n2 m2).2.2
      rw [h_V_norm_neg_sub, g1] at o1
      rw [h_V_norm_neg_sub, g2] at o2
      refine ⟨?_, ?_, ?_⟩
      · simp only [dx, locsY, weightsY, List.enum, List.enumFrom, List.foldl, List.getD_cons_zero,
          List.getD_cons_succ, hm, hE1, hE2, if_false, Bool.false_eq_true, zero_add, t1, t2]
        simp only [V.Add, V.Sub, V.MulScalar, V.mk.injEq, startY]
        norm_num
      · simp only [alphax, locsY, weightsY, List.enum, List.enumFrom, List.foldl,
          List.getD_cons_zero, List.getD_cons_succ, hm, hE1, hE2, if_false, Bool.false_eq_true,
          zero_add, o1, o2]
      · simp only [geodesicDistances, locsY, weightsY, List.enum, List.enumFrom, List.foldl,
          List.getD_cons_zero, List.getD_cons_succ, zero_add, g1, g2]
        ring
    exact ⟨h_gcd_startY, h_alpha_startY_bounds, h_startY_facts, h_dx_startY⟩
  -- The first iterate `stepY` of the descent from `startY`: it is the unit vector `(3α, 1,
  -- 0)/N`, its value of `F` is below `π/2 + 0.32`, both summands of the smooth test are
  -- defined there, and it is not the sentinel.
  have h_stepY_values : (∃ al N : ℝ, al = 1 / (1 / (Real.pi / 2) + 2 / Real.arctan (7 / 24)) ∧ 0 < N ∧
              (stepY : V ℝ) = ⟨3 * al / N, 1 / N, 0⟩ ∧
              (stepY : V ℝ) = (V.Add startY (V.MulScalar ⟨3, 0, 0⟩ al)).DivScalar
                (V.Add startY (V.MulScalar ⟨3, 0, 0⟩ al)).Norm ∧
              (geodesicDistances (stepY : V ℝ) locsY weightsY).1 < Real.pi / 2 + 0.32 ∧
              specOptimalityDefined (stepY : V ℝ) ⟨1, 0, 0⟩ ∧
              specOptimalityDefined (stepY : V ℝ) ⟨0.28, 0.96, 0⟩) ∧
          ((stepY : V ℝ).Equals noAnswer = false) := by
    have h_stepY_facts : ∃ al N : ℝ,
        al = 1 / (1 / (Real.pi / 2) + 2 / Real.arctan (7 / 24)) ∧ 0 < N ∧
          (stepY : V ℝ) = ⟨3 * al / N, 1 / N, 0⟩ ∧
          (stepY : V ℝ) = (V.Add startY (V.MulScalar ⟨3, 0, 0⟩ al)).DivScalar
            (V.Add startY (V.MulScalar ⟨3, 0, 0⟩ al)).Norm ∧
          (geodesicDistances (stepY : V ℝ) locsY weightsY).1 < Real.pi / 2 + 0.32 ∧
          specOptimalityDefined (stepY : V ℝ) ⟨1, 0, 0⟩ ∧
          specOptimalityDefined (stepY : V ℝ) ⟨0.28, 0.96, 0⟩ := by
      have h_V_greatCircleDistance_divScalar := h_V_norm_facts.2.1
      have h_V_greatCircleDistance_of_pos := h_V_norm_facts.2.2.2.2
      have h_specOptimalityDefined_of_cross := h_optimalityTerm_facts.2.1
      have h_alpha_startY_bounds := h_startY_values.2.1
      have h_dx_startY := h_startY_values.2.2.2
      obtain ⟨hd, ha, _⟩ := h_dx_startY
      obtain ⟨b1, b2, b3, b4⟩ := h_alpha_startY_bounds
      have hw : V.Add (startY : V ℝ)
          (V.MulScalar ⟨3, 0, 0⟩ (1 / (1 / (Real.pi / 2) + 2 / Real.arctan (7 / 24))))
          = ⟨3 * (1 / (1 / (Real.pi / 2) + 2 / Real.arctan (7 / 24))), 1, 0⟩ := by
        simp only [V.Add, V.MulScalar, startY, V.mk.injEq]
        refine ⟨by ring, by ring, by ring⟩
      generalize 1 / (1 / (Real.pi / 2) + 2 / Real.arctan (7 / 24)) = al at *
      have hN : 0 < (⟨3 * al, 1, 0⟩ : V ℝ).Norm := by
        simp only [V.Norm, sqrt_real]
        apply Real.sqrt_pos.mpr
        nlinarith
      have hstep : (stepY : V ℝ) = (⟨3 * al, 1, 0⟩ : V ℝ).DivScalar (⟨3 * al, 1, 0⟩ : V ℝ).Norm := by
        simp only [stepY, hd, ha, hw]
      obtain ⟨N, hNdef⟩ : ∃ N : ℝ, N = (⟨3 * al, 1, 0⟩ : V ℝ).Norm := ⟨_, rfl⟩
      rw [← hNdef] at hN hstep
      have hN0 : N ≠ 0 := ne_of_gt hN
      refine ⟨al, N, rfl, hN, ?_, ?_, ?_, ?_, ?_⟩
      · rw [hstep]
        simp only [V.DivScalar, zero_div]
      · rw [hstep, hw, hNdef]
      · rw [hstep]
        simp only [geodesicDistances, locsY, weightsY, List.enum, List.enumFrom, List.foldl,
          List.getD_cons_zero, List.getD_cons_succ, zero_add,
          h_V_greatCircleDistance_divScalar _ _ _ hN]
        have d1 : V.Dot (⟨3 * al, 1, 0⟩ : V ℝ) ⟨1, 0, 0⟩ = 3 * al := by
          simp only [V.Dot]; ring
        have d2 : V.Dot (⟨3 * al, 1, 0⟩ : V ℝ) ⟨0.28, 0.96, 0⟩ = 0.84 * al + 0.96 := by
          simp only [V.Dot]; ring
        have c2 : (V.Cross (⟨3 * al, 1, 0⟩ : V ℝ) ⟨0.28, 0.96, 0⟩).Norm = 2.88 * al - 0.28 := by
          simp only [V.Cross, V.Norm, sqrt_real]
          rw [show ((1 : ℝ) * 0 - 0 * 0.96) * (1 * 0 - 0 * 0.96)
              + (0 * 0.28 - 3 * al * 0) * (0 * 0.28 - 3 * al * 0)
              + (3 * al * 0.96 - 1 * 0.28) * (3 * al * 0.96 - 1 * 0.28)
              = (2.88 * al - 0.28) * (2.88 * al - 0.28) by ring]
          exact Real.sqrt_mul_self (by linarith)
        rw [h_V_greatCircleDistance_of_pos _ _ (by rw [d1]; linarith),
          h_V_greatCircleDistance_of_pos _ _ (by rw [d2]; linarith), d2, c2]
        have h1 := Real.arctan_lt_pi_div_two
          ((V.Cross (⟨3 * al, 1, 0⟩ : V ℝ) ⟨1, 0, 0⟩).Norm / V.Dot ⟨3 * al, 1, 0⟩ ⟨1, 0, 0⟩)
        have hr0 : 0 ≤ (2.88 * al - 0.28) / (0.84 * al + 0.96) :=
          div_nonneg (by linarith) (by linarith)
        have hr : (2.88 * al - 0.28) / (0.84 * al + 0.96) ≤ 0.16 := by
          rw [div_le_iff₀ (by linarith)]
          linarith
        have h2 := (stp_facts.2.2.2.1 _ hr0).2
        generalize (2.88 * al - 0.28) / (0.84 * al + 0.96) = y at hr0 hr h2 ⊢
        have h3 : y ^ 5 / 5 ≤ y ^ 3 / 3 := by
          have hy3 : 0 ≤ y ^ 3 := pow_nonneg hr0 3
          have hy2 : y ^ 2 ≤ 1 := by nlinarith
          nlinarith [mul_le_mul_of_nonneg_left hy2 hy3]
        linarith
      · rw [hstep]
        apply h_specOptimalityDefined_of_cross
        · have e : V.Dot ((⟨3 * al, 1, 0⟩ : V ℝ).DivScalar N) ⟨1, 0, 0⟩ = 3 * al / N := by
            simp only [V.Dot, V.DivScalar]; ring
          rw [e]
          exact div_ne_zero (by linarith) hN0
        · right; right
          have e : (V.Cross ((⟨3 * al, 1, 0⟩ : V ℝ).DivScalar N) ⟨1, 0, 0⟩).Z = -1 / N := by
            simp only [V.Cross, V.DivScalar]; ring
          rw [e]
          exact div_ne_zero (by norm_num) hN0
      · rw [hstep]
        apply h_specOptimalityDefined_of_cross
        · have e : V.Dot ((⟨3 * al, 1, 0⟩ : V ℝ).DivScalar N) ⟨0.28, 0.96, 0⟩
              = (0.84 * al + 0.96) / N := by
            simp only [V.Dot, V.DivScalar]; ring
          rw [e]
          exact div_ne_zero (by linarith) hN0
        · right; right
          have e : (V.Cross ((⟨3 * al, 1, 0⟩ : V ℝ).DivScalar N) ⟨0.28, 0.96, 0⟩).Z
              = (2.88 * al - 0.28) / N := by
            simp only [V.Cross, V.DivScalar]; ring
          rw [e]
          exact div_ne_zero (by linarith) hN0
    have h_stepY_ne_noAnswer : (stepY : V ℝ).Equals noAnswer = false := by
      obtain ⟨al, N, _, _, h, _⟩ := h_stepY_facts
      rw [h]
      simp only [V.Equals, noAnswer, decide_eq_false_iff_not]
      rintro ⟨_, _, h3⟩
      norm_num at h3
    exact ⟨h_stepY_facts, h_stepY_ne_noAnswer⟩
  -- The smooth descent from `startY` with the tolerance 4: the first trial step of the inner
  -- loop is accepted, with a smaller value of `F`; the optimality test fails at `startY` and
  -- holds at `stepY`, which the phase returns in its second iteration.
  have h_smooth_run_startY : (armijoLoop locsY weightsY (startY : V ℝ) (dx startY locsY weightsY)
                (geodesicDistances (startY : V ℝ) locsY weightsY).1 (maxAlpha - 1) 1
                (alphax startY locsY weightsY) 0
              = .accepted stepY (alphax startY locsY weightsY) ∧
            (geodesicDistances (stepY : V ℝ) locsY weightsY).1
              < (geodesicDistances (startY : V ℝ) locsY weightsY).1) ∧
          (∀ (alpha0 : ℝ),
              solveNonEuclideanMultifacilityLocationSmooth locsY weightsY 4 (startY : V ℝ) alpha0
                  = (stepY, (geodesicDistances (stepY : V ℝ) locsY weightsY).1,
                      (geodesicDistances (stepY : V ℝ) locsY weightsY).2, 2)) := by
    have h_armijo_startY : armijoLoop locsY weightsY (startY : V ℝ) (dx startY locsY weightsY)
            (geodesicDistances (startY : V ℝ) locsY weightsY).1 (maxAlpha - 1) 1
            (alphax startY locsY weightsY) 0
          = .accepted stepY (alphax startY locsY weightsY) ∧
        (geodesicDistances (stepY : V ℝ) locsY weightsY).1
          < (geodesicDistances (startY : V ℝ) locsY weightsY).1 := by
      have h_alpha_startY_bounds := h_startY_values.2.1
      have h_dx_startY := h_startY_values.2.2.2
      have h_stepY_facts := h_stepY_values.1
      obtain ⟨hd, ha, hf⟩ := h_dx_startY
      obtain ⟨b1, b2, b3, b4⟩ := h_alpha_startY_bounds
      obtain ⟨al, N, hal, hN, _, _, hF, _, _⟩ := h_stepY_facts
      have h3 : (⟨3, 0, 0⟩ : V ℝ).Norm = 3 := by
        simp only [V.Norm, sqrt_real]
        rw [show (3 : ℝ) * 3 + 0 * 0 + 0 * 0 = 3 * 3 by norm_num]
        exact Real.sqrt_mul_self (by norm_num)
      have htest : (geodesicDistances (stepY : V ℝ) locsY weightsY).1
          ≤ (geodesicDistances (startY : V ℝ) locsY weightsY).1
            - 0.1 * alphax (startY : V ℝ) locsY weightsY * (dx (startY : V ℝ) locsY weightsY).Norm
              * (dx (startY : V ℝ) locsY weightsY).Norm := by
        rw [hf, ha, hd, h3]
        linarith
      refine ⟨?_, ?_⟩
      · have hm : maxAlpha - 1 = 998 + 1 := rfl
        rw [hm, armijoLoop]
        exact if_pos htest
      · rw [hf]
        linarith
    have h_smooth_startY : ∀ (alpha0 : ℝ),
          solveNonEuclideanMultifacilityLocationSmooth locsY weightsY 4 (startY : V ℝ) alpha0
              = (stepY, (geodesicDistances (stepY : V ℝ) locsY weightsY).1,
                  (geodesicDistances (stepY : V ℝ) locsY weightsY).2, 2) := by
      intro alpha0
      have h_optimalityCondition_two := h_optimalityTerm_facts.2.2
      have h_stepY_facts := h_stepY_values.1
      obtain ⟨harm, hlt⟩ := h_armijo_startY
      obtain ⟨al, N, hal, hN, _, _, hF, hd1, hd2⟩ := h_stepY_facts
      have h0 : optimalityCondition (startY : V ℝ) locsY weightsY 4 = false := by
        simp [optimalityCondition, locsY, weightsY, List.enum, List.enumFrom, optimalityAdd,
          optimalitySummand, V.Dot, startY]
      have h1 : optimalityCondition (stepY : V ℝ) locsY weightsY 4 = true :=
        h_optimalityCondition_two stepY _ _ 1 2 4 hd1 hd2 (by norm_num)
      have hk : maxK - 1 = 99997 + 1 + 1 := rfl
      unfold solveNonEuclideanMultifacilityLocationSmooth
      rw [hk, smoothLoop]
      simp only [ne_eq, not_true_eq_false, false_and, if_false, h0, Bool.false_eq_true, harm]
      rw [smoothLoop]
      simp only [h1, if_true]
      rw [if_neg (by
        rintro ⟨_, h⟩
        exact absurd h.symm (ne_of_lt hlt))]
      rfl
    exact ⟨h_armijo_startY, h_smooth_startY⟩
  -- The whole wrapper on `locsY`, `weightsY` with the random source `eighthRng`, whose draws
  -- lie in `[0, 1)` and whose every candidate is `startY`: the first location has the
  -- largest value and fails the test of Phase A (`||s_0|| = 2 > 1 + 0.1`), the first
  -- candidate `startY` of the sampling loop is below that value, run 0 of the smooth phase
  -- takes one accepted Armijo step to `stepY`, and run 1, from the candidate `startY` again,
  -- gives the same point, which does not replace the first.
  have h_monteCarlo_run_startY : (∀ (k : Nat), k % 3 = 0 →
              RandomVector (eighthRng : Rng ℝ) k = (startY, k + 3)) ∧
          ((eighthRng : Rng ℝ).Valid) ∧
          (∀ (fuel k : Nat), k % 3 = 0 →
              solveNonEuclideanMultifacilityLocationNonSmooth (fuel + 1) (eighthRng : Rng ℝ) k
                    locsY weightsY 0.1
                  = some (⟨noAnswer, startY, 0.001, 0, 0, 0⟩, k + 3)) ∧
          (∀ e ∈ (locsY : List (V ℝ)), e.Norm = 1) ∧
          (∀ (fuel : Nat),
              SolveNonEuclideanMultifacilityLocationMonteCarlo (fuel + 1) (eighthRng : Rng ℝ) 0
                    locsY weightsY 0.1 4 2
                  = some ((stepY, (geodesicDistances (stepY : V ℝ) locsY weightsY).1,
                      (geodesicDistances (stepY : V ℝ) locsY weightsY).2, 2, none), 6)) := by
    have h_randomVector_eighthRng : ∀ (k : Nat), k % 3 = 0 →
          RandomVector (eighthRng : Rng ℝ) k = (startY, k + 3) := by
      intro k hk
      have e0 : (eighthRng : Rng ℝ).float64 k = 0 := by
        simp [eighthRng, hk]
      have e1 : (eighthRng : Rng ℝ).float64 (k + 1) = 0.125 := by
        have : (k + 1) % 3 = 1 := by omega
        simp [eighthRng, this]
      have e2 : (eighthRng : Rng ℝ).float64 (k + 2) = 0 := by
        have : (k + 2) % 3 ≠ 1 := by omega
        simp [eighthRng, this]
      have a1 : 2 * Real.pi * 0.125 = Real.pi / 4 := by ring
      have h22 : Real.sqrt 2 * Real.sqrt 2 = 2 := Real.mul_self_sqrt (by norm_num)
      simp only [RandomVector, RandomQuaternion, e0, e1, e2, V.Rotate, Q.Rotate, Q.Mul, Q.Conj,
        sqrt_real, sin_real, cos_real, pi_real, a1, Real.sin_pi_div_four, Real.cos_pi_div_four,
        sub_zero, Real.sqrt_one, Real.sqrt_zero, mul_zero, Real.cos_zero, Real.sin_zero, startY,
        Prod.mk.injEq, V.mk.injEq, and_true]
      refine ⟨?_, ?_, ?_⟩
      · nlinarith [h22]
      · nlinarith [h22]
      · ring
    have h_eighthRng_valid : (eighthRng : Rng ℝ).Valid := by
      intro k
      simp only [eighthRng]
      split_ifs <;> norm_num
    have h_nonSmooth_startY : ∀ (fuel k : Nat), k % 3 = 0 →
          solveNonEuclideanMultifacilityLocationNonSmooth (fuel + 1) (eighthRng : Rng ℝ) k
                locsY weightsY 0.1
              = some (⟨noAnswer, startY, 0.001, 0, 0, 0⟩, k + 3) := by
      intro fuel k hk
      have h_gcd_startY := h_startY_values.1
      have h_alpha_startY_bounds := h_startY_values.2.1
      have h_dx_startY := h_startY_values.2.2.2
      obtain ⟨g1, g2, g3, g4⟩ := h_gcd_startY
      obtain ⟨b1, b2, _, _⟩ := h_alpha_startY_bounds
      obtain ⟨_, _, hf⟩ := h_dx_startY
      have hinv : Real.arctan (24 / 7) = Real.pi / 2 - Real.arctan (7 / 24) := by
        rw [show (24 / 7 : ℝ) = (7 / 24)⁻¹ by norm_num]
        exact Real.arctan_inv_of_pos (by norm_num)
      have hp := Real.pi_gt_three
      have hth : 0 < Real.arctan (24 / 7) := by rw [hinv]; linarith [Real.pi_gt_three]
      have hdot : V.Dot ⟨1, 0, 0⟩ (⟨0.28, 0.96, 0⟩ : V ℝ) = 0.28 := by
        simp only [V.Dot]; norm_num
      have hnum : (V.Sub ⟨1, 0, 0⟩ (V.DivScalar (⟨0.28, 0.96, 0⟩ : V ℝ) 0.28))
          = ⟨0, -(24 / 7), 0⟩ := by
        simp only [V.Sub, V.DivScalar]
        norm_num
      have hden : (⟨0, -(24 / 7), 0⟩ : V ℝ).Norm = 24 / 7 := by
        simp only [V.Norm, sqrt_real]
        rw [show (0 : ℝ) * 0 + -(24 / 7) * -(24 / 7) + 0 * 0 = 24 / 7 * (24 / 7) by norm_num]
        exact Real.sqrt_mul_self (by norm_num)
      have hsm : optimalitySummand ⟨1, 0, 0⟩ (⟨0.28, 0.96, 0⟩ : V ℝ) 2 = some ⟨0, -2, 0⟩ := by
        simp only [optimalitySummand, hdot, hnum, hden]
        rw [if_neg (by norm_num)]
        simp only [V.DivScalar, V.MulScalar]
        norm_num
      have htwo : (V.Add ⟨0, 0, 0⟩ (⟨0, -2, 0⟩ : V ℝ)).Norm = 2 := by
        simp only [V.Add, V.Norm, sqrt_real]
        rw [show ((0 : ℝ) + 0) * (0 + 0) + (0 + -2) * (0 + -2) + (0 + 0) * (0 + 0) = 2 * 2 by
          norm_num]
        exact Real.sqrt_mul_self (by norm_num)
      have hopt : optimalityConditionFromI 0 [⟨1, 0, 0⟩, (⟨0.28, 0.96, 0⟩ : V ℝ)] [1, 2] 0.1
          = false := by
        simp only [optimalityConditionFromI, List.enum, List.enumFrom, List.foldl,
          List.getD_cons_zero, List.getD_cons_succ, if_true, zero_add, Nat.succ_ne_zero,
          one_ne_zero, if_false, optimalityAdd, hsm, htwo, decide_eq_false_iff_not]
        norm_num
      have hstep2 : nonSmoothStep2 (eighthRng : Rng ℝ) locsY weightsY
          [Real.arctan (24 / 7) * 2, Real.arctan (24 / 7)] 0 (fuel + 1) k
          = some (⟨noAnswer, startY, 0.001, 0, 0, 0⟩, k + 3) := by
        rw [nonSmoothStep2]
        simp only [h_randomVector_eighthRng k hk, hf, List.get?_cons_zero]
        rw [if_pos (by rw [hinv]; linarith)]
      simp only [solveNonEuclideanMultifacilityLocationNonSmooth, locsY, weightsY] at hstep2 ⊢
      simp [nonSmoothStep1, List.enum, List.enumFrom, isMinAt, List.range_succ, hopt,
        geodesicDistancesFromI, g3, g4, hth, not_lt.mpr hth.le, hstep2]
    have h_locsY_unit : ∀ e ∈ (locsY : List (V ℝ)), e.Norm = 1 := by
      intro e he
      simp only [locsY, List.mem_cons, List.mem_singleton, List.not_mem_nil, or_false] at he
      rcases he with rfl | rfl
      · simp [V.Norm]
      · simp only [V.Norm, sqrt_real]
        rw [show (0.28 : ℝ) * 0.28 + 0.96 * 0.96 + 0 * 0 = 1 by norm_num]
        exact Real.sqrt_one
    have h_monteCarlo_startY : ∀ (fuel : Nat),
          SolveNonEuclideanMultifacilityLocationMonteCarlo (fuel + 1) (eighthRng : Rng ℝ) 0
                locsY weightsY 0.1 4 2
              = some ((stepY, (geodesicDistances (stepY : V ℝ) locsY weightsY).1,
                  (geodesicDistances (stepY : V ℝ) locsY weightsY).2, 2, none), 6) := by
      intro fuel
      have h_stepY_ne_noAnswer := h_stepY_values.2
      have h_smooth_startY := h_smooth_run_startY.2
      have hn : (noAnswer : V ℝ).Equals noAnswer = true := by simp [V.Equals]
      have hr : List.range (2 : Int).toNat = [0, 1] := by decide
      unfold SolveNonEuclideanMultifacilityLocationMonteCarlo
      rw [h_nonSmooth_startY fuel 0 rfl]
      simp only [hn, Bool.not_true, Bool.false_eq_true, if_false, hr, monteCarloLoop, if_true,
        one_ne_zero, h_smooth_startY, h_randomVector_eighthRng 3 rfl, h_stepY_ne_noAnswer,
        Bool.not_false, Bool.true_and, Bool.false_or, lt_irrefl, decide_False, zero_add]
    exact ⟨h_randomVector_eighthRng, h_eighthRng_valid, h_nonSmooth_startY, h_locsY_unit,
      h_monteCarlo_startY⟩
  exact ⟨h_V_norm_facts, h_optimalityTerm_facts, h_startY_values, h_stepY_values,
    h_smooth_run_startY, h_monteCarlo_run_startY⟩

/-- Witness for C4: the locations `(1, 0, 0)` and `(0.28, 0.96, 0)` with the
weights 1 and 2, the tolerances 0.1 and 4, two runs, and the random source
`eighthRng`. Neither location passes the test of Phase A, the sampling loop
draws the candidate `(0, 1, 0)` with `RandomVector`, and the smooth descent
takes one accepted Armijo step from it to `stepY`, which the wrapper returns. -/
theorem monteCarlo_location_unit_witness :
    (eighthRng : Rng ℝ).Valid ∧
    (∀ e ∈ (locsY : List (V ℝ)), e.Norm = 1) ∧
    SolveNonEuclideanMultifacilityLocationMonteCarlo 1 (eighthRng : Rng ℝ) 0
        locsY weightsY 0.1 4 2
      = some ((stepY, (geodesicDistances (stepY : V ℝ) locsY weightsY).1,
          (geodesicDistances (stepY : V ℝ) locsY weightsY).2, 2, none), 6) ∧
    (RandomVector (eighthRng : Rng ℝ) 0).1 = startY ∧
    armijoLoop locsY weightsY (startY : V ℝ) (dx startY locsY weightsY)
        (geodesicDistances (startY : V ℝ) locsY weightsY).1 (maxAlpha - 1) 1
        (alphax startY locsY weightsY) 0
      = .accepted stepY (alphax startY locsY weightsY) ∧
    (stepY : V ℝ) ≠ startY ∧
    (stepY : V ℝ).Norm = 1 := by
  obtain ⟨hrv, hvalid, _, hunit, hmc⟩ := run_startY.2.2.2.2.2
  obtain ⟨harm, _⟩ := run_startY.2.2.2.2.1
  refine ⟨hvalid, hunit, hmc 0, by rw [hrv 0 rfl], harm.1, ?_,
    monteCarlo_location_unit 1 eighthRng hvalid 0 locsY weightsY 0.1 4 2 hunit
      stepY _ _ 2 6 (hmc 0)⟩
  intro h
  have hlt := harm.2
  rw [h] at hlt
  exact lt_irrefl _ hlt

/-- Witness for C40: the locations `(1, 0, 0)` and `(0.28, 0.96, 0)` with the
weights 1 and 2 and the start `(0, 1, 0)`. The inner loop accepts its first
trial step, from `startY` to `stepY` with the step length `alphax startY`,
which is positive, and the descent direction has norm 3; the phase returns
`stepY`, and the value drops by `0.9 · alpha` at least. -/
theorem smooth_descent_witness :
    (∀ w ∈ (weightsY : List ℝ), 0 < w) ∧
    solveNonEuclideanMultifacilityLocationSmooth locsY weightsY 4 (startY : V ℝ) 0.001
      = (stepY, (geodesicDistances (stepY : V ℝ) locsY weightsY).1,
          (geodesicDistances (stepY : V ℝ) locsY weightsY).2, 2) ∧
    (stepY : V ℝ).Equals noAnswer = false ∧
    armijoLoop locsY weightsY (startY : V ℝ) (dx startY locsY weightsY)
        (geodesicDistances (startY : V ℝ) locsY weightsY).1 (maxAlpha - 1) 1
        (alphax startY locsY weightsY) 0
      = .accepted stepY (alphax startY locsY weightsY) ∧
    (0.1 : ℝ) < alphax (startY : V ℝ) locsY weightsY ∧
    dx (startY : V ℝ) locsY weightsY = ⟨3, 0, 0⟩ ∧
    ((geodesicDistances (stepY : V ℝ) locsY weightsY).1 = specF (stepY : V ℝ) locsY weightsY ∧
      (2 : Int) = ((locsY : List (V ℝ)).length : Int) ∧
      specF (stepY : V ℝ) locsY weightsY ≤ specF (startY : V ℝ) locsY weightsY) ∧
    (0 ≤ alphax (startY : V ℝ) locsY weightsY ∧
      specF (stepY : V ℝ) locsY weightsY
        ≤ specF (startY : V ℝ) locsY weightsY
          - 0.1 * alphax (startY : V ℝ) locsY weightsY
            * (dx (startY : V ℝ) locsY weightsY).Norm ^ 2 ∧
      specF (stepY : V ℝ) locsY weightsY ≤ specF (startY : V ℝ) locsY weightsY) := by
  obtain ⟨_, hbounds, _, hdx⟩ := run_startY.2.2.1
  obtain ⟨harm, hsm⟩ := run_startY.2.2.2.2.1
  have hne := run_startY.2.2.2.1.2
  have hc : ∀ w ∈ (weightsY : List ℝ), 0 < w := by
    intro w hw
    simp only [weightsY, List.mem_cons, List.mem_singleton, List.not_mem_nil, or_false] at hw
    rcases hw with rfl | rfl <;> norm_num
  have hres : (solveNonEuclideanMultifacilityLocationSmooth locsY weightsY 4 (startY : V ℝ)
      0.001).1.Equals noAnswer = false := by
    rw [hsm]
    exact hne
  refine ⟨hc, hsm 0.001, hne, harm.1, by rw [hdx.2.1]; exact hbounds.2.2.1, hdx.1, ?_,
    (smooth_descent locsY weightsY 4 startY 0.001 hc hres).2 startY stepY
      (alphax startY locsY weightsY) harm.1⟩
  have h := (smooth_descent locsY weightsY 4 startY 0.001 hc hres).1
  rw [hsm] at h
  exact h

/-! ## An accepted data exchange -/

/-- The steps of `exchangeData` of the owner in `worldZ`: the search finds the
peer 1 and the datum of slot 1; the peer accepts it into its free slot 2 and
recomputes its location and size; the owner gives slot 1 up and recomputes;
both nodes record each other. -/
theorem exchangeData_worldZ :
    (ownerX : Node ℝ).peers.RandomlyFindPeerCloserToData (zeroRng : Rng ℝ) 0 ownerX.Location
      worldZ.DataCache (ownerX : Node ℝ).DataIndices = some ((some 1, 1), 1) ∧
    (∀ (fuel : Nat) (g : Rng ℝ) (k : Nat),
      (peerZ : Node ℝ).exchangeDataReceive fuel g k worldZ.DataCache datumY
        = some (({ (peerZ : Node ℝ) with CurrentBSize := 5, nfx := 1 },
            [some datumX, some datumY, some datumY], true), k)) ∧
    (∀ (fuel : Nat) (g : Rng ℝ) (k : Nat),
      (ownerX : Node ℝ).exchangeDataGive fuel g k [some datumX, some datumY, some datumY] 1
        = some (({ (ownerX : Node ℝ) with CurrentBSize := 5, fx := 0, fxsq := 0, nfx := 1 },
            [some datumX, none, some datumY]), k)) ∧
    World.exchangeData 0 (zeroRng : Rng ℝ) 0 worldZ 0 = some ((worldZ1, .exchanged 1), 1) := by
  have hw5 : wrapInt 5 = 5 := by decide
  have find_worldZ :
      (ownerX : Node ℝ).peers.RandomlyFindPeerCloserToData (zeroRng : Rng ℝ) 0 ownerX.Location
        worldZ.DataCache (ownerX : Node ℝ).DataIndices = some ((some 1, 1), 1) := by
    obtain ⟨hxx, hyy, hxy, hyx, h⟩ := nodeW_facts.1
    simp [ownerX, ownerNew, worldZ, slotsZ, PeerList.RandomlyFindPeerCloserToData,
      basePeerList.RandomlyFindPeerCloserToData, Rng.Intn, zeroRng, basePeerList.findLoop,
      basePeerList.firstCloser, datumX, datumY, hxx, hyy, hxy, hyx, h, not_lt.mpr h.le]
  have receive_peerZ : ∀ (fuel : Nat) (g : Rng ℝ) (k : Nat),
      (peerZ : Node ℝ).exchangeDataReceive fuel g k worldZ.DataCache datumY
        = some (({ (peerZ : Node ℝ) with CurrentBSize := 5, nfx := 1 },
            [some datumX, some datumY, some datumY], true), k) := by
    intro fuel g k
    have h := single_point_facts.2.2.2.2.2 fuel g k ⟨0.6, 0.8, 0⟩ 1 0.1 0.1 2
      (by rw [V.unit_facts.1]; norm_num) (by norm_num) (by norm_num)
    simp [Node.exchangeDataReceive, peerZ, worldZ, slotsZ, datumY, hw5, Node.firstFree,
      Node.computeLocationAndCurrentSize, collectOwned, h]
  have give_ownerX : ∀ (fuel : Nat) (g : Rng ℝ) (k : Nat),
      (ownerX : Node ℝ).exchangeDataGive fuel g k [some datumX, some datumY, some datumY] 1
        = some (({ (ownerX : Node ℝ) with CurrentBSize := 5, fx := 0, fxsq := 0, nfx := 1 },
            [some datumX, none, some datumY]), k) := by
    intro fuel g k
    have h := single_point_facts.2.2.2.2.2 fuel g k ⟨1, 0, 0⟩ 1 0.1 0.1 2
      (by simp [V.Norm]) (by norm_num) (by norm_num)
    simp [Node.exchangeDataGive, ownerX, ownerNew, datumX, hw5,
      Node.computeLocationAndCurrentSize, collectOwned, h]
  refine ⟨find_worldZ, receive_peerZ, give_ownerX, ?_⟩
  have hn : (worldZ : World ℝ).heap.get? 0 = some ownerX := rfl
  have ho : (worldZ : World ℝ).heap.get? 1 = some peerZ := rfl
  have hd : (worldZ : World ℝ).DataCache.get? (1 : Int).toNat = some (some datumY) := rfl
  have hs : (peerZ : Node ℝ).S.id = StateWait := rfl
  have ht : (1 : Int).toNat = 1 := rfl
  simp only [World.exchangeData, hn, find_worldZ, ho, hd, receive_peerZ, hs, true_or, if_true]
  simp only [worldZ, List.set_cons_succ, List.set_cons_zero, List.get?_cons_zero, ht,
    give_ownerX]
  simp [worldZ1, World.addPeer, PeerList.AddPeer, World.addPeer, PeerList.AddPeer,
    maximizePeerSpread.AddPeer, NewMaximizePeerSpread, newBasePeerList, basePeerList.append,
    basePeerList.updateLocation, ownerX, ownerNew, peerZ]

/-- Witness for C37: an accepted transfer. The owner `ownerX` at `(1, 0, 0)`
holds `datumX` in slot 0 and `datumY`, located at `(0.6, 0.8, 0)`, in slot 1;
its peer `peerZ`, in Wait at `(0.6, 0.8, 0)`, is closer to `datumY`, has the
free slot 2 and room for 5 bytes. `exchangeData` of the owner moves `datumY`
from slot 1 to slot 2 and answers `exchanged 1`. -/
theorem exchangeData_conserves_witness :
    World.exchangeData 0 (zeroRng : Rng ℝ) 0 worldZ 0 = some ((worldZ1, .exchanged 1), 1) ∧
    (worldZ : World ℝ).DataCache = [some datumX, some datumY, none] ∧
    (worldZ1 : World ℝ).DataCache = [some datumX, none, some datumY] ∧
    (worldZ1 : World ℝ).DataCache.reduceOption.Perm (worldZ : World ℝ).DataCache.reduceOption ∧
    ∃ nNode o oNode d j, (worldZ : World ℝ).heap.get? 0 = some nNode ∧
      (worldZ : World ℝ).heap.get? o = some oNode ∧
      1 ∈ nNode.DataIndices ∧ j ∈ oNode.DataIndices ∧
      (worldZ : World ℝ).DataCache.get? 1 = some (some d) ∧
      (worldZ : World ℝ).DataCache.get? j = some none ∧
      (worldZ1 : World ℝ).DataCache = ((worldZ : World ℝ).DataCache.set j (some d)).set 1 none ∧
      (worldZ1 : World ℝ).DataCache.get? j = some (some d) ∧
      (worldZ1 : World ℝ).DataCache.get? 1 = some none :=
  ⟨exchangeData_worldZ.2.2.2, rfl, rfl,
    (exchangeData_conserves 0 zeroRng 0 worldZ worldZ1 0 (.exchanged 1) 1
      exchangeData_worldZ.2.2.2).1,
    (exchangeData_conserves 0 zeroRng 0 worldZ worldZ1 0 (.exchanged 1) 1
      exchangeData_worldZ.2.2.2).2.1 1 rfl⟩

/-! ## The three orthogonal points: the returned point depends on the draws -/

set_option maxHeartbeats 4000000 in
/-- Candidates near the minimiser of the three orthogonal points: the draws of
`nearRng m n` lie in `[0, 1)` and give the candidate `nearVector m n`; for
unit vectors `p`, `e` with `0 < p·e < 1` the summand of the optimality tests
is `(p·e p - e)/√(1 - (p·e)²)`; interval bounds of a quotient `a b / s`; and
the smooth test at a unit point `x` of a box `Xl ≤ x.X ≤ Xh`, `Dl ≤ -x.Y ≤
Dh`, `Zl ≤ x.Z ≤ Zh` of the open octant: with bounds `PLi ≤ √(1 - t²) ≤ PUi`
on the box, the three components of the sum `s` lie within `eX`, `eY` and `eZ`
of 0, and the test holds when `eX² + eY² + eZ² < tol²`. -/
theorem nearBox_facts :
    (∀ (m n : ℝ), 0 < m → m < 1 → 0 < n → n < 1 →
        (nearRng m n).Valid ∧
            ∀ k, k % 3 = 0 → RandomVector (nearRng m n) k = (nearVector m n, k + 3)) ∧
    (∀ (p e : V ℝ), p.Norm = 1 → e.Norm = 1 → 0 < p.Dot e → p.Dot e < 1 →
        specOptimalityDefined p e ∧
            specOptimalityTerm p e 1
              = ⟨(p.Dot e * p.X - e.X) / Real.sqrt (1 - p.Dot e * p.Dot e),
                 (p.Dot e * p.Y - e.Y) / Real.sqrt (1 - p.Dot e * p.Dot e),
                 (p.Dot e * p.Z - e.Z) / Real.sqrt (1 - p.Dot e * p.Dot e)⟩) ∧
    (∀ (a b s al ah bl bh sl sh : ℝ), 0 ≤ al → al ≤ a ∧ a ≤ ah → 0 ≤ bl → bl ≤ b ∧ b ≤ bh →
      0 < sl → sl ≤ s ∧ s ≤ sh →
        al * bl / sh ≤ a * b / s ∧ a * b / s ≤ ah * bh / sl) ∧
    (∀ (x : V ℝ), x.Norm = 1 →
      ∀ (Xl Xh Dl Dh Zl Zh PL1 PU1 PL2 PU2 PL3 PU3 eX eY eZ tol : ℝ), Xl ≤ x.X ∧ x.X ≤ Xh →
      Dl ≤ -x.Y ∧ -x.Y ≤ Dh → Zl ≤ x.Z ∧ x.Z ≤ Zh →
      0 < Xl ∧ 0 < Dl ∧ 0 < Zl ∧ 0 < PL1 ∧ 0 < PL2 ∧ 0 < PL3 ∧ 0 ≤ PU1 ∧ 0 ≤ PU2 ∧ 0 ≤ PU3 ∧ 0 < tol →
      PL1 * PL1 ≤ 1 - Dh * Dh ∧ 1 - Dl * Dl ≤ PU1 * PU1 ∧ PL2 * PL2 ≤ 1 - Zh * Zh ∧ 1 - Zl * Zl ≤ PU2 * PU2 ∧ PL3 * PL3 ≤ 1 - Xh * Xh ∧ 1 - Xl * Xl ≤ PU3 * PU3 →
      -eX ≤ Dl * Xl / PU1 + Zl * Xl / PU2 - PU3 ∧ Dh * Xh / PL1 + Zh * Xh / PL2 - PL3 ≤ eX →
      -eY ≤ PL1 - Zh * Dh / PL2 - Xh * Dh / PL3 ∧ PU1 - Zl * Dl / PU2 - Xl * Dl / PU3 ≤ eY →
      -eZ ≤ Dl * Zl / PU1 - PU2 + Xl * Zl / PU3 ∧ Dh * Zh / PL1 - PL2 + Xh * Zh / PL3 ≤ eZ →
      eX * eX + eY * eY + eZ * eZ < tol * tol →
        optimalityCondition x threeOrthogonalPoints [1, 1, 1] tol = true) := by
  -- The draws of `nearRng m n` lie in `[0, 1)`, and every candidate that `RandomVector`
  -- gives at a cursor that is a multiple of 3 is `nearVector m n`.
  have h_nearRng_facts : ∀ (m n : ℝ), 0 < m → m < 1 → 0 < n → n < 1 →
        (nearRng m n).Valid ∧
            ∀ k, k % 3 = 0 → RandomVector (nearRng m n) k = (nearVector m n, k + 3) := by
    intro m n hm hm1 hn hn1
    have hvalid : (nearRng m n).Valid := by
      intro k
      simp only [nearRng, pi_real, atan_real]
      have hp := Real.pi_pos
      split_ifs
      · have h1 : 0 < 1 + m * m := by positivity
        have h2 : |(1 - m * m) / (1 + m * m)| < 1 := by
          rw [abs_div, abs_of_pos h1, div_lt_one h1, abs_lt]
          constructor <;> nlinarith
        refine ⟨mul_self_nonneg _, ?_⟩
        have := abs_mul_abs_self ((1 - m * m) / (1 + m * m))
        nlinarith [abs_nonneg ((1 - m * m) / (1 + m * m))]
      · norm_num
      · have h1 := Real.arctan_lt_pi_div_two (2 * n / (1 - n * n))
        have h2 := Real.neg_pi_div_two_lt_arctan (2 * n / (1 - n * n))
        constructor
        · apply div_nonneg <;> linarith
        · rw [div_lt_one (by linarith)]
          linarith
    refine ⟨hvalid, fun k hk => ?_⟩
    have hM : 0 < 1 + m * m := by positivity
    have hN : 0 < 1 + n * n := by positivity
    have hN1 : 0 < 1 - n * n := by nlinarith
    have hM1 : 0 < 1 - m * m := by nlinarith
    have e0 : (nearRng m n).float64 k
        = (1 - m * m) / (1 + m * m) * ((1 - m * m) / (1 + m * m)) := by
      simp [nearRng, hk]
    have e1 : (nearRng m n).float64 (k + 1) = 0 := by
      have h1 : (k + 1) % 3 ≠ 0 := by omega
      have h2 : (k + 1) % 3 = 1 := by omega
      simp [nearRng, h1, h2]
    have e2 : (nearRng m n).float64 (k + 2)
        = (Real.pi - Real.arctan (2 * n / (1 - n * n))) / (2 * Real.pi) := by
      have h1 : (k + 2) % 3 ≠ 0 := by omega
      have h2 : (k + 2) % 3 ≠ 1 := by omega
      simp [nearRng, h1, h2]
    have s2 : Real.sqrt ((1 - m * m) / (1 + m * m) * ((1 - m * m) / (1 + m * m)))
        = (1 - m * m) / (1 + m * m) := Real.sqrt_mul_self (div_nonneg hM1.le hM.le)
    have s1 : Real.sqrt (1 - (1 - m * m) / (1 + m * m) * ((1 - m * m) / (1 + m * m)))
        = 2 * m / (1 + m * m) := by
      rw [show 1 - (1 - m * m) / (1 + m * m) * ((1 - m * m) / (1 + m * m))
          = 2 * m / (1 + m * m) * (2 * m / (1 + m * m)) by field_simp; ring]
      exact Real.sqrt_mul_self (by positivity)
    have a2 : 2 * Real.pi * ((Real.pi - Real.arctan (2 * n / (1 - n * n))) / (2 * Real.pi))
        = Real.pi - Real.arctan (2 * n / (1 - n * n)) := by
      field_simp
    have hsq : Real.sqrt (1 + (2 * n / (1 - n * n)) ^ 2) = (1 + n * n) / (1 - n * n) := by
      rw [show 1 + (2 * n / (1 - n * n)) ^ 2
          = (1 + n * n) / (1 - n * n) * ((1 + n * n) / (1 - n * n)) by field_simp; ring]
      exact Real.sqrt_mul_self (by positivity)
    have c2 : Real.cos (Real.pi - Real.arctan (2 * n / (1 - n * n)))
        = -((1 - n * n) / (1 + n * n)) := by
      rw [Real.cos_pi_sub, Real.cos_arctan, hsq]
      field_simp
    have sn2 : Real.sin (Real.pi - Real.arctan (2 * n / (1 - n * n)))
        = 2 * n / (1 + n * n) := by
      rw [Real.sin_pi_sub, Real.sin_arctan, hsq]
      field_simp
    simp only [RandomVector, RandomQuaternion, e0, e1, e2, V.Rotate, Q.Rotate, Q.Mul, Q.Conj,
      sqrt_real, sin_real, cos_real, pi_real, s1, s2, a2, c2, sn2, mul_zero, Real.sin_zero,
      Real.cos_zero, nearVector, Prod.mk.injEq, V.mk.injEq, and_true]
    refine ⟨?_, ?_, ?_⟩ <;> ring
  have h_specOptimalityTerm_unit : ∀ (p e : V ℝ), p.Norm = 1 → e.Norm = 1 → 0 < p.Dot e → p.Dot e < 1 →
        specOptimalityDefined p e ∧
            specOptimalityTerm p e 1
              = ⟨(p.Dot e * p.X - e.X) / Real.sqrt (1 - p.Dot e * p.Dot e),
                 (p.Dot e * p.Y - e.Y) / Real.sqrt (1 - p.Dot e * p.Dot e),
                 (p.Dot e * p.Z - e.Z) / Real.sqrt (1 - p.Dot e * p.Dot e)⟩ := by
    intro p e hp he hd hd1
    have hpp := (V.unit_facts.1 p).1 hp
    have hee := (V.unit_facts.1 e).1 he
    have hdd : p.X * e.X + p.Y * e.Y + p.Z * e.Z = p.Dot e := rfl
    simp only [specOptimalityDefined, specOptimalityTerm]
    generalize p.Dot e = d at hd hd1 hdd ⊢
    have h1 : 0 < 1 - d * d := by nlinarith
    have hS : 0 < Real.sqrt (1 - d * d) := Real.sqrt_pos.2 h1
    have hSS : Real.sqrt (1 - d * d) * Real.sqrt (1 - d * d) = 1 - d * d :=
      Real.mul_self_sqrt h1.le
    generalize Real.sqrt (1 - d * d) = S at hS hSS ⊢
    have hden : (p.Sub (e.DivScalar d)).Norm = S / d := by
      simp only [V.Norm, V.Sub, V.DivScalar, sqrt_real]
      rw [Real.sqrt_eq_iff_mul_self_eq
        (add_nonneg (add_nonneg (mul_self_nonneg _) (mul_self_nonneg _)) (mul_self_nonneg _))
        (by positivity)]
      field_simp
      linear_combination (d * d) * hpp - (2 * d) * hdd + hee - hSS
    refine ⟨⟨hd.ne', by rw [hden]; positivity⟩, ?_⟩
    rw [hden]
    simp only [V.Sub, V.DivScalar, V.MulScalar, V.mk.injEq]
    refine ⟨?_, ?_, ?_⟩ <;> field_simp <;> ring
  have h_interval_mul_div : ∀ (a b s al ah bl bh sl sh : ℝ), 0 ≤ al → al ≤ a ∧ a ≤ ah → 0 ≤ bl → bl ≤ b ∧ b ≤ bh →
      0 < sl → sl ≤ s ∧ s ≤ sh →
        al * bl / sh ≤ a * b / s ∧ a * b / s ≤ ah * bh / sl := by
    intro a b s al ah bl bh sl sh hal ha hbl hb hsl hs
    have ha0 : 0 ≤ a := hal.trans ha.1
    have hb0 : 0 ≤ b := hbl.trans hb.1
    have hs0 : 0 < s := lt_of_lt_of_le hsl hs.1
    constructor
    · exact div_le_div₀ (mul_nonneg ha0 hb0) (mul_le_mul ha.1 hb.1 hbl ha0) hs0 hs.2
    · exact div_le_div₀ (mul_nonneg (ha0.trans ha.2) (hb0.trans hb.2))
        (mul_le_mul ha.2 hb.2 hb0 (ha0.trans ha.2)) hsl hs.1
  -- The smooth test on the three orthogonal points with weights 1 at a unit point `x` of a
  -- box `Xl ≤ x.X ≤ Xh`, `Dl ≤ -x.Y ≤ Dh`, `Zl ≤ x.Z ≤ Zh` of the open octant: with bounds
  -- `PLi ≤ √(1 - t²) ≤ PUi` on the box, the three components of the sum `s` lie within `eX`,
  -- `eY` and `eZ` of 0, and the test holds when `eX² + eY² + eZ² < tol²`.
  have h_threeOrthogonal_test_box : ∀ (x : V ℝ), x.Norm = 1 →
      ∀ (Xl Xh Dl Dh Zl Zh PL1 PU1 PL2 PU2 PL3 PU3 eX eY eZ tol : ℝ), Xl ≤ x.X ∧ x.X ≤ Xh →
      Dl ≤ -x.Y ∧ -x.Y ≤ Dh → Zl ≤ x.Z ∧ x.Z ≤ Zh →
      0 < Xl ∧ 0 < Dl ∧ 0 < Zl ∧ 0 < PL1 ∧ 0 < PL2 ∧ 0 < PL3 ∧ 0 ≤ PU1 ∧ 0 ≤ PU2 ∧ 0 ≤ PU3 ∧ 0 < tol →
      PL1 * PL1 ≤ 1 - Dh * Dh ∧ 1 - Dl * Dl ≤ PU1 * PU1 ∧ PL2 * PL2 ≤ 1 - Zh * Zh ∧ 1 - Zl * Zl ≤ PU2 * PU2 ∧ PL3 * PL3 ≤ 1 - Xh * Xh ∧ 1 - Xl * Xl ≤ PU3 * PU3 →
      -eX ≤ Dl * Xl / PU1 + Zl * Xl / PU2 - PU3 ∧ Dh * Xh / PL1 + Zh * Xh / PL2 - PL3 ≤ eX →
      -eY ≤ PL1 - Zh * Dh / PL2 - Xh * Dh / PL3 ∧ PU1 - Zl * Dl / PU2 - Xl * Dl / PU3 ≤ eY →
      -eZ ≤ Dl * Zl / PU1 - PU2 + Xl * Zl / PU3 ∧ Dh * Zh / PL1 - PL2 + Xh * Zh / PL3 ≤ eZ →
      eX * eX + eY * eY + eZ * eZ < tol * tol →
        optimalityCondition x threeOrthogonalPoints [1, 1, 1] tol = true := by
    intro x hn Xl Xh Dl Dh Zl Zh PL1 PU1 PL2 PU2 PL3 PU3 eX eY eZ tol hX hD hZ hpos hP hsX hsY hsZ he
    have sqrt_one_sub_bounds : ∀ (t tl th sl sh : ℝ), 0 ≤ tl → (tl ≤ t ∧ t ≤ th) →
        0 ≤ sl → sl * sl ≤ 1 - th * th → 0 ≤ sh → 1 - tl * tl ≤ sh * sh →
        sl ≤ Real.sqrt (1 - t * t) ∧ Real.sqrt (1 - t * t) ≤ sh := by
      intro t tl th sl sh htl ht hsl h1 hsh h2
      have ht0 : 0 ≤ t := htl.trans ht.1
      have e1 : t * t ≤ th * th := mul_self_le_mul_self ht0 ht.2
      have e2 : tl * tl ≤ t * t := mul_self_le_mul_self htl ht.1
      constructor
      · rw [← Real.sqrt_mul_self hsl]
        exact Real.sqrt_le_sqrt (by linarith only [h1, e1])
      · rw [← Real.sqrt_mul_self hsh]
        exact Real.sqrt_le_sqrt (by linarith only [h2, e2])
    obtain ⟨h0X, h0D, h0Z, h0P1, h0P2, h0P3, h0U1, h0U2, h0U3, htol⟩ := hpos
    obtain ⟨hP1l, hP1u, hP2l, hP2u, hP3l, hP3u⟩ := hP
    obtain ⟨A, B, C⟩ := x
    simp only at hX hD hZ
    have hu : A * A + B * B + C * C = 1 := (V.unit_facts.1 _).1 hn
    have hA0 : 0 < A := lt_of_lt_of_le h0X hX.1
    have hD0 : 0 < -B := lt_of_lt_of_le h0D hD.1
    have hC0 : 0 < C := lt_of_lt_of_le h0Z hZ.1
    have hAA : 0 < A * A := mul_pos hA0 hA0
    have hBB : 0 < B * B := by rw [← neg_mul_neg]; exact mul_pos hD0 hD0
    have hCC : 0 < C * C := mul_pos hC0 hC0
    have hA1 : A < 1 := by
      by_contra h
      have h1 := not_lt.1 h
      have := mul_le_mul h1 h1 zero_le_one hA0.le
      linarith
    have hD1 : -B < 1 := by
      by_contra h
      have h1 := not_lt.1 h
      have := mul_le_mul h1 h1 zero_le_one hD0.le
      rw [neg_mul_neg] at this
      linarith
    have hC1 : C < 1 := by
      by_contra h
      have h1 := not_lt.1 h
      have := mul_le_mul h1 h1 zero_le_one hC0.le
      linarith
    have d1 : V.Dot ⟨A, B, C⟩ (⟨0, -1, 0⟩ : V ℝ) = -B := by simp [V.Dot]
    have d2 : V.Dot ⟨A, B, C⟩ (⟨0, 0, 1⟩ : V ℝ) = C := by simp [V.Dot]
    have d3 : V.Dot ⟨A, B, C⟩ (⟨1, 0, 0⟩ : V ℝ) = A := by simp [V.Dot]
    have n1 : (⟨0, -1, 0⟩ : V ℝ).Norm = 1 := by rw [V.unit_facts.1]; norm_num
    have n2 : (⟨0, 0, 1⟩ : V ℝ).Norm = 1 := by rw [V.unit_facts.1]; norm_num
    have n3 : (⟨1, 0, 0⟩ : V ℝ).Norm = 1 := by rw [V.unit_facts.1]; norm_num
    obtain ⟨f1, t1⟩ := h_specOptimalityTerm_unit ⟨A, B, C⟩ ⟨0, -1, 0⟩ hn n1 (by rw [d1]; exact hD0)
      (by rw [d1]; exact hD1)
    obtain ⟨f2, t2⟩ := h_specOptimalityTerm_unit ⟨A, B, C⟩ ⟨0, 0, 1⟩ hn n2 (by rw [d2]; exact hC0)
      (by rw [d2]; exact hC1)
    obtain ⟨f3, t3⟩ := h_specOptimalityTerm_unit ⟨A, B, C⟩ ⟨1, 0, 0⟩ hn n3 (by rw [d3]; exact hA0)
      (by rw [d3]; exact hA1)
    rw [d1] at t1
    rw [d2] at t2
    rw [d3] at t3
    have hs1 := (phaseA_facts.1 ⟨A, B, C⟩ ⟨0, -1, 0⟩ 1).1 f1
    have hs2 := (phaseA_facts.1 ⟨A, B, C⟩ ⟨0, 0, 1⟩ 1).1 f2
    have hs3 := (phaseA_facts.1 ⟨A, B, C⟩ ⟨1, 0, 0⟩ 1).1 f3
    rw [t1] at hs1
    rw [t2] at hs2
    rw [t3] at hs3
    obtain ⟨b1l, b1u⟩ := sqrt_one_sub_bounds (-B) Dl Dh PL1 PU1 h0D.le hD h0P1.le hP1l h0U1 hP1u
    obtain ⟨b2l, b2u⟩ := sqrt_one_sub_bounds C Zl Zh PL2 PU2 h0Z.le hZ h0P2.le hP2l h0U2 hP2u
    obtain ⟨b3l, b3u⟩ := sqrt_one_sub_bounds A Xl Xh PL3 PU3 h0X.le hX h0P3.le hP3l h0U3 hP3u
    have q1 : Real.sqrt (1 - -B * -B) * Real.sqrt (1 - -B * -B) = 1 - -B * -B :=
      Real.mul_self_sqrt (by rw [neg_mul_neg]; linarith)
    have q2 : Real.sqrt (1 - C * C) * Real.sqrt (1 - C * C) = 1 - C * C :=
      Real.mul_self_sqrt (by linarith)
    have q3 : Real.sqrt (1 - A * A) * Real.sqrt (1 - A * A) = 1 - A * A :=
      Real.mul_self_sqrt (by linarith)
    generalize Real.sqrt (1 - -B * -B) = S1 at hs1 b1l b1u q1
    generalize Real.sqrt (1 - C * C) = S2 at hs2 b2l b2u q2
    generalize Real.sqrt (1 - A * A) = S3 at hs3 b3l b3u q3
    have p1 : 0 < S1 := lt_of_lt_of_le h0P1 b1l
    have p2 : 0 < S2 := lt_of_lt_of_le h0P2 b2l
    have p3 : 0 < S3 := lt_of_lt_of_le h0P3 b3l
    obtain ⟨xa1, xa2⟩ := h_interval_mul_div (-B) A S1 Dl Dh Xl Xh PL1 PU1 h0D.le hD h0X.le hX h0P1
      ⟨b1l, b1u⟩
    obtain ⟨xb1, xb2⟩ := h_interval_mul_div C A S2 Zl Zh Xl Xh PL2 PU2 h0Z.le hZ h0X.le hX h0P2
      ⟨b2l, b2u⟩
    obtain ⟨ya1, ya2⟩ := h_interval_mul_div C (-B) S2 Zl Zh Dl Dh PL2 PU2 h0Z.le hZ h0D.le hD h0P2
      ⟨b2l, b2u⟩
    obtain ⟨yb1, yb2⟩ := h_interval_mul_div A (-B) S3 Xl Xh Dl Dh PL3 PU3 h0X.le hX h0D.le hD h0P3
      ⟨b3l, b3u⟩
    obtain ⟨za1, za2⟩ := h_interval_mul_div (-B) C S1 Dl Dh Zl Zh PL1 PU1 h0D.le hD h0Z.le hZ h0P1
      ⟨b1l, b1u⟩
    obtain ⟨zb1, zb2⟩ := h_interval_mul_div A C S3 Xl Xh Zl Zh PL3 PU3 h0X.le hX h0Z.le hZ h0P3
      ⟨b3l, b3u⟩
    have r1 : (-B * B - -1) / S1 = S1 := by
      rw [div_eq_iff p1.ne']
      linarith
    have r2 : (C * C - 1) / S2 = -S2 := by
      rw [div_eq_iff p2.ne']
      linarith
    have r3 : (A * A - 1) / S3 = -S3 := by
      rw [div_eq_iff p3.ne']
      linarith
    have eqX : (-B * A - 0) / S1 + (C * A - 0) / S2 + (A * A - 1) / S3
        = -B * A / S1 + C * A / S2 - S3 := by
      rw [r3]
      ring
    have eqY : (-B * B - -1) / S1 + (C * B - 0) / S2 + (A * B - 0) / S3
        = S1 - C * -B / S2 - A * -B / S3 := by
      rw [r1]
      ring
    have eqZ : (-B * C - 0) / S1 + (C * C - 1) / S2 + (A * C - 0) / S3
        = -B * C / S1 - S2 + A * C / S3 := by
      rw [r2]
      ring
    have bX : -eX ≤ -B * A / S1 + C * A / S2 - S3 ∧ -B * A / S1 + C * A / S2 - S3 ≤ eX :=
      ⟨by linarith [hsX.1], by linarith [hsX.2]⟩
    have bY : -eY ≤ S1 - C * -B / S2 - A * -B / S3 ∧ S1 - C * -B / S2 - A * -B / S3 ≤ eY :=
      ⟨by linarith [hsY.1], by linarith [hsY.2]⟩
    have bZ : -eZ ≤ -B * C / S1 - S2 + A * C / S3 ∧ -B * C / S1 - S2 + A * C / S3 ≤ eZ :=
      ⟨by linarith [hsZ.1], by linarith [hsZ.2]⟩
    have sqX := sq_le_sq' bX.1 bX.2
    have sqY := sq_le_sq' bY.1 bY.2
    have sqZ := sq_le_sq' bZ.1 bZ.2
    simp only [optimalityCondition, threeOrthogonalPoints, List.enum, List.enumFrom, List.foldl,
      List.getD_cons_zero, List.getD_cons_succ, zero_add, optimalityAdd, hs1, hs2, hs3,
      Bool.and_eq_true, decide_eq_true_eq, gt_iff_lt, V.Add, V.Norm, sqrt_real]
    rw [eqX, eqY, eqZ]
    constructor
    · exact lt_of_lt_of_le (by linarith) (Real.sqrt_nonneg _)
    · rw [Real.sqrt_lt' htol]
      linarith [sqX, sqY, sqZ, sq (-B * A / S1 + C * A / S2 - S3),
        sq (S1 - C * -B / S2 - A * -B / S3), sq (-B * C / S1 - S2 + A * C / S3), sq eX, sq eY,
        sq eZ, sq tol]
  exact ⟨h_nearRng_facts, h_specOptimalityTerm_unit, h_interval_mul_div,
    h_threeOrthogonal_test_box⟩

/-- When the start already passes the smooth test, the smooth phase returns it
in its first iteration, before any step. -/
theorem smooth_returns_start (locs : List (V F)) (c : List F) (tol : F) (x0 : V F) (alpha0 : F)
    (h : optimalityCondition x0 locs c tol = true) :
    solveNonEuclideanMultifacilityLocationSmooth locs c tol x0 alpha0
      = (x0, (geodesicDistances x0 locs c).1, (geodesicDistances x0 locs c).2,
          (locs.length : Int)) := by
  have hk : maxK - 1 = 99998 + 1 := rfl
  unfold solveNonEuclideanMultifacilityLocationSmooth
  rw [hk, smoothLoop]
  simp [h]

set_option maxHeartbeats 4000000 in
/-- The start of the smooth phase on the three orthogonal points: the solver
returns the first candidate below `π` itself when that candidate passes the
smooth test; and two boxes of unit vectors near the minimiser `(1, -1, 1)/√3`,
in both of which every vector has `F < π` and passes the smooth test with the
tolerance `0.0001`: within `1e-5` of `(0.57735, -0.57735, 0.57735)` in each
coordinate, where the vector is within `1e-4` of the value that the test
expects, and `0.577374 ≤ X ≤ 0.577378`, `-0.577299 ≤ Y ≤ -0.577295`, `0.577376
≤ Z ≤ 0.577380`, where the second coordinate is `1e-4` or more above the
expected one. -/
theorem threeOrthogonal_start_facts :
    (∀ (fuel : Nat) (g : Rng ℝ), g.Valid → ∀ (k j : Nat), j < fuel →
      (∀ i, i < j → ¬ specF (RandomVector g (k + 3 * i)).1 threeOrthogonalPoints [1, 1, 1] < Real.pi) →
      specF (RandomVector g (k + 3 * j)).1 threeOrthogonalPoints [1, 1, 1] < Real.pi →
      optimalityCondition (RandomVector g (k + 3 * j)).1 threeOrthogonalPoints [1, 1, 1] 0.0001 = true →
        SolveNonEuclideanMultifacilityLocation fuel g k
                (threeOrthogonalPoints : List (V ℝ)) [1, 1, 1] 0.0001 0.0001
              = some (((RandomVector g (k + 3 * j)).1, none), k + 3 * (j + 1))) ∧
    ((∀ x : V ℝ, x.Norm = 1 →
            (0.57734 ≤ x.X ∧ x.X ≤ 0.57736) → (-0.57736 ≤ x.Y ∧ x.Y ≤ -0.57734) →
            (0.57734 ≤ x.Z ∧ x.Z ≤ 0.57736) →
            specF x threeOrthogonalPoints [1, 1, 1] < Real.pi ∧
            optimalityCondition x threeOrthogonalPoints [1, 1, 1] 0.0001 = true ∧
            vWithinTolerance x threeOrthogonalExpected 0.0001 = true) ∧
          (∀ x : V ℝ, x.Norm = 1 →
            (0.577374 ≤ x.X ∧ x.X ≤ 0.577378) → (-0.577299 ≤ x.Y ∧ x.Y ≤ -0.577295) →
            (0.577376 ≤ x.Z ∧ x.Z ≤ 0.577380) →
            specF x threeOrthogonalPoints [1, 1, 1] < Real.pi ∧
            optimalityCondition x threeOrthogonalPoints [1, 1, 1] 0.0001 = true ∧
            vWithinTolerance x threeOrthogonalExpected 0.0001 = false)) := by
  -- The solver returns the first candidate below `π` itself when that candidate passes the
  -- smooth test.
  have h_threeOrthogonal_start_returned : ∀ (fuel : Nat) (g : Rng ℝ), g.Valid → ∀ (k j : Nat), j < fuel →
      (∀ i, i < j → ¬ specF (RandomVector g (k + 3 * i)).1 threeOrthogonalPoints [1, 1, 1] < Real.pi) →
      specF (RandomVector g (k + 3 * j)).1 threeOrthogonalPoints [1, 1, 1] < Real.pi →
      optimalityCondition (RandomVector g (k + 3 * j)).1 threeOrthogonalPoints [1, 1, 1] 0.0001 = true →
        SolveNonEuclideanMultifacilityLocation fuel g k
                (threeOrthogonalPoints : List (V ℝ)) [1, 1, 1] 0.0001 0.0001
              = some (((RandomVector g (k + 3 * j)).1, none), k + 3 * (j + 1)) := by
    intro fuel g hg k j hj hb ha ht
    have hx0 := unit_norm_facts.2.1 g hg (k + 3 * j)
    have h := threeOrthogonal_facts.2.1 g threeOrthogonalPoints [1, 1, 1]
      [Real.pi, Real.pi, Real.pi] 2 Real.pi rfl fuel k j hj hb ha
    have hsent : (noAnswer : V ℝ).Equals noAnswer = true := by simp [V.Equals]
    simp only [SolveNonEuclideanMultifacilityLocation, threeOrthogonal_facts.2.2.2.1, h, hsent,
      Bool.not_true, Bool.false_eq_true, if_false, smooth_returns_start _ _ _ _ _ ht,
      single_point_facts.2.1 _ hx0]
  -- Two boxes of unit vectors near the minimiser `(1, -1, 1)/√3`. Every unit vector within
  -- `1e-5` of `(0.57735, -0.57735, 0.57735)` in each coordinate has `F < π`, passes the
  -- smooth test with the tolerance `0.0001`, and is within `1e-4` of the value that the test
  -- expects. Every unit vector of the box `0.577374 ≤ x.X ≤ 0.577378`, `-0.577299 ≤ x.Y ≤
  -- -0.577295`, `0.577376 ≤ x.Z ≤ 0.577380` has `F < π` and passes the smooth test as well,
  -- and its second coordinate is `1e-4` or more above the one that the test expects.
  have h_threeOrthogonal_boxes : (∀ x : V ℝ, x.Norm = 1 →
            (0.57734 ≤ x.X ∧ x.X ≤ 0.57736) → (-0.57736 ≤ x.Y ∧ x.Y ≤ -0.57734) →
            (0.57734 ≤ x.Z ∧ x.Z ≤ 0.57736) →
            specF x threeOrthogonalPoints [1, 1, 1] < Real.pi ∧
            optimalityCondition x threeOrthogonalPoints [1, 1, 1] 0.0001 = true ∧
            vWithinTolerance x threeOrthogonalExpected 0.0001 = true) ∧
          (∀ x : V ℝ, x.Norm = 1 →
            (0.577374 ≤ x.X ∧ x.X ≤ 0.577378) → (-0.577299 ≤ x.Y ∧ x.Y ≤ -0.577295) →
            (0.577376 ≤ x.Z ∧ x.Z ≤ 0.577380) →
            specF x threeOrthogonalPoints [1, 1, 1] < Real.pi ∧
            optimalityCondition x threeOrthogonalPoints [1, 1, 1] 0.0001 = true ∧
            vWithinTolerance x threeOrthogonalExpected 0.0001 = false) := by
    have threeOrthogonal_specF_lt : ∀ x : V ℝ, x.Norm = 1 → 1 / 2 < x.X → x.Y < -(1 / 2) →
        1 / 2 < x.Z → specF x threeOrthogonalPoints [1, 1, 1] < Real.pi := by
      intro x hn hX hY hZ
      have hu := (V.unit_facts.1 x).1 hn
      have h3 : Real.arccos (1 / 2) = Real.pi / 3 := by
        rw [← Real.cos_pi_div_three]
        exact Real.arccos_cos (by positivity) (by linarith [Real.pi_pos])
      have key : ∀ d : ℝ, 1 / 2 < d → d * d ≤ 1 → Real.arccos d < Real.pi / 3 := by
        intro d h1 h2
        have hd1 : d ≤ 1 := by
          by_contra hc
          have h1' := (not_le.1 hc).le
          have := mul_le_mul h1' h1' zero_le_one (by linarith)
          nlinarith
        rw [← h3]
        exact Real.strictAntiOn_arccos ⟨by norm_num, by norm_num⟩ ⟨by linarith, hd1⟩ h1
      have n1 : (⟨0, -1, 0⟩ : V ℝ).Norm = 1 := by rw [V.unit_facts.1]; norm_num
      have n2 : (⟨0, 0, 1⟩ : V ℝ).Norm = 1 := by rw [V.unit_facts.1]; norm_num
      have n3 : (⟨1, 0, 0⟩ : V ℝ).Norm = 1 := by rw [V.unit_facts.1]; norm_num
      have d1 : x.GreatCircleDistance ⟨0, -1, 0⟩ = Real.arccos (-x.Y) := by
        rw [V.unit_facts.2.2 _ _ hn n1]
        congr 1
        simp [V.Dot]
      have d2 : x.GreatCircleDistance ⟨0, 0, 1⟩ = Real.arccos x.Z := by
        rw [V.unit_facts.2.2 _ _ hn n2]
        congr 1
        simp [V.Dot]
      have d3 : x.GreatCircleDistance ⟨1, 0, 0⟩ = Real.arccos x.X := by
        rw [V.unit_facts.2.2 _ _ hn n3]
        congr 1
        simp [V.Dot]
      have k1 := key (-x.Y) (by linarith) (by nlinarith [mul_self_nonneg x.X, mul_self_nonneg x.Z])
      have k2 := key x.Z hZ (by nlinarith [mul_self_nonneg x.X, mul_self_nonneg x.Y])
      have k3 := key x.X hX (by nlinarith [mul_self_nonneg x.Y, mul_self_nonneg x.Z])
      simp only [specF, threeOrthogonalPoints, List.length_cons, List.length_nil, List.range_succ,
        List.range_zero, List.nil_append, List.cons_append, List.foldl, List.getD_cons_zero,
        List.getD_cons_succ, d1, d2, d3, zero_add, one_mul]
      linarith
    constructor
    · intro x hn hX hY hZ
      refine ⟨threeOrthogonal_specF_lt x hn (by linarith [hX.1]) (by linarith [hY.2])
          (by linarith [hZ.1]), ?_, ?_⟩
      · exact nearBox_facts.2.2.2 x hn 0.57734 0.57736 0.57734 0.57736 0.57734 0.57736
          0.8164897 0.816503843 0.8164897 0.816503843 0.8164897 0.816503843
          0.00004357 0.00004357 0.00004357 0.0001 hX ⟨by linarith [hY.2], by linarith [hY.1]⟩ hZ
          (by norm_num) (by norm_num) (by norm_num) (by norm_num) (by norm_num) (by norm_num)
      · simp only [vWithinTolerance, fWithinTolerance, threeOrthogonalExpected, Bool.and_eq_true,
          decide_eq_true_eq, gt_iff_lt]
        refine ⟨⟨⟨?_, ?_⟩, ?_, ?_⟩, ?_, ?_⟩
        · linarith [hX.2]
        · linarith [hX.1]
        · linarith [hY.2]
        · linarith [hY.1]
        · linarith [hZ.2]
        · linarith [hZ.1]
    · intro x hn hX hY hZ
      refine ⟨threeOrthogonal_specF_lt x hn (by linarith [hX.1]) (by linarith [hY.2])
          (by linarith [hZ.1]), ?_, ?_⟩
      · exact nearBox_facts.2.2.2 x hn 0.577374 0.577378 0.577295 0.577299 0.577376 0.577380
          0.816532831 0.81653566 0.816475557 0.816478386 0.816476971 0.816479801
          0.00003599 0.00006479 0.00003811 0.0001 hX ⟨by linarith [hY.2], by linarith [hY.1]⟩ hZ
          (by norm_num) (by norm_num) (by norm_num) (by norm_num) (by norm_num) (by norm_num)
      · have hf : ¬ x.Y < -0.5774028380579979 + 0.0001 := by
          rw [not_lt]
          linarith [hY.1]
        simp [vWithinTolerance, fWithinTolerance, threeOrthogonalExpected, hf]
  exact ⟨h_threeOrthogonal_start_returned, h_threeOrthogonal_boxes⟩

/-- C31, the claim at a counterexample. Whenever the first candidate of the
sampling loop is a unit vector `x0` of the box `0.577374 ≤ X ≤ 0.577378`,
`-0.577299 ≤ Y ≤ -0.577295`, `0.577376 ≤ Z ≤ 0.577380`, it has `F(x0) < π`
and passes the smooth test, so the solver returns `x0` itself, whose second
coordinate is more than `1e-4` above `-0.5774028380579979`:
`vWithinTolerance` with the tolerance `0.0001` fails. The random source
`nearRng 0.167072 0.177244`, whose draws lie in `[0, 1)`, gives such a
candidate, `nearVector 0.167072 0.177244`, approximately
`(0.5773762, -0.5772970, 0.5773776)`. -/
theorem threeOrthogonal_counterexample :
    (∀ (g : Rng ℝ) (fuel k : Nat), g.Valid →
      (0.577374 ≤ (RandomVector g k).1.X ∧ (RandomVector g k).1.X ≤ 0.577378) →
      (-0.577299 ≤ (RandomVector g k).1.Y ∧ (RandomVector g k).1.Y ≤ -0.577295) →
      (0.577376 ≤ (RandomVector g k).1.Z ∧ (RandomVector g k).1.Z ≤ 0.577380) →
      SolveNonEuclideanMultifacilityLocation (fuel + 1) g k
          (threeOrthogonalPoints : List (V ℝ)) [1, 1, 1] 0.0001 0.0001
        = some (((RandomVector g k).1, none), k + 3) ∧
      vWithinTolerance (RandomVector g k).1 threeOrthogonalExpected 0.0001 = false) ∧
    (nearRng (0.167072 : ℝ) 0.177244).Valid ∧
    (RandomVector (nearRng (0.167072 : ℝ) 0.177244) 0).1 = nearVector 0.167072 0.177244 ∧
    (∀ fuel, SolveNonEuclideanMultifacilityLocation (fuel + 1)
        (nearRng (0.167072 : ℝ) 0.177244) 0
        (threeOrthogonalPoints : List (V ℝ)) [1, 1, 1] 0.0001 0.0001
      = some ((nearVector 0.167072 0.177244, none), 3)) ∧
    -0.577299 ≤ (nearVector (0.167072 : ℝ) 0.177244).Y ∧
    ¬ (nearVector (0.167072 : ℝ) 0.177244).Y < -0.5774028380579979 + 0.0001 ∧
    vWithinTolerance (nearVector (0.167072 : ℝ) 0.177244) threeOrthogonalExpected 0.0001
      = false := by
  have hgen : ∀ (g : Rng ℝ) (fuel k : Nat), g.Valid →
      (0.577374 ≤ (RandomVector g k).1.X ∧ (RandomVector g k).1.X ≤ 0.577378) →
      (-0.577299 ≤ (RandomVector g k).1.Y ∧ (RandomVector g k).1.Y ≤ -0.577295) →
      (0.577376 ≤ (RandomVector g k).1.Z ∧ (RandomVector g k).1.Z ≤ 0.577380) →
      SolveNonEuclideanMultifacilityLocation (fuel + 1) g k
          (threeOrthogonalPoints : List (V ℝ)) [1, 1, 1] 0.0001 0.0001
        = some (((RandomVector g k).1, none), k + 3) ∧
      vWithinTolerance (RandomVector g k).1 threeOrthogonalExpected 0.0001 = false := by
    intro g fuel k hg hX hY hZ
    obtain ⟨h1, h2, h3⟩ := threeOrthogonal_start_facts.2.2 _ (unit_norm_facts.2.1 g hg k) hX hY hZ
    exact ⟨threeOrthogonal_start_facts.1 (fuel + 1) g hg k 0 (Nat.succ_pos fuel)
      (fun i hi => absurd hi (Nat.not_lt_zero i)) h1 h2, h3⟩
  obtain ⟨hv, hrk⟩ := nearBox_facts.1 (0.167072 : ℝ) 0.177244 (by norm_num) (by norm_num)
    (by norm_num) (by norm_num)
  have hr := hrk 0 rfl
  have hr1 : (RandomVector (nearRng (0.167072 : ℝ) 0.177244) 0).1
      = nearVector 0.167072 0.177244 := by rw [hr]
  have hbox :
      (0.577374 ≤ (nearVector (0.167072 : ℝ) 0.177244).X ∧
        (nearVector (0.167072 : ℝ) 0.177244).X ≤ 0.577378) ∧
      (-0.577299 ≤ (nearVector (0.167072 : ℝ) 0.177244).Y ∧
        (nearVector (0.167072 : ℝ) 0.177244).Y ≤ -0.577295) ∧
      (0.577376 ≤ (nearVector (0.167072 : ℝ) 0.177244).Z ∧
        (nearVector (0.167072 : ℝ) 0.177244).Z ≤ 0.577380) := by
    simp only [nearVector]
    norm_num
  obtain ⟨bX, bY, bZ⟩ := hbox
  refine ⟨hgen, hv, hr1, fun fuel => ?_, bY.1, ?_, ?_⟩
  · have h := (hgen _ fuel 0 hv (by rw [hr1]; exact bX) (by rw [hr1]; exact bY)
      (by rw [hr1]; exact bZ)).1
    rw [hr1] at h
    exact h
  · rw [not_lt]
    linarith [bY.1]
  · have h := (hgen _ 0 0 hv (by rw [hr1]; exact bX) (by rw [hr1]; exact bY)
      (by rw [hr1]; exact bZ)).2
    rw [hr1] at h
    exact h

/-- C31, amended. For the three orthogonal points with weights 1 and both
tolerances `0.0001`, none of the three locations passes the non-smooth test.
`SolveNonEuclideanMultifacilityLocation` draws random unit vectors until one,
`x0`, has `F(x0) < π`: when the `j`-th is the first such, within the fuel, it
returns after `3 (j + 1)` draws, and it returns in no other way. What it
returns is the error or a unit vector `x` with `F(x) ≤ F(x0) < π`, and `x0`
itself when `x0` passes the smooth test. Every unit vector within `1e-5` of
`(0.57735, -0.57735, 0.57735)` in each coordinate has `F < π` and passes the
smooth test, and each of its coordinates is within `1e-4` of
`(0.5773042039196745, -0.5774028380579979, 0.5773437613235639)`: so for the
draws whose first candidate below `π` is such a vector the solver returns a
point within `1e-4` of that value. -/
theorem threeOrthogonal_solve (fuel : Nat) (g : Rng ℝ) (hg : g.Valid) (k : Nat) :
    (∀ t, t < 3 →
      optimalityConditionFromI t (threeOrthogonalPoints : List (V ℝ)) [1, 1, 1] 0.0001
        = false) ∧
    (∀ j, j < fuel →
      (∀ i, i < j →
        ¬ specF (RandomVector g (k + 3 * i)).1 threeOrthogonalPoints [1, 1, 1] < Real.pi) →
      specF (RandomVector g (k + 3 * j)).1 threeOrthogonalPoints [1, 1, 1] < Real.pi →
      (∃ x err, SolveNonEuclideanMultifacilityLocation fuel g k
          (threeOrthogonalPoints : List (V ℝ)) [1, 1, 1] 0.0001 0.0001
            = some ((x, err), k + 3 * (j + 1)) ∧
        (err = none → x.Norm = 1 ∧
          specF x threeOrthogonalPoints [1, 1, 1]
            ≤ specF (RandomVector g (k + 3 * j)).1 threeOrthogonalPoints [1, 1, 1])) ∧
      (optimalityCondition (RandomVector g (k + 3 * j)).1 threeOrthogonalPoints [1, 1, 1]
          0.0001 = true →
        SolveNonEuclideanMultifacilityLocation fuel g k
            (threeOrthogonalPoints : List (V ℝ)) [1, 1, 1] 0.0001 0.0001
          = some (((RandomVector g (k + 3 * j)).1, none), k + 3 * (j + 1)))) ∧
    (∀ x err k1, SolveNonEuclideanMultifacilityLocation fuel g k
        (threeOrthogonalPoints : List (V ℝ)) [1, 1, 1] 0.0001 0.0001 = some ((x, err), k1) →
      ∃ j, j < fuel ∧ k1 = k + 3 * (j + 1) ∧
        (∀ i, i < j →
          ¬ specF (RandomVector g (k + 3 * i)).1 threeOrthogonalPoints [1, 1, 1] < Real.pi) ∧
        specF (RandomVector g (k + 3 * j)).1 threeOrthogonalPoints [1, 1, 1] < Real.pi ∧
        (err = none → x.Norm = 1 ∧
          specF x threeOrthogonalPoints [1, 1, 1]
            ≤ specF (RandomVector g (k + 3 * j)).1 threeOrthogonalPoints [1, 1, 1])) ∧
    (∀ x : V ℝ, x.Norm = 1 →
      (0.57734 ≤ x.X ∧ x.X ≤ 0.57736) → (-0.57736 ≤ x.Y ∧ x.Y ≤ -0.57734) →
      (0.57734 ≤ x.Z ∧ x.Z ≤ 0.57736) →
      specF x threeOrthogonalPoints [1, 1, 1] < Real.pi ∧
      optimalityCondition x threeOrthogonalPoints [1, 1, 1] 0.0001 = true ∧
      vWithinTolerance x threeOrthogonalExpected 0.0001 = true) := by
  have hm : ([Real.pi, Real.pi, Real.pi] : List ℝ).get? 2 = some Real.pi := rfl
  refine ⟨threeOrthogonal_facts.1.2.1, fun j hj hb ha => ⟨?_, ?_⟩, fun x err k1 h => ?_,
    threeOrthogonal_start_facts.2.1⟩
  · exact threeOrthogonal_facts.2.2.2.2.2 fuel g k _ _ (unit_norm_facts.2.1 g hg _)
      (threeOrthogonal_facts.2.1 g threeOrthogonalPoints [1, 1, 1] [Real.pi, Real.pi, Real.pi] 2
        Real.pi hm fuel k j hj hb ha)
  · exact threeOrthogonal_start_facts.1 fuel g hg k j hj hb ha
  · cases h2 : nonSmoothStep2 g (threeOrthogonalPoints : List (V ℝ)) [1, 1, 1]
        [Real.pi, Real.pi, Real.pi] 2 fuel k with
    | none =>
      simp [SolveNonEuclideanMultifacilityLocation, threeOrthogonal_facts.2.2.2.1, h2] at h
    | some r =>
      obtain ⟨ns, k2⟩ := r
      obtain ⟨j, m, hj, hm1, hb, ha, hr, hk⟩ :=
        threeOrthogonal_facts.2.2.1 g threeOrthogonalPoints [1, 1, 1] [Real.pi, Real.pi, Real.pi] 2
          fuel k ns k2 h2
      have em : m = Real.pi := by
        rw [hm] at hm1
        exact (Option.some.inj hm1).symm
      subst em
      subst hr
      obtain ⟨x1, err1, hsolve, hprop⟩ := threeOrthogonal_facts.2.2.2.2.2 fuel g k k2 _
        (unit_norm_facts.2.1 g hg _) h2
      rw [hsolve] at h
      simp only [Option.some.injEq, Prod.mk.injEq] at h
      obtain ⟨⟨e1, e2⟩, e3⟩ := h
      subst e1 e2 e3
      exact ⟨j, hj, hk, hb, ha, hprop⟩

/-- Witness for C31 (amended): the random source `nearRng 0.167065 0.177262`,
whose first candidate `nearVector 0.167065 0.177262`, approximately
`(0.5773507, -0.5773501, 0.5773500)`, is within `1e-5` of
`(0.57735, -0.57735, 0.57735)`: the solver returns it after three draws, and
it is within `1e-4` of the value that the test expects. -/
theorem threeOrthogonal_solve_witness :
    (nearRng (0.167065 : ℝ) 0.177262).Valid ∧
    (RandomVector (nearRng (0.167065 : ℝ) 0.177262) 0).1 = nearVector 0.167065 0.177262 ∧
    SolveNonEuclideanMultifacilityLocation 1 (nearRng (0.167065 : ℝ) 0.177262) 0
        (threeOrthogonalPoints : List (V ℝ)) [1, 1, 1] 0.0001 0.0001
      = some ((nearVector 0.167065 0.177262, none), 3) ∧
    vWithinTolerance (nearVector (0.167065 : ℝ) 0.177262) threeOrthogonalExpected 0.0001
      = true := by
  obtain ⟨hv, hrk⟩ := nearBox_facts.1 (0.167065 : ℝ) 0.177262 (by norm_num) (by norm_num)
    (by norm_num) (by norm_num)
  have hr := hrk 0 rfl
  have hr1 : (RandomVector (nearRng (0.167065 : ℝ) 0.177262) 0).1
      = nearVector 0.167065 0.177262 := by rw [hr]
  have hu : (nearVector (0.167065 : ℝ) 0.177262).Norm = 1 := by
    rw [← hr1]
    exact unit_norm_facts.2.1 _ hv 0
  have hbox :
      (0.57734 ≤ (nearVector (0.167065 : ℝ) 0.177262).X ∧
        (nearVector (0.167065 : ℝ) 0.177262).X ≤ 0.57736) ∧
      (-0.57736 ≤ (nearVector (0.167065 : ℝ) 0.177262).Y ∧
        (nearVector (0.167065 : ℝ) 0.177262).Y ≤ -0.57734) ∧
      (0.57734 ≤ (nearVector (0.167065 : ℝ) 0.177262).Z ∧
        (nearVector (0.167065 : ℝ) 0.177262).Z ≤ 0.57736) := by
    simp only [nearVector]
    norm_num
  obtain ⟨bX, bY, bZ⟩ := hbox
  have hthm := threeOrthogonal_solve 1 (nearRng (0.167065 : ℝ) 0.177262) hv 0
  obtain ⟨hF, hopt, hwithin⟩ := hthm.2.2.2 _ hu bX bY bZ
  have hs := (hthm.2.1 0 Nat.one_pos (fun i hi => absurd hi (Nat.not_lt_zero i))
    (by rw [hr1]; exact hF)).2 (by rw [hr1]; exact hopt)
  rw [hr1] at hs
  exact ⟨hv, hr1, hs, hwithin⟩

end Scr
